import Mathlib

/-!
# PPPM long-range electrostatics engine

A shallow embedding of `libhoomd/computes/PPPMForceCompute.cc` and the statements
settled about it.  The allocation registry of `hoomd/MemoryTraceback.cc` is embedded in
the same way.

Conventions of the embedding.

* `Scalar` is an arbitrary linearly ordered field `K` with a floor function; all
  scalar arithmetic is exact.  Evaluation on concrete inputs is done at `K = ℚ`.
  Where rounding decides a statement, the operations concerned are embedded once
  more over `ℚ` with each result rounded to its floating-point type (`round_to`).
* C `int` values are integers.  Where the source accumulates or compares a product
  that can leave the 32-bit range (`ifact`, the order check) the wrap-around is
  written out with `cint`; a conversion to `unsigned int` is `cuint`.
* An array is its host view: a total map from indices to values together with the
  recorded number of elements.  Reads and writes never trap, so out-of-range
  accesses are visible as index facts rather than hidden.
* Library functions of `math.h` that are not field operations are parameters
  (`Libm`).  `pow` with an integral exponent is exact exponentiation.
* A method that can throw returns the outcome together with the object state left
  behind, since member assignments made before a `throw` persist.
* A `std::map` is the partial function from its keys to the values stored under
  them; an address is a natural number.
-/

namespace PPPM

set_option linter.unusedSectionVars false
set_option linter.unusedVariables false

/-! ## Machine integers -/

/-- Value of a C `int` expression after two's-complement wrap-around to 32 bits. -/
def cint (x : Int) : Int := (x + 2147483648) % 4294967296 - 2147483648

/-- Conversion of an integer value to `unsigned int`. -/
def cuint (x : Int) : Int := x % 4294967296

/-- C truncating conversion `(int)x` of a scalar. -/
def ctrunc {K : Type} [LinearOrderedField K] [FloorRing K] (x : K) : Int :=
  if 0 ≤ x then Int.floor x else Int.ceil x

/-! ## Loops -/

/-- Iterates `body` at `i, i + step, i + 2 * step, ...`, `count` times. -/
def loop {σ : Type} (body : Int → σ → σ) (step : Int) : Nat → Int → σ → σ
  | 0, _, s => s
  | n + 1, i, s => loop body step n (i + step) (body i s)

/-- The loop `for (i = lo; i < hi; i++) body`. -/
def forUp {σ : Type} (lo hi : Int) (body : Int → σ → σ) (s : σ) : σ :=
  loop body 1 (hi - lo).toNat lo s

/-- The loop `for (i = lo; i <= hi; i++) body`. -/
def forUpTo {σ : Type} (lo hi : Int) (body : Int → σ → σ) (s : σ) : σ :=
  loop body 1 (hi + 1 - lo).toNat lo s

/-- The loop `for (i = hi; i >= 0; i--) body`. -/
def forDownTo0 {σ : Type} (hi : Int) (body : Int → σ → σ) (s : σ) : σ :=
  loop body (-1) (hi + 1).toNat hi s

/-- The loop `for (i = hi; i > 0; i--) body`. -/
def forDownAbove0 {σ : Type} (hi : Int) (body : Int → σ → σ) (s : σ) : σ :=
  loop body (-1) hi.toNat hi s

/-- The loop `for (k = lo; k <= hi; k += 2) body`. -/
def forUpToBy2 {σ : Type} (lo hi : Int) (body : Int → σ → σ) (s : σ) : σ :=
  loop body 2 ((hi - lo + 2) / 2).toNat lo s

/-- The loop `for (k = lo; k < hi; k += 2) body`. -/
def forUpBy2 {σ : Type} (lo hi : Int) (body : Int → σ → σ) (s : σ) : σ :=
  loop body 2 ((hi - lo + 1) / 2).toNat lo s

/-! ## Data -/

/-- The type `Scalar3`. -/
structure Scalar3 (K : Type) where
  x : K
  y : K
  z : K

/-- The type `cufftComplex`: `x` is the real part, `y` the imaginary part. -/
structure cufftComplex (K : Type) where
  x : K
  y : K

/-- Host view of a `GPUArray<T>`: the element count given to the constructor and
the contents as a map from index to element.  A block obtained from `malloc` and
the per-particle arrays of `ForceCompute` are viewed the same way. -/
structure GPUArray (α : Type) where
  num_elements : Int
  data : Int → α

/-- The assignment `h.data[i] = v`. -/
@[noinline] def GPUArray.set {α : Type} (a : GPUArray α) (i : Int) (v : α) : GPUArray α :=
  ⟨a.num_elements, fun j => if j = i then v else a.data j⟩

/-- Modelled from the spec: the `GPUArray` constructor, which is not among the
sources; the parameter-configuration call "(re)allocates all grid-sized buffers".
A new array records its `unsigned int` element count and is zero-filled. -/
def GPUArray.alloc {α : Type} (zero : α) (n : Int) : GPUArray α :=
  ⟨cuint n, fun _ => zero⟩

/-- The literal `M_PI` of `math.h`. -/
def M_PI {K : Type} [LinearOrderedField K] : K :=
  314159265358979323846 / 100000000000000000000

/-- Functions of `math.h` that are not field operations. `powr` is `pow` at a
non-integral exponent. -/
structure Libm (K : Type) where
  sin : K → K
  exp : K → K
  log : K → K
  sqrt : K → K
  powr : K → K → K

/-- Constants of `PPPMForceCompute.h`, which is not among the sources. -/
structure Consts (K : Type) where
  CONSTANT_SIZE : Int
  MaxOrder : Int
  EPS_HOC : K

/-- What the embedding takes from outside the sources: the library functions, the
header constants and the value a read of uninitialised stack memory yields. -/
structure Env (K : Type) where
  libm : Libm K
  consts : Consts K
  uninit : K

/-- The type `BoxDim`. -/
structure BoxDim (K : Type) where
  xlo : K
  xhi : K
  ylo : K
  yhi : K
  zlo : K
  zhi : K

/-- The type `ParticleDataArraysConst`, restricted to the members read here. -/
structure ParticleDataArraysConst (K : Type) where
  nparticles : Nat
  x : Int → K
  y : Int → K
  z : Int → K
  charge : Int → K

/-- What `m_pdata` gives access to: the box and the particle arrays. -/
structure ParticleData (K : Type) where
  box : BoxDim K
  arrays : ParticleDataArraysConst K

/-- Lines written to `cout`, `cerr` or by `printf`. -/
inductive Message (K : Type) where
  | attentionX
  | attentionY
  | attentionZ
  | orderTooHighForConstantArray
  | orderTooHighMax (maxOrder : Int)
  | notNeutral (q : K)
  | rmsTooHigh (err lpr spr : K)
  | rmsError (err : K)
  | invalidLogQuantity (quantity : String)

/-- The static members of `PPPMData`. -/
structure PPPMData (K : Type) where
  compute_pppm_flag : Int
  Nx : K
  Ny : K
  Nz : K
  q2 : K
  q : K
  kappa : K
  energy_virial_factor : K
  pppm_energy : K
  m_rho_real_space : GPUArray (cufftComplex K)
  m_green_hat : GPUArray K
  m_vg : GPUArray (Scalar3 K)

/-- Where the force data is up to date. -/
inductive DataLocation where
  | cpu
  | gpu
  | cpugpu
deriving DecidableEq

/-- The members of a `PPPMForceCompute`, the per-particle arrays inherited from
`ForceCompute`, the statics of `PPPMData` and the text written so far. -/
structure PPPMForceCompute (K : Type) where
  m_Nx : Int
  m_Ny : Int
  m_Nz : Int
  m_order : Int
  m_kappa : K
  m_rcut : K
  m_q : K
  m_q2 : K
  m_energy_virial_factor : K
  m_box_changed : Bool
  m_kvec : GPUArray (Scalar3 K)
  m_Ex : GPUArray (cufftComplex K)
  m_Ey : GPUArray (cufftComplex K)
  m_Ez : GPUArray (cufftComplex K)
  m_gf_b : GPUArray K
  m_rho_coeff : GPUArray K
  m_field : GPUArray (Scalar3 K)
  m_fx : GPUArray K
  m_fy : GPUArray K
  m_fz : GPUArray K
  m_pe : GPUArray K
  m_virial : GPUArray K
  m_data_location : DataLocation
  statics : PPPMData K
  output : List (Message K)

section Coefficients

variable {K : Type} [LinearOrderedField K] [FloorRing K]

/-- Lines 492-507 of `compute_rho_coeff`: the scratch block `a`, obtained from `malloc`
with `m_order * (2*m_order+1)` elements and addressed as
`a[x][y] = a[y + x*(2*m_order+1)]`, after the recurrence has run. -/
def rho_scratch (m_order : Int) : GPUArray K :=
  let a : GPUArray K := ⟨m_order * (2 * m_order + 1), fun _ => 0⟩
  let a0 := forUpTo (-m_order) m_order (fun k a =>
    forUp 0 m_order (fun l a =>
      a.set ((k + m_order) + l * (2 * m_order + 1)) 0) a) a
  let a1 := a0.set (m_order + 0 * (2 * m_order + 1)) 1
  forUp 1 m_order (fun j a =>
    forUpToBy2 (-j) j (fun k a =>
      let r := forUp 0 j (fun l (p : GPUArray K × K) =>
        let a := p.1.set ((k + m_order) + (l + 1) * (2 * m_order + 1))
          ((p.1.data ((k + 1 + m_order) + l * (2 * m_order + 1))
            - p.1.data ((k - 1 + m_order) + l * (2 * m_order + 1))) / ((l + 1 : Int) : K))
        let s := p.2 + (1 / 2 : K) ^ (l + 1).toNat
          * (a.data ((k - 1 + m_order) + l * (2 * m_order + 1))
            + (-1 : K) ^ l.toNat * a.data ((k + 1 + m_order) + l * (2 * m_order + 1)))
          / ((l + 1 : Int) : K)
        (a, s)) (a, 0)
      r.1.set (k + m_order + 0 * (2 * m_order + 1)) r.2) a) a1

/-- The function `compute_rho_coeff`: clears the table `h_rho_coeff`, runs the recurrence on the
scratch block and copies the columns `k = -(m_order-1), -(m_order-3), ...` of the
scratch block into the columns `m = 0, 1, ...` of the table. -/
def compute_rho_coeff (m_order : Int) (h_rho_coeff : GPUArray K) : GPUArray K :=
  let h0 := forUp 0 m_order (fun l h =>
    forUp 0 (2 * m_order + 1) (fun m h =>
      h.set (m + l * (2 * m_order + 1)) 0) h) h_rho_coeff
  let a := rho_scratch (K := K) m_order
  (forUpBy2 (-(m_order - 1)) m_order (fun k (p : GPUArray K × Int) =>
    (forUp 0 m_order (fun l h =>
        h.set (p.2 + l * (2 * m_order + 1))
          (a.data (k + m_order + l * (2 * m_order + 1)))) p.1,
      p.2 + 1)) (h0, 0)).1

/-- The factorial accumulated in the `int` variable `ifact` of `compute_gf_denom`:
`for (k = 1; k < 2*m_order; k++) ifact *= k`, each product wrapped to 32 bits. -/
def ifact (m_order : Int) : Int :=
  forUp 1 (2 * m_order) (fun k f => cint (f * k)) 1

/-- The function `compute_gf_denom`: fills `h_gf_b` with the coefficients of the denominator
polynomial. -/
def compute_gf_denom (m_order : Int) (h_gf_b : GPUArray K) : GPUArray K :=
  let b0 := forUp 1 m_order (fun l b => b.set l 0) h_gf_b
  let b1 := b0.set 0 1
  let b2 := forUp 1 m_order (fun m b =>
    let b := forDownAbove0 m (fun l b =>
      b.set l
        (4 * (b.data l * ((l - m : Int) : K) * (((l - m : Int) : K) - 1 / 2)
          - b.data (l - 1) * ((l - m - 1 : Int) : K) * ((l - m - 1 : Int) : K)))) b
    let l : Int := m - (m.toNat : Int)
    b.set 0 (4 * (b.data 0 * ((l - m : Int) : K) * (((l - m : Int) : K) - 1 / 2)))) b1
  let gaminv : K := 1 / ((ifact m_order : Int) : K)
  forUp 0 m_order (fun l b => b.set l (b.data l * gaminv)) b2

/-- The function `gf_denom`: Horner evaluation of the polynomial with coefficients `h_gf_b` at
`x`, `y` and `z`; returns the square of the product. -/
def gf_denom (m_order : Int) (h_gf_b : GPUArray K) (x y z : K) : K :=
  let r := forDownTo0 (m_order - 1) (fun l (p : K × K × K) =>
    (h_gf_b.data l + p.1 * x, h_gf_b.data l + p.2.1 * y, h_gf_b.data l + p.2.2 * z)) (0, 0, 0)
  let s := r.1 * r.2.1 * r.2.2
  s * s

end Coefficients

section Tables

variable {K : Type} [LinearOrderedField K] [FloorRing K]

/-- The three assignments `h.data[i].x = vx; h.data[i].y = vy; h.data[i].z = vz`. -/
def store3 (h : GPUArray (Scalar3 K)) (i : Int) (vx vy vz : K) : GPUArray (Scalar3 K) :=
  let h1 := h.set i ⟨vx, (h.data i).y, (h.data i).z⟩
  let h2 := h1.set i ⟨(h1.data i).x, vy, (h1.data i).z⟩
  h2.set i ⟨(h2.data i).x, (h2.data i).y, vz⟩

/-- The wave number `j.x = ix > Nx/2 ? ix - Nx : ix`, stored in a `Scalar`. -/
def wave_number (N i : Int) : K :=
  if i > Int.tdiv N 2 then ((i - N : Int) : K) else ((i : Int) : K)

/-- The vector `inverse_lattice_vector`, with `invdet = 2.0f*M_PI/(Lx*Lz*Lz)`, in exact
arithmetic; `Rounded.inverse_lattice_vector` is the same with every operation
rounded. -/
def inverse_lattice_vector (Lx Ly Lz : K) : Scalar3 K :=
  let invdet : K := 2 * M_PI / (Lx * Lz * Lz)
  ⟨invdet * Ly * Lz, invdet * Lx * Lz, invdet * Lx * Ly⟩

/-- The block "Set up the k-vectors", which `setParams` (lines 210-231) and
`reset_kvec_green_hat_cpu` (lines 563-583) contain word for word, the former on
its arguments `Nx, Ny, Nz` and the latter on the members `m_Nx, m_Ny, m_Nz`. -/
def set_up_kvec (Nx Ny Nz : Int) (Lx Ly Lz : K) (h_kvec : GPUArray (Scalar3 K)) :
    GPUArray (Scalar3 K) :=
  forUp 0 Nx (fun ix h =>
    forUp 0 Ny (fun iy h =>
      forUp 0 Nz (fun iz h =>
        store3 h (iz + Nz * (iy + Ny * ix))
          (wave_number Nx ix * (inverse_lattice_vector Lx Ly Lz).x)
          (wave_number Ny iy * (inverse_lattice_vector Lx Ly Lz).y)
          (wave_number Nz iz * (inverse_lattice_vector Lx Ly Lz).z)) h) h) h_kvec

/-- The virial constants of one grid point with k-vector `kvec`: zero when the
squared wave number `sqk` is zero, else `1.0 + vterm*k*k` per component. -/
def vg_entry (kappa : K) (kvec : Scalar3 K) : Scalar3 K :=
  let sqk : K := kvec.x * kvec.x + kvec.y * kvec.y + kvec.z * kvec.z
  if sqk = 0 then ⟨0, 0, 0⟩
  else
    let vterm : K := -2 * (1 / sqk + (1 / 4) / (kappa * kappa))
    ⟨1 + vterm * kvec.x * kvec.x, 1 + vterm * kvec.y * kvec.y, 1 + vterm * kvec.z * kvec.z⟩

/-- The block "Set up constants for virial calculation" of `setParams`
(lines 233-261) and of `reset_kvec_green_hat_cpu` (lines 585-613). -/
def set_up_vg (Nx Ny Nz : Int) (kappa : K) (h_kvec : GPUArray (Scalar3 K))
    (h_vg : GPUArray (Scalar3 K)) : GPUArray (Scalar3 K) :=
  forUp 0 Nx (fun x h =>
    forUp 0 Ny (fun y h =>
      forUp 0 Nz (fun z h =>
        let v := vg_entry kappa (h_kvec.data (z + Nz * (y + Ny * x)))
        store3 h (z + Nz * (y + Ny * x)) v.x v.y v.z) h) h) h_vg

/-- The number of Ewald images per axis, `(int)floor((kappa*prd/(M_PI*N)) *
pow(-log(EPS_HOC),0.25))`. -/
def ewald_images (lm : Libm K) (EPS_HOC kappa prd : K) (N : Int) : Int :=
  ctrunc ((Int.floor ((kappa * prd / (M_PI * (N : K)))
    * lm.powr (-lm.log EPS_HOC) (1 / 4)) : Int) : K)

/-- The sum `sum1` over the Ewald images of one grid point `(kper, lper, mper)` in
the block "Set up the grid based Green's function". -/
def green_sum1 (lm : Libm K) (Nx Ny Nz order : Int) (kappa : K) (xprd yprd zprd_slab : K)
    (unitkx unitky unitkz : K) (nbx nby nbz : Int) (kper lper mper : Int) : K :=
  forUpTo (-nbx) nbx (fun ix sum1 =>
    let qx := unitkx * ((kper : K) + ((Nx * ix : Int) : K))
    let sx := lm.exp (-(1 / 4) * (qx / kappa) ^ 2)
    let argx := (1 / 2) * qx * xprd / (Nx : K)
    let wx : K := if argx ≠ 0 then (lm.sin argx / argx) ^ order else 1
    forUpTo (-nby) nby (fun iy sum1 =>
      let qy := unitky * ((lper : K) + ((Ny * iy : Int) : K))
      let sy := lm.exp (-(1 / 4) * (qy / kappa) ^ 2)
      let argy := (1 / 2) * qy * yprd / (Ny : K)
      let wy : K := if argy ≠ 0 then (lm.sin argy / argy) ^ order else 1
      forUpTo (-nbz) nbz (fun iz sum1 =>
        let qz := unitkz * ((mper : K) + ((Nz * iz : Int) : K))
        let sz := lm.exp (-(1 / 4) * (qz / kappa) ^ 2)
        let argz := (1 / 2) * qz * zprd_slab / (Nz : K)
        let wz : K := if argz ≠ 0 then (lm.sin argz / argz) ^ order else 1
        let dot1 := unitkx * (kper : K) * qx + unitky * (lper : K) * qy + unitkz * (mper : K) * qz
        let dot2 := qx * qx + qy * qy + qz * qz
        sum1 + (dot1 / dot2) * sx * sy * sz * (wx * wy * wz) ^ 2) sum1) sum1) 0

/-- The folded index `kper = k - Nx*(2*k/Nx)` of the Green's-function block. -/
def folded_index (N k : Int) : Int := k - N * Int.tdiv (2 * k) N

/-- The value stored in `h_green_hat` for the grid point `(k, l, m)`. -/
def green_hat_entry (lm : Libm K) (EPS_HOC : K) (Nx Ny Nz order : Int) (kappa : K)
    (Lx Ly Lz : K) (h_gf_b : GPUArray K) (k l m : Int) : K :=
  let unitkx : K := 2 * M_PI / Lx
  let unitky : K := 2 * M_PI / Ly
  let unitkz : K := 2 * M_PI / Lz
  let xprd := Lx
  let yprd := Ly
  let zprd_slab := Lz
  let form : K := 1
  let nbx := ewald_images lm EPS_HOC kappa xprd Nx
  let nby := ewald_images lm EPS_HOC kappa yprd Ny
  let nbz := ewald_images lm EPS_HOC kappa zprd_slab Nz
  let mper := folded_index Nz m
  let snz := lm.sin ((1 / 2) * unitkz * (mper : K) * zprd_slab / (Nz : K))
  let snz2 := snz * snz
  let lper := folded_index Ny l
  let sny := lm.sin ((1 / 2) * unitky * (lper : K) * yprd / (Ny : K))
  let sny2 := sny * sny
  let kper := folded_index Nx k
  let snx := lm.sin ((1 / 2) * unitkx * (kper : K) * xprd / (Nx : K))
  let snx2 := snx * snx
  let sqk := (unitkx * (kper : K)) ^ 2 + (unitky * (lper : K)) ^ 2
    + (unitkz * (mper : K)) ^ 2
  if sqk ≠ 0 then
    let numerator := form * (125663706 / 10000000) / sqk
    let denominator := gf_denom order h_gf_b snx2 sny2 snz2
    let sum1 := green_sum1 lm Nx Ny Nz order kappa xprd yprd zprd_slab
      unitkx unitky unitkz nbx nby nbz kper lper mper
    numerator * sum1 / denominator
  else 0

/-- The block "Set up the grid based Green's function" of `setParams`
(lines 264-348) and of `reset_kvec_green_hat_cpu` (lines 616-700), after its call
of `compute_gf_denom`; `h_gf_b` is the table that call has filled. -/
def set_up_green_hat (lm : Libm K) (EPS_HOC : K) (Nx Ny Nz order : Int) (kappa : K)
    (Lx Ly Lz : K) (h_gf_b : GPUArray K) (h_green_hat : GPUArray K) : GPUArray K :=
  forUp 0 Nz (fun m h =>
    forUp 0 Ny (fun l h =>
      forUp 0 Nx (fun k h =>
        h.set (m + Nz * (l + Ny * k))
          (green_hat_entry lm EPS_HOC Nx Ny Nz order kappa Lx Ly Lz h_gf_b k l m)) h) h)
    h_green_hat

/-- The table `acons` of `rms`; entries the source does not assign are `none`. -/
def acons : Int → Int → Option K
  | 1, 0 => some (2 / 3)
  | 2, 0 => some (1 / 50)
  | 2, 1 => some (5 / 294)
  | 3, 0 => some (1 / 588)
  | 3, 1 => some (7 / 1440)
  | 3, 2 => some (21 / 3872)
  | 4, 0 => some (1 / 4320)
  | 4, 1 => some (3 / 1936)
  | 4, 2 => some (7601 / 2271360)
  | 4, 3 => some (143 / 28800)
  | 5, 0 => some (1 / 23232)
  | 5, 1 => some (7601 / 13628160)
  | 5, 2 => some (143 / 69120)
  | 5, 3 => some (517231 / 106536960)
  | 5, 4 => some (106640677 / 11737571328)
  | 6, 0 => some (691 / 68140800)
  | 6, 1 => some (13 / 57600)
  | 6, 2 => some (47021 / 35512320)
  | 6, 3 => some (9694607 / 2095994880)
  | 6, 4 => some (733191589 / 59609088000)
  | 6, 5 => some (326190917 / 11700633600)
  | 7, 0 => some (1 / 345600)
  | 7, 1 => some (3617 / 35512320)
  | 7, 2 => some (745739 / 838397952)
  | 7, 3 => some (56399353 / 12773376000)
  | 7, 4 => some (25091609 / 1560084480)
  | 7, 5 => some (1755948832039 / 36229939200000)
  | 7, 6 => some (4887769399 / 37838389248)
  | _, _ => none

/-- The function `rms`: the long-range force-error estimate along one axis.  `uninit` is what a
read of an unassigned entry of `acons` yields. -/
def rms (lm : Libm K) (uninit : K) (m_order : Int) (m_kappa m_q2 : K) (h prd natoms : K) : K :=
  let sum := forUp 0 m_order (fun m sum =>
    sum + ((acons m_order m).getD uninit) * (h * m_kappa) ^ (2 * m)) 0
  m_q2 * (h * m_kappa) ^ m_order
    * lm.sqrt (m_kappa * prd * lm.sqrt (2 * M_PI) * sum / natoms) / (prd * prd)

end Tables

section Stencil

variable {K : Type} [LinearOrderedField K] [FloorRing K]

/-- The normalised position `posi.x` of `assign_charges_to_grid` (lines 726-737) and
`calculate_forces` (lines 861-872): `posi.x += Lx / 2.0f; posi.x /= box_dx` with
`box_dx = Lx / ((Scalar)m_Nx)`, in exact arithmetic; `Rounded.grid_position` is the same
with every operation rounded. -/
def grid_position (x L : K) (N : Int) : K := (x + L / 2) / (L / (N : K))

/-- The variable `shift`: `0.5` for odd `m_order`, `0.0` otherwise. -/
def stencil_shift (m_order : Int) : K := if Int.tmod m_order 2 ≠ 0 then 1 / 2 else 0

/-- The variable `shiftone`: `0.0` for odd `m_order`, `0.5` otherwise. -/
def stencil_shiftone (m_order : Int) : K := if Int.tmod m_order 2 ≠ 0 then 0 else 1 / 2

/-- The variable `nlower = -(m_order-1)/2`, with C division. -/
def nlower (m_order : Int) : Int := Int.tdiv (-(m_order - 1)) 2

/-- The variable `nupper = m_order/2`, with C division. -/
def nupper (m_order : Int) : Int := Int.tdiv m_order 2

/-- The anchor `nxi = (int)(posi.x + shift)`, the sum being exact;
`Rounded.stencil_anchor` truncates the rounded sum. -/
def stencil_anchor (m_order : Int) (pos : K) : Int := ctrunc (pos + stencil_shift m_order)

/-- The polynomial argument `dx = shiftone+(Scalar)nxi-posi.x`. -/
def stencil_arg (m_order : Int) (pos : K) : K :=
  stencil_shiftone m_order + ((stencil_anchor m_order pos : Int) : K) - pos

/-- The wrapped index: `if(mx >= m_Nx) mx -= m_Nx; if(mx < 0) mx += m_Nx;`. -/
def wrap_index (N : Int) (mx : Int) : Int :=
  let m1 := if mx ≥ N then mx - N else mx
  if m1 < 0 then m1 + N else m1

/-- The Horner loop `result = 0; for (k = m_order-1; k >= 0; k--) result =
h_rho_coeff.data[col + k*mult_fact] + result * d` with `mult_fact = 2*m_order+1`. -/
def rho_weight (m_order : Int) (h_rho_coeff : GPUArray K) (col : Int) (d : K) : K :=
  forDownTo0 (m_order - 1) (fun k result =>
    h_rho_coeff.data (col + k * (2 * m_order + 1)) + result * d) 0

end Stencil

section Methods

variable {K : Type} [LinearOrderedField K] [FloorRing K]

/-- The condition of the three grid-size tests of `setParams`: the size is none of
2, 4, ..., 1024. -/
def unsupported_size (N : Int) : Prop :=
  ¬ (N = 2) ∧ ¬ (N = 4) ∧ ¬ (N = 8) ∧ ¬ (N = 16) ∧ ¬ (N = 32) ∧ ¬ (N = 64) ∧ ¬ (N = 128)
    ∧ ¬ (N = 256) ∧ ¬ (N = 512) ∧ ¬ (N = 1024)

instance (N : Int) : Decidable (unsupported_size N) := by
  unfold unsupported_size; infer_instance

/-- Lines 152-172 of `setParams`: every buffer is replaced by a new one. -/
def setParams_allocate (Nx Ny Nz order : Int) (self : PPPMForceCompute K) :
    PPPMForceCompute K :=
  { self with
    statics := { self.statics with
      m_rho_real_space := GPUArray.alloc ⟨0, 0⟩ (Nx * Ny * Nz)
      m_green_hat := GPUArray.alloc 0 (Nx * Ny * Nz)
      m_vg := GPUArray.alloc ⟨0, 0, 0⟩ (Nx * Ny * Nz) }
    m_kvec := GPUArray.alloc ⟨0, 0, 0⟩ (Nx * Ny * Nz)
    m_Ex := GPUArray.alloc ⟨0, 0⟩ (Nx * Ny * Nz)
    m_Ey := GPUArray.alloc ⟨0, 0⟩ (Nx * Ny * Nz)
    m_Ez := GPUArray.alloc ⟨0, 0⟩ (Nx * Ny * Nz)
    m_gf_b := GPUArray.alloc 0 order
    m_rho_coeff := GPUArray.alloc 0 order
    m_field := GPUArray.alloc ⟨0, 0, 0⟩ (Nx * Ny * Nz) }

/-- Lines 181-186 of `setParams`: the sums `m_q` and `m_q2` of the charges and of
their squares. -/
def system_charge (arrays : ParticleDataArraysConst K) : K × K :=
  forUp 0 (arrays.nparticles : Int) (fun i (p : K × K) =>
    (p.1 + arrays.charge i, p.2 + arrays.charge i * arrays.charge i)) (0, 0)

/-- The three numbers `RMS_error`, `lpr` and `spr` of `setParams`. -/
structure RmsEstimate (K : Type) where
  RMS_error : K
  lpr : K
  spr : K

/-- Lines 190-200 of `setParams`: the RMS force error, from the members `m_order`,
`m_kappa`, `m_rcut`, `m_q2` and the arguments `Nx, Ny, Nz`. -/
def rms_estimate (env : Env K) (pdata : ParticleData K) (Nx Ny Nz : Int) (m_order : Int)
    (m_kappa m_rcut m_q2 : K) : RmsEstimate K :=
  let box := pdata.box
  let arrays := pdata.arrays
  let Lx := box.xhi - box.xlo
  let Ly := box.yhi - box.ylo
  let Lz := box.zhi - box.zlo
  let hx := Lx / (Nx : K)
  let hy := Ly / (Ny : K)
  let hz := Lz / (Nz : K)
  let n : K := (arrays.nparticles : K)
  let lprx := rms env.libm env.uninit m_order m_kappa m_q2 hx Lx n
  let lpry := rms env.libm env.uninit m_order m_kappa m_q2 hy Lz n
  let lprz := rms env.libm env.uninit m_order m_kappa m_q2 hz Lz n
  let lpr := env.libm.sqrt (lprx * lprx + lpry * lpry + lprz * lprz) / env.libm.sqrt 3
  let spr := 2 * m_q2 * env.libm.exp (-m_kappa * m_kappa * m_rcut * m_rcut)
    / env.libm.sqrt (n * m_rcut * Lx * Ly * Lz)
  ⟨if lpr > spr then lpr else spr, lpr, spr⟩

/-- The line written about the net charge: the warning when `fabs(m_q) > 0.0`. -/
def charge_lines (q : K) : List (Message K) :=
  if |q| > 0 then [Message.notNeutral q] else []

/-- The line written about the RMS error: the warning when it exceeds `0.1`, the
plain report otherwise. -/
def rms_line (e : RmsEstimate K) : Message K :=
  if e.RMS_error > 1 / 10 then Message.rmsTooHigh e.RMS_error e.lpr e.spr
  else Message.rmsError e.RMS_error

/-- Lines 180-206 of `setParams`: the system charge and the RMS force error, with
the warnings they give rise to. -/
def setParams_diagnostics (env : Env K) (pdata : ParticleData K) (Nx Ny Nz : Int)
    (self : PPPMForceCompute K) : PPPMForceCompute K :=
  let qs := system_charge pdata.arrays
  let e := rms_estimate env pdata Nx Ny Nz self.m_order self.m_kappa self.m_rcut qs.2
  { self with
    m_q := qs.1
    m_q2 := qs.2
    statics := { self.statics with q := qs.1 }
    output := (self.output ++ charge_lines qs.1) ++ [rms_line e] }

/-- Lines 208-361 of `setParams`: the coefficient tables, the k-vectors, the virial
constants, the Green's function and the copies kept in `PPPMData`. -/
def setParams_tables (env : Env K) (pdata : ParticleData K) (Nx Ny Nz order : Int) (kappa : K)
    (self : PPPMForceCompute K) : PPPMForceCompute K :=
  let box := pdata.box
  let Lx := box.xhi - box.xlo
  let Ly := box.yhi - box.ylo
  let Lz := box.zhi - box.zlo
  let rho_coeff := compute_rho_coeff self.m_order self.m_rho_coeff
  let kvec := set_up_kvec Nx Ny Nz Lx Ly Lz self.m_kvec
  let vg := set_up_vg Nx Ny Nz kappa kvec self.statics.m_vg
  let gf_b := compute_gf_denom self.m_order self.m_gf_b
  let green_hat := set_up_green_hat env.libm env.consts.EPS_HOC Nx Ny Nz order kappa Lx Ly Lz
    gf_b self.statics.m_green_hat
  let scale : K := 1 / ((Nx * Ny * Nz : Int) : K)
  let energy_virial_factor : K := (1 / 2) * Lx * Ly * Lz * scale * scale
  { self with
    m_rho_coeff := rho_coeff
    m_kvec := kvec
    m_gf_b := gf_b
    m_energy_virial_factor := energy_virial_factor
    m_data_location := DataLocation.cpu
    statics := { self.statics with
      m_vg := vg
      m_green_hat := green_hat
      Nx := (self.m_Nx : K)
      Ny := (self.m_Ny : K)
      Nz := (self.m_Nx : K)
      q2 := self.m_q2
      kappa := self.m_kappa
      energy_virial_factor := energy_virial_factor } }

/-- Lines 121-140 of `setParams`: the arguments are stored, the flag of `PPPMData`
is set and a notice is written for every grid size that is not a supported one. -/
def setParams_store (Nx Ny Nz order : Int) (kappa rcut : K) (self : PPPMForceCompute K) :
    PPPMForceCompute K :=
  let s0 : PPPMForceCompute K :=
    { self with
      m_Nx := Nx, m_Ny := Ny, m_Nz := Nz, m_order := order, m_kappa := kappa, m_rcut := rcut
      statics := { self.statics with compute_pppm_flag := 1 } }
  let s1 : PPPMForceCompute K :=
    if unsupported_size s0.m_Nx then { s0 with output := s0.output ++ [Message.attentionX] }
    else s0
  let s2 : PPPMForceCompute K :=
    if unsupported_size s1.m_Ny then { s1 with output := s1.output ++ [Message.attentionY] }
    else s1
  if unsupported_size s2.m_Nz then { s2 with output := s2.output ++ [Message.attentionZ] }
  else s2

/-- The method `setParams`: returns whether the call returned or threw, and the object as the
call leaves it. -/
def setParams (env : Env K) (pdata : ParticleData K) (Nx Ny Nz order : Int) (kappa rcut : K)
    (self : PPPMForceCompute K) : Except String Unit × PPPMForceCompute K :=
  let s3 := setParams_store Nx Ny Nz order kappa rcut self
  if cint (s3.m_order * cint (2 * s3.m_order + 1)) > env.consts.CONSTANT_SIZE then
    (Except.error "Error initializing PPPMComputeGPU",
      { s3 with output := s3.output ++ [Message.orderTooHighForConstantArray] })
  else if s3.m_order > env.consts.MaxOrder then
    (Except.error "Error initializing PPPMComputeGPU",
      { s3 with output := s3.output ++ [Message.orderTooHighMax env.consts.MaxOrder] })
  else
    (Except.ok (),
      setParams_tables env pdata Nx Ny Nz order kappa
        (setParams_diagnostics env pdata Nx Ny Nz
          (setParams_allocate Nx Ny Nz order s3)))

/-- The method `getProvidedLogQuantities`: the list of the one quantity provided. -/
def getProvidedLogQuantities : List String := ["pppm_energy"]

/-- The method `reset_kvec_green_hat_cpu`: rebuilds the k-vectors, the virial constants, the
denominator coefficients and the Green's function for the current box. -/
def reset_kvec_green_hat_cpu (env : Env K) (pdata : ParticleData K)
    (self : PPPMForceCompute K) : PPPMForceCompute K :=
  let box := pdata.box
  let Lx := box.xhi - box.xlo
  let Ly := box.yhi - box.ylo
  let Lz := box.zhi - box.zlo
  let kvec := set_up_kvec self.m_Nx self.m_Ny self.m_Nz Lx Ly Lz self.m_kvec
  let vg := set_up_vg self.m_Nx self.m_Ny self.m_Nz self.m_kappa kvec self.statics.m_vg
  let gf_b := compute_gf_denom self.m_order self.m_gf_b
  let green_hat := set_up_green_hat env.libm env.consts.EPS_HOC self.m_Nx self.m_Ny self.m_Nz
    self.m_order self.m_kappa Lx Ly Lz gf_b self.statics.m_green_hat
  { self with
    m_kvec := kvec
    m_gf_b := gf_b
    statics := { self.statics with m_vg := vg, m_green_hat := green_hat } }

/-- The block `memset(p, 0, sizeof(T)*n)` on an array of `T`. -/
def memset0 {α : Type} (zero : α) (n : Int) (a : GPUArray α) : GPUArray α :=
  forUp 0 n (fun i a => a.set i zero) a

/-- The statement `h.data[idx].x += v` on a complex grid. -/
def add_re (h : GPUArray (cufftComplex K)) (idx : Int) (v : K) : GPUArray (cufftComplex K) :=
  h.set idx ⟨(h.data idx).x + v, (h.data idx).y⟩

/-- The body of the particle loop of `assign_charges_to_grid` for particle `i`. -/
def assign_particle (pdata : ParticleData K) (m_Nx m_Ny m_Nz m_order : Int)
    (h_rho_coeff : GPUArray K) (i : Int) (h_rho_real_space : GPUArray (cufftComplex K)) :
    GPUArray (cufftComplex K) :=
  let box := pdata.box
  let arrays := pdata.arrays
  let Lx := box.xhi - box.xlo
  let Ly := box.yhi - box.ylo
  let Lz := box.zhi - box.zlo
  let qi := arrays.charge i
  let box_dx := Lx / (m_Nx : K)
  let box_dy := Ly / (m_Ny : K)
  let box_dz := Lz / (m_Nz : K)
  let posx := grid_position (arrays.x i) Lx m_Nx
  let posy := grid_position (arrays.y i) Ly m_Ny
  let posz := grid_position (arrays.z i) Lz m_Nz
  let nxi := stencil_anchor m_order posx
  let nyi := stencil_anchor m_order posy
  let nzi := stencil_anchor m_order posz
  let dx := stencil_arg m_order posx
  let dy := stencil_arg m_order posy
  let dz := stencil_arg m_order posz
  let x0 := qi / (box_dx * box_dy * box_dz)
  forUpTo (nlower m_order) (nupper m_order) (fun n h =>
    let mx := wrap_index m_Nx (n + nxi)
    let y0 := x0 * rho_weight m_order h_rho_coeff (n - nlower m_order) dx
    forUpTo (nlower m_order) (nupper m_order) (fun m h =>
      let my := wrap_index m_Ny (m + nyi)
      let z0 := y0 * rho_weight m_order h_rho_coeff (m - nlower m_order) dy
      forUpTo (nlower m_order) (nupper m_order) (fun l h =>
        let mz := wrap_index m_Nz (l + nzi)
        let result := rho_weight m_order h_rho_coeff (l - nlower m_order) dz
        add_re h (mz + m_Nz * (my + m_Ny * mx)) (z0 * result)) h) h) h_rho_real_space

/-- The method `assign_charges_to_grid`: clears the density grid and spreads every particle's
charge onto it. -/
def assign_charges_to_grid (pdata : ParticleData K) (self : PPPMForceCompute K) :
    PPPMForceCompute K :=
  let cleared := memset0 ⟨0, 0⟩ (self.m_Nx * self.m_Ny * self.m_Nz)
    self.statics.m_rho_real_space
  let rho := forUp 0 (pdata.arrays.nparticles : Int)
    (assign_particle pdata self.m_Nx self.m_Ny self.m_Nz self.m_order self.m_rho_coeff) cleared
  { self with statics := { self.statics with m_rho_real_space := rho } }

/-- The grids `combined_green_e` writes: the density and the three field components. -/
structure GreenE (K : Type) where
  rho : GPUArray (cufftComplex K)
  Ex : GPUArray (cufftComplex K)
  Ey : GPUArray (cufftComplex K)
  Ez : GPUArray (cufftComplex K)

/-- The body of the loop of `combined_green_e` at grid index `i`. -/
def combined_green_e_step (NNN : Int) (h_kvec : GPUArray (Scalar3 K))
    (h_green_hat : GPUArray K) (i : Int) (g : GreenE K) : GreenE K :=
  let scale_times_green := h_green_hat.data i / (NNN : K)
  let rho1 := g.rho.set i ⟨(g.rho.data i).x * scale_times_green, (g.rho.data i).y⟩
  let rho2 := rho1.set i ⟨(rho1.data i).x, (rho1.data i).y * scale_times_green⟩
  let Ex1 := g.Ex.set i ⟨(h_kvec.data i).x * (rho2.data i).y, (g.Ex.data i).y⟩
  let Ex2 := Ex1.set i ⟨(Ex1.data i).x, -(h_kvec.data i).x * (rho2.data i).x⟩
  let Ey1 := g.Ey.set i ⟨(h_kvec.data i).y * (rho2.data i).y, (g.Ey.data i).y⟩
  let Ey2 := Ey1.set i ⟨(Ey1.data i).x, -(h_kvec.data i).y * (rho2.data i).x⟩
  let Ez1 := g.Ez.set i ⟨(h_kvec.data i).z * (rho2.data i).y, (g.Ez.data i).y⟩
  let Ez2 := Ez1.set i ⟨(Ez1.data i).x, -(h_kvec.data i).z * (rho2.data i).x⟩
  ⟨rho2, Ex2, Ey2, Ez2⟩

/-- The method `combined_green_e`: scales the density by the Green's function and derives the
field components; `NNN` is the `unsigned int` product of the grid dimensions. -/
def combined_green_e (self : PPPMForceCompute K) : PPPMForceCompute K :=
  let NNN := cuint (self.m_Nx * self.m_Ny * self.m_Nz)
  let g := forUp 0 NNN (combined_green_e_step NNN self.m_kvec self.statics.m_green_hat)
    ⟨self.statics.m_rho_real_space, self.m_Ex, self.m_Ey, self.m_Ez⟩
  { self with
    m_Ex := g.Ex, m_Ey := g.Ey, m_Ez := g.Ez
    statics := { self.statics with m_rho_real_space := g.rho } }

/-- The force arrays `m_fx`, `m_fy`, `m_fz`. -/
structure Forces (K : Type) where
  fx : GPUArray K
  fy : GPUArray K
  fz : GPUArray K

/-- The statements `m_fx[i] += vx; m_fy[i] += vy; m_fz[i] += vz`. -/
def add_force (f : Forces K) (i : Int) (vx vy vz : K) : Forces K :=
  ⟨f.fx.set i (f.fx.data i + vx), f.fy.set i (f.fy.data i + vy), f.fz.set i (f.fz.data i + vz)⟩

/-- The body of the particle loop of `calculate_forces` for particle `i`. -/
def force_particle (pdata : ParticleData K) (m_Nx m_Ny m_Nz m_order : Int)
    (h_rho_coeff : GPUArray K) (h_Ex h_Ey h_Ez : GPUArray (cufftComplex K)) (i : Int)
    (f : Forces K) : Forces K :=
  let box := pdata.box
  let arrays := pdata.arrays
  let Lx := box.xhi - box.xlo
  let Ly := box.yhi - box.ylo
  let Lz := box.zhi - box.zlo
  let qi := arrays.charge i
  let posx := grid_position (arrays.x i) Lx m_Nx
  let posy := grid_position (arrays.y i) Ly m_Ny
  let posz := grid_position (arrays.z i) Lz m_Nz
  let nxi := stencil_anchor m_order posx
  let nyi := stencil_anchor m_order posy
  let nzi := stencil_anchor m_order posz
  let dx := stencil_arg m_order posx
  let dy := stencil_arg m_order posy
  let dz := stencil_arg m_order posz
  forUpTo (nlower m_order) (nupper m_order) (fun n f =>
    let mx := wrap_index m_Nx (n + nxi)
    let x0 := rho_weight m_order h_rho_coeff (n - nlower m_order) dx
    forUpTo (nlower m_order) (nupper m_order) (fun m f =>
      let my := wrap_index m_Ny (m + nyi)
      let y0 := x0 * rho_weight m_order h_rho_coeff (m - nlower m_order) dy
      forUpTo (nlower m_order) (nupper m_order) (fun l f =>
        let mz := wrap_index m_Nz (l + nzi)
        let z0 := y0 * rho_weight m_order h_rho_coeff (l - nlower m_order) dz
        let idx := mz + m_Nz * (my + m_Ny * mx)
        let local_field_x := (h_Ex.data idx).x
        let local_field_y := (h_Ey.data idx).x
        let local_field_z := (h_Ez.data idx).x
        add_force f i (qi * z0 * local_field_x) (qi * z0 * local_field_y)
          (qi * z0 * local_field_z)) f) f) f

/-- The method `calculate_forces`: clears the per-particle arrays and gathers the field at
every particle. -/
def calculate_forces (pdata : ParticleData K) (self : PPPMForceCompute K) :
    PPPMForceCompute K :=
  let n : Int := (pdata.arrays.nparticles : Int)
  let f := forUp 0 n
    (force_particle pdata self.m_Nx self.m_Ny self.m_Nz self.m_order self.m_rho_coeff
      self.m_Ex self.m_Ey self.m_Ez)
    ⟨memset0 0 n self.m_fx, memset0 0 n self.m_fy, memset0 0 n self.m_fz⟩
  { self with
    m_fx := f.fx, m_fy := f.fy, m_fz := f.fz
    m_pe := memset0 0 n self.m_pe
    m_virial := memset0 0 n self.m_virial }

/-- Lines 398-407 of `computeForces`: when a box change is pending, the box-dependent
tables and the energy factor are rebuilt. -/
def computeForces_rebuild (env : Env K) (pdata : ParticleData K)
    (self : PPPMForceCompute K) : PPPMForceCompute K :=
  if self.m_box_changed then
    let box := pdata.box
    let Lx := box.xhi - box.xlo
    let Ly := box.yhi - box.ylo
    let Lz := box.zhi - box.zlo
    let s := reset_kvec_green_hat_cpu env pdata self
    let scale : K := 1 / ((s.m_Nx * s.m_Ny * s.m_Nz : Int) : K)
    let energy_virial_factor : K := (1 / 2) * Lx * Ly * Lz * scale * scale
    { s with
      m_energy_virial_factor := energy_virial_factor
      statics := { s.statics with energy_virial_factor := energy_virial_factor } }
  else self

/-- The method `computeForces`: the rebuild when a box change is pending, then the spreader, the
field solver and the gatherer one after the other (the transforms the comments
announce are not called). -/
def computeForces (env : Env K) (pdata : ParticleData K) (_timestep : Nat)
    (self : PPPMForceCompute K) : PPPMForceCompute K :=
  let s1 := computeForces_rebuild env pdata self
  let s2 := assign_charges_to_grid pdata s1
  let s3 := combined_green_e s2
  let s4 := calculate_forces pdata s3
  { s4 with m_data_location := DataLocation.cpu }

/-- The members of the base class `ForceCompute` that `getLogValue` calls and that
are not among the sources. -/
structure ForceComputeBase (K : Type) where
  compute : Nat → PPPMForceCompute K → PPPMForceCompute K
  calcEnergySum : PPPMForceCompute K → K

/-- The method `getLogValue`: the value returned or the exception thrown, and the object as the
call leaves it. -/
def getLogValue (base : ForceComputeBase K) (quantity : String) (timestep : Nat)
    (self : PPPMForceCompute K) : Except String K × PPPMForceCompute K :=
  if quantity = "pppm_energy" then
    let s := base.compute timestep self
    let energy := base.calcEnergySum s
    (Except.ok (energy + s.statics.pppm_energy), s)
  else
    (Except.error "Error getting log value",
      { self with output := self.output ++ [Message.invalidLogQuantity quantity] })

end Methods

/-! ## A nest of stores

The k-vector, virial and Green's-function blocks are all nests of three loops that
store one value per grid point; `gridFill` is that shape. -/

section GridFill

/-- The nest of three loops that stores `val a b c` at index `idx a b c` for
`a < A`, `b < B`, `c < C`. -/
def gridFill {α : Type} (A B C : Int) (idx : Int → Int → Int → Int) (val : Int → Int → Int → α)
    (h : GPUArray α) : GPUArray α :=
  forUp 0 A (fun a h => forUp 0 B (fun b h => forUp 0 C (fun c h =>
    h.set (idx a b c) (val a b c)) h) h) h

end GridFill

section Accumulation

variable {K : Type} [LinearOrderedField K] [FloorRing K]

/-- A transformer of a complex grid that adds to the real part of every cell an amount
that does not depend on the grid, and keeps everything else. -/
def IsAccum (T : GPUArray (cufftComplex K) → GPUArray (cufftComplex K)) : Prop :=
  ∃ c : Int → K, ∀ r : GPUArray (cufftComplex K),
    (T r).num_elements = r.num_elements
      ∧ ∀ p, (T r).data p = ⟨(r.data p).x + c p, (r.data p).y⟩

/-- The sum of `f i` for `i` from `lo` to `hi`, accumulated in loop order. -/
def sumUpTo (lo hi : Int) (f : Int → K) : K :=
  forUpTo lo hi (fun i acc => acc + f i) 0

end Accumulation

/-! ## The stencil as a list of cells -/

section Cells

variable {K : Type} [LinearOrderedField K] [FloorRing K]

/-- The values `lo, lo + 1, ..., hi` that a loop `for (i = lo; i <= hi; i++)` runs
through, in order. -/
def intRange (lo hi : Int) : List Int :=
  (List.range (hi + 1 - lo).toNat).map (fun (j : Nat) => lo + (j : Int))

/-- The stencil of particle `i` as the specification describes it: for the offsets
`(n, m, l)` from `nlower` to `nupper` on each axis, the wrapped, flattened grid index
and the product of the three per-axis polynomial weights. -/
def stencil_cells (pdata : ParticleData K) (m_Nx m_Ny m_Nz m_order : Int)
    (h_rho_coeff : GPUArray K) (i : Int) : List (Int × K) :=
  let posx := grid_position (pdata.arrays.x i) (pdata.box.xhi - pdata.box.xlo) m_Nx
  let posy := grid_position (pdata.arrays.y i) (pdata.box.yhi - pdata.box.ylo) m_Ny
  let posz := grid_position (pdata.arrays.z i) (pdata.box.zhi - pdata.box.zlo) m_Nz
  (intRange (nlower m_order) (nupper m_order)).flatMap (fun n =>
    (intRange (nlower m_order) (nupper m_order)).flatMap (fun m =>
      (intRange (nlower m_order) (nupper m_order)).map (fun l =>
        (wrap_index m_Nz (l + stencil_anchor m_order posz)
            + m_Nz * (wrap_index m_Ny (m + stencil_anchor m_order posy)
              + m_Ny * wrap_index m_Nx (n + stencil_anchor m_order posx)),
          rho_weight m_order h_rho_coeff (n - nlower m_order) (stencil_arg m_order posx)
            * rho_weight m_order h_rho_coeff (m - nlower m_order) (stencil_arg m_order posy)
            * rho_weight m_order h_rho_coeff (l - nlower m_order) (stencil_arg m_order posz)))))

end Cells

/-! ## The constructor, a specification form, the Green's-function variables -/

section Construction

variable {K : Type} [LinearOrderedField K] [FloorRing K]

set_option linter.dupNamespace false in
/-- The constructor `PPPMForceCompute::PPPMForceCompute` (lines 94-103): its body
assigns `m_box_changed = false` and nothing else; `fresh` is the object as it is when
the body is entered. -/
def PPPMForceCompute.PPPMForceCompute (fresh : PPPMForceCompute K) : PPPMForceCompute K :=
  { fresh with m_box_changed := false }

end Construction

section SpecForms

variable {K : Type} [LinearOrderedField K] [FloorRing K]

/-- The virial weight of a grid point with k-vector `k` in the words of the
specification: zero when `|k|^2 = 0`, else `1 + vterm * k_axis^2` per axis with
`vterm = -2 * (1/|k|^2 + 1/(4 * kappa^2))`. -/
def spec_virial_weight (kappa : K) (k : Scalar3 K) : Scalar3 K :=
  if k.x ^ 2 + k.y ^ 2 + k.z ^ 2 = 0 then ⟨0, 0, 0⟩
  else
    ⟨1 + -2 * (1 / (k.x ^ 2 + k.y ^ 2 + k.z ^ 2) + 1 / (4 * kappa ^ 2)) * k.x ^ 2,
      1 + -2 * (1 / (k.x ^ 2 + k.y ^ 2 + k.z ^ 2) + 1 / (4 * kappa ^ 2)) * k.y ^ 2,
      1 + -2 * (1 / (k.x ^ 2 + k.y ^ 2 + k.z ^ 2) + 1 / (4 * kappa ^ 2)) * k.z ^ 2⟩

end SpecForms

section GreenVariables

variable {K : Type} [LinearOrderedField K] [FloorRing K]

/-- The variable `sqk` of the Green's-function block, as a function of the folded
indices `kper`, `lper`, `mper`: `pow(unitkx*kper,2.0f) + pow(unitky*lper,2.0f) +
pow(unitkz*mper,2.0f)`. -/
def green_hat_sqk (Lx Ly Lz : K) (kper lper mper : Int) : K :=
  (2 * M_PI / Lx * (kper : K)) ^ 2 + (2 * M_PI / Ly * (lper : K)) ^ 2
    + (2 * M_PI / Lz * (mper : K)) ^ 2

/-- The variable `numerator = form*12.5663706/sqk` of the Green's-function block, as a
function of the folded indices. -/
def green_hat_numerator (Lx Ly Lz : K) (kper lper mper : Int) : K :=
  1 * (125663706 / 10000000) / green_hat_sqk Lx Ly Lz kper lper mper

/-- The variable `denominator = gf_denom(snx2,sny2,snz2)` of the Green's-function
block, as a function of the folded indices. -/
def green_hat_denominator (lm : Libm K) (Nx Ny Nz order : Int) (Lx Ly Lz : K)
    (h_gf_b : GPUArray K) (kper lper mper : Int) : K :=
  gf_denom order h_gf_b
    (lm.sin ((1 / 2) * (2 * M_PI / Lx) * (kper : K) * Lx / (Nx : K))
      * lm.sin ((1 / 2) * (2 * M_PI / Lx) * (kper : K) * Lx / (Nx : K)))
    (lm.sin ((1 / 2) * (2 * M_PI / Ly) * (lper : K) * Ly / (Ny : K))
      * lm.sin ((1 / 2) * (2 * M_PI / Ly) * (lper : K) * Ly / (Ny : K)))
    (lm.sin ((1 / 2) * (2 * M_PI / Lz) * (mper : K) * Lz / (Nz : K))
      * lm.sin ((1 / 2) * (2 * M_PI / Lz) * (mper : K) * Lz / (Nz : K)))

/-- The variable `sum1` of the Green's-function block when the loops over the images
are done, as a function of the folded indices. -/
def green_hat_sum1 (lm : Libm K) (EPS_HOC : K) (Nx Ny Nz order : Int) (kappa Lx Ly Lz : K)
    (kper lper mper : Int) : K :=
  green_sum1 lm Nx Ny Nz order kappa Lx Ly Lz (2 * M_PI / Lx) (2 * M_PI / Ly) (2 * M_PI / Lz)
    (ewald_images lm EPS_HOC kappa Lx Nx) (ewald_images lm EPS_HOC kappa Ly Ny)
    (ewald_images lm EPS_HOC kappa Lz Nz) kper lper mper

/-- The amount added to `sum1` for the image `(ix, iy, iz)`:
`(dot1/dot2) * sx*sy*sz * pow(wx*wy*wz,2.0f)`. -/
def green_sum1_term (lm : Libm K) (Nx Ny Nz order : Int) (kappa : K)
    (xprd yprd zprd_slab : K) (unitkx unitky unitkz : K) (kper lper mper : Int)
    (ix iy iz : Int) : K :=
  let qx := unitkx * ((kper : K) + ((Nx * ix : Int) : K))
  let sx := lm.exp (-(1 / 4) * (qx / kappa) ^ 2)
  let argx := (1 / 2) * qx * xprd / (Nx : K)
  let wx : K := if argx ≠ 0 then (lm.sin argx / argx) ^ order else 1
  let qy := unitky * ((lper : K) + ((Ny * iy : Int) : K))
  let sy := lm.exp (-(1 / 4) * (qy / kappa) ^ 2)
  let argy := (1 / 2) * qy * yprd / (Ny : K)
  let wy : K := if argy ≠ 0 then (lm.sin argy / argy) ^ order else 1
  let qz := unitkz * ((mper : K) + ((Nz * iz : Int) : K))
  let sz := lm.exp (-(1 / 4) * (qz / kappa) ^ 2)
  let argz := (1 / 2) * qz * zprd_slab / (Nz : K)
  let wz : K := if argz ≠ 0 then (lm.sin argz / argz) ^ order else 1
  let dot1 := unitkx * (kper : K) * qx + unitky * (lper : K) * qy + unitkz * (mper : K) * qz
  let dot2 := qx * qx + qy * qy + qz * qz
  (dot1 / dot2) * sx * sy * sz * (wx * wy * wz) ^ 2

end GreenVariables

/-! ## The accesses to the scratch block of `compute_rho_coeff` -/

section ScratchAccesses

/-- The accesses that `compute_rho_coeff` (lines 484-515) makes to its scratch block
`a`, in program order, each as the pair `(column, row)` of its index expression
`column + row*(2*m_order+1)`: the clearing loop, the store `a[m_order + 0*...] = 1`,
the recurrence (per `l` the two reads of the assignment, its write, and the two reads
of `s += ...`; per `k` the store of `s`), and the reads of the copy loop. -/
def rho_scratch_accesses (m_order : Int) : List (Int × Int) :=
  let t0 := forUpTo (-m_order) m_order (fun k t =>
    forUp 0 m_order (fun l t => t ++ [(k + m_order, l)]) t) []
  let t1 := t0 ++ [(m_order, 0)]
  let t2 := forUp 1 m_order (fun j t =>
    forUpToBy2 (-j) j (fun k t =>
      let t := forUp 0 j (fun l t =>
        t ++ [(k + 1 + m_order, l), (k - 1 + m_order, l), (k + m_order, l + 1),
          (k - 1 + m_order, l), (k + 1 + m_order, l)]) t
      t ++ [(k + m_order, 0)]) t) t1
  forUpBy2 (-(m_order - 1)) m_order (fun k t =>
    forUp 0 m_order (fun l t => t ++ [(k + m_order, l)]) t) t2

end ScratchAccesses

/-! ## The allocation registry of `hoomd/MemoryTraceback.cc` -/

section Traceback

/-- The constant `MAX_TRACEBACK`. -/
def MAX_TRACEBACK : Nat := 4

/-- An index of the three maps: the pair `std::make_pair(ptr, nbytes)` of an address
and an `unsigned int` byte count. -/
abbrev AllocIdx : Type := Nat × Nat

/-- A `std::map` from allocation indices to values: the value stored under each key
that is present. -/
abbrev AllocMap (V : Type) : Type := AllocIdx → Option V

/-- The statement `m[idx] = v` on a `std::map`: inserts the key or replaces its
value. -/
def AllocMap.assign {V : Type} (m : AllocMap V) (idx : AllocIdx) (v : V) : AllocMap V :=
  fun k => if k = idx then some v else m k

/-- The call `m.erase(idx)` on a `std::map`. -/
def AllocMap.erase {V : Type} (m : AllocMap V) (idx : AllocIdx) : AllocMap V :=
  fun k => if k = idx then none else m k

/-- The keys present in a `std::map`. -/
def AllocMap.keys {V : Type} (m : AllocMap V) : Set AllocIdx := {k | (m k).isSome = true}

/-- The call `v.resize(n)` on a `std::vector<void *>`: the first `n` elements, with
null pointers appended when the vector is shorter.  For a negative `int` count, which
`backtrace` does not return, the source would throw from `resize`; the vector is then
taken to be empty, the keys of the maps being those already set. -/
def vector_resize (v : List Nat) (n : Int) : List Nat :=
  v.take n.toNat ++ List.replicate (n.toNat - v.length) 0

/-- The three maps of `MemoryTraceback`: the stack traces, the type hints and the
tags.  The members are declared in `MemoryTraceback.h`; the source uses them through
`operator[]`, `erase`, `find` and `end` with keys `std::pair<void *, unsigned int>`. -/
structure MemoryTraceback where
  m_traces : AllocMap (List Nat)
  m_type_hints : AllocMap String
  m_tags : AllocMap String

/-- A `MemoryTraceback` whose three maps are empty. -/
def MemoryTraceback.empty : MemoryTraceback := ⟨fun _ => none, fun _ => none, fun _ => none⟩

/-- The method `registerAllocation`; `backtrace` is the function of `execinfo.h`, which
takes the buffer and its size and returns the buffer it has filled and the number of
symbols. -/
def MemoryTraceback.registerAllocation (backtrace : List Nat → Int → List Nat × Int)
    (ptr nbytes : Nat) (type_hint tag : String) (self : MemoryTraceback) : MemoryTraceback :=
  let idx : AllocIdx := (ptr, nbytes)
  let traces1 := self.m_traces.assign idx (List.replicate MAX_TRACEBACK 0)
  let type_hints1 := self.m_type_hints.assign idx type_hint
  let tags1 := self.m_tags.assign idx tag
  let r := backtrace ((traces1 idx).getD []) (MAX_TRACEBACK : Int)
  let traces2 := traces1.assign idx r.1
  let num_symbols := r.2
  let traces3 := traces2.assign idx (vector_resize ((traces2 idx).getD []) num_symbols)
  ⟨traces3, type_hints1, tags1⟩

/-- The method `unregisterAllocation`. -/
def MemoryTraceback.unregisterAllocation (ptr nbytes : Nat) (self : MemoryTraceback) :
    MemoryTraceback :=
  let idx : AllocIdx := (ptr, nbytes)
  ⟨self.m_traces.erase idx, self.m_type_hints.erase idx, self.m_tags.erase idx⟩

/-- The method `updateTag`. -/
def MemoryTraceback.updateTag (ptr nbytes : Nat) (tag : String) (self : MemoryTraceback) :
    MemoryTraceback :=
  let idx : AllocIdx := (ptr, nbytes)
  if (self.m_tags idx).isSome then { self with m_tags := self.m_tags.assign idx tag }
  else self

/-- A call of one of the three methods that change the maps. -/
inductive TracebackCall where
  | registerAllocation (ptr nbytes : Nat) (type_hint tag : String)
  | unregisterAllocation (ptr nbytes : Nat)
  | updateTag (ptr nbytes : Nat) (tag : String)

/-- The effect of one call. -/
def TracebackCall.run (backtrace : List Nat → Int → List Nat × Int) (c : TracebackCall)
    (self : MemoryTraceback) : MemoryTraceback :=
  match c with
  | .registerAllocation ptr nbytes type_hint tag =>
    self.registerAllocation backtrace ptr nbytes type_hint tag
  | .unregisterAllocation ptr nbytes => self.unregisterAllocation ptr nbytes
  | .updateTag ptr nbytes tag => self.updateTag ptr nbytes tag

/-- The effect of a sequence of calls, first call first. -/
def runCalls (backtrace : List Nat → Int → List Nat × Int) (calls : List TracebackCall)
    (self : MemoryTraceback) : MemoryTraceback :=
  calls.foldl (fun s c => c.run backtrace s) self

/-- The three maps have the same keys. -/
def MemoryTraceback.SameKeys (self : MemoryTraceback) : Prop :=
  self.m_traces.keys = self.m_type_hints.keys ∧ self.m_type_hints.keys = self.m_tags.keys

end Traceback

/-! ## Scalar arithmetic with rounding

The definitions above take `Scalar` arithmetic to be exact.  For the two statements
whose truth depends on rounding (whether two boxes give different k-vectors, and in
which cell the anchor of an in-box particle falls) the operations of the source are
embedded once more over `ℚ`, each followed by the rounding of the type it is carried
out in: `Scalar` has `p` significant bits (24 for `float`, 53 for `double`, the choice
being made in a header that is not among the sources), a `double` has 53.  Rounding is
to nearest, ties to even; the exponent range is not bounded, so overflow, underflow and
the special values are not modelled, and every operation is rounded to its own type
(no extended intermediate precision, no fused multiply-add). -/

section Rounding

/-- The power `2^k` of an integer exponent, as a rational. -/
def pow2 (k : Int) : ℚ :=
  if 0 ≤ k then ((2 ^ k.toNat : Nat) : ℚ) else 1 / ((2 ^ (-k).toNat : Nat) : ℚ)

/-- The number of halvings that take `n` below 2, at most `fuel` of them. -/
def halvings : Nat → Nat → Nat
  | 0, _ => 0
  | fuel + 1, n => if 2 ≤ n then halvings fuel (n / 2) + 1 else 0

/-- The binary logarithm of a natural number, rounded down. -/
def ilog2 (n : Nat) : Nat := halvings n n

/-- The binade of a positive rational `a`: the exponent `e` with
`2^e <= a < 2^(e+1)`. -/
def binade (a : ℚ) : Int :=
  let e0 : Int := (ilog2 a.num.natAbs : Int) - (ilog2 a.den : Int)
  if pow2 e0 ≤ a then e0 else e0 - 1

/-- The integer nearest to `m`, the even one of the two when `m` is half-way. -/
def round_half_even (m : ℚ) : Int :=
  let f := ⌊m⌋
  if m - f < 1 / 2 then f
  else if 1 / 2 < m - f then f + 1
  else if f % 2 = 0 then f else f + 1

/-- Rounding to the nearest binary floating-point number with `p` significant bits,
ties to even: the value is scaled by the unit in the last place of its binade,
rounded to an integer and scaled back. -/
def round_to (p : Nat) (q : ℚ) : ℚ :=
  if q = 0 then 0
  else
    let u := pow2 (binade |q| - ((p : Int) - 1))
    (round_half_even (q / u) : ℚ) * u

end Rounding

section RoundedTables

/-- The vector `inverse_lattice_vector` of lines 211-215 and 564-568 in rounded
arithmetic.  In `invdet = 2.0f*M_PI/(Lx*Lz*Lz)` the literal `M_PI` is a `double`, so
the product `2.0f*M_PI` and the quotient are `double` operations, the product
`Lx*Lz*Lz` is two `Scalar` multiplications, and the assignment converts to `Scalar`. -/
def Rounded.inverse_lattice_vector (p : Nat) (Lx Ly Lz : ℚ) : Scalar3 ℚ :=
  let invdet : ℚ := round_to p (round_to 53 (round_to 53 (2 * round_to 53 M_PI)
    / round_to p (round_to p (Lx * Lz) * Lz)))
  ⟨round_to p (round_to p (invdet * Ly) * Lz), round_to p (round_to p (invdet * Lx) * Lz),
    round_to p (round_to p (invdet * Lx) * Ly)⟩

/-- The block "Set up the k-vectors" (lines 216-231 and 569-583) in rounded
arithmetic: the wave number `j.x` is an `int` converted to `Scalar`, and each
component stored is one `Scalar` product. -/
def Rounded.set_up_kvec (p : Nat) (Nx Ny Nz : Int) (Lx Ly Lz : ℚ)
    (h_kvec : GPUArray (Scalar3 ℚ)) : GPUArray (Scalar3 ℚ) :=
  forUp 0 Nx (fun ix h =>
    forUp 0 Ny (fun iy h =>
      forUp 0 Nz (fun iz h =>
        store3 h (iz + Nz * (iy + Ny * ix))
          (round_to p (round_to p (wave_number Nx ix)
            * (Rounded.inverse_lattice_vector p Lx Ly Lz).x))
          (round_to p (round_to p (wave_number Ny iy)
            * (Rounded.inverse_lattice_vector p Lx Ly Lz).y))
          (round_to p (round_to p (wave_number Nz iz)
            * (Rounded.inverse_lattice_vector p Lx Ly Lz).z))) h) h) h_kvec

/-- The k-vector table `setParams` builds (lines 152 and 210-231) in rounded
arithmetic: the block run on a new buffer, with `Lx = box.xhi - box.xlo` a `Scalar`
subtraction. -/
def Rounded.setParams_kvec (p : Nat) (box : BoxDim ℚ) (Nx Ny Nz : Int) :
    GPUArray (Scalar3 ℚ) :=
  let Lx := round_to p (box.xhi - box.xlo)
  let Ly := round_to p (box.yhi - box.ylo)
  let Lz := round_to p (box.zhi - box.zlo)
  Rounded.set_up_kvec p Nx Ny Nz Lx Ly Lz (GPUArray.alloc ⟨0, 0, 0⟩ (Nx * Ny * Nz))

end RoundedTables

section RoundedStencil

/-- The normalised position `posi.x` of `assign_charges_to_grid` (lines 726-737) and
`calculate_forces` (lines 861-872) in rounded arithmetic: `box_dx = Lx /
((Scalar)m_Nx)`, `posi.x += Lx / 2.0f`, `posi.x /= box_dx`, five `Scalar`
operations. -/
def Rounded.grid_position (p : Nat) (x L : ℚ) (N : Int) : ℚ :=
  let box_dx := round_to p (L / round_to p (N : ℚ))
  let posi_x := round_to p (x + round_to p (L / 2))
  round_to p (posi_x / box_dx)

/-- The anchor `nxi = (int)(posi.x + shift)` in rounded arithmetic: the sum is a
`Scalar`, which the conversion truncates. -/
def Rounded.stencil_anchor (p : Nat) (m_order : Int) (pos : ℚ) : Int :=
  ctrunc (round_to p (pos + stencil_shift m_order))

/-- The polynomial argument `dx = shiftone+(Scalar)nxi-posi.x` in rounded arithmetic:
a conversion, a `Scalar` sum and a `Scalar` difference. -/
def Rounded.stencil_arg (p : Nat) (m_order : Int) (pos : ℚ) : ℚ :=
  round_to p (round_to p (stencil_shiftone m_order
    + round_to p ((Rounded.stencil_anchor p m_order pos : Int) : ℚ)) - pos)

end RoundedStencil

/-! ## Concrete inputs

Inputs over `ℚ` on which the definitions are evaluated. -/

section Inputs

/-- Rational stand-ins for the functions of `math.h`, for evaluation at `K = ℚ`. -/
def ex_libm : Libm ℚ where
  sin := fun x => x - x ^ 3 / 6
  exp := fun x => 1 + x + x ^ 2 / 2
  log := fun x => x - 1
  sqrt := fun x => (x + 1) / 2
  powr := fun x y => 1 + y * (x - 1)

/-- An environment with `CONSTANT_SIZE = 2048`, `MaxOrder = 7`, `EPS_HOC = 1e-7`. -/
def ex_env : Env ℚ where
  libm := ex_libm
  consts := ⟨2048, 7, 1 / 10000000⟩
  uninit := 0

/-- The cubic box of side `L` centred at the origin. -/
def ex_box (Lx Ly Lz : ℚ) : BoxDim ℚ := ⟨-Lx / 2, Lx / 2, -Ly / 2, Ly / 2, -Lz / 2, Lz / 2⟩

/-- Two opposite unit charges on the x-axis at `-1` and `1`. -/
def ex_arrays : ParticleDataArraysConst ℚ where
  nparticles := 2
  x := fun i => if i = 0 then -1 else 1
  y := fun _ => 0
  z := fun _ => 0
  charge := fun i => if i = 0 then 1 else -1

/-- The two charges in a box of extents `Lx, Ly, Lz`. -/
def ex_pdata (Lx Ly Lz : ℚ) : ParticleData ℚ := ⟨ex_box Lx Ly Lz, ex_arrays⟩

/-- Two equal unit charges in a box of extents `Lx, Ly, Lz`: a system that is not
neutral. -/
def ex_pdata_charged (Lx Ly Lz : ℚ) : ParticleData ℚ :=
  ⟨ex_box Lx Ly Lz, ⟨2, fun i => if i = 0 then -1 else 1, fun _ => 0, fun _ => 0, fun _ => 1⟩⟩

/-- An engine on which `setParams` has not been called: empty buffers, zero
parameters; `changed` is the value of the box-change flag. -/
def ex_self (changed : Bool) : PPPMForceCompute ℚ where
  m_Nx := 0
  m_Ny := 0
  m_Nz := 0
  m_order := 0
  m_kappa := 0
  m_rcut := 0
  m_q := 0
  m_q2 := 0
  m_energy_virial_factor := 0
  m_box_changed := changed
  m_kvec := ⟨0, fun _ => ⟨0, 0, 0⟩⟩
  m_Ex := ⟨0, fun _ => ⟨0, 0⟩⟩
  m_Ey := ⟨0, fun _ => ⟨0, 0⟩⟩
  m_Ez := ⟨0, fun _ => ⟨0, 0⟩⟩
  m_gf_b := ⟨0, fun _ => 0⟩
  m_rho_coeff := ⟨0, fun _ => 0⟩
  m_field := ⟨0, fun _ => ⟨0, 0, 0⟩⟩
  m_fx := ⟨2, fun _ => 0⟩
  m_fy := ⟨2, fun _ => 0⟩
  m_fz := ⟨2, fun _ => 0⟩
  m_pe := ⟨2, fun _ => 0⟩
  m_virial := ⟨2, fun _ => 0⟩
  m_data_location := DataLocation.cpu
  statics :=
    ⟨0, 0, 0, 0, 0, 0, 0, 0, 0, ⟨0, fun _ => ⟨0, 0⟩⟩, ⟨0, fun _ => 0⟩, ⟨0, fun _ => ⟨0, 0, 0⟩⟩⟩
  output := []

/-- An engine with an 8 x 8 x 8 grid, order 4, `kappa = 0.3`, `rcut = 3.0`; `changed`
is the value of the box-change flag. -/
def ex_engine (changed : Bool) : PPPMForceCompute ℚ :=
  { ex_self changed with
    m_Nx := 8, m_Ny := 8, m_Nz := 8, m_order := 4, m_kappa := 3 / 10, m_rcut := 3 }

/-- The scenario of two opposite unit charges in the box of side 10: the outcome of
`setParams(8, 8, 8, 4, 0.3, 3.0)` on a new engine. -/
def ex_configured : Except String Unit × PPPMForceCompute ℚ :=
  setParams ex_env (ex_pdata 10 10 10) 8 8 8 4 (3 / 10) 3 (ex_self false)

/-- The scenario after `computeForces` has run once on the configured engine. -/
def ex_evaluated : PPPMForceCompute ℚ :=
  computeForces ex_env (ex_pdata 10 10 10) 0 ex_configured.2

/-- A stand-in for `backtrace` that reports two symbols. -/
def ex_backtrace (buffer : List Nat) (size : Int) : List Nat × Int :=
  ([4096, 8192] ++ buffer.drop 2, 2)

end Inputs

/-! ## Loops and arrays: general facts -/

section LoopFacts

variable {σ : Type}

theorem loop_zero (body : Int → σ → σ) (step i : Int) (s : σ) :
    loop body step 0 i s = s := rfl

theorem loop_succ (body : Int → σ → σ) (step : Int) (n : Nat) (i : Int) (s : σ) :
    loop body step (n + 1) i s = loop body step n (i + step) (body i s) := rfl

/-- A loop of `m + n` iterations is a loop of `m` followed by a loop of `n`. -/
theorem loop_add (body : Int → σ → σ) (step : Int) (m n : Nat) (i : Int) (s : σ) :
    loop body step (m + n) i s
      = loop body step n (i + m * step) (loop body step m i s) := by
  induction m generalizing i s with
  | zero => simp [loop]
  | succ m ih =>
    rw [Nat.succ_add, loop_succ, ih, loop_succ]
    congr 1
    push_cast
    ring

/-- A property kept by every iteration of a unit-step loop is kept by the loop. -/
theorem loop_invariant (P : σ → Prop) (body : Int → σ → σ) (n : Nat) (lo : Int)
    (hbody : ∀ i, lo ≤ i → i < lo + n → ∀ s, P s → P (body i s)) (s : σ) (hs : P s) :
    P (loop body 1 n lo s) := by
  induction n generalizing lo s with
  | zero => exact hs
  | succ n ih =>
    rw [loop_succ]
    apply ih
    · intro i h1 h2 t ht
      apply hbody i (by omega) (by push_cast; omega) t ht
    · exact hbody lo (le_refl _) (by push_cast; omega) s hs

/-- A property kept by every iteration of a loop with any step is kept by the loop. -/
theorem loop_invariant_all (P : σ → Prop) (body : Int → σ → σ) (step : Int) (n : Nat)
    (lo : Int) (hbody : ∀ i s, P s → P (body i s)) (s : σ) (hs : P s) :
    P (loop body step n lo s) := by
  induction n generalizing lo s with
  | zero => exact hs
  | succ n ih => rw [loop_succ]; exact ih _ _ (hbody lo s hs)

/-- Three phases of a unit-step loop: `Ppre` holds up to iteration `k`, iteration `k`
establishes `Q`, and the later iterations keep `Q`. -/
theorem loop_phase (Ppre Q : σ → Prop) (body : Int → σ → σ) (n : Nat) (lo k : Int)
    (hk : lo ≤ k ∧ k < lo + n)
    (hpre : ∀ i, lo ≤ i → i < k → ∀ s, Ppre s → Ppre (body i s))
    (hat : ∀ s, Ppre s → Q (body k s))
    (hpost : ∀ i, k < i → i < lo + n → ∀ s, Q s → Q (body i s))
    (s : σ) (hs : Ppre s) : Q (loop body 1 n lo s) := by
  obtain ⟨h1, h2⟩ := hk
  have hn : n = (k - lo).toNat + ((n - 1 - (k - lo).toNat) + 1) := by omega
  have hkl : ((k - lo).toNat : Int) = k - lo := Int.toNat_of_nonneg (by omega)
  rw [hn, loop_add, loop_succ]
  have e1 : lo + ((k - lo).toNat : Int) * 1 = k := by rw [hkl]; ring
  rw [e1]
  have hA : Ppre (loop body 1 (k - lo).toNat lo s) := by
    apply loop_invariant Ppre body _ lo _ s hs
    intro i hi1 hi2 t ht
    exact hpre i hi1 (by omega) t ht
  apply loop_invariant Q body _ (k + 1) _ _ (hat _ hA)
  intro i hi1 hi2 t ht
  exact hpost i (by omega) (by omega) t ht

/-- A property kept by every iteration is kept by `for (i = lo; i < hi; i++)`. -/
theorem forUp_invariant (P : σ → Prop) (body : Int → σ → σ) (lo hi : Int)
    (hbody : ∀ i, lo ≤ i → i < hi → ∀ s, P s → P (body i s)) (s : σ) (hs : P s) :
    P (forUp lo hi body s) := by
  unfold forUp
  apply loop_invariant P body _ lo _ s hs
  intro i h1 h2 t ht
  exact hbody i h1 (by omega) t ht

/-- Three phases of `for (i = lo; i < hi; i++)` around the iteration `k`. -/
theorem forUp_phase (Ppre Q : σ → Prop) (body : Int → σ → σ) (lo hi k : Int)
    (hk : lo ≤ k ∧ k < hi)
    (hpre : ∀ i, lo ≤ i → i < k → ∀ s, Ppre s → Ppre (body i s))
    (hat : ∀ s, Ppre s → Q (body k s))
    (hpost : ∀ i, k < i → i < hi → ∀ s, Q s → Q (body i s))
    (s : σ) (hs : Ppre s) : Q (forUp lo hi body s) := by
  unfold forUp
  apply loop_phase Ppre Q body _ lo k ⟨hk.1, by omega⟩ hpre hat _ s hs
  intro i h1 h2 t ht
  exact hpost i h1 (by omega) t ht

/-- A property kept by every iteration is kept by `for (i = lo; i <= hi; i++)`. -/
theorem forUpTo_invariant (P : σ → Prop) (body : Int → σ → σ) (lo hi : Int)
    (hbody : ∀ i, lo ≤ i → i ≤ hi → ∀ s, P s → P (body i s)) (s : σ) (hs : P s) :
    P (forUpTo lo hi body s) := by
  unfold forUpTo
  apply loop_invariant P body _ lo _ s hs
  intro i h1 h2 t ht
  exact hbody i h1 (by omega) t ht

/-- A property kept by every iteration of a loop with any step, the iterations being
known by their number. -/
theorem loop_invariant_step (P : σ → Prop) (body : Int → σ → σ) (step : Int) (n : Nat)
    (lo : Int) (hbody : ∀ k : Nat, k < n → ∀ s, P s → P (body (lo + k * step) s))
    (s : σ) (hs : P s) : P (loop body step n lo s) := by
  induction n generalizing lo s with
  | zero => exact hs
  | succ n ih =>
    rw [loop_succ]
    apply ih
    · intro k hk t ht
      have := hbody (k + 1) (by omega) t ht
      have e : lo + ((k + 1 : Nat) : Int) * step = lo + step + (k : Int) * step := by
        push_cast; ring
      rw [e] at this
      exact this
    · have := hbody 0 (by omega) s hs
      simpa using this

end LoopFacts

/-! ## Arrays and the table-building loops: frame facts -/

section Frames

variable {K : Type} [LinearOrderedField K] [FloorRing K]

theorem GPUArray.set_num_elements {α : Type} (a : GPUArray α) (i : Int) (v : α) :
    (a.set i v).num_elements = a.num_elements := rfl

theorem GPUArray.set_data {α : Type} (a : GPUArray α) (i : Int) (v : α) (j : Int) :
    (a.set i v).data j = if j = i then v else a.data j := rfl

theorem GPUArray.eq_iff {α : Type} (a b : GPUArray α) :
    a = b ↔ a.num_elements = b.num_elements ∧ ∀ p, a.data p = b.data p := by
  constructor
  · rintro rfl; exact ⟨rfl, fun _ => rfl⟩
  · rintro ⟨h1, h2⟩
    cases a; cases b
    simp only [GPUArray.mk.injEq]
    exact ⟨h1, funext h2⟩

theorem gridFill_num_elements {α : Type} (A B C : Int) (idx : Int → Int → Int → Int)
    (val : Int → Int → Int → α) (h : GPUArray α) :
    (gridFill A B C idx val h).num_elements = h.num_elements := by
  unfold gridFill
  apply forUp_invariant (fun t : GPUArray α => t.num_elements = h.num_elements) _ _ _ _ _ rfl
  intro a _ _ t ht
  apply forUp_invariant (fun t : GPUArray α => t.num_elements = h.num_elements) _ _ _ _ _ ht
  intro b _ _ t ht
  apply forUp_invariant (fun t : GPUArray α => t.num_elements = h.num_elements) _ _ _ _ _ ht
  intro c _ _ t ht
  exact ht

/-- A nest of stores keeps a property of one cell that every store in range keeps. -/
theorem gridFill_keeps {α : Type} (A B C : Int) (idx : Int → Int → Int → Int)
    (val : Int → Int → Int → α) (p : Int) (Q : α → Prop)
    (hQ : ∀ a b c, 0 ≤ a → a < A → 0 ≤ b → b < B → 0 ≤ c → c < C →
      idx a b c = p → Q (val a b c))
    (h : GPUArray α) (hh : Q (h.data p)) : Q ((gridFill A B C idx val h).data p) := by
  unfold gridFill
  apply forUp_invariant (fun t : GPUArray α => Q (t.data p)) _ _ _ _ _ hh
  intro a ha1 ha2 t ht
  apply forUp_invariant (fun t : GPUArray α => Q (t.data p)) _ _ _ _ _ ht
  intro b hb1 hb2 t ht
  apply forUp_invariant (fun t : GPUArray α => Q (t.data p)) _ _ _ _ _ ht
  intro c hc1 hc2 t ht
  show Q ((t.set (idx a b c) (val a b c)).data p)
  rw [GPUArray.set_data]
  split_ifs with e
  · exact hQ a b c ha1 ha2 hb1 hb2 hc1 hc2 e.symm
  · exact ht

/-- A cell no store in range addresses keeps its value. -/
theorem gridFill_frame {α : Type} (A B C : Int) (idx : Int → Int → Int → Int)
    (val : Int → Int → Int → α) (p : Int)
    (hp : ∀ a b c, 0 ≤ a → a < A → 0 ≤ b → b < B → 0 ≤ c → c < C → idx a b c ≠ p)
    (h : GPUArray α) : (gridFill A B C idx val h).data p = h.data p := by
  apply gridFill_keeps A B C idx val p (fun v => v = h.data p) _ h rfl
  intro a b c h1 h2 h3 h4 h5 h6 e
  exact absurd e (hp a b c h1 h2 h3 h4 h5 h6)

/-- A cell addressed in range holds the value stored there, provided every store in
range to the same cell stores the same value. -/
theorem gridFill_entry {α : Type} (A B C : Int) (idx : Int → Int → Int → Int)
    (val : Int → Int → Int → α) (x y z : Int)
    (hx : 0 ≤ x ∧ x < A) (hy : 0 ≤ y ∧ y < B) (hz : 0 ≤ z ∧ z < C)
    (hsame : ∀ a b c, 0 ≤ a → a < A → 0 ≤ b → b < B → 0 ≤ c → c < C →
      idx a b c = idx x y z → val a b c = val x y z)
    (h : GPUArray α) : (gridFill A B C idx val h).data (idx x y z) = val x y z := by
  have hset : ∀ (a b c : Int), 0 ≤ a → a < A → 0 ≤ b → b < B → 0 ≤ c → c < C →
      ∀ t : GPUArray α, t.data (idx x y z) = val x y z →
        (t.set (idx a b c) (val a b c)).data (idx x y z) = val x y z := by
    intro a b c h1 h2 h3 h4 h5 h6 t ht
    rw [GPUArray.set_data]
    split_ifs with e
    · exact hsame a b c h1 h2 h3 h4 h5 h6 e.symm
    · exact ht
  unfold gridFill
  apply forUp_phase (fun _ => True) (fun t : GPUArray α => t.data (idx x y z) = val x y z)
    _ 0 A x hx (fun _ _ _ _ _ => trivial) _ _ h trivial
  · intro t _
    apply forUp_phase (fun _ => True) (fun t : GPUArray α => t.data (idx x y z) = val x y z)
      _ 0 B y hy (fun _ _ _ _ _ => trivial) _ _ t trivial
    · intro t _
      apply forUp_phase (fun _ => True) (fun t : GPUArray α => t.data (idx x y z) = val x y z)
        _ 0 C z hz (fun _ _ _ _ _ => trivial) _ _ t trivial
      · intro t _
        show (t.set (idx x y z) (val x y z)).data (idx x y z) = val x y z
        rw [GPUArray.set_data, if_pos rfl]
      · intro c hc1 hc2 t ht
        exact hset x y c hx.1 hx.2 hy.1 hy.2 (by omega) hc2 t ht
    · intro b hb1 hb2 t ht
      apply forUp_invariant (fun t : GPUArray α => t.data (idx x y z) = val x y z) _ _ _ _ _ ht
      intro c hc1 hc2 t ht
      exact hset x b c hx.1 hx.2 (by omega) hb2 hc1 hc2 t ht
  · intro a ha1 ha2 t ht
    apply forUp_invariant (fun t : GPUArray α => t.data (idx x y z) = val x y z) _ _ _ _ _ ht
    intro b hb1 hb2 t ht
    apply forUp_invariant (fun t : GPUArray α => t.data (idx x y z) = val x y z) _ _ _ _ _ ht
    intro c hc1 hc2 t ht
    exact hset a b c (by omega) ha2 hb1 hb2 hc1 hc2 t ht

/-- Filling twice is filling once, when stores to one cell agree. -/
theorem gridFill_idem {α : Type} (A B C : Int) (idx : Int → Int → Int → Int)
    (val : Int → Int → Int → α)
    (hsame : ∀ a b c a' b' c', 0 ≤ a → a < A → 0 ≤ b → b < B → 0 ≤ c → c < C →
      0 ≤ a' → a' < A → 0 ≤ b' → b' < B → 0 ≤ c' → c' < C →
      idx a b c = idx a' b' c' → val a b c = val a' b' c')
    (h : GPUArray α) :
    gridFill A B C idx val (gridFill A B C idx val h) = gridFill A B C idx val h := by
  rw [GPUArray.eq_iff]
  refine ⟨gridFill_num_elements _ _ _ _ _ _, fun p => ?_⟩
  by_cases hp : ∃ a b c, (0 ≤ a ∧ a < A) ∧ (0 ≤ b ∧ b < B) ∧ (0 ≤ c ∧ c < C) ∧ idx a b c = p
  · obtain ⟨x, y, z, hx, hy, hz, rfl⟩ := hp
    have hs : ∀ a b c, 0 ≤ a → a < A → 0 ≤ b → b < B → 0 ≤ c → c < C →
        idx a b c = idx x y z → val a b c = val x y z :=
      fun a b c h1 h2 h3 h4 h5 h6 e =>
        hsame a b c x y z h1 h2 h3 h4 h5 h6 hx.1 hx.2 hy.1 hy.2 hz.1 hz.2 e
    rw [gridFill_entry A B C idx val x y z hx hy hz hs, gridFill_entry A B C idx val x y z hx hy hz hs]
  · apply gridFill_frame
    intro a b c h1 h2 h3 h4 h5 h6 e
    exact hp ⟨a, b, c, ⟨h1, h2⟩, ⟨h3, h4⟩, ⟨h5, h6⟩, e⟩

/-- The flattened index `z + Nz*(y + Ny*x)` determines `x`, `y`, `z` in range. -/
theorem flat_index_inj (Ny Nz x y z x' y' z' : Int)
    (hy : 0 ≤ y ∧ y < Ny) (hz : 0 ≤ z ∧ z < Nz) (hy' : 0 ≤ y' ∧ y' < Ny)
    (hz' : 0 ≤ z' ∧ z' < Nz)
    (h : z + Nz * (y + Ny * x) = z' + Nz * (y' + Ny * x')) : x = x' ∧ y = y' ∧ z = z' := by
  have hzz : z = z' := by
    have h1 : (z + Nz * (y + Ny * x)) % Nz = z := by
      rw [Int.add_mul_emod_self_left]; exact Int.emod_eq_of_lt hz.1 hz.2
    have h2 : (z' + Nz * (y' + Ny * x')) % Nz = z' := by
      rw [Int.add_mul_emod_self_left]; exact Int.emod_eq_of_lt hz'.1 hz'.2
    rw [← h1, ← h2, h]
  subst hzz
  have hNz : Nz ≠ 0 := by omega
  have h3 : y + Ny * x = y' + Ny * x' := by
    have := add_left_cancel h
    exact mul_left_cancel₀ hNz this
  have hyy : y = y' := by
    have h1 : (y + Ny * x) % Ny = y := by
      rw [Int.add_mul_emod_self_left]; exact Int.emod_eq_of_lt hy.1 hy.2
    have h2 : (y' + Ny * x') % Ny = y' := by
      rw [Int.add_mul_emod_self_left]; exact Int.emod_eq_of_lt hy'.1 hy'.2
    rw [← h1, ← h2, h3]
  subst hyy
  have hNy : Ny ≠ 0 := by omega
  exact ⟨mul_left_cancel₀ hNy (add_left_cancel h3), rfl, rfl⟩

/-- The three component assignments amount to storing the whole vector. -/
theorem store3_eq (h : GPUArray (Scalar3 K)) (i : Int) (vx vy vz : K) :
    store3 h i vx vy vz = h.set i ⟨vx, vy, vz⟩ := by
  rw [GPUArray.eq_iff]
  refine ⟨rfl, fun p => ?_⟩
  simp only [store3, GPUArray.set_data]
  split_ifs <;> simp_all

theorem setParams_store_order (Nx Ny Nz order : Int) (kappa rcut : K)
    (self : PPPMForceCompute K) :
    (setParams_store Nx Ny Nz order kappa rcut self).m_order = order := by
  unfold setParams_store
  simp only []
  split_ifs <;> rfl

/-- When the order passes both tests, `setParams` returns and leaves the state built
by its three later blocks. -/
theorem setParams_of_order_ok (env : Env K) (pdata : ParticleData K) (Nx Ny Nz order : Int)
    (kappa rcut : K) (self : PPPMForceCompute K)
    (h1 : ¬ cint (order * cint (2 * order + 1)) > env.consts.CONSTANT_SIZE)
    (h2 : ¬ order > env.consts.MaxOrder) :
    setParams env pdata Nx Ny Nz order kappa rcut self
      = (Except.ok (), setParams_tables env pdata Nx Ny Nz order kappa
          (setParams_diagnostics env pdata Nx Ny Nz
            (setParams_allocate Nx Ny Nz order
              (setParams_store Nx Ny Nz order kappa rcut self)))) := by
  unfold setParams
  simp only [setParams_store_order]
  rw [if_neg h1, if_neg h2]

/-- When the order fails a test, `setParams` throws and leaves the state reached
after storing the arguments, with one more line of output. -/
theorem setParams_of_order_bad (env : Env K) (pdata : ParticleData K) (Nx Ny Nz order : Int)
    (kappa rcut : K) (self : PPPMForceCompute K)
    (h : cint (order * cint (2 * order + 1)) > env.consts.CONSTANT_SIZE
      ∨ order > env.consts.MaxOrder) :
    ∃ msg, setParams env pdata Nx Ny Nz order kappa rcut self
      = (Except.error "Error initializing PPPMComputeGPU",
          { setParams_store Nx Ny Nz order kappa rcut self with
            output := (setParams_store Nx Ny Nz order kappa rcut self).output ++ [msg] }) := by
  unfold setParams
  simp only [setParams_store_order]
  by_cases h1 : cint (order * cint (2 * order + 1)) > env.consts.CONSTANT_SIZE
  · rw [if_pos h1]; exact ⟨_, rfl⟩
  · rw [if_neg h1, if_pos (h.resolve_left h1)]; exact ⟨_, rfl⟩

/-- Storing the arguments touches no buffer. -/
theorem setParams_store_buffers (Nx Ny Nz order : Int) (kappa rcut : K)
    (self : PPPMForceCompute K) :
    let s := setParams_store Nx Ny Nz order kappa rcut self
    s.statics.m_rho_real_space = self.statics.m_rho_real_space
      ∧ s.statics.m_green_hat = self.statics.m_green_hat
      ∧ s.statics.m_vg = self.statics.m_vg
      ∧ s.m_kvec = self.m_kvec ∧ s.m_Ex = self.m_Ex ∧ s.m_Ey = self.m_Ey ∧ s.m_Ez = self.m_Ez
      ∧ s.m_field = self.m_field ∧ s.m_gf_b = self.m_gf_b ∧ s.m_rho_coeff = self.m_rho_coeff := by
  unfold setParams_store
  simp only []
  split_ifs <;> simp


/-- What the diagnostics block writes: the net-charge warning when the net charge is
not zero, and exactly one of the two lines about the RMS error. -/
theorem setParams_diagnostics_warnings (env : Env K) (pdata : ParticleData K) (Nx Ny Nz : Int)
    (self : PPPMForceCompute K) :
    let s := setParams_diagnostics env pdata Nx Ny Nz self
    (|s.m_q| > 0 → Message.notNeutral s.m_q ∈ s.output)
      ∧ ∃ e : RmsEstimate K, (e.RMS_error > 1 / 10
            ∧ Message.rmsTooHigh e.RMS_error e.lpr e.spr ∈ s.output)
          ∨ (¬ e.RMS_error > 1 / 10 ∧ Message.rmsError e.RMS_error ∈ s.output) := by
  intro s
  constructor
  · intro h
    have : s.output = (self.output ++ charge_lines s.m_q) ++ [rms_line _] := rfl
    rw [this]
    simp [charge_lines, h]
  · refine ⟨rms_estimate env pdata Nx Ny Nz self.m_order self.m_kappa self.m_rcut
      (system_charge pdata.arrays).2, ?_⟩
    have : s.output = (self.output ++ charge_lines s.m_q)
        ++ [rms_line (rms_estimate env pdata Nx Ny Nz self.m_order self.m_kappa self.m_rcut
          (system_charge pdata.arrays).2)] := rfl
    rw [this]
    by_cases h : (rms_estimate env pdata Nx Ny Nz self.m_order self.m_kappa self.m_rcut
      (system_charge pdata.arrays).2).RMS_error > 1 / 10
    · left
      refine ⟨h, ?_⟩
      rw [rms_line, if_pos h]
      simp
    · right
      refine ⟨h, ?_⟩
      rw [rms_line, if_neg h]
      simp

/-- The k-vector block is a nest of stores. -/
theorem set_up_kvec_eq_gridFill (Nx Ny Nz : Int) (Lx Ly Lz : K) (h : GPUArray (Scalar3 K)) :
    set_up_kvec Nx Ny Nz Lx Ly Lz h
      = gridFill Nx Ny Nz (fun ix iy iz => iz + Nz * (iy + Ny * ix))
          (fun ix iy iz =>
            (⟨wave_number Nx ix * (inverse_lattice_vector Lx Ly Lz).x,
              wave_number Ny iy * (inverse_lattice_vector Lx Ly Lz).y,
              wave_number Nz iz * (inverse_lattice_vector Lx Ly Lz).z⟩ : Scalar3 K)) h := by
  simp only [set_up_kvec, gridFill, store3_eq]

/-- The k-vector the block leaves at the grid point `(ix, iy, iz)`. -/
theorem set_up_kvec_entry (Nx Ny Nz : Int) (Lx Ly Lz : K) (h : GPUArray (Scalar3 K))
    (ix iy iz : Int) (hx : 0 ≤ ix ∧ ix < Nx) (hy : 0 ≤ iy ∧ iy < Ny) (hz : 0 ≤ iz ∧ iz < Nz) :
    (set_up_kvec Nx Ny Nz Lx Ly Lz h).data (iz + Nz * (iy + Ny * ix))
      = ⟨wave_number Nx ix * (inverse_lattice_vector Lx Ly Lz).x,
          wave_number Ny iy * (inverse_lattice_vector Lx Ly Lz).y,
          wave_number Nz iz * (inverse_lattice_vector Lx Ly Lz).z⟩ := by
  rw [set_up_kvec_eq_gridFill]
  apply gridFill_entry Nx Ny Nz (fun ix iy iz => iz + Nz * (iy + Ny * ix)) _ ix iy iz hx hy hz
  intro a b c ha1 ha2 hb1 hb2 hc1 hc2 e
  obtain ⟨rfl, rfl, rfl⟩ := flat_index_inj Ny Nz a b c ix iy iz ⟨hb1, hb2⟩ ⟨hc1, hc2⟩ hy hz e
  rfl

theorem M_PI_ne_zero : (M_PI : K) ≠ 0 := by
  unfold M_PI
  norm_num

/-- For positive extents the inverse lattice vector, as the code computes it,
determines the extents. -/
theorem inverse_lattice_vector_inj (Lx Ly Lz Lx' Ly' Lz' : K)
    (hx : 0 < Lx) (hy : 0 < Ly) (hz : 0 < Lz) (hx' : 0 < Lx') (hy' : 0 < Ly') (hz' : 0 < Lz')
    (h1 : (inverse_lattice_vector Lx' Ly' Lz').x = (inverse_lattice_vector Lx Ly Lz).x)
    (h2 : (inverse_lattice_vector Lx' Ly' Lz').y = (inverse_lattice_vector Lx Ly Lz).y)
    (h3 : (inverse_lattice_vector Lx' Ly' Lz').z = (inverse_lattice_vector Lx Ly Lz).z) :
    Lx' = Lx ∧ Ly' = Ly ∧ Lz' = Lz := by
  have hpi : (M_PI : K) ≠ 0 := M_PI_ne_zero
  have fz : ∀ a b c : K, 0 < a → 0 < b → 0 < c →
      c = 2 * M_PI / (inverse_lattice_vector a b c).y := by
    intro a b c ha hb hc
    have ha' := ha.ne'
    have hc' := hc.ne'
    simp only [inverse_lattice_vector]
    field_simp
    ring
  have fy : ∀ a b c : K, 0 < a → 0 < b → 0 < c →
      b = (inverse_lattice_vector a b c).z * c * c / (2 * M_PI) := by
    intro a b c ha hb hc
    have ha' := ha.ne'
    have hc' := hc.ne'
    simp only [inverse_lattice_vector]
    field_simp
    ring
  have fx : ∀ a b c : K, 0 < a → 0 < b → 0 < c →
      a = 2 * M_PI * b / c / (inverse_lattice_vector a b c).x := by
    intro a b c ha hb hc
    have ha' := ha.ne'
    have hb' := hb.ne'
    have hc' := hc.ne'
    simp only [inverse_lattice_vector]
    field_simp
    ring
  have ez : Lz' = Lz := by
    rw [fz Lx' Ly' Lz' hx' hy' hz', h2, ← fz Lx Ly Lz hx hy hz]
  have ey : Ly' = Ly := by
    rw [fy Lx' Ly' Lz' hx' hy' hz', h3, ez, ← fy Lx Ly Lz hx hy hz]
  have ex : Lx' = Lx := by
    rw [fx Lx' Ly' Lz' hx' hy' hz', h1, ez, ey, ← fx Lx Ly Lz hx hy hz]
  exact ⟨ex, ey, ez⟩

theorem wave_number_one (N : Int) (hN : 2 ≤ N) : (wave_number N 1 : K) = 1 := by
  unfold wave_number
  have : ¬ (1 > Int.tdiv N 2) := by
    have : 1 ≤ Int.tdiv N 2 := by
      rw [Int.tdiv_eq_ediv (by omega) (by omega)]
      omega
    omega
  rw [if_neg this]
  simp

theorem wave_number_zero (N : Int) (hN : 2 ≤ N) : (wave_number N 0 : K) = 0 := by
  unfold wave_number
  have : ¬ (0 > Int.tdiv N 2) := by
    have : 1 ≤ Int.tdiv N 2 := by
      rw [Int.tdiv_eq_ediv (by omega) (by omega)]
      omega
    omega
  rw [if_neg this]
  simp

/-- Two k-vector tables built on one grid under two boxes of different positive
extents differ at one of the grid points `(1,0,0)`, `(0,1,0)`, `(0,0,1)`. -/
theorem set_up_kvec_differs (Nx Ny Nz : Int) (Lx Ly Lz Lx' Ly' Lz' : K)
    (h h' : GPUArray (Scalar3 K)) (hNx : 2 ≤ Nx) (hNy : 2 ≤ Ny) (hNz : 2 ≤ Nz)
    (hx : 0 < Lx) (hy : 0 < Ly) (hz : 0 < Lz) (hx' : 0 < Lx') (hy' : 0 < Ly') (hz' : 0 < Lz')
    (hne : ¬ (Lx' = Lx ∧ Ly' = Ly ∧ Lz' = Lz)) :
    ∃ ix iy iz, (0 ≤ ix ∧ ix < Nx) ∧ (0 ≤ iy ∧ iy < Ny) ∧ (0 ≤ iz ∧ iz < Nz)
      ∧ (set_up_kvec Nx Ny Nz Lx' Ly' Lz' h').data (iz + Nz * (iy + Ny * ix))
        ≠ (set_up_kvec Nx Ny Nz Lx Ly Lz h).data (iz + Nz * (iy + Ny * ix)) := by
  by_contra hall
  push_neg at hall
  apply hne
  have e100 := hall 1 0 0 ⟨by omega, by omega⟩ ⟨by omega, by omega⟩ ⟨by omega, by omega⟩
  have e010 := hall 0 1 0 ⟨by omega, by omega⟩ ⟨by omega, by omega⟩ ⟨by omega, by omega⟩
  have e001 := hall 0 0 1 ⟨by omega, by omega⟩ ⟨by omega, by omega⟩ ⟨by omega, by omega⟩
  rw [set_up_kvec_entry Nx Ny Nz _ _ _ _ 1 0 0 ⟨by omega, by omega⟩ ⟨by omega, by omega⟩
      ⟨by omega, by omega⟩,
    set_up_kvec_entry Nx Ny Nz _ _ _ _ 1 0 0 ⟨by omega, by omega⟩ ⟨by omega, by omega⟩
      ⟨by omega, by omega⟩] at e100
  rw [set_up_kvec_entry Nx Ny Nz _ _ _ _ 0 1 0 ⟨by omega, by omega⟩ ⟨by omega, by omega⟩
      ⟨by omega, by omega⟩,
    set_up_kvec_entry Nx Ny Nz _ _ _ _ 0 1 0 ⟨by omega, by omega⟩ ⟨by omega, by omega⟩
      ⟨by omega, by omega⟩] at e010
  rw [set_up_kvec_entry Nx Ny Nz _ _ _ _ 0 0 1 ⟨by omega, by omega⟩ ⟨by omega, by omega⟩
      ⟨by omega, by omega⟩,
    set_up_kvec_entry Nx Ny Nz _ _ _ _ 0 0 1 ⟨by omega, by omega⟩ ⟨by omega, by omega⟩
      ⟨by omega, by omega⟩] at e001
  simp only [Scalar3.mk.injEq, wave_number_one Nx hNx, wave_number_one Ny hNy,
    wave_number_one Nz hNz, one_mul] at e100 e010 e001
  exact inverse_lattice_vector_inj Lx Ly Lz Lx' Ly' Lz' hx hy hz hx' hy' hz'
    e100.1 e010.2.1 e001.2.2

/-- With the flag set, `computeForces` leaves the k-vector table the k-vector block
builds for the current box. -/
theorem computeForces_kvec_of_changed (env : Env K) (pdata : ParticleData K) (timestep : Nat)
    (self : PPPMForceCompute K) (hflag : self.m_box_changed = true) :
    (computeForces env pdata timestep self).m_kvec
      = set_up_kvec self.m_Nx self.m_Ny self.m_Nz (pdata.box.xhi - pdata.box.xlo)
          (pdata.box.yhi - pdata.box.ylo) (pdata.box.zhi - pdata.box.zlo) self.m_kvec := by
  unfold computeForces computeForces_rebuild
  simp only [hflag, if_true]
  rfl

/-- When the order passes both tests, `setParams` leaves the k-vector table the
k-vector block builds for the current box on a new buffer. -/
theorem setParams_kvec (env : Env K) (pdata : ParticleData K) (Nx Ny Nz order : Int)
    (kappa rcut : K) (self : PPPMForceCompute K)
    (h1 : ¬ cint (order * cint (2 * order + 1)) > env.consts.CONSTANT_SIZE)
    (h2 : ¬ order > env.consts.MaxOrder) :
    (setParams env pdata Nx Ny Nz order kappa rcut self).2.m_kvec
      = set_up_kvec Nx Ny Nz (pdata.box.xhi - pdata.box.xlo)
          (pdata.box.yhi - pdata.box.ylo) (pdata.box.zhi - pdata.box.zlo)
          (GPUArray.alloc ⟨0, 0, 0⟩ (Nx * Ny * Nz)) := by
  rw [setParams_of_order_ok env pdata Nx Ny Nz order kappa rcut self h1 h2]
  rfl

/-- What `memset0` leaves: the cleared value inside `[0, n)`, the old value outside. -/
theorem memset0_data {α : Type} (zero : α) (n : Int) (a : GPUArray α) (p : Int) :
    (memset0 zero n a).data p = if 0 ≤ p ∧ p < n then zero else a.data p := by
  unfold memset0
  split_ifs with h
  · apply forUp_phase (fun _ => True) (fun t : GPUArray α => t.data p = zero) _ 0 n p h
      (fun _ _ _ _ _ => trivial) _ _ a trivial
    · intro t _
      rw [GPUArray.set_data, if_pos rfl]
    · intro i h1 h2 t ht
      rw [GPUArray.set_data, if_neg (by omega)]
      exact ht
  · apply forUp_invariant (fun t : GPUArray α => t.data p = a.data p) _ 0 n _ a rfl
    intro i h1 h2 t ht
    rw [GPUArray.set_data, if_neg (by omega)]
    exact ht

theorem memset0_num_elements {α : Type} (zero : α) (n : Int) (a : GPUArray α) :
    (memset0 zero n a).num_elements = a.num_elements := by
  unfold memset0
  apply forUp_invariant (fun t : GPUArray α => t.num_elements = a.num_elements) _ 0 n _ a rfl
  intro i h1 h2 t ht
  exact ht

/-- Clearing depends on the old contents only outside `[0, n)`. -/
theorem memset0_congr {α : Type} (zero : α) (n : Int) (a b : GPUArray α)
    (hn : a.num_elements = b.num_elements)
    (hd : ∀ p, ¬ (0 ≤ p ∧ p < n) → a.data p = b.data p) :
    memset0 zero n a = memset0 zero n b := by
  rw [GPUArray.eq_iff]
  refine ⟨by rw [memset0_num_elements, memset0_num_elements, hn], fun p => ?_⟩
  rw [memset0_data, memset0_data]
  split_ifs with h
  · rfl
  · exact hd p h

theorem isAccum_add_re (idx : Int) (v : K) : IsAccum (fun h => add_re h idx v) := by
  refine ⟨fun p => if p = idx then v else 0, fun r => ⟨rfl, fun p => ?_⟩⟩
  simp only [add_re, GPUArray.set_data]
  split_ifs with e
  · rw [e]
  · simp

theorem isAccum_comp (T U : GPUArray (cufftComplex K) → GPUArray (cufftComplex K))
    (hT : IsAccum T) (hU : IsAccum U) : IsAccum (fun h => U (T h)) := by
  obtain ⟨c, hc⟩ := hT
  obtain ⟨d, hd⟩ := hU
  refine ⟨fun p => c p + d p, fun r => ⟨?_, fun p => ?_⟩⟩
  · rw [(hd (T r)).1, (hc r).1]
  · rw [(hd (T r)).2 p, (hc r).2 p]
    simp only [add_assoc]

theorem isAccum_id : IsAccum (fun h : GPUArray (cufftComplex K) => h) :=
  ⟨fun _ => 0, fun r => ⟨rfl, fun p => by simp⟩⟩

theorem isAccum_loop (body : Int → GPUArray (cufftComplex K) → GPUArray (cufftComplex K))
    (step : Int) (n : Nat) (lo : Int) (hbody : ∀ i, IsAccum (body i)) :
    IsAccum (loop body step n lo) := by
  induction n generalizing lo with
  | zero => exact isAccum_id
  | succ n ih =>
    have := isAccum_comp (body lo) (loop body step n (lo + step)) (hbody lo) (ih (lo + step))
    exact this

/-- The particle loop body of the spreader only adds to real parts. -/
theorem isAccum_assign_particle (pdata : ParticleData K) (Nx Ny Nz order : Int)
    (coeff : GPUArray K) (i : Int) :
    IsAccum (assign_particle pdata Nx Ny Nz order coeff i) := by
  unfold assign_particle forUpTo
  simp only []
  apply isAccum_loop
  intro n
  apply isAccum_loop
  intro m
  apply isAccum_loop
  intro l
  exact isAccum_add_re _ _

/-- One step of `combined_green_e` at index `i`, seen from cell `p`. -/
theorem combined_green_e_step_data (NNN : Int) (kvec : GPUArray (Scalar3 K))
    (green : GPUArray K) (i p : Int) (g : GreenE K) :
    (combined_green_e_step NNN kvec green i g).rho.data p
        = (if p = i then ⟨(g.rho.data i).x * (green.data i / (NNN : K)),
            (g.rho.data i).y * (green.data i / (NNN : K))⟩ else g.rho.data p)
      ∧ (combined_green_e_step NNN kvec green i g).Ex.data p
        = (if p = i then ⟨(kvec.data i).x * ((g.rho.data i).y * (green.data i / (NNN : K))),
            -(kvec.data i).x * ((g.rho.data i).x * (green.data i / (NNN : K)))⟩
          else g.Ex.data p)
      ∧ (combined_green_e_step NNN kvec green i g).Ey.data p
        = (if p = i then ⟨(kvec.data i).y * ((g.rho.data i).y * (green.data i / (NNN : K))),
            -(kvec.data i).y * ((g.rho.data i).x * (green.data i / (NNN : K)))⟩
          else g.Ey.data p)
      ∧ (combined_green_e_step NNN kvec green i g).Ez.data p
        = (if p = i then ⟨(kvec.data i).z * ((g.rho.data i).y * (green.data i / (NNN : K))),
            -(kvec.data i).z * ((g.rho.data i).x * (green.data i / (NNN : K)))⟩
          else g.Ez.data p) := by
  by_cases h : p = i
  · subst h
    simp [combined_green_e_step, GPUArray.set_data]
  · simp [combined_green_e_step, GPUArray.set_data, h]

theorem combined_green_e_step_num (NNN : Int) (kvec : GPUArray (Scalar3 K))
    (green : GPUArray K) (i : Int) (g : GreenE K) :
    (combined_green_e_step NNN kvec green i g).rho.num_elements = g.rho.num_elements
      ∧ (combined_green_e_step NNN kvec green i g).Ex.num_elements = g.Ex.num_elements
      ∧ (combined_green_e_step NNN kvec green i g).Ey.num_elements = g.Ey.num_elements
      ∧ (combined_green_e_step NNN kvec green i g).Ez.num_elements = g.Ez.num_elements :=
  ⟨rfl, rfl, rfl, rfl⟩

/-- The loop of `combined_green_e` keeps the element counts. -/
theorem combined_loop_num (NNN : Int) (kvec : GPUArray (Scalar3 K)) (green : GPUArray K)
    (g : GreenE K) :
    (forUp 0 NNN (combined_green_e_step NNN kvec green) g).rho.num_elements
        = g.rho.num_elements
      ∧ (forUp 0 NNN (combined_green_e_step NNN kvec green) g).Ex.num_elements
        = g.Ex.num_elements
      ∧ (forUp 0 NNN (combined_green_e_step NNN kvec green) g).Ey.num_elements
        = g.Ey.num_elements
      ∧ (forUp 0 NNN (combined_green_e_step NNN kvec green) g).Ez.num_elements
        = g.Ez.num_elements := by
  apply forUp_invariant (fun t : GreenE K =>
    t.rho.num_elements = g.rho.num_elements ∧ t.Ex.num_elements = g.Ex.num_elements
      ∧ t.Ey.num_elements = g.Ey.num_elements ∧ t.Ez.num_elements = g.Ez.num_elements)
    _ 0 NNN _ g ⟨rfl, rfl, rfl, rfl⟩
  intro i _ _ t ht
  exact ht

/-- The loop of `combined_green_e` leaves the cells outside `[0, NNN)` alone. -/
theorem combined_loop_out (NNN : Int) (kvec : GPUArray (Scalar3 K)) (green : GPUArray K)
    (g : GreenE K) (p : Int) (hp : ¬ (0 ≤ p ∧ p < NNN)) :
    (forUp 0 NNN (combined_green_e_step NNN kvec green) g).rho.data p = g.rho.data p
      ∧ (forUp 0 NNN (combined_green_e_step NNN kvec green) g).Ex.data p = g.Ex.data p
      ∧ (forUp 0 NNN (combined_green_e_step NNN kvec green) g).Ey.data p = g.Ey.data p
      ∧ (forUp 0 NNN (combined_green_e_step NNN kvec green) g).Ez.data p = g.Ez.data p := by
  apply forUp_invariant (fun t : GreenE K =>
    t.rho.data p = g.rho.data p ∧ t.Ex.data p = g.Ex.data p
      ∧ t.Ey.data p = g.Ey.data p ∧ t.Ez.data p = g.Ez.data p)
    _ 0 NNN _ g ⟨rfl, rfl, rfl, rfl⟩
  intro i h1 h2 t ht
  obtain ⟨e1, e2, e3, e4⟩ := combined_green_e_step_data NNN kvec green i p t
  have hne : p ≠ i := by omega
  rw [if_neg hne] at e1 e2 e3 e4
  exact ⟨e1.trans ht.1, e2.trans ht.2.1, e3.trans ht.2.2.1, e4.trans ht.2.2.2⟩

/-- What the loop of `combined_green_e` leaves in a cell of `[0, NNN)`: the density
scaled by `green_hat / NNN`, and the three field components derived from it. -/
theorem combined_loop_in (NNN : Int) (kvec : GPUArray (Scalar3 K)) (green : GPUArray K)
    (g : GreenE K) (p : Int) (hp : 0 ≤ p ∧ p < NNN) :
    (forUp 0 NNN (combined_green_e_step NNN kvec green) g).rho.data p
        = ⟨(g.rho.data p).x * (green.data p / (NNN : K)),
            (g.rho.data p).y * (green.data p / (NNN : K))⟩
      ∧ (forUp 0 NNN (combined_green_e_step NNN kvec green) g).Ex.data p
        = ⟨(kvec.data p).x * ((g.rho.data p).y * (green.data p / (NNN : K))),
            -(kvec.data p).x * ((g.rho.data p).x * (green.data p / (NNN : K)))⟩
      ∧ (forUp 0 NNN (combined_green_e_step NNN kvec green) g).Ey.data p
        = ⟨(kvec.data p).y * ((g.rho.data p).y * (green.data p / (NNN : K))),
            -(kvec.data p).y * ((g.rho.data p).x * (green.data p / (NNN : K)))⟩
      ∧ (forUp 0 NNN (combined_green_e_step NNN kvec green) g).Ez.data p
        = ⟨(kvec.data p).z * ((g.rho.data p).y * (green.data p / (NNN : K))),
            -(kvec.data p).z * ((g.rho.data p).x * (green.data p / (NNN : K)))⟩ := by
  apply forUp_phase (fun t : GreenE K => t.rho.data p = g.rho.data p)
    (fun t : GreenE K =>
      t.rho.data p = ⟨(g.rho.data p).x * (green.data p / (NNN : K)),
            (g.rho.data p).y * (green.data p / (NNN : K))⟩
      ∧ t.Ex.data p = ⟨(kvec.data p).x * ((g.rho.data p).y * (green.data p / (NNN : K))),
            -(kvec.data p).x * ((g.rho.data p).x * (green.data p / (NNN : K)))⟩
      ∧ t.Ey.data p = ⟨(kvec.data p).y * ((g.rho.data p).y * (green.data p / (NNN : K))),
            -(kvec.data p).y * ((g.rho.data p).x * (green.data p / (NNN : K)))⟩
      ∧ t.Ez.data p = ⟨(kvec.data p).z * ((g.rho.data p).y * (green.data p / (NNN : K))),
            -(kvec.data p).z * ((g.rho.data p).x * (green.data p / (NNN : K)))⟩)
    _ 0 NNN p hp _ _ _ g rfl
  · intro i h1 h2 t ht
    obtain ⟨e1, -, -, -⟩ := combined_green_e_step_data NNN kvec green i p t
    rw [if_neg (by omega)] at e1
    exact e1.trans ht
  · intro t ht
    obtain ⟨e1, e2, e3, e4⟩ := combined_green_e_step_data NNN kvec green p p t
    rw [if_pos rfl, ht] at e1 e2 e3 e4
    exact ⟨e1, e2, e3, e4⟩
  · intro i h1 h2 t ht
    obtain ⟨e1, e2, e3, e4⟩ := combined_green_e_step_data NNN kvec green i p t
    have hne : p ≠ i := by omega
    rw [if_neg hne] at e1 e2 e3 e4
    exact ⟨e1.trans ht.1, e2.trans ht.2.1, e3.trans ht.2.2.1, e4.trans ht.2.2.2⟩

/-- The statements `m_fx[i] += ...` touch cell `i` only and keep the element counts. -/
theorem force_particle_frame (pdata : ParticleData K) (Nx Ny Nz order : Int)
    (coeff : GPUArray K) (Ex Ey Ez : GPUArray (cufftComplex K)) (i : Int) (f : Forces K)
    (p : Int) (hp : p ≠ i) :
    (force_particle pdata Nx Ny Nz order coeff Ex Ey Ez i f).fx.data p = f.fx.data p
      ∧ (force_particle pdata Nx Ny Nz order coeff Ex Ey Ez i f).fy.data p = f.fy.data p
      ∧ (force_particle pdata Nx Ny Nz order coeff Ex Ey Ez i f).fz.data p = f.fz.data p := by
  unfold force_particle forUpTo
  simp only []
  apply loop_invariant_all (fun t : Forces K =>
    t.fx.data p = f.fx.data p ∧ t.fy.data p = f.fy.data p ∧ t.fz.data p = f.fz.data p)
    _ _ _ _ _ _ ⟨rfl, rfl, rfl⟩
  intro n t ht
  apply loop_invariant_all (fun t : Forces K =>
    t.fx.data p = f.fx.data p ∧ t.fy.data p = f.fy.data p ∧ t.fz.data p = f.fz.data p)
    _ _ _ _ _ _ ht
  intro m t ht
  apply loop_invariant_all (fun t : Forces K =>
    t.fx.data p = f.fx.data p ∧ t.fy.data p = f.fy.data p ∧ t.fz.data p = f.fz.data p)
    _ _ _ _ _ _ ht
  intro l t ht
  simp only [add_force, GPUArray.set_data, if_neg hp]
  exact ht

theorem force_particle_num (pdata : ParticleData K) (Nx Ny Nz order : Int)
    (coeff : GPUArray K) (Ex Ey Ez : GPUArray (cufftComplex K)) (i : Int) (f : Forces K) :
    (force_particle pdata Nx Ny Nz order coeff Ex Ey Ez i f).fx.num_elements
        = f.fx.num_elements
      ∧ (force_particle pdata Nx Ny Nz order coeff Ex Ey Ez i f).fy.num_elements
        = f.fy.num_elements
      ∧ (force_particle pdata Nx Ny Nz order coeff Ex Ey Ez i f).fz.num_elements
        = f.fz.num_elements := by
  unfold force_particle forUpTo
  simp only []
  apply loop_invariant_all (fun t : Forces K =>
    t.fx.num_elements = f.fx.num_elements ∧ t.fy.num_elements = f.fy.num_elements
      ∧ t.fz.num_elements = f.fz.num_elements) _ _ _ _ _ _ ⟨rfl, rfl, rfl⟩
  intro n t ht
  apply loop_invariant_all (fun t : Forces K =>
    t.fx.num_elements = f.fx.num_elements ∧ t.fy.num_elements = f.fy.num_elements
      ∧ t.fz.num_elements = f.fz.num_elements) _ _ _ _ _ _ ht
  intro m t ht
  apply loop_invariant_all (fun t : Forces K =>
    t.fx.num_elements = f.fx.num_elements ∧ t.fy.num_elements = f.fy.num_elements
      ∧ t.fz.num_elements = f.fz.num_elements) _ _ _ _ _ _ ht
  intro l t ht
  exact ht

/-- The particle loop of `calculate_forces` leaves the cells outside `[0, n)` alone and
keeps the element counts. -/
theorem force_loop_frame (pdata : ParticleData K) (Nx Ny Nz order : Int)
    (coeff : GPUArray K) (Ex Ey Ez : GPUArray (cufftComplex K)) (n : Int) (f : Forces K) :
    let f' := forUp 0 n (force_particle pdata Nx Ny Nz order coeff Ex Ey Ez) f
    (f'.fx.num_elements = f.fx.num_elements ∧ f'.fy.num_elements = f.fy.num_elements
        ∧ f'.fz.num_elements = f.fz.num_elements)
      ∧ ∀ p, ¬ (0 ≤ p ∧ p < n) →
        f'.fx.data p = f.fx.data p ∧ f'.fy.data p = f.fy.data p
          ∧ f'.fz.data p = f.fz.data p := by
  intro f'
  constructor
  · apply forUp_invariant (fun t : Forces K =>
      t.fx.num_elements = f.fx.num_elements ∧ t.fy.num_elements = f.fy.num_elements
        ∧ t.fz.num_elements = f.fz.num_elements) _ 0 n _ f ⟨rfl, rfl, rfl⟩
    intro i _ _ t ht
    obtain ⟨e1, e2, e3⟩ := force_particle_num pdata Nx Ny Nz order coeff Ex Ey Ez i t
    exact ⟨e1.trans ht.1, e2.trans ht.2.1, e3.trans ht.2.2⟩
  · intro p hp
    apply forUp_invariant (fun t : Forces K =>
      t.fx.data p = f.fx.data p ∧ t.fy.data p = f.fy.data p ∧ t.fz.data p = f.fz.data p)
      _ 0 n _ f ⟨rfl, rfl, rfl⟩
    intro i h1 h2 t ht
    obtain ⟨e1, e2, e3⟩ := force_particle_frame pdata Nx Ny Nz order coeff Ex Ey Ez i t p
      (by omega)
    exact ⟨e1.trans ht.1, e2.trans ht.2.1, e3.trans ht.2.2⟩

/-- The virial block is a nest of stores. -/
theorem set_up_vg_eq_gridFill (Nx Ny Nz : Int) (kappa : K) (kv h : GPUArray (Scalar3 K)) :
    set_up_vg Nx Ny Nz kappa kv h
      = gridFill Nx Ny Nz (fun x y z => z + Nz * (y + Ny * x))
          (fun x y z => vg_entry kappa (kv.data (z + Nz * (y + Ny * x)))) h := by
  simp only [set_up_vg, gridFill, store3_eq]

/-- The Green's-function block is a nest of stores. -/
theorem set_up_green_hat_eq_gridFill (lm : Libm K) (eps : K) (Nx Ny Nz order : Int)
    (kappa Lx Ly Lz : K) (b h : GPUArray K) :
    set_up_green_hat lm eps Nx Ny Nz order kappa Lx Ly Lz b h
      = gridFill Nz Ny Nx (fun m l k => m + Nz * (l + Ny * k))
          (fun m l k => green_hat_entry lm eps Nx Ny Nz order kappa Lx Ly Lz b k l m) h := by
  simp only [set_up_green_hat, gridFill]

/-- Building the k-vectors twice for one box is building them once. -/
theorem set_up_kvec_idem (Nx Ny Nz : Int) (Lx Ly Lz : K) (h : GPUArray (Scalar3 K)) :
    set_up_kvec Nx Ny Nz Lx Ly Lz (set_up_kvec Nx Ny Nz Lx Ly Lz h)
      = set_up_kvec Nx Ny Nz Lx Ly Lz h := by
  simp only [set_up_kvec_eq_gridFill]
  apply gridFill_idem
  intro a b c a' b' c' h1 h2 h3 h4 h5 h6 h1' h2' h3' h4' h5' h6' e
  obtain ⟨rfl, rfl, rfl⟩ := flat_index_inj Ny Nz a b c a' b' c' ⟨h3, h4⟩ ⟨h5, h6⟩
    ⟨h3', h4'⟩ ⟨h5', h6'⟩ e
  rfl

/-- Building the virial constants twice from one k-vector table is building them once. -/
theorem set_up_vg_idem (Nx Ny Nz : Int) (kappa : K) (kv h : GPUArray (Scalar3 K)) :
    set_up_vg Nx Ny Nz kappa kv (set_up_vg Nx Ny Nz kappa kv h)
      = set_up_vg Nx Ny Nz kappa kv h := by
  simp only [set_up_vg_eq_gridFill]
  apply gridFill_idem
  intro a b c a' b' c' h1 h2 h3 h4 h5 h6 h1' h2' h3' h4' h5' h6' e
  simp only [] at e
  rw [e]

/-- Building the Green's function twice from one denominator table is building it
once. -/
theorem set_up_green_hat_idem (lm : Libm K) (eps : K) (Nx Ny Nz order : Int)
    (kappa Lx Ly Lz : K) (b h : GPUArray K) :
    set_up_green_hat lm eps Nx Ny Nz order kappa Lx Ly Lz b
        (set_up_green_hat lm eps Nx Ny Nz order kappa Lx Ly Lz b h)
      = set_up_green_hat lm eps Nx Ny Nz order kappa Lx Ly Lz b h := by
  simp only [set_up_green_hat_eq_gridFill]
  apply gridFill_idem
  intro a b c a' b' c' h1 h2 h3 h4 h5 h6 h1' h2' h3' h4' h5' h6' e
  obtain ⟨rfl, rfl, rfl⟩ := flat_index_inj Ny Nz c b a c' b' a' ⟨h3, h4⟩ ⟨h1, h2⟩
    ⟨h3', h4'⟩ ⟨h1', h2'⟩ e
  rfl

/-- The function `compute_gf_denom` writes only the cells `0` and `1 .. m_order-1`. -/
theorem compute_gf_denom_frame (order : Int) (b : GPUArray K) :
    (compute_gf_denom order b).num_elements = b.num_elements
      ∧ ∀ p, p ≠ 0 → ¬ (1 ≤ p ∧ p < order) →
        (compute_gf_denom order b).data p = b.data p := by
  constructor
  · unfold compute_gf_denom
    simp only []
    apply forUp_invariant (fun t : GPUArray K => t.num_elements = b.num_elements)
    · intro _ _ _ t ht; exact ht
    apply forUp_invariant (fun t : GPUArray K => t.num_elements = b.num_elements)
    · intro m _ _ t ht
      show (GPUArray.set _ 0 _).num_elements = _
      rw [GPUArray.set_num_elements]
      unfold forDownAbove0
      apply loop_invariant_all (fun t : GPUArray K => t.num_elements = b.num_elements)
        _ _ _ _ _ _ ht
      intro _ t ht; exact ht
    show (GPUArray.set _ 0 _).num_elements = _
    rw [GPUArray.set_num_elements]
    apply forUp_invariant (fun t : GPUArray K => t.num_elements = b.num_elements) _ _ _ _ _ rfl
    intro _ _ _ t ht; exact ht
  · intro p hp0 hp
    unfold compute_gf_denom
    simp only []
    apply forUp_invariant (fun t : GPUArray K => t.data p = b.data p)
    · intro l h1 h2 t ht
      rw [GPUArray.set_data, if_neg (by omega)]
      exact ht
    apply forUp_invariant (fun t : GPUArray K => t.data p = b.data p)
    · intro m hm1 hm2 t ht
      rw [GPUArray.set_data, if_neg hp0]
      unfold forDownAbove0
      apply loop_invariant_step (fun t : GPUArray K => t.data p = b.data p) _ _ _ _ _ _ ht
      intro k hk t ht
      rw [GPUArray.set_data, if_neg (by omega)]
      exact ht
    rw [GPUArray.set_data, if_neg hp0]
    apply forUp_invariant (fun t : GPUArray K => t.data p = b.data p) _ _ _ _ _ rfl
    intro l h1 h2 t ht
    rw [GPUArray.set_data, if_neg (by omega)]
    exact ht

/-- The first two statements of `compute_gf_denom` leave a table that depends on the
old one only outside the cells `0` and `1 .. m_order-1`. -/
theorem compute_gf_denom_congr (order : Int) (b b' : GPUArray K)
    (hn : b.num_elements = b'.num_elements)
    (hd : ∀ p, p ≠ 0 → ¬ (1 ≤ p ∧ p < order) → b.data p = b'.data p) :
    compute_gf_denom order b = compute_gf_denom order b' := by
  have hzero : ∀ c : GPUArray K, ∀ p,
      (forUp 1 order (fun l (t : GPUArray K) => t.set l 0) c).data p
        = if 1 ≤ p ∧ p < order then 0 else c.data p := by
    intro c p
    split_ifs with h
    · apply forUp_phase (fun _ => True) (fun t : GPUArray K => t.data p = 0) _ 1 order p h
        (fun _ _ _ _ _ => trivial) _ _ c trivial
      · intro t _
        rw [GPUArray.set_data, if_pos rfl]
      · intro i h1 h2 t ht
        rw [GPUArray.set_data, if_neg (by omega)]
        exact ht
    · apply forUp_invariant (fun t : GPUArray K => t.data p = c.data p) _ 1 order _ c rfl
      intro i h1 h2 t ht
      rw [GPUArray.set_data, if_neg (by omega)]
      exact ht
  have hnum : ∀ c : GPUArray K,
      (forUp 1 order (fun l (t : GPUArray K) => t.set l 0) c).num_elements
        = c.num_elements := by
    intro c
    apply forUp_invariant (fun t : GPUArray K => t.num_elements = c.num_elements) _ _ _ _ _ rfl
    intro _ _ _ t ht; exact ht
  have hstart : (forUp 1 order (fun l (t : GPUArray K) => t.set l 0) b).set 0 1
      = (forUp 1 order (fun l (t : GPUArray K) => t.set l 0) b').set 0 1 := by
    rw [GPUArray.eq_iff]
    refine ⟨?_, fun p => ?_⟩
    · rw [GPUArray.set_num_elements, GPUArray.set_num_elements, hnum, hnum, hn]
    · rw [GPUArray.set_data, GPUArray.set_data]
      split_ifs with h0
      · rfl
      · rw [hzero, hzero]
        split_ifs with h1
        · rfl
        · exact hd p h0 h1
  unfold compute_gf_denom
  simp only []
  rw [hstart]

/-- Running `compute_gf_denom` twice is running it once. -/
theorem compute_gf_denom_idem (order : Int) (b : GPUArray K) :
    compute_gf_denom order (compute_gf_denom order b) = compute_gf_denom order b := by
  obtain ⟨h1, h2⟩ := compute_gf_denom_frame order b
  exact compute_gf_denom_congr order _ _ h1 h2

/-- The particle loop of the spreader only adds to real parts. -/
theorem isAccum_assign_loop (pdata : ParticleData K) (Nx Ny Nz order : Int)
    (coeff : GPUArray K) (n : Int) :
    IsAccum (forUp 0 n (assign_particle pdata Nx Ny Nz order coeff)) := by
  unfold forUp
  apply isAccum_loop
  intro i
  exact isAccum_assign_particle pdata Nx Ny Nz order coeff i

/-- After `assign_charges_to_grid` the density in a cell of `[0, Nx*Ny*Nz)` depends on
the particles, the grid, the order and the coefficient table only, not on what the
grid held. -/
theorem assign_charges_to_grid_congr (pdata : ParticleData K) (s s' : PPPMForceCompute K)
    (hN : s'.m_Nx = s.m_Nx ∧ s'.m_Ny = s.m_Ny ∧ s'.m_Nz = s.m_Nz ∧ s'.m_order = s.m_order)
    (hc : s'.m_rho_coeff = s.m_rho_coeff) (p : Int)
    (hp : 0 ≤ p ∧ p < s.m_Nx * s.m_Ny * s.m_Nz) :
    (assign_charges_to_grid pdata s').statics.m_rho_real_space.data p
      = (assign_charges_to_grid pdata s).statics.m_rho_real_space.data p := by
  obtain ⟨h1, h2, h3, h4⟩ := hN
  obtain ⟨c, hcc⟩ := isAccum_assign_loop pdata s.m_Nx s.m_Ny s.m_Nz s.m_order s.m_rho_coeff
    (pdata.arrays.nparticles : Int)
  show (forUp 0 _ (assign_particle pdata s'.m_Nx s'.m_Ny s'.m_Nz s'.m_order s'.m_rho_coeff)
      (memset0 ⟨0, 0⟩ (s'.m_Nx * s'.m_Ny * s'.m_Nz) s'.statics.m_rho_real_space)).data p
    = (forUp 0 _ (assign_particle pdata s.m_Nx s.m_Ny s.m_Nz s.m_order s.m_rho_coeff)
      (memset0 ⟨0, 0⟩ (s.m_Nx * s.m_Ny * s.m_Nz) s.statics.m_rho_real_space)).data p
  rw [h1, h2, h3, h4, hc, (hcc _).2 p, (hcc _).2 p, memset0_data, memset0_data, if_pos hp,
    if_pos hp]

/-- A second `combined_green_e` on the same tables, on a density that agrees in
`[0, NNN)` and on the field grids the first one left, leaves the same field grids. -/
theorem combined_green_e_again (b b' : PPPMForceCompute K)
    (hN : b'.m_Nx = b.m_Nx ∧ b'.m_Ny = b.m_Ny ∧ b'.m_Nz = b.m_Nz)
    (hk : b'.m_kvec = b.m_kvec) (hg : b'.statics.m_green_hat = b.statics.m_green_hat)
    (hrho : ∀ p, 0 ≤ p ∧ p < cuint (b.m_Nx * b.m_Ny * b.m_Nz) →
      b'.statics.m_rho_real_space.data p = b.statics.m_rho_real_space.data p)
    (hE : b'.m_Ex = (combined_green_e b).m_Ex ∧ b'.m_Ey = (combined_green_e b).m_Ey
      ∧ b'.m_Ez = (combined_green_e b).m_Ez) :
    (combined_green_e b').m_Ex = (combined_green_e b).m_Ex
      ∧ (combined_green_e b').m_Ey = (combined_green_e b).m_Ey
      ∧ (combined_green_e b').m_Ez = (combined_green_e b).m_Ez := by
  obtain ⟨h1, h2, h3⟩ := hN
  obtain ⟨hEx, hEy, hEz⟩ := hE
  have e' : ∀ t : PPPMForceCompute K, (combined_green_e t).m_Ex
        = (forUp 0 (cuint (t.m_Nx * t.m_Ny * t.m_Nz))
            (combined_green_e_step (cuint (t.m_Nx * t.m_Ny * t.m_Nz)) t.m_kvec
              t.statics.m_green_hat)
            ⟨t.statics.m_rho_real_space, t.m_Ex, t.m_Ey, t.m_Ez⟩).Ex
      ∧ (combined_green_e t).m_Ey
        = (forUp 0 (cuint (t.m_Nx * t.m_Ny * t.m_Nz))
            (combined_green_e_step (cuint (t.m_Nx * t.m_Ny * t.m_Nz)) t.m_kvec
              t.statics.m_green_hat)
            ⟨t.statics.m_rho_real_space, t.m_Ex, t.m_Ey, t.m_Ez⟩).Ey
      ∧ (combined_green_e t).m_Ez
        = (forUp 0 (cuint (t.m_Nx * t.m_Ny * t.m_Nz))
            (combined_green_e_step (cuint (t.m_Nx * t.m_Ny * t.m_Nz)) t.m_kvec
              t.statics.m_green_hat)
            ⟨t.statics.m_rho_real_space, t.m_Ex, t.m_Ey, t.m_Ez⟩).Ez :=
    fun t => ⟨rfl, rfl, rfl⟩
  have key : ∀ p,
      (forUp 0 (cuint (b.m_Nx * b.m_Ny * b.m_Nz))
          (combined_green_e_step (cuint (b.m_Nx * b.m_Ny * b.m_Nz)) b.m_kvec
            b.statics.m_green_hat)
          ⟨b'.statics.m_rho_real_space, (combined_green_e b).m_Ex, (combined_green_e b).m_Ey,
            (combined_green_e b).m_Ez⟩).Ex.data p = (combined_green_e b).m_Ex.data p
      ∧ (forUp 0 (cuint (b.m_Nx * b.m_Ny * b.m_Nz))
          (combined_green_e_step (cuint (b.m_Nx * b.m_Ny * b.m_Nz)) b.m_kvec
            b.statics.m_green_hat)
          ⟨b'.statics.m_rho_real_space, (combined_green_e b).m_Ex, (combined_green_e b).m_Ey,
            (combined_green_e b).m_Ez⟩).Ey.data p = (combined_green_e b).m_Ey.data p
      ∧ (forUp 0 (cuint (b.m_Nx * b.m_Ny * b.m_Nz))
          (combined_green_e_step (cuint (b.m_Nx * b.m_Ny * b.m_Nz)) b.m_kvec
            b.statics.m_green_hat)
          ⟨b'.statics.m_rho_real_space, (combined_green_e b).m_Ex, (combined_green_e b).m_Ey,
            (combined_green_e b).m_Ez⟩).Ez.data p = (combined_green_e b).m_Ez.data p := by
    intro p
    by_cases hp : 0 ≤ p ∧ p < cuint (b.m_Nx * b.m_Ny * b.m_Nz)
    · obtain ⟨-, a2, a3, a4⟩ := combined_loop_in (cuint (b.m_Nx * b.m_Ny * b.m_Nz)) b.m_kvec
        b.statics.m_green_hat ⟨b'.statics.m_rho_real_space, (combined_green_e b).m_Ex,
          (combined_green_e b).m_Ey, (combined_green_e b).m_Ez⟩ p hp
      obtain ⟨-, c2, c3, c4⟩ := combined_loop_in (cuint (b.m_Nx * b.m_Ny * b.m_Nz)) b.m_kvec
        b.statics.m_green_hat ⟨b.statics.m_rho_real_space, b.m_Ex, b.m_Ey, b.m_Ez⟩ p hp
      have c2' : (combined_green_e b).m_Ex.data p = _ := c2
      have c3' : (combined_green_e b).m_Ey.data p = _ := c3
      have c4' : (combined_green_e b).m_Ez.data p = _ := c4
      refine ⟨a2.trans ?_, a3.trans ?_, a4.trans ?_⟩
      · rw [c2']; simp only [hrho p hp]
      · rw [c3']; simp only [hrho p hp]
      · rw [c4']; simp only [hrho p hp]
    · obtain ⟨-, a2, a3, a4⟩ := combined_loop_out (cuint (b.m_Nx * b.m_Ny * b.m_Nz)) b.m_kvec
        b.statics.m_green_hat ⟨b'.statics.m_rho_real_space, (combined_green_e b).m_Ex,
          (combined_green_e b).m_Ey, (combined_green_e b).m_Ez⟩ p hp
      exact ⟨a2, a3, a4⟩
  obtain ⟨-, n2, n3, n4⟩ := combined_loop_num (cuint (b.m_Nx * b.m_Ny * b.m_Nz)) b.m_kvec
    b.statics.m_green_hat ⟨b'.statics.m_rho_real_space, (combined_green_e b).m_Ex,
      (combined_green_e b).m_Ey, (combined_green_e b).m_Ez⟩
  rw [(e' b').1, (e' b').2.1, (e' b').2.2, h1, h2, h3, hk, hg, hEx, hEy, hEz]
  refine ⟨?_, ?_, ?_⟩
  · rw [GPUArray.eq_iff]; exact ⟨n2, fun p => (key p).1⟩
  · rw [GPUArray.eq_iff]; exact ⟨n3, fun p => (key p).2.1⟩
  · rw [GPUArray.eq_iff]; exact ⟨n4, fun p => (key p).2.2⟩

/-- A second `calculate_forces` on the same field grids, starting from the arrays the
first one left, leaves the same arrays. -/
theorem calculate_forces_again (pdata : ParticleData K) (c c' : PPPMForceCompute K)
    (hN : c'.m_Nx = c.m_Nx ∧ c'.m_Ny = c.m_Ny ∧ c'.m_Nz = c.m_Nz ∧ c'.m_order = c.m_order)
    (hc : c'.m_rho_coeff = c.m_rho_coeff)
    (hE : c'.m_Ex = c.m_Ex ∧ c'.m_Ey = c.m_Ey ∧ c'.m_Ez = c.m_Ez)
    (hf : c'.m_fx = (calculate_forces pdata c).m_fx ∧ c'.m_fy = (calculate_forces pdata c).m_fy
      ∧ c'.m_fz = (calculate_forces pdata c).m_fz ∧ c'.m_pe = (calculate_forces pdata c).m_pe
      ∧ c'.m_virial = (calculate_forces pdata c).m_virial) :
    (calculate_forces pdata c').m_fx = (calculate_forces pdata c).m_fx
      ∧ (calculate_forces pdata c').m_fy = (calculate_forces pdata c).m_fy
      ∧ (calculate_forces pdata c').m_fz = (calculate_forces pdata c).m_fz
      ∧ (calculate_forces pdata c').m_pe = (calculate_forces pdata c).m_pe
      ∧ (calculate_forces pdata c').m_virial = (calculate_forces pdata c).m_virial := by
  obtain ⟨h1, h2, h3, h4⟩ := hN
  obtain ⟨hEx, hEy, hEz⟩ := hE
  obtain ⟨hfx, hfy, hfz, hpe, hvir⟩ := hf
  have e' : ∀ t : PPPMForceCompute K,
      (calculate_forces pdata t).m_fx
        = (forUp 0 (pdata.arrays.nparticles : Int)
            (force_particle pdata t.m_Nx t.m_Ny t.m_Nz t.m_order t.m_rho_coeff
              t.m_Ex t.m_Ey t.m_Ez)
            ⟨memset0 0 (pdata.arrays.nparticles : Int) t.m_fx,
              memset0 0 (pdata.arrays.nparticles : Int) t.m_fy,
              memset0 0 (pdata.arrays.nparticles : Int) t.m_fz⟩).fx
      ∧ (calculate_forces pdata t).m_fy
        = (forUp 0 (pdata.arrays.nparticles : Int)
            (force_particle pdata t.m_Nx t.m_Ny t.m_Nz t.m_order t.m_rho_coeff
              t.m_Ex t.m_Ey t.m_Ez)
            ⟨memset0 0 (pdata.arrays.nparticles : Int) t.m_fx,
              memset0 0 (pdata.arrays.nparticles : Int) t.m_fy,
              memset0 0 (pdata.arrays.nparticles : Int) t.m_fz⟩).fy
      ∧ (calculate_forces pdata t).m_fz
        = (forUp 0 (pdata.arrays.nparticles : Int)
            (force_particle pdata t.m_Nx t.m_Ny t.m_Nz t.m_order t.m_rho_coeff
              t.m_Ex t.m_Ey t.m_Ez)
            ⟨memset0 0 (pdata.arrays.nparticles : Int) t.m_fx,
              memset0 0 (pdata.arrays.nparticles : Int) t.m_fy,
              memset0 0 (pdata.arrays.nparticles : Int) t.m_fz⟩).fz
      ∧ (calculate_forces pdata t).m_pe = memset0 0 (pdata.arrays.nparticles : Int) t.m_pe
      ∧ (calculate_forces pdata t).m_virial
        = memset0 0 (pdata.arrays.nparticles : Int) t.m_virial :=
    fun t => ⟨rfl, rfl, rfl, rfl, rfl⟩
  obtain ⟨⟨n1, n2, n3⟩, hout⟩ := force_loop_frame pdata c.m_Nx c.m_Ny c.m_Nz c.m_order
    c.m_rho_coeff c.m_Ex c.m_Ey c.m_Ez (pdata.arrays.nparticles : Int)
    ⟨memset0 0 (pdata.arrays.nparticles : Int) c.m_fx,
      memset0 0 (pdata.arrays.nparticles : Int) c.m_fy,
      memset0 0 (pdata.arrays.nparticles : Int) c.m_fz⟩
  simp only [] at n1 n2 n3 hout
  have mx : memset0 0 (pdata.arrays.nparticles : Int) c'.m_fx
      = memset0 0 (pdata.arrays.nparticles : Int) c.m_fx := by
    rw [hfx, (e' c).1]
    apply memset0_congr
    · rw [n1, memset0_num_elements]
    · intro p hp
      rw [(hout p hp).1, memset0_data, if_neg hp]
  have my : memset0 0 (pdata.arrays.nparticles : Int) c'.m_fy
      = memset0 0 (pdata.arrays.nparticles : Int) c.m_fy := by
    rw [hfy, (e' c).2.1]
    apply memset0_congr
    · rw [n2, memset0_num_elements]
    · intro p hp
      rw [(hout p hp).2.1, memset0_data, if_neg hp]
  have mz : memset0 0 (pdata.arrays.nparticles : Int) c'.m_fz
      = memset0 0 (pdata.arrays.nparticles : Int) c.m_fz := by
    rw [hfz, (e' c).2.2.1]
    apply memset0_congr
    · rw [n3, memset0_num_elements]
    · intro p hp
      rw [(hout p hp).2.2, memset0_data, if_neg hp]
  have mpe : memset0 0 (pdata.arrays.nparticles : Int) c'.m_pe
      = memset0 0 (pdata.arrays.nparticles : Int) c.m_pe := by
    rw [hpe, (e' c).2.2.2.1]
    apply memset0_congr
    · rw [memset0_num_elements]
    · intro p hp
      rw [memset0_data, if_neg hp]
  have mvir : memset0 0 (pdata.arrays.nparticles : Int) c'.m_virial
      = memset0 0 (pdata.arrays.nparticles : Int) c.m_virial := by
    rw [hvir, (e' c).2.2.2.2]
    apply memset0_congr
    · rw [memset0_num_elements]
    · intro p hp
      rw [memset0_data, if_neg hp]
  rw [(e' c').1, (e' c').2.1, (e' c').2.2.1, (e' c').2.2.2.1, (e' c').2.2.2.2, h1, h2, h3, h4,
    hc, hEx, hEy, hEz, mx, my, mz, mpe, mvir]
  exact ⟨rfl, rfl, rfl, rfl, rfl⟩

/-- A second rebuild for the same box, on the tables the first one left, leaves the
same tables. -/
theorem computeForces_rebuild_again (env : Env K) (pdata : ParticleData K)
    (s s' : PPPMForceCompute K)
    (hN : s'.m_Nx = s.m_Nx ∧ s'.m_Ny = s.m_Ny ∧ s'.m_Nz = s.m_Nz ∧ s'.m_order = s.m_order
      ∧ s'.m_kappa = s.m_kappa)
    (hflag : s'.m_box_changed = s.m_box_changed)
    (hk : s'.m_kvec = (computeForces_rebuild env pdata s).m_kvec)
    (hb : s'.m_gf_b = (computeForces_rebuild env pdata s).m_gf_b)
    (hv : s'.statics.m_vg = (computeForces_rebuild env pdata s).statics.m_vg)
    (hg : s'.statics.m_green_hat = (computeForces_rebuild env pdata s).statics.m_green_hat) :
    (computeForces_rebuild env pdata s').m_kvec = (computeForces_rebuild env pdata s).m_kvec
      ∧ (computeForces_rebuild env pdata s').m_gf_b
        = (computeForces_rebuild env pdata s).m_gf_b
      ∧ (computeForces_rebuild env pdata s').statics.m_vg
        = (computeForces_rebuild env pdata s).statics.m_vg
      ∧ (computeForces_rebuild env pdata s').statics.m_green_hat
        = (computeForces_rebuild env pdata s).statics.m_green_hat := by
  obtain ⟨h1, h2, h3, h4, h5⟩ := hN
  by_cases hf : s.m_box_changed = true
  · have hf' : s'.m_box_changed = true := hflag.trans hf
    have e : ∀ t : PPPMForceCompute K, t.m_box_changed = true →
        (computeForces_rebuild env pdata t).m_kvec
            = set_up_kvec t.m_Nx t.m_Ny t.m_Nz (pdata.box.xhi - pdata.box.xlo)
                (pdata.box.yhi - pdata.box.ylo) (pdata.box.zhi - pdata.box.zlo) t.m_kvec
          ∧ (computeForces_rebuild env pdata t).m_gf_b = compute_gf_denom t.m_order t.m_gf_b
          ∧ (computeForces_rebuild env pdata t).statics.m_vg
            = set_up_vg t.m_Nx t.m_Ny t.m_Nz t.m_kappa
                (set_up_kvec t.m_Nx t.m_Ny t.m_Nz (pdata.box.xhi - pdata.box.xlo)
                  (pdata.box.yhi - pdata.box.ylo) (pdata.box.zhi - pdata.box.zlo) t.m_kvec)
                t.statics.m_vg
          ∧ (computeForces_rebuild env pdata t).statics.m_green_hat
            = set_up_green_hat env.libm env.consts.EPS_HOC t.m_Nx t.m_Ny t.m_Nz t.m_order
                t.m_kappa (pdata.box.xhi - pdata.box.xlo) (pdata.box.yhi - pdata.box.ylo)
                (pdata.box.zhi - pdata.box.zlo) (compute_gf_denom t.m_order t.m_gf_b)
                t.statics.m_green_hat := by
      intro t ht
      unfold computeForces_rebuild
      simp only [ht, if_true]
      exact ⟨rfl, rfl, rfl, rfl⟩
    obtain ⟨a1, a2, a3, a4⟩ := e s hf
    obtain ⟨b1, b2, b3, b4⟩ := e s' hf'
    rw [a1] at hk
    rw [a2] at hb
    rw [a3] at hv
    rw [a4] at hg
    rw [a1, a2, a3, a4, b1, b2, b3, b4, h1, h2, h3, h4, h5, hk, hb, hv, hg]
    refine ⟨set_up_kvec_idem _ _ _ _ _ _ _, compute_gf_denom_idem _ _, ?_, ?_⟩
    · rw [set_up_kvec_idem, set_up_vg_idem]
    · rw [compute_gf_denom_idem, set_up_green_hat_idem]
  · have hf' : ¬ s'.m_box_changed = true := by rw [hflag]; exact hf
    have e : ∀ t : PPPMForceCompute K, ¬ t.m_box_changed = true →
        computeForces_rebuild env pdata t = t := by
      intro t ht
      unfold computeForces_rebuild
      rw [if_neg ht]
    rw [e s hf] at hk hb hv hg ⊢
    rw [e s' hf']
    exact ⟨hk, hb, hv, hg⟩

/-- The rebuild leaves the parameters, the flag, the coefficient table and the scratch
grids alone. -/
theorem computeForces_rebuild_frame (env : Env K) (pdata : ParticleData K)
    (s : PPPMForceCompute K) :
    (computeForces_rebuild env pdata s).m_Nx = s.m_Nx
      ∧ (computeForces_rebuild env pdata s).m_Ny = s.m_Ny
      ∧ (computeForces_rebuild env pdata s).m_Nz = s.m_Nz
      ∧ (computeForces_rebuild env pdata s).m_order = s.m_order
      ∧ (computeForces_rebuild env pdata s).m_kappa = s.m_kappa
      ∧ (computeForces_rebuild env pdata s).m_rho_coeff = s.m_rho_coeff
      ∧ (computeForces_rebuild env pdata s).statics.m_rho_real_space
        = s.statics.m_rho_real_space
      ∧ (computeForces_rebuild env pdata s).m_Ex = s.m_Ex
      ∧ (computeForces_rebuild env pdata s).m_Ey = s.m_Ey
      ∧ (computeForces_rebuild env pdata s).m_Ez = s.m_Ez
      ∧ (computeForces_rebuild env pdata s).m_fx = s.m_fx
      ∧ (computeForces_rebuild env pdata s).m_fy = s.m_fy
      ∧ (computeForces_rebuild env pdata s).m_fz = s.m_fz
      ∧ (computeForces_rebuild env pdata s).m_pe = s.m_pe
      ∧ (computeForces_rebuild env pdata s).m_virial = s.m_virial := by
  unfold computeForces_rebuild
  split_ifs
  · exact ⟨rfl, rfl, rfl, rfl, rfl, rfl, rfl, rfl, rfl, rfl, rfl, rfl, rfl, rfl, rfl⟩
  · exact ⟨rfl, rfl, rfl, rfl, rfl, rfl, rfl, rfl, rfl, rfl, rfl, rfl, rfl, rfl, rfl⟩

/-- The method `computeForces` does not assign the flag. -/
theorem computeForces_box_changed_eq (env : Env K) (pdata : ParticleData K)
    (timestep : Nat) (self : PPPMForceCompute K) :
    (computeForces env pdata timestep self).m_box_changed = self.m_box_changed := by
  unfold computeForces computeForces_rebuild
  simp only []
  split_ifs <;> rfl

/-- A value that fits an `int` is its own 32-bit wrap-around. -/
theorem cint_of_fits (x : Int) (h : -2147483648 ≤ x ∧ x < 2147483648) : cint x = x := by
  unfold cint
  have : (x + 2147483648) % 4294967296 = x + 2147483648 :=
    Int.emod_eq_of_lt (by omega) (by omega)
  omega

/-- A value that fits an `unsigned int` is its own conversion. -/
theorem cuint_of_fits (x : Int) (h : 0 ≤ x ∧ x < 4294967296) : cuint x = x := by
  unfold cuint
  exact Int.emod_eq_of_lt h.1 h.2

/-- The three stages after the rebuild leave the box-dependent tables alone. -/
theorem computeForces_tables (env : Env K) (pdata : ParticleData K)
    (timestep : Nat) (self : PPPMForceCompute K) :
    (computeForces env pdata timestep self).m_kvec
        = (computeForces_rebuild env pdata self).m_kvec
      ∧ (computeForces env pdata timestep self).m_gf_b
        = (computeForces_rebuild env pdata self).m_gf_b
      ∧ (computeForces env pdata timestep self).statics.m_vg
        = (computeForces_rebuild env pdata self).statics.m_vg
      ∧ (computeForces env pdata timestep self).statics.m_green_hat
        = (computeForces_rebuild env pdata self).statics.m_green_hat
      ∧ (computeForces env pdata timestep self).m_Nx = self.m_Nx
      ∧ (computeForces env pdata timestep self).m_Ny = self.m_Ny
      ∧ (computeForces env pdata timestep self).m_Nz = self.m_Nz
      ∧ (computeForces env pdata timestep self).m_order = self.m_order
      ∧ (computeForces env pdata timestep self).m_kappa = self.m_kappa
      ∧ (computeForces env pdata timestep self).m_rho_coeff = self.m_rho_coeff := by
  obtain ⟨f1, f2, f3, f4, f5, f6, -⟩ := computeForces_rebuild_frame env pdata self
  refine ⟨?_, ?_, ?_, ?_, ?_, ?_, ?_, ?_, ?_, ?_⟩ <;>
    simp only [computeForces, calculate_forces, combined_green_e, assign_charges_to_grid] <;>
    assumption

/-- What `computeForces` leaves in the scratch grids and the per-particle arrays, stage
by stage. -/
theorem computeForces_stages (env : Env K) (pdata : ParticleData K)
    (timestep : Nat) (self : PPPMForceCompute K) :
    (computeForces env pdata timestep self).m_Ex
        = (combined_green_e (assign_charges_to_grid pdata
            (computeForces_rebuild env pdata self))).m_Ex
      ∧ (computeForces env pdata timestep self).m_Ey
        = (combined_green_e (assign_charges_to_grid pdata
            (computeForces_rebuild env pdata self))).m_Ey
      ∧ (computeForces env pdata timestep self).m_Ez
        = (combined_green_e (assign_charges_to_grid pdata
            (computeForces_rebuild env pdata self))).m_Ez
      ∧ (computeForces env pdata timestep self).m_fx
        = (calculate_forces pdata (combined_green_e (assign_charges_to_grid pdata
            (computeForces_rebuild env pdata self)))).m_fx
      ∧ (computeForces env pdata timestep self).m_fy
        = (calculate_forces pdata (combined_green_e (assign_charges_to_grid pdata
            (computeForces_rebuild env pdata self)))).m_fy
      ∧ (computeForces env pdata timestep self).m_fz
        = (calculate_forces pdata (combined_green_e (assign_charges_to_grid pdata
            (computeForces_rebuild env pdata self)))).m_fz
      ∧ (computeForces env pdata timestep self).m_pe
        = (calculate_forces pdata (combined_green_e (assign_charges_to_grid pdata
            (computeForces_rebuild env pdata self)))).m_pe
      ∧ (computeForces env pdata timestep self).m_virial
        = (calculate_forces pdata (combined_green_e (assign_charges_to_grid pdata
            (computeForces_rebuild env pdata self)))).m_virial := by
  refine ⟨?_, ?_, ?_, ?_, ?_, ?_, ?_, ?_⟩ <;>
    simp only [computeForces, calculate_forces]

/-- Two loops with related bodies, run on related states, end in related states. -/
theorem loop_rel {σ τ : Type} (R : σ → τ → Prop) (f : Int → σ → σ) (g : Int → τ → τ) (step : Int)
    (n : Nat) (lo : Int) (h : ∀ i s t, R s t → R (f i s) (g i t)) (s : σ) (t : τ)
    (hst : R s t) : R (loop f step n lo s) (loop g step n lo t) := by
  induction n generalizing lo s t with
  | zero => exact hst
  | succ n ih =>
    rw [loop_succ, loop_succ]
    exact ih _ _ _ (h lo s t hst)

/-- The recurrence of `compute_rho_coeff` uses field operations on rational numbers
only: the scratch block over any scalar field is the rational one, cast. -/
theorem rho_scratch_cast (order : Int) (i : Int) :
    (((rho_scratch (K := ℚ) order).data i : ℚ) : K) = (rho_scratch (K := K) order).data i := by
  have hset : ∀ (a : GPUArray ℚ) (a' : GPUArray K) (idx : Int) (v : ℚ) (v' : K),
      (∀ i, ((a.data i : ℚ) : K) = a'.data i) → ((v : ℚ) : K) = v' →
      ∀ i, (((a.set idx v).data i : ℚ) : K) = (a'.set idx v').data i := by
    intro a a' idx v v' ha hv i
    rw [GPUArray.set_data, GPUArray.set_data]
    split_ifs
    · exact hv
    · exact ha i
  have hsum : ∀ (A : GPUArray ℚ) (A' : GPUArray K) (s : ℚ) (s' : K) (n m : Nat)
      (i1 i2 q : Int), (∀ i, ((A.data i : ℚ) : K) = A'.data i) → ((s : ℚ) : K) = s' →
      ((s + (1 / 2 : ℚ) ^ n * (A.data i1 + (-1 : ℚ) ^ m * A.data i2) / ((q : Int) : ℚ) : ℚ) : K)
        = s' + (1 / 2 : K) ^ n * (A'.data i1 + (-1 : K) ^ m * A'.data i2) / ((q : Int) : K) := by
    intro A A' s s' n m i1 i2 q hA hs
    push_cast
    rw [hA, hA, hs]
  unfold rho_scratch forUp forUpTo forUpToBy2
  simp only []
  revert i
  apply loop_rel (fun (a : GPUArray ℚ) (a' : GPUArray K) => ∀ i, ((a.data i : ℚ) : K) = a'.data i)
  · intro j a a' ha
    apply loop_rel (fun (a : GPUArray ℚ) (a' : GPUArray K) =>
      ∀ i, ((a.data i : ℚ) : K) = a'.data i)
    · intro k a a' ha
      have hr := loop_rel (fun (p : GPUArray ℚ × ℚ) (p' : GPUArray K × K) =>
          (∀ i, ((p.1.data i : ℚ) : K) = p'.1.data i) ∧ ((p.2 : ℚ) : K) = p'.2)
        (fun l (p : GPUArray ℚ × ℚ) =>
          (p.1.set ((k + order) + (l + 1) * (2 * order + 1))
            ((p.1.data ((k + 1 + order) + l * (2 * order + 1))
              - p.1.data ((k - 1 + order) + l * (2 * order + 1))) / ((l + 1 : Int) : ℚ)),
           p.2 + (1 / 2 : ℚ) ^ (l + 1).toNat
            * ((p.1.set ((k + order) + (l + 1) * (2 * order + 1))
                ((p.1.data ((k + 1 + order) + l * (2 * order + 1))
                  - p.1.data ((k - 1 + order) + l * (2 * order + 1)))
                    / ((l + 1 : Int) : ℚ))).data ((k - 1 + order) + l * (2 * order + 1))
              + (-1 : ℚ) ^ l.toNat
                * (p.1.set ((k + order) + (l + 1) * (2 * order + 1))
                  ((p.1.data ((k + 1 + order) + l * (2 * order + 1))
                    - p.1.data ((k - 1 + order) + l * (2 * order + 1)))
                      / ((l + 1 : Int) : ℚ))).data ((k + 1 + order) + l * (2 * order + 1)))
            / ((l + 1 : Int) : ℚ)))
        (fun l (p : GPUArray K × K) =>
          (p.1.set ((k + order) + (l + 1) * (2 * order + 1))
            ((p.1.data ((k + 1 + order) + l * (2 * order + 1))
              - p.1.data ((k - 1 + order) + l * (2 * order + 1))) / ((l + 1 : Int) : K)),
           p.2 + (1 / 2 : K) ^ (l + 1).toNat
            * ((p.1.set ((k + order) + (l + 1) * (2 * order + 1))
                ((p.1.data ((k + 1 + order) + l * (2 * order + 1))
                  - p.1.data ((k - 1 + order) + l * (2 * order + 1)))
                    / ((l + 1 : Int) : K))).data ((k - 1 + order) + l * (2 * order + 1))
              + (-1 : K) ^ l.toNat
                * (p.1.set ((k + order) + (l + 1) * (2 * order + 1))
                  ((p.1.data ((k + 1 + order) + l * (2 * order + 1))
                    - p.1.data ((k - 1 + order) + l * (2 * order + 1)))
                      / ((l + 1 : Int) : K))).data ((k + 1 + order) + l * (2 * order + 1)))
            / ((l + 1 : Int) : K)))
        1 (j - 0).toNat 0 ?_ (a, 0) (a', 0) ⟨ha, by simp⟩
      · exact hset _ _ _ _ _ hr.1 hr.2
      · intro l p p' hp
        have h1 : ∀ i, (((p.1.set ((k + order) + (l + 1) * (2 * order + 1))
            ((p.1.data ((k + 1 + order) + l * (2 * order + 1))
              - p.1.data ((k - 1 + order) + l * (2 * order + 1)))
                / ((l + 1 : Int) : ℚ))).data i : ℚ) : K)
            = (p'.1.set ((k + order) + (l + 1) * (2 * order + 1))
            ((p'.1.data ((k + 1 + order) + l * (2 * order + 1))
              - p'.1.data ((k - 1 + order) + l * (2 * order + 1)))
                / ((l + 1 : Int) : K))).data i := by
          apply hset _ _ _ _ _ hp.1
          push_cast
          rw [hp.1, hp.1]
        exact ⟨h1, hsum _ _ _ _ _ _ _ _ _ h1 hp.2⟩
    · exact ha
  · apply hset
    · apply loop_rel (fun (a : GPUArray ℚ) (a' : GPUArray K) =>
        ∀ i, ((a.data i : ℚ) : K) = a'.data i)
      · intro k a a' ha
        apply loop_rel (fun (a : GPUArray ℚ) (a' : GPUArray K) =>
          ∀ i, ((a.data i : ℚ) : K) = a'.data i)
        · intro l a a' ha
          exact hset _ _ _ _ _ ha (by simp)
        · exact ha
      · intro i
        simp
    · simp

/-- A quantity that every iteration increases by `f i` is increased by the loop by the
sum of the `f i`. -/
theorem loop_sum_track {σ : Type} (Φ : σ → K) (body : Int → σ → σ) (f : Int → K) (n : Nat)
    (lo : Int) (hbody : ∀ i, lo ≤ i → i < lo + n → ∀ s, Φ (body i s) = Φ s + f i)
    (s : σ) (acc : K) :
    Φ (loop body 1 n lo s) + acc = Φ s + loop (fun i a => a + f i) 1 n lo acc := by
  induction n generalizing lo s acc with
  | zero => simp [loop]
  | succ n ih =>
    rw [loop_succ, loop_succ, ih (lo + 1) (fun i h1 h2 t => hbody i (by omega) (by push_cast; omega) t),
      hbody lo (le_refl _) (by push_cast; omega) s]
    have e : ∀ (m : Nat) (l : Int) (a b : K),
        loop (fun i a => a + f i) 1 m l (a + b) = loop (fun i a => a + f i) 1 m l a + b := by
      intro m
      induction m with
      | zero => intro l a b; rfl
      | succ m ihm =>
        intro l a b
        rw [loop_succ, loop_succ, ← ihm]
        congr 1
        ring
    rw [e n (lo + 1) acc (f lo)]
    ring

/-- The same for `for (i = lo; i <= hi; i++)`. -/
theorem forUpTo_sum_track {σ : Type} (Φ : σ → K) (body : Int → σ → σ) (f : Int → K)
    (lo hi : Int) (hbody : ∀ i, lo ≤ i → i ≤ hi → ∀ s, Φ (body i s) = Φ s + f i) (s : σ) :
    Φ (forUpTo lo hi body s) = Φ s + sumUpTo lo hi f := by
  have := loop_sum_track Φ body f (hi + 1 - lo).toNat lo
    (fun i h1 h2 t => hbody i h1 (by omega) t) s 0
  rw [add_zero] at this
  exact this

theorem sumUpTo_congr (lo hi : Int) (f g : Int → K)
    (h : ∀ i, lo ≤ i → i ≤ hi → f i = g i) : sumUpTo lo hi f = sumUpTo lo hi g := by
  have e1 := forUpTo_sum_track (fun a : K => a) (fun i acc => acc + f i) g lo hi
    (fun i h1 h2 s => by show s + f i = s + g i; rw [h i h1 h2]) 0
  simp only [zero_add] at e1
  exact e1

theorem sumUpTo_mul_left (lo hi : Int) (c : K) (f : Int → K) :
    sumUpTo lo hi (fun i => c * f i) = c * sumUpTo lo hi f := by
  have e1 := forUpTo_sum_track (fun a : K => c * a) (fun i acc => acc + f i)
    (fun i => c * f i) lo hi (fun i h1 h2 s => by ring) 0
  simp only [mul_zero, zero_add] at e1
  exact e1.symm

theorem sumUpTo_mul_right (lo hi : Int) (c : K) (f : Int → K) :
    sumUpTo lo hi (fun i => f i * c) = sumUpTo lo hi f * c := by
  have e1 := forUpTo_sum_track (fun a : K => a * c) (fun i acc => acc + f i)
    (fun i => f i * c) lo hi (fun i h1 h2 s => by ring) 0
  simp only [zero_mul, zero_add] at e1
  exact e1.symm

/-- The statement `h.data[idx].x += v` adds `v` to the sum of the real parts over any
set of cells that contains `idx`. -/
theorem add_re_sum (h : GPUArray (cufftComplex K)) (idx : Int) (v : K) (S : Finset Int)
    (hS : idx ∈ S) :
    ∑ p in S, ((add_re h idx v).data p).x = ∑ p in S, (h.data p).x + v := by
  have e : ∀ p, ((add_re h idx v).data p).x = (h.data p).x + (if p = idx then v else 0) := by
    intro p
    simp only [add_re, GPUArray.set_data]
    split_ifs with hp
    · rw [hp]
    · simp
  simp only [e, Finset.sum_add_distrib, Finset.sum_ite_eq', hS, if_true]

/-- What one particle adds to the density summed over a set of cells that contains its
stencil: its charge over the cell volume, times the three sums of weights. -/
theorem assign_particle_sum (pdata : ParticleData K) (Nx Ny Nz order : Int)
    (coeff : GPUArray K) (i : Int) (rho : GPUArray (cufftComplex K)) (S : Finset Int)
    (hS : ∀ n m l, nlower order ≤ n → n ≤ nupper order → nlower order ≤ m → m ≤ nupper order →
      nlower order ≤ l → l ≤ nupper order →
      wrap_index Nz (l + stencil_anchor order
          (grid_position (pdata.arrays.z i) (pdata.box.zhi - pdata.box.zlo) Nz))
        + Nz * (wrap_index Ny (m + stencil_anchor order
            (grid_position (pdata.arrays.y i) (pdata.box.yhi - pdata.box.ylo) Ny))
          + Ny * wrap_index Nx (n + stencil_anchor order
            (grid_position (pdata.arrays.x i) (pdata.box.xhi - pdata.box.xlo) Nx))) ∈ S) :
    ∑ p in S, ((assign_particle pdata Nx Ny Nz order coeff i rho).data p).x
      = ∑ p in S, (rho.data p).x
        + pdata.arrays.charge i
            / ((pdata.box.xhi - pdata.box.xlo) / (Nx : K)
              * ((pdata.box.yhi - pdata.box.ylo) / (Ny : K))
              * ((pdata.box.zhi - pdata.box.zlo) / (Nz : K)))
          * sumUpTo (nlower order) (nupper order) (fun n =>
              rho_weight order coeff (n - nlower order) (stencil_arg order
                (grid_position (pdata.arrays.x i) (pdata.box.xhi - pdata.box.xlo) Nx)))
          * sumUpTo (nlower order) (nupper order) (fun m =>
              rho_weight order coeff (m - nlower order) (stencil_arg order
                (grid_position (pdata.arrays.y i) (pdata.box.yhi - pdata.box.ylo) Ny)))
          * sumUpTo (nlower order) (nupper order) (fun l =>
              rho_weight order coeff (l - nlower order) (stencil_arg order
                (grid_position (pdata.arrays.z i) (pdata.box.zhi - pdata.box.zlo) Nz))) := by
  unfold assign_particle
  simp only []
  generalize pdata.arrays.charge i
    / ((pdata.box.xhi - pdata.box.xlo) / (Nx : K)
      * ((pdata.box.yhi - pdata.box.ylo) / (Ny : K))
      * ((pdata.box.zhi - pdata.box.zlo) / (Nz : K))) = x0
  generalize stencil_arg order
    (grid_position (pdata.arrays.x i) (pdata.box.xhi - pdata.box.xlo) Nx) = dx
  generalize stencil_arg order
    (grid_position (pdata.arrays.y i) (pdata.box.yhi - pdata.box.ylo) Ny) = dy
  generalize stencil_arg order
    (grid_position (pdata.arrays.z i) (pdata.box.zhi - pdata.box.zlo) Nz) = dz
  rw [forUpTo_sum_track (fun t : GPUArray (cufftComplex K) => ∑ p in S, (t.data p).x) _
    (fun n => x0 * rho_weight order coeff (n - nlower order) dx
      * sumUpTo (nlower order) (nupper order) (fun m =>
          rho_weight order coeff (m - nlower order) dy)
      * sumUpTo (nlower order) (nupper order) (fun l =>
          rho_weight order coeff (l - nlower order) dz))]
  · congr 1
    rw [sumUpTo_mul_right (nlower order) (nupper order) _
        (fun n => x0 * rho_weight order coeff (n - nlower order) dx
          * sumUpTo (nlower order) (nupper order) (fun m =>
              rho_weight order coeff (m - nlower order) dy)),
      sumUpTo_mul_right (nlower order) (nupper order) _
        (fun n => x0 * rho_weight order coeff (n - nlower order) dx),
      sumUpTo_mul_left]
  · intro n hn1 hn2 t
    rw [forUpTo_sum_track (fun t : GPUArray (cufftComplex K) => ∑ p in S, (t.data p).x) _
      (fun m => x0 * rho_weight order coeff (n - nlower order) dx
        * rho_weight order coeff (m - nlower order) dy
        * sumUpTo (nlower order) (nupper order) (fun l =>
            rho_weight order coeff (l - nlower order) dz))]
    · congr 1
      rw [sumUpTo_mul_right (nlower order) (nupper order) _
          (fun m => x0 * rho_weight order coeff (n - nlower order) dx
            * rho_weight order coeff (m - nlower order) dy),
        sumUpTo_mul_left]
    · intro m hm1 hm2 t
      rw [forUpTo_sum_track (fun t : GPUArray (cufftComplex K) => ∑ p in S, (t.data p).x) _
        (fun l => x0 * rho_weight order coeff (n - nlower order) dx
          * rho_weight order coeff (m - nlower order) dy
          * rho_weight order coeff (l - nlower order) dz)]
      · congr 1
        rw [sumUpTo_mul_left]
      · intro l hl1 hl2 t
        exact add_re_sum t _ _ S (hS n m l hn1 hn2 hm1 hm2 hl1 hl2)

end Frames

/-! ## Parameter validation and diagnostics -/

section Validation

variable {K : Type} [LinearOrderedField K] [FloorRing K]

/-- C2: when `order*(2*order+1)`, as the `int` expression the code evaluates (`cint`
is the identity on every value that fits an `int`), exceeds `CONSTANT_SIZE`, or
`order` exceeds `MaxOrder`, `setParams` throws, and every grid buffer and both
coefficient tables are what they were before the call: nothing has been allocated and
neither `compute_rho_coeff` nor `compute_gf_denom` has run. -/
theorem setParams_order_too_high_throws (env : Env K) (pdata : ParticleData K)
    (Nx Ny Nz order : Int) (kappa rcut : K) (self : PPPMForceCompute K)
    (h : cint (order * cint (2 * order + 1)) > env.consts.CONSTANT_SIZE
      ∨ order > env.consts.MaxOrder) :
    (setParams env pdata Nx Ny Nz order kappa rcut self).1
        = Except.error "Error initializing PPPMComputeGPU"
      ∧ (setParams env pdata Nx Ny Nz order kappa rcut self).2.statics.m_rho_real_space
          = self.statics.m_rho_real_space
      ∧ (setParams env pdata Nx Ny Nz order kappa rcut self).2.statics.m_green_hat
          = self.statics.m_green_hat
      ∧ (setParams env pdata Nx Ny Nz order kappa rcut self).2.statics.m_vg = self.statics.m_vg
      ∧ (setParams env pdata Nx Ny Nz order kappa rcut self).2.m_kvec = self.m_kvec
      ∧ (setParams env pdata Nx Ny Nz order kappa rcut self).2.m_Ex = self.m_Ex
      ∧ (setParams env pdata Nx Ny Nz order kappa rcut self).2.m_Ey = self.m_Ey
      ∧ (setParams env pdata Nx Ny Nz order kappa rcut self).2.m_Ez = self.m_Ez
      ∧ (setParams env pdata Nx Ny Nz order kappa rcut self).2.m_field = self.m_field
      ∧ (setParams env pdata Nx Ny Nz order kappa rcut self).2.m_gf_b = self.m_gf_b
      ∧ (setParams env pdata Nx Ny Nz order kappa rcut self).2.m_rho_coeff = self.m_rho_coeff := by
  obtain ⟨msg, hmsg⟩ := setParams_of_order_bad env pdata Nx Ny Nz order kappa rcut self h
  rw [hmsg]
  exact ⟨rfl, setParams_store_buffers Nx Ny Nz order kappa rcut self⟩

/-- The order test applied to order 40, for which `40*81 = 3240 > 2048`: the call
throws. -/
theorem setParams_order_too_high_throws_witness :
    (setParams ex_env (ex_pdata 10 10 10) 8 8 8 40 (3 / 10) 3 (ex_self false)).1
        = Except.error "Error initializing PPPMComputeGPU" :=
  (setParams_order_too_high_throws ex_env (ex_pdata 10 10 10) 8 8 8 40 (3 / 10) 3
    (ex_self false) (Or.inl (by decide))).1

/-- C3: when the grid sizes are supported and the order passes both tests, `setParams`
returns whatever the particles' charges and whatever `rcut`, hence whatever the net
charge and the RMS estimate.  A non-zero net charge writes the warning, the RMS
estimate writes its warning or its report, and the k-vectors, virial constants,
Green's function and both coefficient tables are the same for any two particle sets in
the same box and any two values of `rcut`. -/
theorem setParams_warnings_not_fatal (env : Env K) (pdata pdata' : ParticleData K)
    (Nx Ny Nz order : Int) (kappa rcut rcut' : K) (self : PPPMForceCompute K)
    (hNx : ¬ unsupported_size Nx) (hNy : ¬ unsupported_size Ny) (hNz : ¬ unsupported_size Nz)
    (h1 : ¬ cint (order * cint (2 * order + 1)) > env.consts.CONSTANT_SIZE)
    (h2 : ¬ order > env.consts.MaxOrder)
    (hbox : pdata'.box = pdata.box) :
    (setParams env pdata Nx Ny Nz order kappa rcut self).1 = Except.ok ()
      ∧ (setParams env pdata' Nx Ny Nz order kappa rcut' self).1 = Except.ok ()
      ∧ (|(setParams env pdata Nx Ny Nz order kappa rcut self).2.m_q| > 0 →
          Message.notNeutral (setParams env pdata Nx Ny Nz order kappa rcut self).2.m_q
            ∈ (setParams env pdata Nx Ny Nz order kappa rcut self).2.output)
      ∧ (∃ e : RmsEstimate K,
          (e.RMS_error > 1 / 10 ∧ Message.rmsTooHigh e.RMS_error e.lpr e.spr
              ∈ (setParams env pdata Nx Ny Nz order kappa rcut self).2.output)
          ∨ (¬ e.RMS_error > 1 / 10 ∧ Message.rmsError e.RMS_error
              ∈ (setParams env pdata Nx Ny Nz order kappa rcut self).2.output))
      ∧ (setParams env pdata' Nx Ny Nz order kappa rcut' self).2.m_kvec
          = (setParams env pdata Nx Ny Nz order kappa rcut self).2.m_kvec
      ∧ (setParams env pdata' Nx Ny Nz order kappa rcut' self).2.statics.m_vg
          = (setParams env pdata Nx Ny Nz order kappa rcut self).2.statics.m_vg
      ∧ (setParams env pdata' Nx Ny Nz order kappa rcut' self).2.statics.m_green_hat
          = (setParams env pdata Nx Ny Nz order kappa rcut self).2.statics.m_green_hat
      ∧ (setParams env pdata' Nx Ny Nz order kappa rcut' self).2.m_rho_coeff
          = (setParams env pdata Nx Ny Nz order kappa rcut self).2.m_rho_coeff
      ∧ (setParams env pdata' Nx Ny Nz order kappa rcut' self).2.m_gf_b
          = (setParams env pdata Nx Ny Nz order kappa rcut self).2.m_gf_b := by
  rw [setParams_of_order_ok env pdata Nx Ny Nz order kappa rcut self h1 h2,
    setParams_of_order_ok env pdata' Nx Ny Nz order kappa rcut' self h1 h2]
  have ho := setParams_store_order Nx Ny Nz order kappa rcut self
  have ho' := setParams_store_order Nx Ny Nz order kappa rcut' self
  have hw := setParams_diagnostics_warnings env pdata Nx Ny Nz
    (setParams_allocate Nx Ny Nz order (setParams_store Nx Ny Nz order kappa rcut self))
  refine ⟨rfl, rfl, hw.1, hw.2, ?_, ?_, ?_, ?_, ?_⟩
  · simp only [setParams_tables, setParams_diagnostics, setParams_allocate, hbox]
  · simp only [setParams_tables, setParams_diagnostics, setParams_allocate, hbox]
  · simp only [setParams_tables, setParams_diagnostics, setParams_allocate, hbox, ho, ho']
  · simp only [setParams_tables, setParams_diagnostics, setParams_allocate, hbox, ho, ho']
  · simp only [setParams_tables, setParams_diagnostics, setParams_allocate, hbox, ho, ho']

/-- The statement about warnings applied to two equal charges (net charge 2) on an
8 x 8 x 8 grid with order 4, against the neutral pair in the same box: the call on the
charged system returns. -/
theorem setParams_warnings_not_fatal_witness :
    (setParams ex_env (ex_pdata_charged 10 10 10) 8 8 8 4 (3 / 10) 3 (ex_self false)).1
      = Except.ok () :=
  (setParams_warnings_not_fatal ex_env (ex_pdata_charged 10 10 10) (ex_pdata 10 10 10)
    8 8 8 4 (3 / 10) 3 3 (ex_self false) (by decide) (by decide) (by decide) (by decide)
    (by decide) rfl).1

/-- C4: `getLogValue` throws exactly when the quantity is not `pppm_energy`, and
`getProvidedLogQuantities` is the one-element list of that name. -/
theorem getLogValue_raises_iff (base : ForceComputeBase K) (quantity : String)
    (timestep : Nat) (self : PPPMForceCompute K) :
    ((∃ what, (getLogValue base quantity timestep self).1 = Except.error what)
        ↔ quantity ≠ "pppm_energy")
      ∧ getProvidedLogQuantities = ["pppm_energy"] := by
  refine ⟨?_, rfl⟩
  unfold getLogValue
  by_cases h : quantity = "pppm_energy"
  · simp [h]
  · simp [h]

end Validation

/-! ## The recompute controller -/

section Controller

variable {K : Type} [LinearOrderedField K] [FloorRing K]

/-- C5, what the code does: `computeForces` never assigns `m_box_changed`, so the
flag has after the call the value it had before; a pending notification stays
pending. -/
theorem computeForces_keeps_box_changed (env : Env K) (pdata : ParticleData K)
    (timestep : Nat) (self : PPPMForceCompute K) :
    (computeForces env pdata timestep self).m_box_changed = self.m_box_changed := by
  unfold computeForces computeForces_rebuild
  simp only []
  split_ifs <;> rfl

/-- In exact arithmetic: on a grid with `Nx, Ny, Nz >= 2`, for two boxes with positive
extents that are not the same, the k-vector table `computeForces` leaves when called
with the box-change flag set under the second box differs, at some grid point, from
the table built under the first box, be it by `computeForces` with the flag set or by
`setParams`.  With rounding the tables can coincide. -/
theorem computeForces_kvec_differs (env : Env K) (pdata pdata' : ParticleData K)
    (timestep timestep' : Nat) (self self' : PPPMForceCompute K) (Nx Ny Nz : Int)
    (hNx : 2 ≤ Nx) (hNy : 2 ≤ Ny) (hNz : 2 ≤ Nz)
    (hgrid : self.m_Nx = Nx ∧ self.m_Ny = Ny ∧ self.m_Nz = Nz)
    (hgrid' : self'.m_Nx = Nx ∧ self'.m_Ny = Ny ∧ self'.m_Nz = Nz)
    (hpos : 0 < pdata.box.xhi - pdata.box.xlo ∧ 0 < pdata.box.yhi - pdata.box.ylo
      ∧ 0 < pdata.box.zhi - pdata.box.zlo)
    (hpos' : 0 < pdata'.box.xhi - pdata'.box.xlo ∧ 0 < pdata'.box.yhi - pdata'.box.ylo
      ∧ 0 < pdata'.box.zhi - pdata'.box.zlo)
    (hne : ¬ (pdata'.box.xhi - pdata'.box.xlo = pdata.box.xhi - pdata.box.xlo
      ∧ pdata'.box.yhi - pdata'.box.ylo = pdata.box.yhi - pdata.box.ylo
      ∧ pdata'.box.zhi - pdata'.box.zlo = pdata.box.zhi - pdata.box.zlo))
    (hflag : self.m_box_changed = true) (hflag' : self'.m_box_changed = true) :
    (∃ ix iy iz, (0 ≤ ix ∧ ix < Nx) ∧ (0 ≤ iy ∧ iy < Ny) ∧ (0 ≤ iz ∧ iz < Nz)
        ∧ (computeForces env pdata' timestep' self').m_kvec.data (iz + Nz * (iy + Ny * ix))
          ≠ (computeForces env pdata timestep self).m_kvec.data (iz + Nz * (iy + Ny * ix)))
      ∧ ∀ (order : Int) (kappa rcut : K) (s0 : PPPMForceCompute K),
        ¬ cint (order * cint (2 * order + 1)) > env.consts.CONSTANT_SIZE →
        ¬ order > env.consts.MaxOrder →
        ∃ ix iy iz, (0 ≤ ix ∧ ix < Nx) ∧ (0 ≤ iy ∧ iy < Ny) ∧ (0 ≤ iz ∧ iz < Nz)
          ∧ (computeForces env pdata' timestep' self').m_kvec.data (iz + Nz * (iy + Ny * ix))
            ≠ (setParams env pdata Nx Ny Nz order kappa rcut s0).2.m_kvec.data
              (iz + Nz * (iy + Ny * ix)) := by
  obtain ⟨g1, g2, g3⟩ := hgrid
  obtain ⟨g1', g2', g3'⟩ := hgrid'
  rw [computeForces_kvec_of_changed env pdata' timestep' self' hflag',
    computeForces_kvec_of_changed env pdata timestep self hflag, g1, g2, g3, g1', g2', g3']
  constructor
  · exact set_up_kvec_differs _ _ _ _ _ _ _ _ _ _ _ hNx hNy hNz hpos.1 hpos.2.1 hpos.2.2
      hpos'.1 hpos'.2.1 hpos'.2.2 hne
  · intro order kappa rcut s0 h1 h2
    rw [setParams_kvec env pdata _ _ _ order kappa rcut s0 h1 h2]
    exact set_up_kvec_differs _ _ _ _ _ _ _ _ _ _ _ hNx hNy hNz hpos.1 hpos.2.1 hpos.2.2
      hpos'.1 hpos'.2.1 hpos'.2.2 hne

/-- The exact statement about k-vector tables applied to an 8 x 8 x 8 grid and the
boxes 10 x 10 x 10 and 12 x 10 x 10. -/
theorem computeForces_kvec_differs_witness :
    ∃ ix iy iz, (0 ≤ ix ∧ ix < 8) ∧ (0 ≤ iy ∧ iy < 8) ∧ (0 ≤ iz ∧ iz < 8)
      ∧ (computeForces ex_env (ex_pdata 12 10 10) 1 (ex_engine true)).m_kvec.data
          (iz + 8 * (iy + 8 * ix))
        ≠ (computeForces ex_env (ex_pdata 10 10 10) 0 (ex_engine true)).m_kvec.data
          (iz + 8 * (iy + 8 * ix)) :=
  (computeForces_kvec_differs ex_env (ex_pdata 10 10 10) (ex_pdata 12 10 10) 0 1
    (ex_engine true) (ex_engine true) 8 8 8 (by decide) (by decide) (by decide)
    ⟨rfl, rfl, rfl⟩ ⟨rfl, rfl, rfl⟩
    (by norm_num [ex_pdata, ex_box]) (by norm_num [ex_pdata, ex_box])
    (by norm_num [ex_pdata, ex_box]) rfl rfl).1

/-- C7: on an engine whose grid has between 0 and 2^32 - 1 points, a second
`computeForces` right after a first, with the same box and the same particles, leaves
the k-vectors, the virial constants, the Green's function, the coefficient table,
`gf_b`, the per-particle forces, the potential energies and the virials exactly as the
first call left them. -/
theorem computeForces_idempotent (env : Env K) (pdata : ParticleData K)
    (timestep timestep' : Nat) (self : PPPMForceCompute K)
    (hgrid : 0 ≤ self.m_Nx * self.m_Ny * self.m_Nz
      ∧ self.m_Nx * self.m_Ny * self.m_Nz < 4294967296) :
    (computeForces env pdata timestep' (computeForces env pdata timestep self)).m_kvec
        = (computeForces env pdata timestep self).m_kvec
      ∧ (computeForces env pdata timestep' (computeForces env pdata timestep self)).statics.m_vg
        = (computeForces env pdata timestep self).statics.m_vg
      ∧ (computeForces env pdata timestep'
          (computeForces env pdata timestep self)).statics.m_green_hat
        = (computeForces env pdata timestep self).statics.m_green_hat
      ∧ (computeForces env pdata timestep' (computeForces env pdata timestep self)).m_rho_coeff
        = (computeForces env pdata timestep self).m_rho_coeff
      ∧ (computeForces env pdata timestep' (computeForces env pdata timestep self)).m_gf_b
        = (computeForces env pdata timestep self).m_gf_b
      ∧ (computeForces env pdata timestep' (computeForces env pdata timestep self)).m_fx
        = (computeForces env pdata timestep self).m_fx
      ∧ (computeForces env pdata timestep' (computeForces env pdata timestep self)).m_fy
        = (computeForces env pdata timestep self).m_fy
      ∧ (computeForces env pdata timestep' (computeForces env pdata timestep self)).m_fz
        = (computeForces env pdata timestep self).m_fz
      ∧ (computeForces env pdata timestep' (computeForces env pdata timestep self)).m_pe
        = (computeForces env pdata timestep self).m_pe
      ∧ (computeForces env pdata timestep' (computeForces env pdata timestep self)).m_virial
        = (computeForces env pdata timestep self).m_virial := by
  obtain ⟨f1, f2, f3, f4, f5, f6, f7, f8, f9, f10, f11, f12, f13, f14, f15⟩ :=
    computeForces_rebuild_frame env pdata self
  obtain ⟨g1, g2, g3, g4, g5, g6, g7, g8, g9, g10, g11, g12, g13, g14, g15⟩ :=
    computeForces_rebuild_frame env pdata (computeForces env pdata timestep self)
  obtain ⟨t1, t2, t3, t4, t5, t6, t7, t8, t9, t10⟩ :=
    computeForces_tables env pdata timestep self
  obtain ⟨u1, u2, u3, u4, u5, u6, u7, u8, u9, u10⟩ :=
    computeForces_tables env pdata timestep' (computeForces env pdata timestep self)
  obtain ⟨v1, v2, v3, v4, v5, v6, v7, v8⟩ := computeForces_stages env pdata timestep self
  obtain ⟨w1, w2, w3, w4, w5, w6, w7, w8⟩ :=
    computeForces_stages env pdata timestep' (computeForces env pdata timestep self)
  -- the second rebuild
  obtain ⟨r1, r2, r3, r4⟩ := computeForces_rebuild_again env pdata self
    (computeForces env pdata timestep self)
    ⟨t5, t6, t7, t8, t9⟩ (computeForces_box_changed_eq env pdata timestep self)
    t1 t2 t3 t4
  -- the grid and the coefficients seen by the later stages of both calls
  have hN : (computeForces_rebuild env pdata (computeForces env pdata timestep self)).m_Nx
        = (computeForces_rebuild env pdata self).m_Nx
      ∧ (computeForces_rebuild env pdata (computeForces env pdata timestep self)).m_Ny
        = (computeForces_rebuild env pdata self).m_Ny
      ∧ (computeForces_rebuild env pdata (computeForces env pdata timestep self)).m_Nz
        = (computeForces_rebuild env pdata self).m_Nz
      ∧ (computeForces_rebuild env pdata (computeForces env pdata timestep self)).m_order
        = (computeForces_rebuild env pdata self).m_order :=
    ⟨by rw [g1, t5, f1], by rw [g2, t6, f2], by rw [g3, t7, f3], by rw [g4, t8, f4]⟩
  have hco : (computeForces_rebuild env pdata (computeForces env pdata timestep self)).m_rho_coeff
      = (computeForces_rebuild env pdata self).m_rho_coeff := by rw [g6, t10, f6]
  -- the second spreading
  have hrho : ∀ p, 0 ≤ p ∧ p < self.m_Nx * self.m_Ny * self.m_Nz →
      (assign_charges_to_grid pdata
          (computeForces_rebuild env pdata
            (computeForces env pdata timestep self))).statics.m_rho_real_space.data p
        = (assign_charges_to_grid pdata
            (computeForces_rebuild env pdata self)).statics.m_rho_real_space.data p := by
    intro p hp
    apply assign_charges_to_grid_congr pdata _ _ hN hco p
    rw [f1, f2, f3]
    exact hp
  -- the second field solve
  have hframeA : ∀ t : PPPMForceCompute K,
      (assign_charges_to_grid pdata t).m_Nx = t.m_Nx
        ∧ (assign_charges_to_grid pdata t).m_Ny = t.m_Ny
        ∧ (assign_charges_to_grid pdata t).m_Nz = t.m_Nz
        ∧ (assign_charges_to_grid pdata t).m_order = t.m_order
        ∧ (assign_charges_to_grid pdata t).m_rho_coeff = t.m_rho_coeff
        ∧ (assign_charges_to_grid pdata t).m_kvec = t.m_kvec
        ∧ (assign_charges_to_grid pdata t).statics.m_green_hat = t.statics.m_green_hat
        ∧ (assign_charges_to_grid pdata t).m_Ex = t.m_Ex
        ∧ (assign_charges_to_grid pdata t).m_Ey = t.m_Ey
        ∧ (assign_charges_to_grid pdata t).m_Ez = t.m_Ez
        ∧ (assign_charges_to_grid pdata t).m_fx = t.m_fx
        ∧ (assign_charges_to_grid pdata t).m_fy = t.m_fy
        ∧ (assign_charges_to_grid pdata t).m_fz = t.m_fz
        ∧ (assign_charges_to_grid pdata t).m_pe = t.m_pe
        ∧ (assign_charges_to_grid pdata t).m_virial = t.m_virial :=
    fun t => ⟨rfl, rfl, rfl, rfl, rfl, rfl, rfl, rfl, rfl, rfl, rfl, rfl, rfl, rfl, rfl⟩
  have hframeC : ∀ t : PPPMForceCompute K,
      (combined_green_e t).m_Nx = t.m_Nx ∧ (combined_green_e t).m_Ny = t.m_Ny
        ∧ (combined_green_e t).m_Nz = t.m_Nz ∧ (combined_green_e t).m_order = t.m_order
        ∧ (combined_green_e t).m_rho_coeff = t.m_rho_coeff
        ∧ (combined_green_e t).m_fx = t.m_fx ∧ (combined_green_e t).m_fy = t.m_fy
        ∧ (combined_green_e t).m_fz = t.m_fz ∧ (combined_green_e t).m_pe = t.m_pe
        ∧ (combined_green_e t).m_virial = t.m_virial :=
    fun t => ⟨rfl, rfl, rfl, rfl, rfl, rfl, rfl, rfl, rfl, rfl⟩
  obtain ⟨a1, a2, a3, a4, a5, a6, a7, a8, a9, a10, a11, a12, a13, a14, a15⟩ :=
    hframeA (computeForces_rebuild env pdata self)
  obtain ⟨b1, b2, b3, b4, b5, b6, b7, b8, b9, b10, b11, b12, b13, b14, b15⟩ :=
    hframeA (computeForces_rebuild env pdata (computeForces env pdata timestep self))
  obtain ⟨e1, e2, e3⟩ := combined_green_e_again
    (assign_charges_to_grid pdata (computeForces_rebuild env pdata self))
    (assign_charges_to_grid pdata
      (computeForces_rebuild env pdata (computeForces env pdata timestep self)))
    ⟨by rw [b1, a1, hN.1], by rw [b2, a2, hN.2.1], by rw [b3, a3, hN.2.2.1]⟩
    (by rw [b6, a6, r1]) (by rw [b7, a7, r4])
    (by
      intro p hp
      rw [a1, a2, a3, f1, f2, f3, cuint_of_fits _ hgrid] at hp
      exact hrho p hp)
    ⟨by rw [b8, g8, v1], by rw [b9, g9, v2], by rw [b10, g10, v3]⟩
  -- the second gathering
  obtain ⟨c1, c2, c3, c4, c5, c6, c7, c8, c9, c10⟩ :=
    hframeC (assign_charges_to_grid pdata (computeForces_rebuild env pdata self))
  obtain ⟨d1, d2, d3, d4, d5, d6, d7, d8, d9, d10⟩ :=
    hframeC (assign_charges_to_grid pdata
      (computeForces_rebuild env pdata (computeForces env pdata timestep self)))
  obtain ⟨k1, k2, k3, k4, k5⟩ := calculate_forces_again pdata
    (combined_green_e (assign_charges_to_grid pdata (computeForces_rebuild env pdata self)))
    (combined_green_e (assign_charges_to_grid pdata
      (computeForces_rebuild env pdata (computeForces env pdata timestep self))))
    ⟨by rw [d1, b1, c1, a1, hN.1], by rw [d2, b2, c2, a2, hN.2.1],
      by rw [d3, b3, c3, a3, hN.2.2.1], by rw [d4, b4, c4, a4, hN.2.2.2]⟩
    (by rw [d5, b5, c5, a5, hco]) ⟨e1, e2, e3⟩
    ⟨by rw [d6, b11, g11, v4], by rw [d7, b12, g12, v5], by rw [d8, b13, g13, v6],
      by rw [d9, b14, g14, v7], by rw [d10, b15, g15, v8]⟩
  refine ⟨?_, ?_, ?_, ?_, ?_, ?_, ?_, ?_, ?_, ?_⟩
  · rw [u1, r1, t1]
  · rw [u3, r3, t3]
  · rw [u4, r4, t4]
  · rw [u10]
  · rw [u2, r2, t2]
  · rw [w4, k1, v4]
  · rw [w5, k2, v5]
  · rw [w6, k3, v6]
  · rw [w7, k4, v7]
  · rw [w8, k5, v8]

/-- The idempotence statement applied to the two charges in the 10 x 10 x 10 box on
the 8 x 8 x 8 grid, with a box change pending: the forces along x agree. -/
theorem computeForces_idempotent_witness :
    (computeForces ex_env (ex_pdata 10 10 10) 1
        (computeForces ex_env (ex_pdata 10 10 10) 0 (ex_engine true))).m_fx
      = (computeForces ex_env (ex_pdata 10 10 10) 0 (ex_engine true)).m_fx :=
  (computeForces_idempotent ex_env (ex_pdata 10 10 10) 0 1 (ex_engine true)
    (by decide)).2.2.2.2.2.1

end Controller

/-! ## Index wrapping -/

section Wrapping

/-- C8 fails on a 2-point axis with order 5.  A particle at `x = 3/4` in a box of
length 2 is inside the box and has anchor 2; for the stencil offset `n = 2`, which is
`nupper`, the index after the two `if` statements is 2: it is not below the grid size,
it is not `(anchor + n) mod 2 = 0`, and the flattened index it gives with
`my = mz = 0` is 8, outside the 2 x 2 x 2 grid. -/
theorem wrap_index_order5_grid2_out_of_range :
    (-(2 : ℚ) / 2 ≤ 3 / 4 ∧ (3 / 4 : ℚ) < 2 / 2)
      ∧ ¬ unsupported_size 2
      ∧ (nlower 5 ≤ 2 ∧ 2 ≤ nupper 5)
      ∧ stencil_anchor 5 (grid_position (3 / 4 : ℚ) 2 2) = 2
      ∧ wrap_index 2 (2 + stencil_anchor 5 (grid_position (3 / 4 : ℚ) 2 2)) = 2
      ∧ ¬ (wrap_index 2 (2 + stencil_anchor 5 (grid_position (3 / 4 : ℚ) 2 2)) < 2)
      ∧ wrap_index 2 (2 + stencil_anchor 5 (grid_position (3 / 4 : ℚ) 2 2))
          ≠ (2 + stencil_anchor 5 (grid_position (3 / 4 : ℚ) 2 2)) % 2
      ∧ ¬ (0 + 2 * (0 + 2 * wrap_index 2 (2 + stencil_anchor 5 (grid_position (3 / 4 : ℚ) 2 2)))
          < 2 * 2 * 2) := by
  have ha : stencil_anchor 5 (grid_position (3 / 4 : ℚ) 2 2) = 2 := by decide!
  rw [ha]
  refine ⟨by norm_num, by decide, by decide, rfl, by decide, by decide, by decide, by decide⟩

end Wrapping

/-! ## The denominator polynomial -/

section Denominator

variable {K : Type} [LinearOrderedField K] [FloorRing K]

set_option maxRecDepth 100000 in
set_option maxHeartbeats 2000000 in
/-- The denominator at the zero point for order 1. -/
theorem gf_denom_zero_order1 (b : GPUArray K) :
    gf_denom 1 (compute_gf_denom 1 b) 0 0 0 = 1 := by
  have h : ifact 1 = 1 := by decide
  simp [gf_denom, compute_gf_denom, forUp, forDownTo0, forDownAbove0, loop, h, GPUArray.set]

set_option maxRecDepth 100000 in
set_option maxHeartbeats 2000000 in
/-- The denominator at the zero point for order 2. -/
theorem gf_denom_zero_order2 (b : GPUArray K) :
    gf_denom 2 (compute_gf_denom 2 b) 0 0 0 = 1 := by
  have h : ifact 2 = 6 := by decide
  simp [gf_denom, compute_gf_denom, forUp, forDownTo0, forDownAbove0, loop, h, GPUArray.set]
  norm_num

set_option maxRecDepth 100000 in
set_option maxHeartbeats 2000000 in
/-- The denominator at the zero point for order 3. -/
theorem gf_denom_zero_order3 (b : GPUArray K) :
    gf_denom 3 (compute_gf_denom 3 b) 0 0 0 = 1 := by
  have h : ifact 3 = 120 := by decide
  simp [gf_denom, compute_gf_denom, forUp, forDownTo0, forDownAbove0, loop, h, GPUArray.set]
  norm_num

set_option maxRecDepth 100000 in
set_option maxHeartbeats 2000000 in
/-- The denominator at the zero point for order 4. -/
theorem gf_denom_zero_order4 (b : GPUArray K) :
    gf_denom 4 (compute_gf_denom 4 b) 0 0 0 = 1 := by
  have h : ifact 4 = 5040 := by decide
  simp [gf_denom, compute_gf_denom, forUp, forDownTo0, forDownAbove0, loop, h, GPUArray.set]
  norm_num

set_option maxRecDepth 100000 in
set_option maxHeartbeats 2000000 in
/-- The denominator at the zero point for order 5. -/
theorem gf_denom_zero_order5 (b : GPUArray K) :
    gf_denom 5 (compute_gf_denom 5 b) 0 0 0 = 1 := by
  have h : ifact 5 = 362880 := by decide
  simp [gf_denom, compute_gf_denom, forUp, forDownTo0, forDownAbove0, loop, h, GPUArray.set]
  norm_num

set_option maxRecDepth 100000 in
set_option maxHeartbeats 2000000 in
/-- The denominator at the zero point for order 6. -/
theorem gf_denom_zero_order6 (b : GPUArray K) :
    gf_denom 6 (compute_gf_denom 6 b) 0 0 0 = 1 := by
  have h : ifact 6 = 39916800 := by decide
  simp [gf_denom, compute_gf_denom, forUp, forDownTo0, forDownAbove0, loop, h, GPUArray.set]
  norm_num

set_option maxRecDepth 100000 in
set_option maxHeartbeats 2000000 in
/-- The denominator at the zero point for order 7. -/
theorem gf_denom_zero_order7 (b : GPUArray K) :
    gf_denom 7 (compute_gf_denom 7 b) 0 0 0 = (6227020800 / 1932053504) ^ 6 := by
  have h : ifact 7 = 1932053504 := by decide
  simp [gf_denom, compute_gf_denom, forUp, forDownTo0, forDownAbove0, loop, h, GPUArray.set]
  norm_num

/-- C9 holds for the orders 1 to 6 and fails for order 7.  For order 7 the factorial
13! = 6227020800 does not fit the `int` variable `ifact`, which ends as 1932053504, so
that `gf_denom(0,0,0)` is `(6227020800/1932053504)^6`, about 1120.9, and not 1. -/
theorem gf_denom_zero_point (b : GPUArray K) :
    gf_denom 1 (compute_gf_denom 1 b) 0 0 0 = 1
      ∧ gf_denom 2 (compute_gf_denom 2 b) 0 0 0 = 1
      ∧ gf_denom 3 (compute_gf_denom 3 b) 0 0 0 = 1
      ∧ gf_denom 4 (compute_gf_denom 4 b) 0 0 0 = 1
      ∧ gf_denom 5 (compute_gf_denom 5 b) 0 0 0 = 1
      ∧ gf_denom 6 (compute_gf_denom 6 b) 0 0 0 = 1
      ∧ ifact 7 = 1932053504
      ∧ gf_denom 7 (compute_gf_denom 7 b) 0 0 0 = (6227020800 / 1932053504) ^ 6
      ∧ gf_denom 7 (compute_gf_denom 7 b) 0 0 0 ≠ 1 := by
  refine ⟨gf_denom_zero_order1 b, gf_denom_zero_order2 b, gf_denom_zero_order3 b,
    gf_denom_zero_order4 b, gf_denom_zero_order5 b, gf_denom_zero_order6 b, by decide,
    gf_denom_zero_order7 b, ?_⟩
  rw [gf_denom_zero_order7 b]
  norm_num

end Denominator

/-! ## The charge-assignment polynomials -/

section Weights

variable {K : Type} [LinearOrderedField K] [FloorRing K]

set_option maxRecDepth 100000 in
set_option maxHeartbeats 4000000 in
/-- The weights of order 1 sum to one: the columns of the scratch block the copy
loop takes have coefficient sums 1, 0, 0, ... -/
theorem rho_weight_sum_order1 (h : GPUArray K) (d : K) :
    rho_weight 1 (compute_rho_coeff 1 h) 0 d = 1 := by
  have q0 : (rho_scratch (K := ℚ) 1).data 1 = 1 := by
    decide!
  have k0 := congrArg (Rat.cast : ℚ → K) q0
  push_cast at k0
  simp only [rho_scratch_cast] at k0
  simp [rho_weight, compute_rho_coeff, forDownTo0, forUp, forUpBy2, loop, GPUArray.set_data]
  linear_combination k0

set_option maxRecDepth 100000 in
set_option maxHeartbeats 4000000 in
/-- The weights of order 2 sum to one: the columns of the scratch block the copy
loop takes have coefficient sums 1, 0, 0, ... -/
theorem rho_weight_sum_order2 (h : GPUArray K) (d : K) :
    rho_weight 2 (compute_rho_coeff 2 h) 0 d + rho_weight 2 (compute_rho_coeff 2 h) 1 d = 1 := by
  have q0 : (rho_scratch (K := ℚ) 2).data 1 + (rho_scratch (K := ℚ) 2).data 3 = 1 := by
    decide!
  have k0 := congrArg (Rat.cast : ℚ → K) q0
  push_cast at k0
  simp only [rho_scratch_cast] at k0
  have q1 : (rho_scratch (K := ℚ) 2).data 6 + (rho_scratch (K := ℚ) 2).data 8 = 0 := by
    decide!
  have k1 := congrArg (Rat.cast : ℚ → K) q1
  push_cast at k1
  simp only [rho_scratch_cast] at k1
  simp [rho_weight, compute_rho_coeff, forDownTo0, forUp, forUpBy2, loop, GPUArray.set_data]
  linear_combination k0 + d * k1

set_option maxRecDepth 100000 in
set_option maxHeartbeats 4000000 in
/-- The weights of order 3 sum to one: the columns of the scratch block the copy
loop takes have coefficient sums 1, 0, 0, ... -/
theorem rho_weight_sum_order3 (h : GPUArray K) (d : K) :
    rho_weight 3 (compute_rho_coeff 3 h) 0 d + rho_weight 3 (compute_rho_coeff 3 h) 1 d
      + rho_weight 3 (compute_rho_coeff 3 h) 2 d = 1 := by
  have q0 : (rho_scratch (K := ℚ) 3).data 1 + (rho_scratch (K := ℚ) 3).data 3
      + (rho_scratch (K := ℚ) 3).data 5 = 1 := by
    decide!
  have k0 := congrArg (Rat.cast : ℚ → K) q0
  push_cast at k0
  simp only [rho_scratch_cast] at k0
  have q1 : (rho_scratch (K := ℚ) 3).data 8 + (rho_scratch (K := ℚ) 3).data 10
      + (rho_scratch (K := ℚ) 3).data 12 = 0 := by
    decide!
  have k1 := congrArg (Rat.cast : ℚ → K) q1
  push_cast at k1
  simp only [rho_scratch_cast] at k1
  have q2 : (rho_scratch (K := ℚ) 3).data 15 + (rho_scratch (K := ℚ) 3).data 17
      + (rho_scratch (K := ℚ) 3).data 19 = 0 := by
    decide!
  have k2 := congrArg (Rat.cast : ℚ → K) q2
  push_cast at k2
  simp only [rho_scratch_cast] at k2
  simp [rho_weight, compute_rho_coeff, forDownTo0, forUp, forUpBy2, loop, GPUArray.set_data]
  linear_combination k0 + d * k1 + d ^ 2 * k2

set_option maxRecDepth 100000 in
set_option maxHeartbeats 4000000 in
/-- The weights of order 4 sum to one: the columns of the scratch block the copy
loop takes have coefficient sums 1, 0, 0, ... -/
theorem rho_weight_sum_order4 (h : GPUArray K) (d : K) :
    rho_weight 4 (compute_rho_coeff 4 h) 0 d + rho_weight 4 (compute_rho_coeff 4 h) 1 d
      + rho_weight 4 (compute_rho_coeff 4 h) 2 d + rho_weight 4 (compute_rho_coeff 4 h) 3 d = 1 := by
  have q0 : (rho_scratch (K := ℚ) 4).data 1 + (rho_scratch (K := ℚ) 4).data 3
      + (rho_scratch (K := ℚ) 4).data 5 + (rho_scratch (K := ℚ) 4).data 7 = 1 := by
    decide!
  have k0 := congrArg (Rat.cast : ℚ → K) q0
  push_cast at k0
  simp only [rho_scratch_cast] at k0
  have q1 : (rho_scratch (K := ℚ) 4).data 10 + (rho_scratch (K := ℚ) 4).data 12
      + (rho_scratch (K := ℚ) 4).data 14 + (rho_scratch (K := ℚ) 4).data 16 = 0 := by
    decide!
  have k1 := congrArg (Rat.cast : ℚ → K) q1
  push_cast at k1
  simp only [rho_scratch_cast] at k1
  have q2 : (rho_scratch (K := ℚ) 4).data 19 + (rho_scratch (K := ℚ) 4).data 21
      + (rho_scratch (K := ℚ) 4).data 23 + (rho_scratch (K := ℚ) 4).data 25 = 0 := by
    decide!
  have k2 := congrArg (Rat.cast : ℚ → K) q2
  push_cast at k2
  simp only [rho_scratch_cast] at k2
  have q3 : (rho_scratch (K := ℚ) 4).data 28 + (rho_scratch (K := ℚ) 4).data 30
      + (rho_scratch (K := ℚ) 4).data 32 + (rho_scratch (K := ℚ) 4).data 34 = 0 := by
    decide!
  have k3 := congrArg (Rat.cast : ℚ → K) q3
  push_cast at k3
  simp only [rho_scratch_cast] at k3
  simp [rho_weight, compute_rho_coeff, forDownTo0, forUp, forUpBy2, loop, GPUArray.set_data]
  linear_combination k0 + d * k1 + d ^ 2 * k2 + d ^ 3 * k3

set_option maxRecDepth 100000 in
set_option maxHeartbeats 4000000 in
/-- The weights of order 5 sum to one: the columns of the scratch block the copy
loop takes have coefficient sums 1, 0, 0, ... -/
theorem rho_weight_sum_order5 (h : GPUArray K) (d : K) :
    rho_weight 5 (compute_rho_coeff 5 h) 0 d + rho_weight 5 (compute_rho_coeff 5 h) 1 d
      + rho_weight 5 (compute_rho_coeff 5 h) 2 d + rho_weight 5 (compute_rho_coeff 5 h) 3 d
      + rho_weight 5 (compute_rho_coeff 5 h) 4 d = 1 := by
  have q0 : (rho_scratch (K := ℚ) 5).data 1 + (rho_scratch (K := ℚ) 5).data 3
      + (rho_scratch (K := ℚ) 5).data 5 + (rho_scratch (K := ℚ) 5).data 7
      + (rho_scratch (K := ℚ) 5).data 9 = 1 := by
    decide!
  have k0 := congrArg (Rat.cast : ℚ → K) q0
  push_cast at k0
  simp only [rho_scratch_cast] at k0
  have q1 : (rho_scratch (K := ℚ) 5).data 12 + (rho_scratch (K := ℚ) 5).data 14
      + (rho_scratch (K := ℚ) 5).data 16 + (rho_scratch (K := ℚ) 5).data 18
      + (rho_scratch (K := ℚ) 5).data 20 = 0 := by
    decide!
  have k1 := congrArg (Rat.cast : ℚ → K) q1
  push_cast at k1
  simp only [rho_scratch_cast] at k1
  have q2 : (rho_scratch (K := ℚ) 5).data 23 + (rho_scratch (K := ℚ) 5).data 25
      + (rho_scratch (K := ℚ) 5).data 27 + (rho_scratch (K := ℚ) 5).data 29
      + (rho_scratch (K := ℚ) 5).data 31 = 0 := by
    decide!
  have k2 := congrArg (Rat.cast : ℚ → K) q2
  push_cast at k2
  simp only [rho_scratch_cast] at k2
  have q3 : (rho_scratch (K := ℚ) 5).data 34 + (rho_scratch (K := ℚ) 5).data 36
      + (rho_scratch (K := ℚ) 5).data 38 + (rho_scratch (K := ℚ) 5).data 40
      + (rho_scratch (K := ℚ) 5).data 42 = 0 := by
    decide!
  have k3 := congrArg (Rat.cast : ℚ → K) q3
  push_cast at k3
  simp only [rho_scratch_cast] at k3
  have q4 : (rho_scratch (K := ℚ) 5).data 45 + (rho_scratch (K := ℚ) 5).data 47
      + (rho_scratch (K := ℚ) 5).data 49 + (rho_scratch (K := ℚ) 5).data 51
      + (rho_scratch (K := ℚ) 5).data 53 = 0 := by
    decide!
  have k4 := congrArg (Rat.cast : ℚ → K) q4
  push_cast at k4
  simp only [rho_scratch_cast] at k4
  simp [rho_weight, compute_rho_coeff, forDownTo0, forUp, forUpBy2, loop, GPUArray.set_data]
  linear_combination k0 + d * k1 + d ^ 2 * k2 + d ^ 3 * k3 + d ^ 4 * k4

set_option maxRecDepth 100000 in
set_option maxHeartbeats 4000000 in
/-- The weights of order 6 sum to one: the columns of the scratch block the copy
loop takes have coefficient sums 1, 0, 0, ... -/
theorem rho_weight_sum_order6 (h : GPUArray K) (d : K) :
    rho_weight 6 (compute_rho_coeff 6 h) 0 d + rho_weight 6 (compute_rho_coeff 6 h) 1 d
      + rho_weight 6 (compute_rho_coeff 6 h) 2 d + rho_weight 6 (compute_rho_coeff 6 h) 3 d
      + rho_weight 6 (compute_rho_coeff 6 h) 4 d + rho_weight 6 (compute_rho_coeff 6 h) 5 d = 1 := by
  have q0 : (rho_scratch (K := ℚ) 6).data 1 + (rho_scratch (K := ℚ) 6).data 3
      + (rho_scratch (K := ℚ) 6).data 5 + (rho_scratch (K := ℚ) 6).data 7
      + (rho_scratch (K := ℚ) 6).data 9 + (rho_scratch (K := ℚ) 6).data 11 = 1 := by
    decide!
  have k0 := congrArg (Rat.cast : ℚ → K) q0
  push_cast at k0
  simp only [rho_scratch_cast] at k0
  have q1 : (rho_scratch (K := ℚ) 6).data 14 + (rho_scratch (K := ℚ) 6).data 16
      + (rho_scratch (K := ℚ) 6).data 18 + (rho_scratch (K := ℚ) 6).data 20
      + (rho_scratch (K := ℚ) 6).data 22 + (rho_scratch (K := ℚ) 6).data 24 = 0 := by
    decide!
  have k1 := congrArg (Rat.cast : ℚ → K) q1
  push_cast at k1
  simp only [rho_scratch_cast] at k1
  have q2 : (rho_scratch (K := ℚ) 6).data 27 + (rho_scratch (K := ℚ) 6).data 29
      + (rho_scratch (K := ℚ) 6).data 31 + (rho_scratch (K := ℚ) 6).data 33
      + (rho_scratch (K := ℚ) 6).data 35 + (rho_scratch (K := ℚ) 6).data 37 = 0 := by
    decide!
  have k2 := congrArg (Rat.cast : ℚ → K) q2
  push_cast at k2
  simp only [rho_scratch_cast] at k2
  have q3 : (rho_scratch (K := ℚ) 6).data 40 + (rho_scratch (K := ℚ) 6).data 42
      + (rho_scratch (K := ℚ) 6).data 44 + (rho_scratch (K := ℚ) 6).data 46
      + (rho_scratch (K := ℚ) 6).data 48 + (rho_scratch (K := ℚ) 6).data 50 = 0 := by
    decide!
  have k3 := congrArg (Rat.cast : ℚ → K) q3
  push_cast at k3
  simp only [rho_scratch_cast] at k3
  have q4 : (rho_scratch (K := ℚ) 6).data 53 + (rho_scratch (K := ℚ) 6).data 55
      + (rho_scratch (K := ℚ) 6).data 57 + (rho_scratch (K := ℚ) 6).data 59
      + (rho_scratch (K := ℚ) 6).data 61 + (rho_scratch (K := ℚ) 6).data 63 = 0 := by
    decide!
  have k4 := congrArg (Rat.cast : ℚ → K) q4
  push_cast at k4
  simp only [rho_scratch_cast] at k4
  have q5 : (rho_scratch (K := ℚ) 6).data 66 + (rho_scratch (K := ℚ) 6).data 68
      + (rho_scratch (K := ℚ) 6).data 70 + (rho_scratch (K := ℚ) 6).data 72
      + (rho_scratch (K := ℚ) 6).data 74 + (rho_scratch (K := ℚ) 6).data 76 = 0 := by
    decide!
  have k5 := congrArg (Rat.cast : ℚ → K) q5
  push_cast at k5
  simp only [rho_scratch_cast] at k5
  simp [rho_weight, compute_rho_coeff, forDownTo0, forUp, forUpBy2, loop, GPUArray.set_data]
  linear_combination k0 + d * k1 + d ^ 2 * k2 + d ^ 3 * k3 + d ^ 4 * k4 + d ^ 5 * k5

set_option maxRecDepth 100000 in
set_option maxHeartbeats 4000000 in
/-- The weights of order 7 sum to one: the columns of the scratch block the copy
loop takes have coefficient sums 1, 0, 0, ... -/
theorem rho_weight_sum_order7 (h : GPUArray K) (d : K) :
    rho_weight 7 (compute_rho_coeff 7 h) 0 d + rho_weight 7 (compute_rho_coeff 7 h) 1 d
      + rho_weight 7 (compute_rho_coeff 7 h) 2 d + rho_weight 7 (compute_rho_coeff 7 h) 3 d
      + rho_weight 7 (compute_rho_coeff 7 h) 4 d + rho_weight 7 (compute_rho_coeff 7 h) 5 d
      + rho_weight 7 (compute_rho_coeff 7 h) 6 d = 1 := by
  have q0 : (rho_scratch (K := ℚ) 7).data 1 + (rho_scratch (K := ℚ) 7).data 3
      + (rho_scratch (K := ℚ) 7).data 5 + (rho_scratch (K := ℚ) 7).data 7
      + (rho_scratch (K := ℚ) 7).data 9 + (rho_scratch (K := ℚ) 7).data 11
      + (rho_scratch (K := ℚ) 7).data 13 = 1 := by
    decide!
  have k0 := congrArg (Rat.cast : ℚ → K) q0
  push_cast at k0
  simp only [rho_scratch_cast] at k0
  have q1 : (rho_scratch (K := ℚ) 7).data 16 + (rho_scratch (K := ℚ) 7).data 18
      + (rho_scratch (K := ℚ) 7).data 20 + (rho_scratch (K := ℚ) 7).data 22
      + (rho_scratch (K := ℚ) 7).data 24 + (rho_scratch (K := ℚ) 7).data 26
      + (rho_scratch (K := ℚ) 7).data 28 = 0 := by
    decide!
  have k1 := congrArg (Rat.cast : ℚ → K) q1
  push_cast at k1
  simp only [rho_scratch_cast] at k1
  have q2 : (rho_scratch (K := ℚ) 7).data 31 + (rho_scratch (K := ℚ) 7).data 33
      + (rho_scratch (K := ℚ) 7).data 35 + (rho_scratch (K := ℚ) 7).data 37
      + (rho_scratch (K := ℚ) 7).data 39 + (rho_scratch (K := ℚ) 7).data 41
      + (rho_scratch (K := ℚ) 7).data 43 = 0 := by
    decide!
  have k2 := congrArg (Rat.cast : ℚ → K) q2
  push_cast at k2
  simp only [rho_scratch_cast] at k2
  have q3 : (rho_scratch (K := ℚ) 7).data 46 + (rho_scratch (K := ℚ) 7).data 48
      + (rho_scratch (K := ℚ) 7).data 50 + (rho_scratch (K := ℚ) 7).data 52
      + (rho_scratch (K := ℚ) 7).data 54 + (rho_scratch (K := ℚ) 7).data 56
      + (rho_scratch (K := ℚ) 7).data 58 = 0 := by
    decide!
  have k3 := congrArg (Rat.cast : ℚ → K) q3
  push_cast at k3
  simp only [rho_scratch_cast] at k3
  have q4 : (rho_scratch (K := ℚ) 7).data 61 + (rho_scratch (K := ℚ) 7).data 63
      + (rho_scratch (K := ℚ) 7).data 65 + (rho_scratch (K := ℚ) 7).data 67
      + (rho_scratch (K := ℚ) 7).data 69 + (rho_scratch (K := ℚ) 7).data 71
      + (rho_scratch (K := ℚ) 7).data 73 = 0 := by
    decide!
  have k4 := congrArg (Rat.cast : ℚ → K) q4
  push_cast at k4
  simp only [rho_scratch_cast] at k4
  have q5 : (rho_scratch (K := ℚ) 7).data 76 + (rho_scratch (K := ℚ) 7).data 78
      + (rho_scratch (K := ℚ) 7).data 80 + (rho_scratch (K := ℚ) 7).data 82
      + (rho_scratch (K := ℚ) 7).data 84 + (rho_scratch (K := ℚ) 7).data 86
      + (rho_scratch (K := ℚ) 7).data 88 = 0 := by
    decide!
  have k5 := congrArg (Rat.cast : ℚ → K) q5
  push_cast at k5
  simp only [rho_scratch_cast] at k5
  have q6 : (rho_scratch (K := ℚ) 7).data 91 + (rho_scratch (K := ℚ) 7).data 93
      + (rho_scratch (K := ℚ) 7).data 95 + (rho_scratch (K := ℚ) 7).data 97
      + (rho_scratch (K := ℚ) 7).data 99 + (rho_scratch (K := ℚ) 7).data 101
      + (rho_scratch (K := ℚ) 7).data 103 = 0 := by
    decide!
  have k6 := congrArg (Rat.cast : ℚ → K) q6
  push_cast at k6
  simp only [rho_scratch_cast] at k6
  simp [rho_weight, compute_rho_coeff, forDownTo0, forUp, forUpBy2, loop, GPUArray.set_data]
  linear_combination k0 + d * k1 + d ^ 2 * k2 + d ^ 3 * k3 + d ^ 4 * k4 + d ^ 5 * k5 + d ^ 6 * k6

/-- For the orders 1 to 7 the weights of the `order` stencil columns sum to one, both
as the sum over the columns `0 .. order-1` and as the sum the stencil loop runs
through. -/
theorem rho_weight_sum (order : Int) (h1 : 1 ≤ order) (h7 : order ≤ 7) (h : GPUArray K)
    (d : K) :
    ∑ c in Finset.range order.toNat, rho_weight order (compute_rho_coeff order h) (c : Int) d = 1
      ∧ sumUpTo (nlower order) (nupper order) (fun n =>
          rho_weight order (compute_rho_coeff order h) (n - nlower order) d) = 1 := by
  interval_cases order
  · have e := rho_weight_sum_order1 h d
    have nl : nlower 1 = 0 := by decide
    have nu : nupper 1 = 0 := by decide
    constructor
    · simp [Finset.sum_range_succ]
      linear_combination e
    · simp [sumUpTo, forUpTo, loop, nl, nu]
      linear_combination e
  · have e := rho_weight_sum_order2 h d
    have nl : nlower 2 = 0 := by decide
    have nu : nupper 2 = 1 := by decide
    constructor
    · simp [Finset.sum_range_succ]
      linear_combination e
    · simp [sumUpTo, forUpTo, loop, nl, nu]
      linear_combination e
  · have e := rho_weight_sum_order3 h d
    have nl : nlower 3 = -1 := by decide
    have nu : nupper 3 = 1 := by decide
    constructor
    · simp [Finset.sum_range_succ]
      linear_combination e
    · simp [sumUpTo, forUpTo, loop, nl, nu]
      linear_combination e
  · have e := rho_weight_sum_order4 h d
    have nl : nlower 4 = -1 := by decide
    have nu : nupper 4 = 2 := by decide
    constructor
    · simp [Finset.sum_range_succ]
      linear_combination e
    · simp [sumUpTo, forUpTo, loop, nl, nu]
      linear_combination e
  · have e := rho_weight_sum_order5 h d
    have nl : nlower 5 = -2 := by decide
    have nu : nupper 5 = 2 := by decide
    constructor
    · simp [Finset.sum_range_succ]
      linear_combination e
    · simp [sumUpTo, forUpTo, loop, nl, nu]
      linear_combination e
  · have e := rho_weight_sum_order6 h d
    have nl : nlower 6 = -2 := by decide
    have nu : nupper 6 = 3 := by decide
    constructor
    · simp [Finset.sum_range_succ]
      linear_combination e
    · simp [sumUpTo, forUpTo, loop, nl, nu]
      linear_combination e
  · have e := rho_weight_sum_order7 h d
    have nl : nlower 7 = -3 := by decide
    have nu : nupper 7 = 3 := by decide
    constructor
    · simp [Finset.sum_range_succ]
      linear_combination e
    · simp [sumUpTo, forUpTo, loop, nl, nu]
      linear_combination e

/-- C10, partition of unity: for every order from 1 to 7 and every offset `d`, the
Horner polynomials of the `order` stencil columns, read from the table
`compute_rho_coeff` produces, sum to 1; hence what `assign_charges_to_grid` adds for one
particle, summed over any finite set of cells that contains the particle's wrapped
stencil, is the particle's charge divided by `box_dx*box_dy*box_dz`. -/
theorem partition_of_unity (order : Int) (h1 : 1 ≤ order) (h7 : order ≤ 7)
    (h : GPUArray K) :
    (∀ d : K, ∑ c in Finset.range order.toNat,
        rho_weight order (compute_rho_coeff order h) (c : Int) d = 1)
      ∧ ∀ (pdata : ParticleData K) (Nx Ny Nz : Int) (i : Int)
          (rho : GPUArray (cufftComplex K)) (S : Finset Int),
        (∀ n m l, nlower order ≤ n → n ≤ nupper order → nlower order ≤ m →
          m ≤ nupper order → nlower order ≤ l → l ≤ nupper order →
          wrap_index Nz (l + stencil_anchor order
              (grid_position (pdata.arrays.z i) (pdata.box.zhi - pdata.box.zlo) Nz))
            + Nz * (wrap_index Ny (m + stencil_anchor order
                (grid_position (pdata.arrays.y i) (pdata.box.yhi - pdata.box.ylo) Ny))
              + Ny * wrap_index Nx (n + stencil_anchor order
                (grid_position (pdata.arrays.x i) (pdata.box.xhi - pdata.box.xlo) Nx))) ∈ S) →
        ∑ p in S, ((assign_particle pdata Nx Ny Nz order (compute_rho_coeff order h)
            i rho).data p).x
          = ∑ p in S, (rho.data p).x
            + pdata.arrays.charge i
              / ((pdata.box.xhi - pdata.box.xlo) / (Nx : K)
                * ((pdata.box.yhi - pdata.box.ylo) / (Ny : K))
                * ((pdata.box.zhi - pdata.box.zlo) / (Nz : K))) := by
  constructor
  · intro d
    exact (rho_weight_sum order h1 h7 h d).1
  · intro pdata Nx Ny Nz i rho S hS
    rw [assign_particle_sum pdata Nx Ny Nz order _ i rho S hS,
      (rho_weight_sum order h1 h7 h _).2, (rho_weight_sum order h1 h7 h _).2,
      (rho_weight_sum order h1 h7 h _).2, mul_one, mul_one, mul_one]

/-- The partition of unity applied to order 4 at `d = 1/3`. -/
theorem partition_of_unity_witness :
    ∑ c in Finset.range (4 : Int).toNat,
      rho_weight 4 (compute_rho_coeff 4 (⟨0, fun _ => 0⟩ : GPUArray ℚ)) (c : Int) (1 / 3 : ℚ)
        = 1 :=
  (partition_of_unity 4 (by decide) (by decide) (⟨0, fun _ => 0⟩ : GPUArray ℚ)).1 (1 / 3)

end Weights

/-! ## The stencil as a list of cells: general facts -/

section CellFacts

variable {K : Type} [LinearOrderedField K] [FloorRing K]

theorem loop_eq_foldl {σ : Type} (body : Int → σ → σ) (n : Nat) (lo : Int) (s : σ) :
    loop body 1 n lo s
      = ((List.range n).map (fun (j : Nat) => lo + (j : Int))).foldl (fun s i => body i s) s := by
  induction n generalizing lo s with
  | zero => rfl
  | succ n ih =>
    rw [loop_succ, ih, List.range_succ_eq_map, List.map_cons, List.foldl_cons, List.map_map]
    congr 1
    · simp
    · apply List.map_congr_left
      intro j _
      simp only [Function.comp, Nat.cast_succ]
      ring

theorem forUpTo_eq_foldl {σ : Type} (body : Int → σ → σ) (lo hi : Int) (s : σ) :
    forUpTo lo hi body s = (intRange lo hi).foldl (fun s i => body i s) s :=
  loop_eq_foldl body _ lo s

theorem mem_intRange (lo hi i : Int) : i ∈ intRange lo hi ↔ lo ≤ i ∧ i ≤ hi := by
  unfold intRange
  simp only [List.mem_map, List.mem_range]
  constructor
  · rintro ⟨j, hj, rfl⟩
    omega
  · intro h
    exact ⟨(i - lo).toNat, by omega, by omega⟩

theorem foldl_flatMap {α β σ : Type} (l : List α) (g : α → List β) (f : σ → β → σ)
    (s : σ) :
    (l.flatMap g).foldl f s = l.foldl (fun s a => (g a).foldl f s) s := by
  induction l generalizing s with
  | nil => rfl
  | cons a l ih => simp [List.flatMap_cons, List.foldl_append, ih]

theorem foldl_sum_track {α σ : Type} (Φ : σ → K) (body : α → σ → σ) (f : α → K)
    (l : List α)
    (hbody : ∀ c ∈ l, ∀ s, Φ (body c s) = Φ s + f c) (s : σ) :
    Φ (l.foldl (fun s c => body c s) s) = Φ s + (l.map f).sum := by
  induction l generalizing s with
  | nil => simp
  | cons a l ih =>
    rw [List.foldl_cons, ih (fun c hc => hbody c (List.mem_cons_of_mem _ hc)),
      hbody a (List.mem_cons_self _ _), List.map_cons, List.sum_cons]
    ring

/-- The stencil loop of `assign_charges_to_grid` for one particle visits the cells of
`stencil_cells` in order and adds to each the charge over the cell volume times the
cell's weight. -/
theorem assign_particle_eq_foldl (pdata : ParticleData K) (Nx Ny Nz order : Int)
    (coeff : GPUArray K) (i : Int) (rho : GPUArray (cufftComplex K)) :
    assign_particle pdata Nx Ny Nz order coeff i rho
      = (stencil_cells pdata Nx Ny Nz order coeff i).foldl
          (fun h c => add_re h c.1
            (pdata.arrays.charge i
              / ((pdata.box.xhi - pdata.box.xlo) / (Nx : K)
                * ((pdata.box.yhi - pdata.box.ylo) / (Ny : K))
                * ((pdata.box.zhi - pdata.box.zlo) / (Nz : K))) * c.2)) rho := by
  simp only [assign_particle, stencil_cells, forUpTo_eq_foldl, foldl_flatMap, List.foldl_map,
    mul_assoc]

/-- The stencil loop of `calculate_forces` for one particle visits the cells of
`stencil_cells` in order and adds for each the charge times the cell's weight times
the real part of the field at the cell. -/
theorem force_particle_eq_foldl (pdata : ParticleData K) (Nx Ny Nz order : Int)
    (coeff : GPUArray K) (Ex Ey Ez : GPUArray (cufftComplex K)) (i : Int) (f : Forces K) :
    force_particle pdata Nx Ny Nz order coeff Ex Ey Ez i f
      = (stencil_cells pdata Nx Ny Nz order coeff i).foldl
          (fun f c => add_force f i
            (pdata.arrays.charge i * c.2 * (Ex.data c.1).x)
            (pdata.arrays.charge i * c.2 * (Ey.data c.1).x)
            (pdata.arrays.charge i * c.2 * (Ez.data c.1).x)) f := by
  simp only [force_particle, stencil_cells, forUpTo_eq_foldl, foldl_flatMap, List.foldl_map]

end CellFacts

section GatherFacts

variable {K : Type} [LinearOrderedField K] [FloorRing K]

/-- Every cell of `stencil_cells` is the cell of some offsets `(n, m, l)` of the
stencil. -/
theorem mem_stencil_cells (pdata : ParticleData K) (Nx Ny Nz order : Int)
    (coeff : GPUArray K) (i : Int) (c : Int × K)
    (hc : c ∈ stencil_cells pdata Nx Ny Nz order coeff i) :
    ∃ n m l, (nlower order ≤ n ∧ n ≤ nupper order)
      ∧ (nlower order ≤ m ∧ m ≤ nupper order)
      ∧ (nlower order ≤ l ∧ l ≤ nupper order)
      ∧ c.1 = wrap_index Nz (l + stencil_anchor order
            (grid_position (pdata.arrays.z i) (pdata.box.zhi - pdata.box.zlo) Nz))
          + Nz * (wrap_index Ny (m + stencil_anchor order
              (grid_position (pdata.arrays.y i) (pdata.box.yhi - pdata.box.ylo) Ny))
            + Ny * wrap_index Nx (n + stencil_anchor order
              (grid_position (pdata.arrays.x i) (pdata.box.xhi - pdata.box.xlo) Nx)))
      ∧ c.2 = rho_weight order coeff (n - nlower order) (stencil_arg order
            (grid_position (pdata.arrays.x i) (pdata.box.xhi - pdata.box.xlo) Nx))
          * rho_weight order coeff (m - nlower order) (stencil_arg order
            (grid_position (pdata.arrays.y i) (pdata.box.yhi - pdata.box.ylo) Ny))
          * rho_weight order coeff (l - nlower order) (stencil_arg order
            (grid_position (pdata.arrays.z i) (pdata.box.zhi - pdata.box.zlo) Nz)) := by
  simp only [stencil_cells, List.mem_flatMap, List.mem_map, mem_intRange] at hc
  obtain ⟨n, hn, m, hm, l, hl, rfl⟩ := hc
  exact ⟨n, m, l, hn, hm, hl, rfl, rfl⟩

theorem add_force_at (f : Forces K) (i : Int) (vx vy vz : K) :
    (add_force f i vx vy vz).fx.data i = f.fx.data i + vx
      ∧ (add_force f i vx vy vz).fy.data i = f.fy.data i + vy
      ∧ (add_force f i vx vy vz).fz.data i = f.fz.data i + vz := by
  simp [add_force, GPUArray.set_data]

/-- What the stencil loop of `calculate_forces` adds to the force on particle `i`. -/
theorem force_particle_value (pdata : ParticleData K) (Nx Ny Nz order : Int)
    (coeff : GPUArray K) (Ex Ey Ez : GPUArray (cufftComplex K)) (i : Int) (f : Forces K) :
    (force_particle pdata Nx Ny Nz order coeff Ex Ey Ez i f).fx.data i
        = f.fx.data i + pdata.arrays.charge i
          * ((stencil_cells pdata Nx Ny Nz order coeff i).map
              (fun c => c.2 * (Ex.data c.1).x)).sum
      ∧ (force_particle pdata Nx Ny Nz order coeff Ex Ey Ez i f).fy.data i
        = f.fy.data i + pdata.arrays.charge i
          * ((stencil_cells pdata Nx Ny Nz order coeff i).map
              (fun c => c.2 * (Ey.data c.1).x)).sum
      ∧ (force_particle pdata Nx Ny Nz order coeff Ex Ey Ez i f).fz.data i
        = f.fz.data i + pdata.arrays.charge i
          * ((stencil_cells pdata Nx Ny Nz order coeff i).map
              (fun c => c.2 * (Ez.data c.1).x)).sum := by
  rw [force_particle_eq_foldl]
  refine ⟨?_, ?_, ?_⟩
  · rw [foldl_sum_track (fun f : Forces K => f.fx.data i) _
      (fun c => pdata.arrays.charge i * (c.2 * (Ex.data c.1).x))
      _ (fun c _ s => by
        show (add_force s i _ _ _).fx.data i = s.fx.data i + _
        rw [(add_force_at s i _ _ _).1, mul_assoc]),
      List.sum_map_mul_left]
  · rw [foldl_sum_track (fun f : Forces K => f.fy.data i) _
      (fun c => pdata.arrays.charge i * (c.2 * (Ey.data c.1).x))
      _ (fun c _ s => by
        show (add_force s i _ _ _).fy.data i = s.fy.data i + _
        rw [(add_force_at s i _ _ _).2.1, mul_assoc]),
      List.sum_map_mul_left]
  · rw [foldl_sum_track (fun f : Forces K => f.fz.data i) _
      (fun c => pdata.arrays.charge i * (c.2 * (Ez.data c.1).x))
      _ (fun c _ s => by
        show (add_force s i _ _ _).fz.data i = s.fz.data i + _
        rw [(add_force_at s i _ _ _).2.2, mul_assoc]),
      List.sum_map_mul_left]

/-- The force `calculate_forces` leaves on particle `i`, and the cleared energy and
virial. -/
theorem calculate_forces_value (pdata : ParticleData K) (self : PPPMForceCompute K) (i : Int)
    (hi : 0 ≤ i ∧ i < (pdata.arrays.nparticles : Int)) :
    (calculate_forces pdata self).m_fx.data i
        = pdata.arrays.charge i
          * ((stencil_cells pdata self.m_Nx self.m_Ny self.m_Nz self.m_order
              self.m_rho_coeff i).map (fun c => c.2 * (self.m_Ex.data c.1).x)).sum
      ∧ (calculate_forces pdata self).m_fy.data i
        = pdata.arrays.charge i
          * ((stencil_cells pdata self.m_Nx self.m_Ny self.m_Nz self.m_order
              self.m_rho_coeff i).map (fun c => c.2 * (self.m_Ey.data c.1).x)).sum
      ∧ (calculate_forces pdata self).m_fz.data i
        = pdata.arrays.charge i
          * ((stencil_cells pdata self.m_Nx self.m_Ny self.m_Nz self.m_order
              self.m_rho_coeff i).map (fun c => c.2 * (self.m_Ez.data c.1).x)).sum
      ∧ (calculate_forces pdata self).m_pe.data i = 0
      ∧ (calculate_forces pdata self).m_virial.data i = 0 := by
  have hf := forUp_phase
    (fun f : Forces K => f.fx.data i = 0 ∧ f.fy.data i = 0 ∧ f.fz.data i = 0)
    (fun f : Forces K =>
      f.fx.data i = pdata.arrays.charge i
          * ((stencil_cells pdata self.m_Nx self.m_Ny self.m_Nz self.m_order
              self.m_rho_coeff i).map (fun c => c.2 * (self.m_Ex.data c.1).x)).sum
        ∧ f.fy.data i = pdata.arrays.charge i
          * ((stencil_cells pdata self.m_Nx self.m_Ny self.m_Nz self.m_order
              self.m_rho_coeff i).map (fun c => c.2 * (self.m_Ey.data c.1).x)).sum
        ∧ f.fz.data i = pdata.arrays.charge i
          * ((stencil_cells pdata self.m_Nx self.m_Ny self.m_Nz self.m_order
              self.m_rho_coeff i).map (fun c => c.2 * (self.m_Ez.data c.1).x)).sum)
    (force_particle pdata self.m_Nx self.m_Ny self.m_Nz self.m_order self.m_rho_coeff
      self.m_Ex self.m_Ey self.m_Ez) 0 (pdata.arrays.nparticles : Int) i hi
    (fun j _ hj s hs => by
      obtain ⟨a, b, c⟩ := force_particle_frame pdata self.m_Nx self.m_Ny self.m_Nz
        self.m_order self.m_rho_coeff self.m_Ex self.m_Ey self.m_Ez j s i (by omega)
      rw [a, b, c]
      exact hs)
    (fun s hs => by
      obtain ⟨a, b, c⟩ := force_particle_value pdata self.m_Nx self.m_Ny self.m_Nz
        self.m_order self.m_rho_coeff self.m_Ex self.m_Ey self.m_Ez i s
      rw [a, b, c, hs.1, hs.2.1, hs.2.2, zero_add, zero_add, zero_add]
      exact ⟨rfl, rfl, rfl⟩)
    (fun j hj _ s hs => by
      obtain ⟨a, b, c⟩ := force_particle_frame pdata self.m_Nx self.m_Ny self.m_Nz
        self.m_order self.m_rho_coeff self.m_Ex self.m_Ey self.m_Ez j s i (by omega)
      rw [a, b, c]
      exact hs)
    ⟨memset0 0 (pdata.arrays.nparticles : Int) self.m_fx,
      memset0 0 (pdata.arrays.nparticles : Int) self.m_fy,
      memset0 0 (pdata.arrays.nparticles : Int) self.m_fz⟩
    ⟨by rw [memset0_data, if_pos hi], by rw [memset0_data, if_pos hi],
      by rw [memset0_data, if_pos hi]⟩
  refine ⟨hf.1, hf.2.1, hf.2.2, ?_, ?_⟩
  · show (memset0 0 (pdata.arrays.nparticles : Int) self.m_pe).data i = 0
    rw [memset0_data, if_pos hi]
  · show (memset0 0 (pdata.arrays.nparticles : Int) self.m_virial).data i = 0
    rw [memset0_data, if_pos hi]

end GatherFacts

section SpreadFacts

variable {K : Type} [LinearOrderedField K] [FloorRing K]

theorem add_re_at (h : GPUArray (cufftComplex K)) (idx : Int) (v : K) (p : Int) :
    ((add_re h idx v).data p).x = (h.data p).x + (if idx = p then v else 0)
      ∧ ((add_re h idx v).data p).y = (h.data p).y := by
  simp only [add_re, GPUArray.set_data]
  by_cases e : p = idx
  · subst e
    simp
  · rw [if_neg e, if_neg (fun e' => e e'.symm)]
    simp

/-- What the stencil loop of `assign_charges_to_grid` for particle `i` does to the
cell `p`: it adds to the real part the contributions of the stencil cells whose index
is `p`, and keeps the imaginary part. -/
theorem assign_particle_at (pdata : ParticleData K) (Nx Ny Nz order : Int)
    (coeff : GPUArray K) (i : Int) (rho : GPUArray (cufftComplex K)) (p : Int) :
    ((assign_particle pdata Nx Ny Nz order coeff i rho).data p).x
        = (rho.data p).x + ((stencil_cells pdata Nx Ny Nz order coeff i).map
            (fun c => if c.1 = p then
              pdata.arrays.charge i
                / ((pdata.box.xhi - pdata.box.xlo) / (Nx : K)
                  * ((pdata.box.yhi - pdata.box.ylo) / (Ny : K))
                  * ((pdata.box.zhi - pdata.box.zlo) / (Nz : K))) * c.2
              else 0)).sum
      ∧ ((assign_particle pdata Nx Ny Nz order coeff i rho).data p).y = (rho.data p).y := by
  rw [assign_particle_eq_foldl]
  constructor
  · exact foldl_sum_track (fun h : GPUArray (cufftComplex K) => (h.data p).x) _ _ _
      (fun c _ s => (add_re_at s c.1 _ p).1) rho
  · have := foldl_sum_track (fun h : GPUArray (cufftComplex K) => (h.data p).y)
      (fun (c : Int × K) h => add_re h c.1
        (pdata.arrays.charge i
          / ((pdata.box.xhi - pdata.box.xlo) / (Nx : K)
            * ((pdata.box.yhi - pdata.box.ylo) / (Ny : K))
            * ((pdata.box.zhi - pdata.box.zlo) / (Nz : K))) * c.2))
      (fun _ => 0) (stencil_cells pdata Nx Ny Nz order coeff i)
      (fun c _ s => by
        show ((add_re s c.1 _).data p).y = (s.data p).y + 0
        rw [(add_re_at s c.1 _ p).2, add_zero]) rho
    simp only [List.map_const', List.sum_replicate, smul_zero, add_zero] at this
    exact this

/-- A quantity that every iteration of `for (i = 0; i < n; i++)` increases by `f i` is
increased by the loop by the sum of the `f i`. -/
theorem forUp_sum_range {σ : Type} (Φ : σ → K) (body : Int → σ → σ) (f : Int → K)
    (n : Nat)
    (hbody : ∀ i s, Φ (body i s) = Φ s + f i) (s : σ) :
    Φ (forUp 0 (n : Int) body s) = Φ s + ∑ i in Finset.range n, f (i : Int) := by
  have e : ((n : Int) - 0).toNat = n := by simp
  unfold forUp
  rw [e]
  induction n with
  | zero => simp [loop]
  | succ n ih =>
    rw [loop_add body 1 n 1 0 s, loop_succ, loop_zero, hbody, ih (by simp),
      Finset.sum_range_succ]
    simp only [zero_add, mul_one, add_assoc]

/-- What `assign_charges_to_grid` leaves in the grid cell `p`. -/
theorem assign_charges_to_grid_value (pdata : ParticleData K) (self : PPPMForceCompute K)
    (p : Int) (hp : 0 ≤ p ∧ p < self.m_Nx * self.m_Ny * self.m_Nz) :
    ((assign_charges_to_grid pdata self).statics.m_rho_real_space.data p).x
        = ∑ i in Finset.range pdata.arrays.nparticles,
            ((stencil_cells pdata self.m_Nx self.m_Ny self.m_Nz self.m_order self.m_rho_coeff
                (i : Int)).map
              (fun c => if c.1 = p then
                pdata.arrays.charge (i : Int)
                  / ((pdata.box.xhi - pdata.box.xlo) / (self.m_Nx : K)
                    * ((pdata.box.yhi - pdata.box.ylo) / (self.m_Ny : K))
                    * ((pdata.box.zhi - pdata.box.zlo) / (self.m_Nz : K))) * c.2
                else 0)).sum
      ∧ ((assign_charges_to_grid pdata self).statics.m_rho_real_space.data p).y = 0 := by
  unfold assign_charges_to_grid
  simp only []
  constructor
  · rw [forUp_sum_range (fun h : GPUArray (cufftComplex K) => (h.data p).x) _ _ _
      (fun i s => (assign_particle_at pdata self.m_Nx self.m_Ny self.m_Nz self.m_order
        self.m_rho_coeff i s p).1), memset0_data, if_pos hp, zero_add]
  · rw [forUp_sum_range (fun h : GPUArray (cufftComplex K) => (h.data p).y) _ (fun _ => 0) _
      (fun i s => by
        show ((assign_particle _ _ _ _ _ _ i s).data p).y = (s.data p).y + 0
        rw [(assign_particle_at pdata self.m_Nx self.m_Ny self.m_Nz self.m_order
          self.m_rho_coeff i s p).2, add_zero]), memset0_data, if_pos hp]
    simp

end SpreadFacts

section NoTransform

variable {K : Type} [LinearOrderedField K] [FloorRing K]

/-- Without a transform between the spreader and the field solver, the real part of
every field entry of the grid is zero: it is a multiple of the imaginary part of the
density, which the spreader leaves zero. -/
theorem field_re_zero (pdata : ParticleData K) (s : PPPMForceCompute K) (p : Int)
    (hfit : s.m_Nx * s.m_Ny * s.m_Nz < 4294967296)
    (hp : 0 ≤ p ∧ p < s.m_Nx * s.m_Ny * s.m_Nz) :
    ((combined_green_e (assign_charges_to_grid pdata s)).m_Ex.data p).x = 0
      ∧ ((combined_green_e (assign_charges_to_grid pdata s)).m_Ey.data p).x = 0
      ∧ ((combined_green_e (assign_charges_to_grid pdata s)).m_Ez.data p).x = 0 := by
  have hy := (assign_charges_to_grid_value pdata s p hp).2
  have hc : cuint ((assign_charges_to_grid pdata s).m_Nx * (assign_charges_to_grid pdata s).m_Ny
      * (assign_charges_to_grid pdata s).m_Nz) = s.m_Nx * s.m_Ny * s.m_Nz :=
    cuint_of_fits (s.m_Nx * s.m_Ny * s.m_Nz) ⟨by omega, hfit⟩
  obtain ⟨_, b, c, d⟩ := combined_loop_in (s.m_Nx * s.m_Ny * s.m_Nz)
    (assign_charges_to_grid pdata s).m_kvec (assign_charges_to_grid pdata s).statics.m_green_hat
    ⟨(assign_charges_to_grid pdata s).statics.m_rho_real_space,
      (assign_charges_to_grid pdata s).m_Ex, (assign_charges_to_grid pdata s).m_Ey,
      (assign_charges_to_grid pdata s).m_Ez⟩ p hp
  simp only [combined_green_e, hc]
  rw [b, c, d]
  simp only [hy, zero_mul, mul_zero, and_self]

theorem list_sum_map_zero {α : Type} (l : List α) (f : α → K) (h : ∀ c ∈ l, f c = 0) :
    (l.map f).sum = 0 := by
  apply List.sum_eq_zero
  intro x hx
  obtain ⟨c, hc, rfl⟩ := List.mem_map.1 hx
  exact h c hc

/-- As `computeForces` is written, the force on a particle whose stencil cells all lie
in the grid is `(0, 0, 0)`, and so are its energy and virial entries. -/
theorem computeForces_force_zero (env : Env K) (pdata : ParticleData K) (timestep : Nat)
    (self : PPPMForceCompute K) (i : Int)
    (hfit : self.m_Nx * self.m_Ny * self.m_Nz < 4294967296)
    (hi : 0 ≤ i ∧ i < (pdata.arrays.nparticles : Int))
    (hcells : ∀ c ∈ stencil_cells pdata self.m_Nx self.m_Ny self.m_Nz self.m_order
      self.m_rho_coeff i, 0 ≤ c.1 ∧ c.1 < self.m_Nx * self.m_Ny * self.m_Nz) :
    (computeForces env pdata timestep self).m_fx.data i = 0
      ∧ (computeForces env pdata timestep self).m_fy.data i = 0
      ∧ (computeForces env pdata timestep self).m_fz.data i = 0
      ∧ (computeForces env pdata timestep self).m_pe.data i = 0
      ∧ (computeForces env pdata timestep self).m_virial.data i = 0 := by
  obtain ⟨_, _, _, sx, sy, sz, sp, sv⟩ := computeForces_stages env pdata timestep self
  obtain ⟨rx, ry, rz, ro, _, rc, _⟩ := computeForces_rebuild_frame env pdata self
  obtain ⟨vx, vy, vz, vp, vv⟩ := calculate_forces_value pdata
    (combined_green_e (assign_charges_to_grid pdata (computeForces_rebuild env pdata self))) i hi
  have e1 : (combined_green_e (assign_charges_to_grid pdata
      (computeForces_rebuild env pdata self))).m_Nx = self.m_Nx := rx
  have e2 : (combined_green_e (assign_charges_to_grid pdata
      (computeForces_rebuild env pdata self))).m_Ny = self.m_Ny := ry
  have e3 : (combined_green_e (assign_charges_to_grid pdata
      (computeForces_rebuild env pdata self))).m_Nz = self.m_Nz := rz
  have e4 : (combined_green_e (assign_charges_to_grid pdata
      (computeForces_rebuild env pdata self))).m_order = self.m_order := ro
  have e5 : (combined_green_e (assign_charges_to_grid pdata
      (computeForces_rebuild env pdata self))).m_rho_coeff = self.m_rho_coeff := rc
  rw [e1, e2, e3, e4, e5] at vx vy vz
  have hz : ∀ c ∈ stencil_cells pdata self.m_Nx self.m_Ny self.m_Nz self.m_order
      self.m_rho_coeff i,
      ((combined_green_e (assign_charges_to_grid pdata
          (computeForces_rebuild env pdata self))).m_Ex.data c.1).x = 0
        ∧ ((combined_green_e (assign_charges_to_grid pdata
          (computeForces_rebuild env pdata self))).m_Ey.data c.1).x = 0
        ∧ ((combined_green_e (assign_charges_to_grid pdata
          (computeForces_rebuild env pdata self))).m_Ez.data c.1).x = 0 := by
    intro c hc
    apply field_re_zero pdata (computeForces_rebuild env pdata self) c.1
    · rw [rx, ry, rz]
      exact hfit
    · rw [rx, ry, rz]
      exact hcells c hc
  rw [sx, sy, sz, sp, sv, vx, vy, vz]
  refine ⟨?_, ?_, ?_, vp, vv⟩
  · rw [list_sum_map_zero _ _ (fun c hc => by rw [(hz c hc).1, mul_zero]), mul_zero]
  · rw [list_sum_map_zero _ _ (fun c hc => by rw [(hz c hc).2.1, mul_zero]), mul_zero]
  · rw [list_sum_map_zero _ _ (fun c hc => by rw [(hz c hc).2.2, mul_zero]), mul_zero]

end NoTransform

section ScenarioFacts

variable {K : Type} [LinearOrderedField K] [FloorRing K]

/-- The function `compute_rho_coeff` keeps the element count of the table. -/
theorem compute_rho_coeff_num_elements (order : Int) (h : GPUArray K) :
    (compute_rho_coeff order h).num_elements = h.num_elements := by
  unfold compute_rho_coeff forUpBy2
  simp only []
  apply loop_invariant_all (fun p : GPUArray K × Int => p.1.num_elements = h.num_elements)
  · intro k p hp
    apply forUp_invariant (fun a : GPUArray K => a.num_elements = h.num_elements)
    · intro l _ _ a ha
      exact ha
    · exact hp
  · apply forUp_invariant (fun a : GPUArray K => a.num_elements = h.num_elements)
    · intro l _ _ a ha
      apply forUp_invariant (fun a : GPUArray K => a.num_elements = h.num_elements)
      · intro m _ _ b hb
        exact hb
      · exact ha
    · rfl

theorem setParams_store_params (Nx Ny Nz order : Int) (kappa rcut : K)
    (self : PPPMForceCompute K) :
    (setParams_store Nx Ny Nz order kappa rcut self).m_Nx = Nx
      ∧ (setParams_store Nx Ny Nz order kappa rcut self).m_Ny = Ny
      ∧ (setParams_store Nx Ny Nz order kappa rcut self).m_Nz = Nz
      ∧ (setParams_store Nx Ny Nz order kappa rcut self).statics.pppm_energy
        = self.statics.pppm_energy := by
  unfold setParams_store
  simp only []
  split_ifs <;> exact ⟨rfl, rfl, rfl, rfl⟩

/-- When the order passes both tests, `setParams` leaves the grid sizes and the order
it was given, a coefficient table with the element count of the buffer allocated at
line 169, and the static `pppm_energy` as it was. -/
theorem setParams_params (env : Env K) (pdata : ParticleData K) (Nx Ny Nz order : Int)
    (kappa rcut : K) (self : PPPMForceCompute K)
    (h1 : ¬ cint (order * cint (2 * order + 1)) > env.consts.CONSTANT_SIZE)
    (h2 : ¬ order > env.consts.MaxOrder) :
    (setParams env pdata Nx Ny Nz order kappa rcut self).2.m_Nx = Nx
      ∧ (setParams env pdata Nx Ny Nz order kappa rcut self).2.m_Ny = Ny
      ∧ (setParams env pdata Nx Ny Nz order kappa rcut self).2.m_Nz = Nz
      ∧ (setParams env pdata Nx Ny Nz order kappa rcut self).2.m_order = order
      ∧ (setParams env pdata Nx Ny Nz order kappa rcut self).2.statics.pppm_energy
        = self.statics.pppm_energy
      ∧ (setParams env pdata Nx Ny Nz order kappa rcut self).2.m_rho_coeff.num_elements
        = cuint order := by
  rw [setParams_of_order_ok env pdata Nx Ny Nz order kappa rcut self h1 h2]
  obtain ⟨a, b, c, d⟩ := setParams_store_params Nx Ny Nz order kappa rcut self
  refine ⟨a, b, c, setParams_store_order Nx Ny Nz order kappa rcut self, d, ?_⟩
  simp only [setParams_tables, compute_rho_coeff_num_elements]
  rfl

/-- The method `reset_kvec_green_hat_cpu` leaves the k-vector table the k-vector block
builds for the current box. -/
theorem reset_kvec_green_hat_cpu_kvec (env : Env K) (pdata : ParticleData K)
    (self : PPPMForceCompute K) :
    (reset_kvec_green_hat_cpu env pdata self).m_kvec
      = set_up_kvec self.m_Nx self.m_Ny self.m_Nz (pdata.box.xhi - pdata.box.xlo)
          (pdata.box.yhi - pdata.box.ylo) (pdata.box.zhi - pdata.box.zlo) self.m_kvec := rfl

/-- The method `computeForces` does not assign the static `pppm_energy`. -/
theorem computeForces_pppm_energy (env : Env K) (pdata : ParticleData K) (timestep : Nat)
    (self : PPPMForceCompute K) :
    (computeForces env pdata timestep self).statics.pppm_energy = self.statics.pppm_energy := by
  simp only [computeForces, calculate_forces, combined_green_e, assign_charges_to_grid]
  unfold computeForces_rebuild
  split_ifs <;> rfl

/-- The wrap yields an index of the axis when the unwrapped one is off by less than
one grid length. -/
theorem wrap_index_in_range (N mx : Int) (h : -N ≤ mx ∧ mx < 2 * N) (hN : 0 < N) :
    0 ≤ wrap_index N mx ∧ wrap_index N mx < N := by
  unfold wrap_index
  simp only []
  split_ifs <;> omega

/-- In the scenario of two charges at `x = -1` and `x = 1` in the box of side 10 with
the 8 x 8 x 8 grid and order 4, every stencil cell of either particle is a cell of the
grid. -/
theorem ex_cells_in_grid (coeff : GPUArray ℚ) (i : Int) :
    ∀ c ∈ stencil_cells (ex_pdata 10 10 10) 8 8 8 4 coeff i, 0 ≤ c.1 ∧ c.1 < 8 * 8 * 8 := by
  intro c hc
  obtain ⟨n, m, l, hn, hm, hl, e, _⟩ := mem_stencil_cells _ _ _ _ _ _ _ c hc
  have hlo : nlower 4 = -1 := by decide
  have hhi : nupper 4 = 2 := by decide
  rw [hlo, hhi] at hn hm hl
  have a0 : stencil_anchor 4 (grid_position (0 : ℚ)
      ((ex_pdata 10 10 10).box.yhi - (ex_pdata 10 10 10).box.ylo) 8) = 4 := by decide!
  have ay : stencil_anchor 4 (grid_position ((ex_pdata 10 10 10).arrays.y i)
      ((ex_pdata 10 10 10).box.yhi - (ex_pdata 10 10 10).box.ylo) 8) = 4 := a0
  have az : stencil_anchor 4 (grid_position ((ex_pdata 10 10 10).arrays.z i)
      ((ex_pdata 10 10 10).box.zhi - (ex_pdata 10 10 10).box.zlo) 8) = 4 := a0
  have ax : stencil_anchor 4 (grid_position ((ex_pdata 10 10 10).arrays.x i)
      ((ex_pdata 10 10 10).box.xhi - (ex_pdata 10 10 10).box.xlo) 8) = 3
      ∨ stencil_anchor 4 (grid_position ((ex_pdata 10 10 10).arrays.x i)
      ((ex_pdata 10 10 10).box.xhi - (ex_pdata 10 10 10).box.xlo) 8) = 4 := by
    by_cases h0 : i = 0
    · left
      subst h0
      decide!
    · right
      have : (ex_pdata 10 10 10).arrays.x i = 1 := by
        simp [ex_pdata, ex_arrays, h0]
      rw [this]
      decide!
  rw [ay, az] at e
  have wz := wrap_index_in_range 8 (l + 4) (by omega) (by decide)
  have wy := wrap_index_in_range 8 (m + 4) (by omega) (by decide)
  rw [e]
  rcases ax with ax | ax
  · rw [ax]
    have wx := wrap_index_in_range 8 (n + 3) (by omega) (by decide)
    omega
  · rw [ax]
    have wx := wrap_index_in_range 8 (n + 4) (by omega) (by decide)
    omega

end ScenarioFacts

/-! ## The reciprocal-space tables and the field solver -/

section Reciprocal

variable {K : Type} [LinearOrderedField K] [FloorRing K]

/-- C11 fails for a box that is not cubic.  The code divides by `Lx*Lz*Lz` where the
volume `Lx*Ly*Lz` is meant, so the stored vector is
`(2*pi*jx*Ly/(Lx*Lz), 2*pi*jy/Lz, 2*pi*jz*Ly/(Lz*Lz))`.  In the box 10 x 20 x 10 on the
8 x 8 x 8 grid, `setParams` stores `2*pi/5` as the x component at the grid point
`(1,0,0)`, `2*pi/10` as the y component at `(0,1,0)` and `2*pi/5` as the z component at
`(0,0,1)`, where C11 has `2*pi/10`, `2*pi/20` and `2*pi/10`; `reset_kvec_green_hat_cpu`
stores the same entries. -/
theorem kvec_not_per_axis :
    ((((setParams ex_env (ex_pdata 10 20 10) 8 8 8 4 (3 / 10) 3 (ex_self false)).2.m_kvec.data
            64).x = 2 * M_PI * 1 / 5
        ∧ ((setParams ex_env (ex_pdata 10 20 10) 8 8 8 4 (3 / 10) 3 (ex_self false)).2.m_kvec.data
            64).x ≠ 2 * M_PI * 1 / 10)
      ∧ (((setParams ex_env (ex_pdata 10 20 10) 8 8 8 4 (3 / 10) 3 (ex_self false)).2.m_kvec.data
            8).y = 2 * M_PI * 1 / 10
        ∧ ((setParams ex_env (ex_pdata 10 20 10) 8 8 8 4 (3 / 10) 3 (ex_self false)).2.m_kvec.data
            8).y ≠ 2 * M_PI * 1 / 20)
      ∧ (((setParams ex_env (ex_pdata 10 20 10) 8 8 8 4 (3 / 10) 3 (ex_self false)).2.m_kvec.data
            1).z = 2 * M_PI * 1 / 5
        ∧ ((setParams ex_env (ex_pdata 10 20 10) 8 8 8 4 (3 / 10) 3 (ex_self false)).2.m_kvec.data
            1).z ≠ 2 * M_PI * 1 / 10))
      ∧ (reset_kvec_green_hat_cpu ex_env (ex_pdata 10 20 10) (ex_engine true)).m_kvec.data 64
        = (setParams ex_env (ex_pdata 10 20 10) 8 8 8 4 (3 / 10) 3 (ex_self false)).2.m_kvec.data
            64
      ∧ (reset_kvec_green_hat_cpu ex_env (ex_pdata 10 20 10) (ex_engine true)).m_kvec.data 8
        = (setParams ex_env (ex_pdata 10 20 10) 8 8 8 4 (3 / 10) 3 (ex_self false)).2.m_kvec.data
            8
      ∧ (reset_kvec_green_hat_cpu ex_env (ex_pdata 10 20 10) (ex_engine true)).m_kvec.data 1
        = (setParams ex_env (ex_pdata 10 20 10) 8 8 8 4 (3 / 10) 3 (ex_self false)).2.m_kvec.data
            1 := by
  have e1 : (ex_pdata 10 20 10).box.xhi - (ex_pdata 10 20 10).box.xlo = 10 := by
    norm_num [ex_pdata, ex_box]
  have e2 : (ex_pdata 10 20 10).box.yhi - (ex_pdata 10 20 10).box.ylo = 20 := by
    norm_num [ex_pdata, ex_box]
  have e3 : (ex_pdata 10 20 10).box.zhi - (ex_pdata 10 20 10).box.zlo = 10 := by
    norm_num [ex_pdata, ex_box]
  have hkv := setParams_kvec ex_env (ex_pdata 10 20 10) 8 8 8 4 (3 / 10) 3 (ex_self false)
    (by decide) (by decide)
  have hkv' := reset_kvec_green_hat_cpu_kvec ex_env (ex_pdata 10 20 10) (ex_engine true)
  have n1 : (ex_engine true).m_Nx = 8 := rfl
  have n2 : (ex_engine true).m_Ny = 8 := rfl
  have n3 : (ex_engine true).m_Nz = 8 := rfl
  rw [n1, n2, n3] at hkv'
  rw [e1, e2, e3] at hkv hkv'
  have a := fun h => set_up_kvec_entry 8 8 8 (10 : ℚ) 20 10 h 1 0 0 (by decide) (by decide)
    (by decide)
  have b := fun h => set_up_kvec_entry 8 8 8 (10 : ℚ) 20 10 h 0 1 0 (by decide) (by decide)
    (by decide)
  have c := fun h => set_up_kvec_entry 8 8 8 (10 : ℚ) 20 10 h 0 0 1 (by decide) (by decide)
    (by decide)
  have i64 : (0 : Int) + 8 * (0 + 8 * 1) = 64 := by decide
  have i8 : (0 : Int) + 8 * (1 + 8 * 0) = 8 := by decide
  have i1 : (1 : Int) + 8 * (0 + 8 * 0) = 1 := by decide
  rw [i64] at a
  rw [i8] at b
  rw [i1] at c
  rw [hkv, hkv', a, b, c, a, b, c]
  simp only [wave_number_one 8 (by decide), wave_number_zero 8 (by decide),
    inverse_lattice_vector, M_PI]
  norm_num

/-- C12: on a grid of `NNN = m_Nx*m_Ny*m_Nz` points, where `NNN` fits an `unsigned int`,
`combined_green_e` leaves at every index `i` in `[0, NNN)` the density
`density[i] * green_hat[i] / NNN`, real and imaginary part alike, and the field
components `Re(E_a[i]) = k_a[i] * Im(density[i])`, `Im(E_a[i]) = -k_a[i] * Re(density[i])`
of that scaled density; the k-vectors and the Green's function are as before. -/
theorem combined_green_e_effect (self : PPPMForceCompute K) (NNN i : Int)
    (hN : self.m_Nx * self.m_Ny * self.m_Nz = NNN) (hfit : NNN < 4294967296)
    (hi : 0 ≤ i ∧ i < NNN) :
    (combined_green_e self).statics.m_rho_real_space.data i
        = ⟨(self.statics.m_rho_real_space.data i).x * self.statics.m_green_hat.data i
              / (NNN : K),
            (self.statics.m_rho_real_space.data i).y * self.statics.m_green_hat.data i
              / (NNN : K)⟩
      ∧ (combined_green_e self).m_Ex.data i
        = ⟨(self.m_kvec.data i).x * ((combined_green_e self).statics.m_rho_real_space.data i).y,
            -(self.m_kvec.data i).x
              * ((combined_green_e self).statics.m_rho_real_space.data i).x⟩
      ∧ (combined_green_e self).m_Ey.data i
        = ⟨(self.m_kvec.data i).y * ((combined_green_e self).statics.m_rho_real_space.data i).y,
            -(self.m_kvec.data i).y
              * ((combined_green_e self).statics.m_rho_real_space.data i).x⟩
      ∧ (combined_green_e self).m_Ez.data i
        = ⟨(self.m_kvec.data i).z * ((combined_green_e self).statics.m_rho_real_space.data i).y,
            -(self.m_kvec.data i).z
              * ((combined_green_e self).statics.m_rho_real_space.data i).x⟩
      ∧ (combined_green_e self).m_kvec = self.m_kvec
      ∧ (combined_green_e self).statics.m_green_hat = self.statics.m_green_hat := by
  have hc : cuint (self.m_Nx * self.m_Ny * self.m_Nz) = NNN := by
    rw [hN]
    exact cuint_of_fits NNN ⟨by omega, hfit⟩
  obtain ⟨a, b, c, d⟩ := combined_loop_in NNN self.m_kvec self.statics.m_green_hat
    ⟨self.statics.m_rho_real_space, self.m_Ex, self.m_Ey, self.m_Ez⟩ i hi
  simp only [combined_green_e, hc]
  rw [a, b, c, d]
  simp only [mul_div_assoc, and_self]

/-- The field solver's statement applied to the 8 x 8 x 8 engine at index 5. -/
theorem combined_green_e_effect_witness :
    (combined_green_e (ex_engine false)).statics.m_rho_real_space.data 5
        = ⟨((ex_engine false).statics.m_rho_real_space.data 5).x
              * (ex_engine false).statics.m_green_hat.data 5 / ((512 : Int) : ℚ),
            ((ex_engine false).statics.m_rho_real_space.data 5).y
              * (ex_engine false).statics.m_green_hat.data 5 / ((512 : Int) : ℚ)⟩ :=
  (combined_green_e_effect (ex_engine false) 512 5 (by decide) (by decide) (by decide)).1

end Reciprocal

/-! ## The gatherer -/

section Gathering

variable {K : Type} [LinearOrderedField K] [FloorRing K]

end Gathering

/-! ## The spreader -/

section Spreading

variable {K : Type} [LinearOrderedField K] [FloorRing K]

end Spreading

/-! ## Momentum -/

section Momentum

variable {K : Type} [LinearOrderedField K] [FloorRing K]

/-- C15: for a particle set whose charges sum to zero, on a grid whose number of points
fits an `unsigned int` and with every stencil cell of every particle inside the grid,
the sum over the particles of each force component left by `computeForces` is zero.
As `computeForces` calls no transform, this holds because every single force is
zero. -/
theorem computeForces_momentum (env : Env K) (pdata : ParticleData K) (timestep : Nat)
    (self : PPPMForceCompute K) (Nx Ny Nz order : Int)
    (hNx : self.m_Nx = Nx) (hNy : self.m_Ny = Ny) (hNz : self.m_Nz = Nz)
    (horder : self.m_order = order) (hfit : Nx * Ny * Nz < 4294967296)
    (hneutral : ∑ i in Finset.range pdata.arrays.nparticles, pdata.arrays.charge (i : Int) = 0)
    (hcells : ∀ i : Int, 0 ≤ i → i < (pdata.arrays.nparticles : Int) →
      ∀ c ∈ stencil_cells pdata Nx Ny Nz order self.m_rho_coeff i,
        0 ≤ c.1 ∧ c.1 < Nx * Ny * Nz) :
    ∑ i in Finset.range pdata.arrays.nparticles,
        (computeForces env pdata timestep self).m_fx.data (i : Int) = 0
      ∧ ∑ i in Finset.range pdata.arrays.nparticles,
        (computeForces env pdata timestep self).m_fy.data (i : Int) = 0
      ∧ ∑ i in Finset.range pdata.arrays.nparticles,
        (computeForces env pdata timestep self).m_fz.data (i : Int) = 0 := by
  subst hNx hNy hNz horder
  have hz : ∀ i ∈ Finset.range pdata.arrays.nparticles,
      (computeForces env pdata timestep self).m_fx.data (i : Int) = 0
        ∧ (computeForces env pdata timestep self).m_fy.data (i : Int) = 0
        ∧ (computeForces env pdata timestep self).m_fz.data (i : Int) = 0 := by
    intro i hi
    have hi' : (0 : Int) ≤ (i : Int) ∧ (i : Int) < (pdata.arrays.nparticles : Int) :=
      ⟨by omega, by exact_mod_cast Finset.mem_range.1 hi⟩
    obtain ⟨a, b, c, _⟩ := computeForces_force_zero env pdata timestep self (i : Int) hfit hi'
      (hcells (i : Int) hi'.1 hi'.2)
    exact ⟨a, b, c⟩
  exact ⟨Finset.sum_eq_zero (fun i hi => (hz i hi).1),
    Finset.sum_eq_zero (fun i hi => (hz i hi).2.1),
    Finset.sum_eq_zero (fun i hi => (hz i hi).2.2)⟩

/-- The momentum statement applied to the two opposite charges in the box of side 10
on the 8 x 8 x 8 engine of order 4. -/
theorem computeForces_momentum_witness :
    ∑ i in Finset.range (ex_pdata 10 10 10).arrays.nparticles,
        (ex_pdata 10 10 10).arrays.charge (i : Int) = 0
      ∧ ∑ i in Finset.range (ex_pdata 10 10 10).arrays.nparticles,
        (computeForces ex_env (ex_pdata 10 10 10) 0 (ex_engine false)).m_fx.data (i : Int) = 0 :=
  ⟨by decide!,
    (computeForces_momentum ex_env (ex_pdata 10 10 10) 0 (ex_engine false) 8 8 8 4 rfl rfl rfl
      rfl (by decide) (by decide!)
      (fun i _ _ => ex_cells_in_grid (ex_engine false).m_rho_coeff i)).1⟩

end Momentum

/-! ## The two-charge scenario -/

section Scenario

/-- C16 fails.  In the box of side 10, after `setParams(8, 8, 8, 4, 0.3, 3.0)` has
returned, `computeForces` leaves on each of the two opposite unit charges at `x = -1`
and `x = 1` the force `(0, 0, 0)` and the energy entry 0, and leaves the static
`pppm_energy` at the 0 it had: the forces are not non-zero and nothing negative is
there for `getLogValue` to return. -/
theorem scenario_forces_are_zero :
    ex_configured.1 = Except.ok ()
      ∧ (ex_evaluated.m_fx.data 0 = 0 ∧ ex_evaluated.m_fy.data 0 = 0
        ∧ ex_evaluated.m_fz.data 0 = 0)
      ∧ (ex_evaluated.m_fx.data 1 = 0 ∧ ex_evaluated.m_fy.data 1 = 0
        ∧ ex_evaluated.m_fz.data 1 = 0)
      ∧ (ex_evaluated.m_pe.data 0 = 0 ∧ ex_evaluated.m_pe.data 1 = 0)
      ∧ ex_evaluated.statics.pppm_energy = 0 := by
  have h1 : ¬ cint (4 * cint (2 * 4 + 1)) > ex_env.consts.CONSTANT_SIZE := by decide
  have h2 : ¬ (4 : Int) > ex_env.consts.MaxOrder := by decide
  obtain ⟨a, b, c, d, e, _⟩ := setParams_params ex_env (ex_pdata 10 10 10) 8 8 8 4 (3 / 10) 3
    (ex_self false) h1 h2
  have hz : ∀ i : Int, 0 ≤ i ∧ i < 2 →
      ex_evaluated.m_fx.data i = 0 ∧ ex_evaluated.m_fy.data i = 0
        ∧ ex_evaluated.m_fz.data i = 0 ∧ ex_evaluated.m_pe.data i = 0 := by
    intro i hi
    obtain ⟨fx, fy, fz, pe, _⟩ := computeForces_force_zero ex_env (ex_pdata 10 10 10) 0
      ex_configured.2 i
      (by unfold ex_configured; rw [a, b, c]; decide) hi
      (by unfold ex_configured; rw [a, b, c, d]; exact ex_cells_in_grid _ i)
    exact ⟨fx, fy, fz, pe⟩
  obtain ⟨x0, y0, z0, p0⟩ := hz 0 (by decide)
  obtain ⟨x1, y1, z1, p1⟩ := hz 1 (by decide)
  refine ⟨?_, ⟨x0, y0, z0⟩, ⟨x1, y1, z1⟩, ⟨p0, p1⟩, ?_⟩
  · unfold ex_configured
    rw [setParams_of_order_ok ex_env (ex_pdata 10 10 10) 8 8 8 4 (3 / 10) 3 (ex_self false)
      h1 h2]
  · unfold ex_evaluated ex_configured
    rw [computeForces_pppm_energy, e]
    rfl

end Scenario

/-! ## The size of the coefficient table -/

section TableSize

/-- C17 fails.  After `setParams` with order 4 the coefficient table has 4 elements,
the count given at line 169, not `4*(2*4+1) = 36`: the index `m + l*(2*order+1)` with
`l = 3`, `m = 8`, which `compute_rho_coeff` writes, and the index `c + k*(2*order+1)`
with `c = k = 3`, which the spreader and the gatherer read, are outside the table. -/
theorem setParams_rho_coeff_too_small :
    GPUArray.num_elements (PPPMForceCompute.m_rho_coeff
        (setParams ex_env (ex_pdata 10 10 10) 8 8 8 4 (3 / 10) 3 (ex_self false)).2) = 4
      ∧ (4 : Int) * (2 * 4 + 1) = 36
      ∧ ((0 : Int) ≤ 3 ∧ (3 : Int) < 4 ∧ (0 : Int) ≤ 8 ∧ (8 : Int) < 2 * 4 + 1
        ∧ ¬ ((8 : Int) + 3 * (2 * 4 + 1)
          < GPUArray.num_elements (PPPMForceCompute.m_rho_coeff
              (setParams ex_env (ex_pdata 10 10 10) 8 8 8 4 (3 / 10) 3 (ex_self false)).2)))
      ∧ ¬ ((3 : Int) + 3 * (2 * 4 + 1)
          < GPUArray.num_elements (PPPMForceCompute.m_rho_coeff
              (setParams ex_env (ex_pdata 10 10 10) 8 8 8 4 (3 / 10) 3 (ex_self false)).2)) := by
  have h1 : ¬ cint (4 * cint (2 * 4 + 1)) > ex_env.consts.CONSTANT_SIZE := by decide
  have h2 : ¬ (4 : Int) > ex_env.consts.MaxOrder := by decide
  obtain ⟨_, _, _, _, _, f⟩ := setParams_params ex_env (ex_pdata 10 10 10) 8 8 8 4 (3 / 10) 3
    (ex_self false) h1 h2
  rw [f]
  decide

end TableSize

/-! ## The RMS estimate -/

section RmsAxes

variable {K : Type} [LinearOrderedField K] [FloorRing K]

/-- C18 fails for a box with `Ly ≠ Lz`.  The long-range term that `setParams` computes
is `sqrt(ex^2 + ey^2 + ez^2)/sqrt(3)` in which the y term is `rms(hy, Lz, n)`: the grid
spacing of the y axis with the box length of the z axis.  With spacing `20/8` the
function `rms` takes different values at the lengths 10 and 20 (order 4,
`kappa = 0.3`, `q2 = 2`, two particles, on the rational stand-ins for `sqrt`). -/
theorem rms_estimate_y_axis_uses_Lz :
    (∀ (env : Env K) (pdata : ParticleData K) (Nx Ny Nz order : Int) (kappa rcut q2 : K),
      (rms_estimate env pdata Nx Ny Nz order kappa rcut q2).lpr
        = env.libm.sqrt
            (rms env.libm env.uninit order kappa q2
                ((pdata.box.xhi - pdata.box.xlo) / (Nx : K)) (pdata.box.xhi - pdata.box.xlo)
                (pdata.arrays.nparticles : K)
              * rms env.libm env.uninit order kappa q2
                ((pdata.box.xhi - pdata.box.xlo) / (Nx : K)) (pdata.box.xhi - pdata.box.xlo)
                (pdata.arrays.nparticles : K)
            + rms env.libm env.uninit order kappa q2
                ((pdata.box.yhi - pdata.box.ylo) / (Ny : K)) (pdata.box.zhi - pdata.box.zlo)
                (pdata.arrays.nparticles : K)
              * rms env.libm env.uninit order kappa q2
                ((pdata.box.yhi - pdata.box.ylo) / (Ny : K)) (pdata.box.zhi - pdata.box.zlo)
                (pdata.arrays.nparticles : K)
            + rms env.libm env.uninit order kappa q2
                ((pdata.box.zhi - pdata.box.zlo) / (Nz : K)) (pdata.box.zhi - pdata.box.zlo)
                (pdata.arrays.nparticles : K)
              * rms env.libm env.uninit order kappa q2
                ((pdata.box.zhi - pdata.box.zlo) / (Nz : K)) (pdata.box.zhi - pdata.box.zlo)
                (pdata.arrays.nparticles : K))
          / env.libm.sqrt 3)
      ∧ rms ex_libm 0 4 (3 / 10) 2 ((20 : ℚ) / 8) 10 2
          ≠ rms ex_libm 0 4 (3 / 10) 2 ((20 : ℚ) / 8) 20 2 := by
  refine ⟨fun env pdata Nx Ny Nz order kappa rcut q2 => rfl, ?_⟩
  decide!

end RmsAxes

/-! ## Spreading and gathering use one stencil -/

section Adjoint

variable {K : Type} [LinearOrderedField K] [FloorRing K]

/-- C19: for every particle, order, box and grid, the stencil loops of
`assign_charges_to_grid` and of `calculate_forces` run through one and the same list of
cells `stencil_cells`: same anchors, same wrapped and flattened index, same weight
`w_x*w_y*w_z`.  At each cell the spreader adds `q/(box_dx*box_dy*box_dz)` times the
cell's weight to the density at the cell's index, and the gatherer adds `q` times the
same weight times the real part of the field at the same index. -/
theorem spread_gather_same_stencil (pdata : ParticleData K) (Nx Ny Nz order : Int)
    (coeff : GPUArray K) (i : Int) (rho Ex Ey Ez : GPUArray (cufftComplex K))
    (f : Forces K) :
    assign_particle pdata Nx Ny Nz order coeff i rho
        = (stencil_cells pdata Nx Ny Nz order coeff i).foldl
            (fun h c => add_re h c.1
              (pdata.arrays.charge i
                / ((pdata.box.xhi - pdata.box.xlo) / (Nx : K)
                  * ((pdata.box.yhi - pdata.box.ylo) / (Ny : K))
                  * ((pdata.box.zhi - pdata.box.zlo) / (Nz : K))) * c.2)) rho
      ∧ force_particle pdata Nx Ny Nz order coeff Ex Ey Ez i f
        = (stencil_cells pdata Nx Ny Nz order coeff i).foldl
            (fun f c => add_force f i
              (pdata.arrays.charge i * c.2 * (Ex.data c.1).x)
              (pdata.arrays.charge i * c.2 * (Ey.data c.1).x)
              (pdata.arrays.charge i * c.2 * (Ez.data c.1).x)) f :=
  ⟨assign_particle_eq_foldl pdata Nx Ny Nz order coeff i rho,
    force_particle_eq_foldl pdata Nx Ny Nz order coeff Ex Ey Ez i f⟩

end Adjoint

/-! ## The stencil anchor -/

section Anchor

variable {K : Type} [LinearOrderedField K] [FloorRing K]

/-- In exact arithmetic: for a coordinate inside the box, `-L/2 <= x < L/2` with
`L > 0` and `N > 0`, and `coord = (x + L/2)/(L/N)`: for odd order the anchor is
`floor(coord + 1/2)` and the polynomial argument `0 + anchor - coord`; for even order
the anchor is `floor(coord)` and the argument `1/2 + anchor - coord`.  With rounding
the anchor can be the next cell. -/
theorem stencil_anchor_floor (order N : Int) (x L : K) (hL : 0 < L) (hN : 0 < N)
    (hx : -L / 2 ≤ x ∧ x < L / 2) :
    grid_position x L N = (x + L / 2) / (L / (N : K))
      ∧ (Odd order →
        stencil_anchor order (grid_position x L N) = ⌊grid_position x L N + 1 / 2⌋
          ∧ stencil_arg order (grid_position x L N)
            = 0 + ((⌊grid_position x L N + 1 / 2⌋ : Int) : K) - grid_position x L N)
      ∧ (Even order →
        stencil_anchor order (grid_position x L N) = ⌊grid_position x L N⌋
          ∧ stencil_arg order (grid_position x L N)
            = 1 / 2 + ((⌊grid_position x L N⌋ : Int) : K) - grid_position x L N) := by
  have hpos : 0 ≤ grid_position x L N := by
    unfold grid_position
    apply div_nonneg
    · linarith [hx.1]
    · apply le_of_lt
      apply div_pos hL
      exact_mod_cast hN
  refine ⟨rfl, ?_, ?_⟩
  · intro ho
    have hm : Int.tmod order 2 ≠ 0 := by
      intro h0
      have := Int.dvd_iff_tmod_eq_zero.2 h0
      exact (Int.not_even_iff_odd.2 ho) (even_iff_two_dvd.2 this)
    have ha : stencil_anchor order (grid_position x L N) = ⌊grid_position x L N + 1 / 2⌋ := by
      unfold stencil_anchor stencil_shift ctrunc
      rw [if_pos hm, if_pos (by linarith)]
    refine ⟨ha, ?_⟩
    unfold stencil_arg stencil_shiftone
    rw [if_pos hm, ha]
  · intro he
    have hm : ¬ Int.tmod order 2 ≠ 0 := by
      intro h0
      exact h0 (Int.dvd_iff_tmod_eq_zero.1 (even_iff_two_dvd.1 he))
    have ha : stencil_anchor order (grid_position x L N) = ⌊grid_position x L N⌋ := by
      unfold stencil_anchor stencil_shift ctrunc
      rw [if_neg hm, add_zero, if_pos hpos]
    refine ⟨ha, ?_⟩
    unfold stencil_arg stencil_shiftone
    rw [if_neg hm, ha]

/-- The exact anchor statement applied to order 4 and the coordinate `x = -1` in the
box of side 10 on 8 grid points. -/
theorem stencil_anchor_floor_witness :
    Even (4 : Int) ∧ stencil_anchor 4 (grid_position (-1 : ℚ) 10 8)
      = ⌊grid_position (-1 : ℚ) 10 8⌋ :=
  ⟨by decide, ((stencil_anchor_floor 4 8 (-1 : ℚ) 10 (by norm_num) (by decide)
    (by norm_num)).2.2 (by decide)).1⟩

end Anchor

/-! ## The tables: entries, reflections and rebuilds -/

section Folding

variable {K : Type} [LinearOrderedField K] [FloorRing K]

/-- The k-vector folding as an integer. -/
theorem wave_number_eq (N i : Int) :
    (wave_number N i : K) = ((if i > Int.tdiv N 2 then i - N else i : Int) : K) := by
  unfold wave_number
  split_ifs <;> rfl

/-- The Green's-function folding of an index of the axis: the index itself below half
the grid size, the index minus the grid size from there on. -/
theorem folded_index_eq (N i : Int) (hi : 0 ≤ i ∧ i < N) :
    folded_index N i = if 2 * i < N then i else i - N := by
  unfold folded_index
  rw [Int.tdiv_eq_ediv (by omega) (by omega)]
  split_ifs with h
  · rw [Int.ediv_eq_zero_of_lt (by omega) h]
    omega
  · have h1 : 1 ≤ 2 * i / N := Int.le_ediv_of_mul_le (by omega) (by omega)
    have h2 : 2 * i / N < 2 := Int.ediv_lt_of_lt_mul (by omega) (by omega)
    have : 2 * i / N = 1 := by omega
    rw [this]
    omega

end Folding

section TableFacts

variable {K : Type} [LinearOrderedField K] [FloorRing K]

/-- The virial constants the block leaves at the grid point `(x, y, z)`. -/
theorem set_up_vg_entry (Nx Ny Nz : Int) (kappa : K) (kv h : GPUArray (Scalar3 K))
    (x y z : Int) (hx : 0 ≤ x ∧ x < Nx) (hy : 0 ≤ y ∧ y < Ny) (hz : 0 ≤ z ∧ z < Nz) :
    (set_up_vg Nx Ny Nz kappa kv h).data (z + Nz * (y + Ny * x))
      = vg_entry kappa (kv.data (z + Nz * (y + Ny * x))) := by
  rw [set_up_vg_eq_gridFill]
  apply gridFill_entry Nx Ny Nz (fun x y z => z + Nz * (y + Ny * x)) _ x y z hx hy hz
  intro a b c ha1 ha2 hb1 hb2 hc1 hc2 e
  obtain ⟨rfl, rfl, rfl⟩ := flat_index_inj Ny Nz a b c x y z ⟨hb1, hb2⟩ ⟨hc1, hc2⟩ hy hz e
  rfl

/-- The value the Green's-function block leaves at the grid point `(k, l, m)`. -/
theorem set_up_green_hat_entry (lm : Libm K) (eps : K) (Nx Ny Nz order : Int)
    (kappa Lx Ly Lz : K) (b h : GPUArray K)
    (k l m : Int) (hk : 0 ≤ k ∧ k < Nx) (hl : 0 ≤ l ∧ l < Ny) (hm : 0 ≤ m ∧ m < Nz) :
    (set_up_green_hat lm eps Nx Ny Nz order kappa Lx Ly Lz b h).data (m + Nz * (l + Ny * k))
      = green_hat_entry lm eps Nx Ny Nz order kappa Lx Ly Lz b k l m := by
  rw [set_up_green_hat_eq_gridFill]
  apply gridFill_entry Nz Ny Nx (fun m l k => m + Nz * (l + Ny * k)) _ m l k hm hl hk
  intro a b' c ha1 ha2 hb1 hb2 hc1 hc2 e
  obtain ⟨rfl, rfl, rfl⟩ := flat_index_inj Ny Nz c b' a k l m ⟨hb1, hb2⟩ ⟨ha1, ha2⟩ hl hm e
  rfl

/-- The tables `reset_kvec_green_hat_cpu` leaves, as the blocks that build them. -/
theorem reset_kvec_green_hat_cpu_tables (env : Env K) (pdata : ParticleData K)
    (self : PPPMForceCompute K) :
    (reset_kvec_green_hat_cpu env pdata self).statics.m_vg
        = set_up_vg self.m_Nx self.m_Ny self.m_Nz self.m_kappa
            (reset_kvec_green_hat_cpu env pdata self).m_kvec self.statics.m_vg
      ∧ (reset_kvec_green_hat_cpu env pdata self).m_gf_b
        = compute_gf_denom self.m_order self.m_gf_b
      ∧ (reset_kvec_green_hat_cpu env pdata self).statics.m_green_hat
        = set_up_green_hat env.libm env.consts.EPS_HOC self.m_Nx self.m_Ny self.m_Nz
            self.m_order self.m_kappa (pdata.box.xhi - pdata.box.xlo)
            (pdata.box.yhi - pdata.box.ylo) (pdata.box.zhi - pdata.box.zlo)
            (reset_kvec_green_hat_cpu env pdata self).m_gf_b self.statics.m_green_hat :=
  ⟨rfl, rfl, rfl⟩

/-- When the order passes both tests, the tables `setParams` leaves, as the blocks
that build them on the new buffers. -/
theorem setParams_built_tables (env : Env K) (pdata : ParticleData K) (Nx Ny Nz order : Int)
    (kappa rcut : K) (self : PPPMForceCompute K)
    (h1 : ¬ cint (order * cint (2 * order + 1)) > env.consts.CONSTANT_SIZE)
    (h2 : ¬ order > env.consts.MaxOrder) :
    (setParams env pdata Nx Ny Nz order kappa rcut self).2.statics.m_vg
        = set_up_vg Nx Ny Nz kappa
            (setParams env pdata Nx Ny Nz order kappa rcut self).2.m_kvec
            (GPUArray.alloc ⟨0, 0, 0⟩ (Nx * Ny * Nz))
      ∧ (setParams env pdata Nx Ny Nz order kappa rcut self).2.m_gf_b
        = compute_gf_denom order (GPUArray.alloc 0 order)
      ∧ (setParams env pdata Nx Ny Nz order kappa rcut self).2.statics.m_green_hat
        = set_up_green_hat env.libm env.consts.EPS_HOC Nx Ny Nz order kappa
            (pdata.box.xhi - pdata.box.xlo)
            (pdata.box.yhi - pdata.box.ylo) (pdata.box.zhi - pdata.box.zlo)
            (setParams env pdata Nx Ny Nz order kappa rcut self).2.m_gf_b
            (GPUArray.alloc 0 (Nx * Ny * Nz)) := by
  rw [setParams_of_order_ok env pdata Nx Ny Nz order kappa rcut self h1 h2]
  have ho : (setParams_diagnostics env pdata Nx Ny Nz
      (setParams_allocate Nx Ny Nz order
        (setParams_store Nx Ny Nz order kappa rcut self))).m_order = order :=
    setParams_store_order Nx Ny Nz order kappa rcut self
  refine ⟨rfl, ?_, rfl⟩
  simp only [setParams_tables, ho]
  rfl

end TableFacts

section VirialFacts

variable {K : Type} [LinearOrderedField K] [FloorRing K]

/-- The code's virial constants are the specification's virial weight. -/
theorem vg_entry_eq_spec (kappa : K) (k : Scalar3 K) :
    vg_entry kappa k = spec_virial_weight kappa k := by
  unfold vg_entry spec_virial_weight
  have e : k.x * k.x + k.y * k.y + k.z * k.z = k.x ^ 2 + k.y ^ 2 + k.z ^ 2 := by ring
  simp only [e]
  split_ifs with h
  · rfl
  · have e4 : (1 / 4 : K) / (kappa * kappa) = 1 / (4 * kappa ^ 2) := by
      rw [div_div]
      congr 1
      ring
    rw [e4]
    simp only [Scalar3.mk.injEq]
    refine ⟨by ring, by ring, by ring⟩

/-- The wave number of an index of the axis is zero at index 0 only. -/
theorem wave_number_eq_zero_iff (N i : Int) (hi : 0 ≤ i ∧ i < N) :
    (wave_number N i : K) = 0 ↔ i = 0 := by
  rw [wave_number_eq]
  split_ifs with h
  · constructor
    · intro e
      have : i - N = 0 := by exact_mod_cast e
      omega
    · intro e
      rw [e] at h
      have : (0 : Int) ≤ Int.tdiv N 2 := by
        rw [Int.tdiv_eq_ediv (by omega) (by omega)]
        omega
      omega
  · exact Int.cast_eq_zero

/-- In a box with positive extents the three scale factors of the k-vector block are
positive. -/
theorem inverse_lattice_vector_pos (Lx Ly Lz : K) (hx : 0 < Lx) (hy : 0 < Ly) (hz : 0 < Lz) :
    0 < (inverse_lattice_vector Lx Ly Lz).x ∧ 0 < (inverse_lattice_vector Lx Ly Lz).y
      ∧ 0 < (inverse_lattice_vector Lx Ly Lz).z := by
  have hpi : (0 : K) < M_PI := by
    unfold M_PI
    norm_num
  unfold inverse_lattice_vector
  simp only []
  refine ⟨?_, ?_, ?_⟩ <;> positivity

/-- A sum of three squares is zero when all three numbers are. -/
theorem sq_sum_eq_zero_iff (a b c : K) : a ^ 2 + b ^ 2 + c ^ 2 = 0 ↔ a = 0 ∧ b = 0 ∧ c = 0 := by
  constructor
  · intro h
    have ha := sq_nonneg a
    have hb := sq_nonneg b
    have hc := sq_nonneg c
    refine ⟨?_, ?_, ?_⟩
    · exact pow_eq_zero_iff (two_ne_zero) |>.1 (by linarith)
    · exact pow_eq_zero_iff (two_ne_zero) |>.1 (by linarith)
    · exact pow_eq_zero_iff (two_ne_zero) |>.1 (by linarith)
  · rintro ⟨rfl, rfl, rfl⟩
    ring

/-- The k-vector table has squared length zero at the grid point `(0, 0, 0)` only. -/
theorem set_up_kvec_sq_zero_iff (Nx Ny Nz : Int) (Lx Ly Lz : K) (h : GPUArray (Scalar3 K))
    (hLx : 0 < Lx) (hLy : 0 < Ly) (hLz : 0 < Lz)
    (ix iy iz : Int) (hx : 0 ≤ ix ∧ ix < Nx) (hy : 0 ≤ iy ∧ iy < Ny) (hz : 0 ≤ iz ∧ iz < Nz) :
    ((set_up_kvec Nx Ny Nz Lx Ly Lz h).data (iz + Nz * (iy + Ny * ix))).x ^ 2
        + ((set_up_kvec Nx Ny Nz Lx Ly Lz h).data (iz + Nz * (iy + Ny * ix))).y ^ 2
        + ((set_up_kvec Nx Ny Nz Lx Ly Lz h).data (iz + Nz * (iy + Ny * ix))).z ^ 2 = 0
      ↔ ix = 0 ∧ iy = 0 ∧ iz = 0 := by
  obtain ⟨px, py, pz⟩ := inverse_lattice_vector_pos Lx Ly Lz hLx hLy hLz
  rw [set_up_kvec_entry Nx Ny Nz Lx Ly Lz h ix iy iz hx hy hz, sq_sum_eq_zero_iff]
  simp only [mul_eq_zero, px.ne', py.ne', pz.ne', or_false,
    wave_number_eq_zero_iff Nx ix hx, wave_number_eq_zero_iff Ny iy hy,
    wave_number_eq_zero_iff Nz iz hz]

end VirialFacts

section GreenFacts

variable {K : Type} [LinearOrderedField K] [FloorRing K]

/-- The value stored for a grid point, through the named variables of the block. -/
theorem green_hat_entry_eq (lm : Libm K) (eps : K) (Nx Ny Nz order : Int)
    (kappa Lx Ly Lz : K) (b : GPUArray K) (k l m : Int) :
    green_hat_entry lm eps Nx Ny Nz order kappa Lx Ly Lz b k l m
      = if green_hat_sqk Lx Ly Lz (folded_index Nx k) (folded_index Ny l) (folded_index Nz m)
            ≠ 0 then
          green_hat_numerator Lx Ly Lz (folded_index Nx k) (folded_index Ny l)
              (folded_index Nz m)
            * green_hat_sum1 lm eps Nx Ny Nz order kappa Lx Ly Lz (folded_index Nx k)
              (folded_index Ny l) (folded_index Nz m)
            / green_hat_denominator lm Nx Ny Nz order Lx Ly Lz b (folded_index Nx k)
              (folded_index Ny l) (folded_index Nz m)
        else 0 := rfl

/-- The folded index of an index of the axis is zero at index 0 only. -/
theorem folded_index_eq_zero_iff (N k : Int) (hk : 0 ≤ k ∧ k < N) :
    folded_index N k = 0 ↔ k = 0 := by
  rw [folded_index_eq N k hk]
  split_ifs <;> omega

/-- In a box with positive extents `sqk` is zero at the grid point `(0, 0, 0)` only. -/
theorem green_hat_sqk_eq_zero_iff (Nx Ny Nz : Int) (Lx Ly Lz : K)
    (hLx : 0 < Lx) (hLy : 0 < Ly) (hLz : 0 < Lz)
    (k l m : Int) (hk : 0 ≤ k ∧ k < Nx) (hl : 0 ≤ l ∧ l < Ny) (hm : 0 ≤ m ∧ m < Nz) :
    green_hat_sqk Lx Ly Lz (folded_index Nx k) (folded_index Ny l) (folded_index Nz m) = 0
      ↔ k = 0 ∧ l = 0 ∧ m = 0 := by
  have hpi : (M_PI : K) ≠ 0 := M_PI_ne_zero
  unfold green_hat_sqk
  rw [sq_sum_eq_zero_iff]
  simp only [mul_eq_zero, div_eq_zero_iff, hpi, hLx.ne', hLy.ne', hLz.ne', or_false,
    false_or, two_ne_zero, Int.cast_eq_zero, folded_index_eq_zero_iff Nx k hk,
    folded_index_eq_zero_iff Ny l hl, folded_index_eq_zero_iff Nz m hm]

/-- The flattened index is 0 at the grid point `(0, 0, 0)` only. -/
theorem flat_index_eq_zero_iff (Ny Nz k l m : Int) (hl : 0 ≤ l ∧ l < Ny)
    (hm : 0 ≤ m ∧ m < Nz) : m + Nz * (l + Ny * k) = 0 ↔ k = 0 ∧ l = 0 ∧ m = 0 := by
  constructor
  · intro h
    exact flat_index_inj Ny Nz k l m 0 0 0 hl hm ⟨le_refl _, by omega⟩ ⟨le_refl _, by omega⟩
      (by rw [h]; ring)
  · rintro ⟨rfl, rfl, rfl⟩
    ring

/-- The entry of the Green's-function table at a grid point: 0 at `(0, 0, 0)`,
`numerator*sum1/denominator` elsewhere. -/
theorem green_hat_entry_cases (lm : Libm K) (eps : K) (Nx Ny Nz order : Int)
    (kappa Lx Ly Lz : K) (b : GPUArray K) (hLx : 0 < Lx) (hLy : 0 < Ly) (hLz : 0 < Lz)
    (k l m : Int) (hk : 0 ≤ k ∧ k < Nx) (hl : 0 ≤ l ∧ l < Ny) (hm : 0 ≤ m ∧ m < Nz) :
    green_hat_entry lm eps Nx Ny Nz order kappa Lx Ly Lz b k l m
      = if k = 0 ∧ l = 0 ∧ m = 0 then 0
        else
          green_hat_numerator Lx Ly Lz (folded_index Nx k) (folded_index Ny l)
              (folded_index Nz m)
            * green_hat_sum1 lm eps Nx Ny Nz order kappa Lx Ly Lz (folded_index Nx k)
              (folded_index Ny l) (folded_index Nz m)
            / green_hat_denominator lm Nx Ny Nz order Lx Ly Lz b (folded_index Nx k)
              (folded_index Ny l) (folded_index Nz m) := by
  rw [green_hat_entry_eq]
  have hz := green_hat_sqk_eq_zero_iff Nx Ny Nz Lx Ly Lz hLx hLy hLz k l m hk hl hm
  by_cases h0 : k = 0 ∧ l = 0 ∧ m = 0
  · rw [if_pos h0, if_neg (not_not.2 (hz.2 h0))]
  · rw [if_neg h0, if_pos (fun e => h0 (hz.1 e))]

end GreenFacts

section ReflectFacts

variable {K : Type} [LinearOrderedField K] [FloorRing K]

theorem list_sum_map_range (g : Nat → K) (n : Nat) :
    ((List.range n).map g).sum = ∑ j in Finset.range n, g j := by
  induction n with
  | zero => simp
  | succ n ih =>
    rw [List.range_succ, List.map_append, List.sum_append, ih, Finset.sum_range_succ]
    simp

/-- The loop sum as a sum over the iteration count. -/
theorem sumUpTo_eq_sum_range (lo hi : Int) (f : Int → K) :
    sumUpTo lo hi f = ∑ j in Finset.range (hi + 1 - lo).toNat, f (lo + (j : Int)) := by
  unfold sumUpTo
  rw [forUpTo_eq_foldl,
    foldl_sum_track (fun a : K => a) (fun i acc => acc + f i) f _ (fun c _ s => rfl) 0,
    zero_add]
  unfold intRange
  rw [List.map_map, list_sum_map_range]
  rfl

/-- A sum over a range that is symmetric about 0 can be run backwards. -/
theorem sumUpTo_reflect (n : Int) (f : Int → K) :
    sumUpTo (-n) n f = sumUpTo (-n) n (fun i => f (-i)) := by
  rw [sumUpTo_eq_sum_range, sumUpTo_eq_sum_range,
    ← Finset.sum_range_reflect (fun j : Nat => f (-n + (j : Int)))]
  apply Finset.sum_congr rfl
  intro j hj
  have hj' := Finset.mem_range.1 hj
  congr 1
  have : (((n + 1 - -n).toNat - 1 - j : Nat) : Int) = (n + 1 - -n) - 1 - j := by
    omega
  rw [this]
  ring

/-- The variable `sum1` after the three loops over the images is the triple sum of
the amounts added. -/
theorem green_sum1_eq_sums (lm : Libm K) (Nx Ny Nz order : Int) (kappa : K)
    (xprd yprd zprd_slab : K) (unitkx unitky unitkz : K) (nbx nby nbz : Int)
    (kper lper mper : Int) :
    green_sum1 lm Nx Ny Nz order kappa xprd yprd zprd_slab unitkx unitky unitkz nbx nby nbz
        kper lper mper
      = sumUpTo (-nbx) nbx (fun ix => sumUpTo (-nby) nby (fun iy => sumUpTo (-nbz) nbz
          (fun iz => green_sum1_term lm Nx Ny Nz order kappa xprd yprd zprd_slab
            unitkx unitky unitkz kper lper mper ix iy iz))) := by
  unfold green_sum1
  rw [forUpTo_sum_track (fun a : K => a) _
    (fun ix => sumUpTo (-nby) nby (fun iy => sumUpTo (-nbz) nbz
      (fun iz => green_sum1_term lm Nx Ny Nz order kappa xprd yprd zprd_slab
        unitkx unitky unitkz kper lper mper ix iy iz))) _ _ _ 0, zero_add]
  intro ix _ _ s
  simp only []
  rw [forUpTo_sum_track (fun a : K => a) _
    (fun iy => sumUpTo (-nbz) nbz
      (fun iz => green_sum1_term lm Nx Ny Nz order kappa xprd yprd zprd_slab
        unitkx unitky unitkz kper lper mper ix iy iz)) _ _ _ s]
  intro iy _ _ s
  simp only []
  rw [forUpTo_sum_track (fun a : K => a) _
    (fun iz => green_sum1_term lm Nx Ny Nz order kappa xprd yprd zprd_slab
        unitkx unitky unitkz kper lper mper ix iy iz) _ _ _ s]
  intro iz _ _ s
  rfl

end ReflectFacts

section SymmetryFacts

variable {K : Type} [LinearOrderedField K] [FloorRing K]

/-- The per-axis factors of a summand of `sum1` do not change when the wave number
of the axis changes sign, for an odd `sin`. -/
theorem axis_factors_neg (lm : Libm K) (hodd : ∀ x, lm.sin (-x) = -lm.sin x)
    (q kappa prd : K) (N order : Int) :
    lm.exp (-(1 / 4) * (-q / kappa) ^ 2) = lm.exp (-(1 / 4) * (q / kappa) ^ 2)
      ∧ (if (1 / 2) * (-q) * prd / (N : K) ≠ 0 then
          (lm.sin ((1 / 2) * (-q) * prd / (N : K)) / ((1 / 2) * (-q) * prd / (N : K))) ^ order
          else (1 : K))
        = (if (1 / 2) * q * prd / (N : K) ≠ 0 then
          (lm.sin ((1 / 2) * q * prd / (N : K)) / ((1 / 2) * q * prd / (N : K))) ^ order
          else (1 : K)) := by
  have e : (1 / 2) * (-q) * prd / (N : K) = -((1 / 2) * q * prd / (N : K)) := by ring
  constructor
  · rw [neg_div, neg_sq]
  · rw [e, hodd, neg_div_neg_eq]
    simp only [ne_eq, neg_eq_zero]

theorem green_sum1_term_neg_x (lm : Libm K) (hodd : ∀ x, lm.sin (-x) = -lm.sin x)
    (Nx Ny Nz order : Int) (kappa xprd yprd zprd_slab unitkx unitky unitkz : K)
    (kper lper mper ix iy iz : Int) :
    green_sum1_term lm Nx Ny Nz order kappa xprd yprd zprd_slab unitkx unitky unitkz
        (-kper) lper mper (-ix) iy iz
      = green_sum1_term lm Nx Ny Nz order kappa xprd yprd zprd_slab unitkx unitky unitkz
        kper lper mper ix iy iz := by
  have hq : unitkx * (((-kper : Int) : K) + ((Nx * (-ix) : Int) : K))
      = -(unitkx * ((kper : K) + ((Nx * ix : Int) : K))) := by
    push_cast
    ring
  obtain ⟨a, b⟩ := axis_factors_neg lm hodd (unitkx * ((kper : K) + ((Nx * ix : Int) : K)))
    kappa xprd Nx order
  unfold green_sum1_term
  simp only [hq, a, b]
  simp only [Int.cast_neg, neg_mul, mul_neg, neg_neg]

theorem green_sum1_term_neg_y (lm : Libm K) (hodd : ∀ x, lm.sin (-x) = -lm.sin x)
    (Nx Ny Nz order : Int) (kappa xprd yprd zprd_slab unitkx unitky unitkz : K)
    (kper lper mper ix iy iz : Int) :
    green_sum1_term lm Nx Ny Nz order kappa xprd yprd zprd_slab unitkx unitky unitkz
        kper (-lper) mper ix (-iy) iz
      = green_sum1_term lm Nx Ny Nz order kappa xprd yprd zprd_slab unitkx unitky unitkz
        kper lper mper ix iy iz := by
  have hq : unitky * (((-lper : Int) : K) + ((Ny * (-iy) : Int) : K))
      = -(unitky * ((lper : K) + ((Ny * iy : Int) : K))) := by
    push_cast
    ring
  obtain ⟨a, b⟩ := axis_factors_neg lm hodd (unitky * ((lper : K) + ((Ny * iy : Int) : K)))
    kappa yprd Ny order
  unfold green_sum1_term
  simp only [hq, a, b]
  simp only [Int.cast_neg, neg_mul, mul_neg, neg_neg]

theorem green_sum1_term_neg_z (lm : Libm K) (hodd : ∀ x, lm.sin (-x) = -lm.sin x)
    (Nx Ny Nz order : Int) (kappa xprd yprd zprd_slab unitkx unitky unitkz : K)
    (kper lper mper ix iy iz : Int) :
    green_sum1_term lm Nx Ny Nz order kappa xprd yprd zprd_slab unitkx unitky unitkz
        kper lper (-mper) ix iy (-iz)
      = green_sum1_term lm Nx Ny Nz order kappa xprd yprd zprd_slab unitkx unitky unitkz
        kper lper mper ix iy iz := by
  have hq : unitkz * (((-mper : Int) : K) + ((Nz * (-iz) : Int) : K))
      = -(unitkz * ((mper : K) + ((Nz * iz : Int) : K))) := by
    push_cast
    ring
  obtain ⟨a, b⟩ := axis_factors_neg lm hodd (unitkz * ((mper : K) + ((Nz * iz : Int) : K)))
    kappa zprd_slab Nz order
  unfold green_sum1_term
  simp only [hq, a, b]
  simp only [Int.cast_neg, neg_mul, mul_neg, neg_neg]

end SymmetryFacts

section SymmetryFacts2

variable {K : Type} [LinearOrderedField K] [FloorRing K]

theorem green_hat_sum1_neg (lm : Libm K) (hodd : ∀ x, lm.sin (-x) = -lm.sin x) (eps : K)
    (Nx Ny Nz order : Int) (kappa Lx Ly Lz : K) (kper lper mper : Int) :
    green_hat_sum1 lm eps Nx Ny Nz order kappa Lx Ly Lz (-kper) lper mper
        = green_hat_sum1 lm eps Nx Ny Nz order kappa Lx Ly Lz kper lper mper
      ∧ green_hat_sum1 lm eps Nx Ny Nz order kappa Lx Ly Lz kper (-lper) mper
        = green_hat_sum1 lm eps Nx Ny Nz order kappa Lx Ly Lz kper lper mper
      ∧ green_hat_sum1 lm eps Nx Ny Nz order kappa Lx Ly Lz kper lper (-mper)
        = green_hat_sum1 lm eps Nx Ny Nz order kappa Lx Ly Lz kper lper mper := by
  unfold green_hat_sum1
  simp only [green_sum1_eq_sums]
  refine ⟨?_, ?_, ?_⟩
  · refine (sumUpTo_reflect _ _).trans ?_
    apply sumUpTo_congr
    intro ix _ _
    apply sumUpTo_congr
    intro iy _ _
    apply sumUpTo_congr
    intro iz _ _
    exact green_sum1_term_neg_x lm hodd Nx Ny Nz order kappa _ _ _ _ _ _ kper lper mper ix iy iz
  · apply sumUpTo_congr
    intro ix _ _
    refine (sumUpTo_reflect _ _).trans ?_
    apply sumUpTo_congr
    intro iy _ _
    apply sumUpTo_congr
    intro iz _ _
    exact green_sum1_term_neg_y lm hodd Nx Ny Nz order kappa _ _ _ _ _ _ kper lper mper ix iy iz
  · apply sumUpTo_congr
    intro ix _ _
    apply sumUpTo_congr
    intro iy _ _
    refine (sumUpTo_reflect _ _).trans ?_
    apply sumUpTo_congr
    intro iz _ _
    exact green_sum1_term_neg_z lm hodd Nx Ny Nz order kappa _ _ _ _ _ _ kper lper mper ix iy iz

theorem green_hat_sqk_neg (Lx Ly Lz : K) (kper lper mper : Int) :
    green_hat_sqk Lx Ly Lz (-kper) lper mper = green_hat_sqk Lx Ly Lz kper lper mper
      ∧ green_hat_sqk Lx Ly Lz kper (-lper) mper = green_hat_sqk Lx Ly Lz kper lper mper
      ∧ green_hat_sqk Lx Ly Lz kper lper (-mper) = green_hat_sqk Lx Ly Lz kper lper mper := by
  unfold green_hat_sqk
  refine ⟨?_, ?_, ?_⟩ <;> (push_cast; ring)

theorem sin_sq_neg (lm : Libm K) (hodd : ∀ x, lm.sin (-x) = -lm.sin x) (u L : K) (N j : Int) :
    lm.sin ((1 / 2) * u * ((-j : Int) : K) * L / (N : K))
        * lm.sin ((1 / 2) * u * ((-j : Int) : K) * L / (N : K))
      = lm.sin ((1 / 2) * u * (j : K) * L / (N : K))
        * lm.sin ((1 / 2) * u * (j : K) * L / (N : K)) := by
  have e : (1 / 2) * u * ((-j : Int) : K) * L / (N : K)
      = -((1 / 2) * u * (j : K) * L / (N : K)) := by
    push_cast
    ring
  rw [e, hodd, neg_mul_neg]

theorem green_hat_denominator_neg (lm : Libm K) (hodd : ∀ x, lm.sin (-x) = -lm.sin x)
    (Nx Ny Nz order : Int) (Lx Ly Lz : K) (b : GPUArray K) (kper lper mper : Int) :
    green_hat_denominator lm Nx Ny Nz order Lx Ly Lz b (-kper) lper mper
        = green_hat_denominator lm Nx Ny Nz order Lx Ly Lz b kper lper mper
      ∧ green_hat_denominator lm Nx Ny Nz order Lx Ly Lz b kper (-lper) mper
        = green_hat_denominator lm Nx Ny Nz order Lx Ly Lz b kper lper mper
      ∧ green_hat_denominator lm Nx Ny Nz order Lx Ly Lz b kper lper (-mper)
        = green_hat_denominator lm Nx Ny Nz order Lx Ly Lz b kper lper mper := by
  unfold green_hat_denominator
  refine ⟨?_, ?_, ?_⟩ <;> rw [sin_sq_neg lm hodd]

/-- The reflected index of an index of the axis is that index itself or has the
opposite folded index. -/
theorem folded_index_reflect (N k : Int) (hk : 0 ≤ k ∧ k < N) :
    (0 ≤ (N - k) % N ∧ (N - k) % N < N)
      ∧ ((N - k) % N = k ∨ folded_index N ((N - k) % N) = -folded_index N k) := by
  by_cases h0 : k = 0
  · subst h0
    have : (N - 0) % N = 0 := by simp
    rw [this]
    exact ⟨⟨le_refl _, by omega⟩, Or.inl rfl⟩
  · have e : (N - k) % N = N - k := Int.emod_eq_of_lt (by omega) (by omega)
    rw [e]
    refine ⟨⟨by omega, by omega⟩, ?_⟩
    rw [folded_index_eq N k hk, folded_index_eq N (N - k) ⟨by omega, by omega⟩]
    split_ifs <;> omega

/-- The value stored for a grid point does not change when one of its indices is
reflected, for an odd `sin`. -/
theorem green_hat_entry_reflect (lm : Libm K) (hodd : ∀ x, lm.sin (-x) = -lm.sin x) (eps : K)
    (Nx Ny Nz order : Int) (kappa Lx Ly Lz : K) (b : GPUArray K) (k l m : Int)
    (hk : 0 ≤ k ∧ k < Nx) (hl : 0 ≤ l ∧ l < Ny) (hm : 0 ≤ m ∧ m < Nz) :
    green_hat_entry lm eps Nx Ny Nz order kappa Lx Ly Lz b ((Nx - k) % Nx) l m
        = green_hat_entry lm eps Nx Ny Nz order kappa Lx Ly Lz b k l m
      ∧ green_hat_entry lm eps Nx Ny Nz order kappa Lx Ly Lz b k ((Ny - l) % Ny) m
        = green_hat_entry lm eps Nx Ny Nz order kappa Lx Ly Lz b k l m
      ∧ green_hat_entry lm eps Nx Ny Nz order kappa Lx Ly Lz b k l ((Nz - m) % Nz)
        = green_hat_entry lm eps Nx Ny Nz order kappa Lx Ly Lz b k l m := by
  refine ⟨?_, ?_, ?_⟩
  · rcases (folded_index_reflect Nx k hk).2 with e | e
    · rw [e]
    · rw [green_hat_entry_eq, green_hat_entry_eq, e]
      unfold green_hat_numerator
      rw [(green_hat_sqk_neg Lx Ly Lz _ _ _).1, (green_hat_sum1_neg lm hodd eps _ _ _ _ _ _ _ _ _ _ _).1,
        (green_hat_denominator_neg lm hodd _ _ _ _ _ _ _ _ _ _ _).1]
  · rcases (folded_index_reflect Ny l hl).2 with e | e
    · rw [e]
    · rw [green_hat_entry_eq, green_hat_entry_eq, e]
      unfold green_hat_numerator
      rw [(green_hat_sqk_neg Lx Ly Lz _ _ _).2.1,
        (green_hat_sum1_neg lm hodd eps _ _ _ _ _ _ _ _ _ _ _).2.1,
        (green_hat_denominator_neg lm hodd _ _ _ _ _ _ _ _ _ _ _).2.1]
  · rcases (folded_index_reflect Nz m hm).2 with e | e
    · rw [e]
    · rw [green_hat_entry_eq, green_hat_entry_eq, e]
      unfold green_hat_numerator
      rw [(green_hat_sqk_neg Lx Ly Lz _ _ _).2.2,
        (green_hat_sum1_neg lm hodd eps _ _ _ _ _ _ _ _ _ _ _).2.2,
        (green_hat_denominator_neg lm hodd _ _ _ _ _ _ _ _ _ _ _).2.2]

end SymmetryFacts2

section SymmetryFacts3

variable {K : Type} [LinearOrderedField K] [FloorRing K]

/-- The table the Green's-function block builds has equal entries at a grid point and
at its reflection along any one axis, for an odd `sin`. -/
theorem set_up_green_hat_reflect (lm : Libm K) (hodd : ∀ x, lm.sin (-x) = -lm.sin x) (eps : K)
    (Nx Ny Nz order : Int) (kappa Lx Ly Lz : K) (b h : GPUArray K) (k l m : Int)
    (hk : 0 ≤ k ∧ k < Nx) (hl : 0 ≤ l ∧ l < Ny) (hm : 0 ≤ m ∧ m < Nz) :
    (set_up_green_hat lm eps Nx Ny Nz order kappa Lx Ly Lz b h).data
          (m + Nz * (l + Ny * ((Nx - k) % Nx)))
        = (set_up_green_hat lm eps Nx Ny Nz order kappa Lx Ly Lz b h).data
          (m + Nz * (l + Ny * k))
      ∧ (set_up_green_hat lm eps Nx Ny Nz order kappa Lx Ly Lz b h).data
          (m + Nz * ((Ny - l) % Ny + Ny * k))
        = (set_up_green_hat lm eps Nx Ny Nz order kappa Lx Ly Lz b h).data
          (m + Nz * (l + Ny * k))
      ∧ (set_up_green_hat lm eps Nx Ny Nz order kappa Lx Ly Lz b h).data
          ((Nz - m) % Nz + Nz * (l + Ny * k))
        = (set_up_green_hat lm eps Nx Ny Nz order kappa Lx Ly Lz b h).data
          (m + Nz * (l + Ny * k)) := by
  obtain ⟨rx, ry, rz⟩ := green_hat_entry_reflect lm hodd eps Nx Ny Nz order kappa Lx Ly Lz b
    k l m hk hl hm
  rw [set_up_green_hat_entry lm eps Nx Ny Nz order kappa Lx Ly Lz b h k l m hk hl hm,
    set_up_green_hat_entry lm eps Nx Ny Nz order kappa Lx Ly Lz b h _ l m
      (folded_index_reflect Nx k hk).1 hl hm,
    set_up_green_hat_entry lm eps Nx Ny Nz order kappa Lx Ly Lz b h k _ m hk
      (folded_index_reflect Ny l hl).1 hm,
    set_up_green_hat_entry lm eps Nx Ny Nz order kappa Lx Ly Lz b h k l _ hk hl
      (folded_index_reflect Nz m hm).1]
  exact ⟨rx, ry, rz⟩

end SymmetryFacts3

section RebuildFacts

variable {K : Type} [LinearOrderedField K] [FloorRing K]

/-- Filling a grid that has been filled before leaves what filling the original grid
leaves, when stores to one cell agree. -/
theorem gridFill_overwrite {α : Type} (A B C : Int) (idx : Int → Int → Int → Int)
    (val val' : Int → Int → Int → α)
    (hsame : ∀ a b c a' b' c', 0 ≤ a → a < A → 0 ≤ b → b < B → 0 ≤ c → c < C →
      0 ≤ a' → a' < A → 0 ≤ b' → b' < B → 0 ≤ c' → c' < C →
      idx a b c = idx a' b' c' → val a b c = val a' b' c')
    (h : GPUArray α) :
    gridFill A B C idx val (gridFill A B C idx val' h) = gridFill A B C idx val h := by
  rw [GPUArray.eq_iff]
  refine ⟨by rw [gridFill_num_elements, gridFill_num_elements, gridFill_num_elements],
    fun p => ?_⟩
  by_cases hp : ∃ a b c, (0 ≤ a ∧ a < A) ∧ (0 ≤ b ∧ b < B) ∧ (0 ≤ c ∧ c < C) ∧ idx a b c = p
  · obtain ⟨x, y, z, hx, hy, hz, rfl⟩ := hp
    have hs : ∀ a b c, 0 ≤ a → a < A → 0 ≤ b → b < B → 0 ≤ c → c < C →
        idx a b c = idx x y z → val a b c = val x y z :=
      fun a b c h1 h2 h3 h4 h5 h6 e =>
        hsame a b c x y z h1 h2 h3 h4 h5 h6 hx.1 hx.2 hy.1 hy.2 hz.1 hz.2 e
    rw [gridFill_entry A B C idx val x y z hx hy hz hs,
      gridFill_entry A B C idx val x y z hx hy hz hs]
  · have hf : ∀ a b c, 0 ≤ a → a < A → 0 ≤ b → b < B → 0 ≤ c → c < C → idx a b c ≠ p :=
      fun a b c h1 h2 h3 h4 h5 h6 e => hp ⟨a, b, c, ⟨h1, h2⟩, ⟨h3, h4⟩, ⟨h5, h6⟩, e⟩
    rw [gridFill_frame A B C idx val p hf, gridFill_frame A B C idx val' p hf,
      gridFill_frame A B C idx val p hf]

/-- The k-vector block on a table built for another box leaves what it leaves on the
buffer that table was built on. -/
theorem set_up_kvec_overwrite (Nx Ny Nz : Int) (Lx Ly Lz Lx' Ly' Lz' : K)
    (h : GPUArray (Scalar3 K)) :
    set_up_kvec Nx Ny Nz Lx Ly Lz (set_up_kvec Nx Ny Nz Lx' Ly' Lz' h)
      = set_up_kvec Nx Ny Nz Lx Ly Lz h := by
  simp only [set_up_kvec_eq_gridFill]
  apply gridFill_overwrite
  intro a b c a' b' c' h1 h2 h3 h4 h5 h6 h1' h2' h3' h4' h5' h6' e
  obtain ⟨rfl, rfl, rfl⟩ := flat_index_inj Ny Nz a b c a' b' c' ⟨h3, h4⟩ ⟨h5, h6⟩
    ⟨h3', h4'⟩ ⟨h5', h6'⟩ e
  rfl

/-- The same for the virial block. -/
theorem set_up_vg_overwrite (Nx Ny Nz : Int) (kappa kappa' : K)
    (kv kv' h : GPUArray (Scalar3 K)) :
    set_up_vg Nx Ny Nz kappa kv (set_up_vg Nx Ny Nz kappa' kv' h)
      = set_up_vg Nx Ny Nz kappa kv h := by
  simp only [set_up_vg_eq_gridFill]
  apply gridFill_overwrite
  intro a b c a' b' c' h1 h2 h3 h4 h5 h6 h1' h2' h3' h4' h5' h6' e
  simp only [] at e
  rw [e]

/-- The same for the Green's-function block. -/
theorem set_up_green_hat_overwrite (lm : Libm K) (eps : K) (Nx Ny Nz order : Int)
    (kappa Lx Ly Lz kappa' Lx' Ly' Lz' : K) (b b' h : GPUArray K) :
    set_up_green_hat lm eps Nx Ny Nz order kappa Lx Ly Lz b
        (set_up_green_hat lm eps Nx Ny Nz order kappa' Lx' Ly' Lz' b' h)
      = set_up_green_hat lm eps Nx Ny Nz order kappa Lx Ly Lz b h := by
  simp only [set_up_green_hat_eq_gridFill]
  apply gridFill_overwrite
  intro a b c a' b' c' h1 h2 h3 h4 h5 h6 h1' h2' h3' h4' h5' h6' e
  obtain ⟨rfl, rfl, rfl⟩ := flat_index_inj Ny Nz c b a c' b' a' ⟨h3, h4⟩ ⟨h1, h2⟩
    ⟨h3', h4'⟩ ⟨h1', h2'⟩ e
  rfl

theorem setParams_store_more (Nx Ny Nz order : Int) (kappa rcut : K)
    (self : PPPMForceCompute K) :
    (setParams_store Nx Ny Nz order kappa rcut self).m_kappa = kappa
      ∧ (setParams_store Nx Ny Nz order kappa rcut self).m_rcut = rcut
      ∧ (setParams_store Nx Ny Nz order kappa rcut self).m_box_changed = self.m_box_changed := by
  unfold setParams_store
  simp only []
  split_ifs <;> exact ⟨rfl, rfl, rfl⟩

/-- The method `setParams` does not assign the box-change flag, whether it returns or
throws. -/
theorem setParams_box_changed (env : Env K) (pdata : ParticleData K) (Nx Ny Nz order : Int)
    (kappa rcut : K) (self : PPPMForceCompute K) :
    (setParams env pdata Nx Ny Nz order kappa rcut self).2.m_box_changed
      = self.m_box_changed := by
  have h := (setParams_store_more Nx Ny Nz order kappa rcut self).2.2
  unfold setParams
  simp only []
  split_ifs <;> exact h

/-- When the order passes both tests, `setParams` leaves the `kappa` it was given, the
energy factor of the current box, the sums of the charges, and copies in `PPPMData`;
the copy `PPPMData::Nz` is the one of `m_Nx`. -/
theorem setParams_scalars (env : Env K) (pdata : ParticleData K) (Nx Ny Nz order : Int)
    (kappa rcut : K) (self : PPPMForceCompute K)
    (h1 : ¬ cint (order * cint (2 * order + 1)) > env.consts.CONSTANT_SIZE)
    (h2 : ¬ order > env.consts.MaxOrder) :
    (setParams env pdata Nx Ny Nz order kappa rcut self).2.m_kappa = kappa
      ∧ (setParams env pdata Nx Ny Nz order kappa rcut self).2.m_energy_virial_factor
        = (1 / 2) * (pdata.box.xhi - pdata.box.xlo) * (pdata.box.yhi - pdata.box.ylo)
          * (pdata.box.zhi - pdata.box.zlo) * (1 / ((Nx * Ny * Nz : Int) : K))
          * (1 / ((Nx * Ny * Nz : Int) : K))
      ∧ (setParams env pdata Nx Ny Nz order kappa rcut self).2.m_q2
        = (system_charge pdata.arrays).2
      ∧ (setParams env pdata Nx Ny Nz order kappa rcut self).2.statics.Nx = (Nx : K)
      ∧ (setParams env pdata Nx Ny Nz order kappa rcut self).2.statics.Ny = (Ny : K)
      ∧ (setParams env pdata Nx Ny Nz order kappa rcut self).2.statics.Nz = (Nx : K)
      ∧ (setParams env pdata Nx Ny Nz order kappa rcut self).2.statics.q2
        = (system_charge pdata.arrays).2
      ∧ (setParams env pdata Nx Ny Nz order kappa rcut self).2.statics.kappa = kappa
      ∧ (setParams env pdata Nx Ny Nz order kappa rcut self).2.statics.energy_virial_factor
        = (setParams env pdata Nx Ny Nz order kappa rcut self).2.m_energy_virial_factor := by
  rw [setParams_of_order_ok env pdata Nx Ny Nz order kappa rcut self h1 h2]
  obtain ⟨a, b, c, _⟩ := setParams_store_params Nx Ny Nz order kappa rcut self
  obtain ⟨d, _, _⟩ := setParams_store_more Nx Ny Nz order kappa rcut self
  have a' : (setParams_diagnostics env pdata Nx Ny Nz
      (setParams_allocate Nx Ny Nz order
        (setParams_store Nx Ny Nz order kappa rcut self))).m_Nx = Nx := a
  have b' : (setParams_diagnostics env pdata Nx Ny Nz
      (setParams_allocate Nx Ny Nz order
        (setParams_store Nx Ny Nz order kappa rcut self))).m_Ny = Ny := b
  have d' : (setParams_diagnostics env pdata Nx Ny Nz
      (setParams_allocate Nx Ny Nz order
        (setParams_store Nx Ny Nz order kappa rcut self))).m_kappa = kappa := d
  refine ⟨d, rfl, rfl, ?_, ?_, ?_, rfl, ?_, rfl⟩
  · simp only [setParams_tables, a']
  · simp only [setParams_tables, b']
  · simp only [setParams_tables, a']
  · simp only [setParams_tables, d']

end RebuildFacts

/-! ## The stencil offsets -/

section Offsets

variable {K : Type} [LinearOrderedField K] [FloorRing K]

/-- For an order of at least 1 the two loop bounds are `order - 1` apart. -/
theorem nupper_sub_nlower (order : Int) (h1 : 1 ≤ order) :
    nupper order - nlower order + 1 = order := by
  unfold nlower nupper
  rw [Int.tdiv_eq_ediv (by omega) (by omega)]
  have : Int.tdiv (-(order - 1)) 2 = -((order - 1) / 2) := by
    rw [Int.neg_tdiv, Int.tdiv_eq_ediv (by omega) (by omega)]
  rw [this]
  omega

/-- C21: for every order of at least 1 the loop bounds `nlower = -(order-1)/2` and
`nupper = order/2`, with C division, are `order - 1` apart, so a stencil loop
`for (n = nlower; n <= nupper; n++)` runs through exactly `order` offsets, and the
column index `n - nlower` runs through `0, 1, ..., order-1`, each once and in this
order. -/
theorem stencil_offsets_count (order : Int) (h1 : 1 ≤ order) :
    nupper order - nlower order + 1 = order
      ∧ (intRange (nlower order) (nupper order)).length = order.toNat
      ∧ (intRange (nlower order) (nupper order)).map (fun n => n - nlower order)
        = (List.range order.toNat).map (fun (c : Nat) => (c : Int))
      ∧ ∀ c : Int, (∃ n, nlower order ≤ n ∧ n ≤ nupper order ∧ n - nlower order = c)
        ↔ 0 ≤ c ∧ c ≤ order - 1 := by
  have e := nupper_sub_nlower order h1
  have hn : (nupper order + 1 - nlower order).toNat = order.toNat := by
    congr 1
    omega
  refine ⟨e, ?_, ?_, ?_⟩
  · unfold intRange
    rw [List.length_map, List.length_range, hn]
  · unfold intRange
    rw [hn, List.map_map]
    apply List.map_congr_left
    intro c _
    simp only [Function.comp]
    omega
  · intro c
    constructor
    · rintro ⟨n, h2, h3, rfl⟩
      omega
    · intro h
      exact ⟨c + nlower order, by omega, by omega, by omega⟩

/-- The offset count applied to order 4. -/
theorem stencil_offsets_count_witness :
    nupper 4 - nlower 4 + 1 = 4
      ∧ (intRange (nlower 4) (nupper 4)).length = (4 : Int).toNat :=
  ⟨(stencil_offsets_count 4 (by decide)).1, (stencil_offsets_count 4 (by decide)).2.1⟩

end Offsets

/-! ## The virial weights -/

section VirialWeights

variable {K : Type} [LinearOrderedField K] [FloorRing K]

/-- C22: in a box with positive extents and for `kappa` other than 0, the virial
constants that `setParams` and `reset_kvec_green_hat_cpu` store at a grid point are the
specification's virial weight of the k-vector stored at that point: `(0, 0, 0)` when
`|k|^2 = 0`, else `1 + vterm*k_axis^2` per axis with
`vterm = -2*(1/|k|^2 + 1/(4*kappa^2))`; and `|k|^2 = 0` holds at the grid point
`(0, 0, 0)` and nowhere else. -/
theorem virial_weights_as_specified (env : Env K) (pdata : ParticleData K)
    (Nx Ny Nz order : Int) (kappa rcut : K) (self eng : PPPMForceCompute K)
    (h1 : ¬ cint (order * cint (2 * order + 1)) > env.consts.CONSTANT_SIZE)
    (h2 : ¬ order > env.consts.MaxOrder)
    (hkappa : kappa ≠ 0)
    (hLx : 0 < pdata.box.xhi - pdata.box.xlo) (hLy : 0 < pdata.box.yhi - pdata.box.ylo)
    (hLz : 0 < pdata.box.zhi - pdata.box.zlo)
    (heng : eng.m_Nx = Nx ∧ eng.m_Ny = Ny ∧ eng.m_Nz = Nz ∧ eng.m_kappa = kappa)
    (ix iy iz : Int) (hx : 0 ≤ ix ∧ ix < Nx) (hy : 0 ≤ iy ∧ iy < Ny) (hz : 0 ≤ iz ∧ iz < Nz) :
    ((setParams env pdata Nx Ny Nz order kappa rcut self).2.statics.m_vg.data
          (iz + Nz * (iy + Ny * ix))
        = spec_virial_weight kappa
            ((setParams env pdata Nx Ny Nz order kappa rcut self).2.m_kvec.data
              (iz + Nz * (iy + Ny * ix)))
      ∧ (((setParams env pdata Nx Ny Nz order kappa rcut self).2.m_kvec.data
              (iz + Nz * (iy + Ny * ix))).x ^ 2
          + ((setParams env pdata Nx Ny Nz order kappa rcut self).2.m_kvec.data
              (iz + Nz * (iy + Ny * ix))).y ^ 2
          + ((setParams env pdata Nx Ny Nz order kappa rcut self).2.m_kvec.data
              (iz + Nz * (iy + Ny * ix))).z ^ 2 = 0
        ↔ ix = 0 ∧ iy = 0 ∧ iz = 0))
      ∧ ((reset_kvec_green_hat_cpu env pdata eng).statics.m_vg.data
          (iz + Nz * (iy + Ny * ix))
        = spec_virial_weight kappa
            ((reset_kvec_green_hat_cpu env pdata eng).m_kvec.data (iz + Nz * (iy + Ny * ix)))
      ∧ (((reset_kvec_green_hat_cpu env pdata eng).m_kvec.data
              (iz + Nz * (iy + Ny * ix))).x ^ 2
          + ((reset_kvec_green_hat_cpu env pdata eng).m_kvec.data
              (iz + Nz * (iy + Ny * ix))).y ^ 2
          + ((reset_kvec_green_hat_cpu env pdata eng).m_kvec.data
              (iz + Nz * (iy + Ny * ix))).z ^ 2 = 0
        ↔ ix = 0 ∧ iy = 0 ∧ iz = 0)) := by
  obtain ⟨e1, e2, e3, e4⟩ := heng
  constructor
  · rw [(setParams_built_tables env pdata Nx Ny Nz order kappa rcut self h1 h2).1,
      set_up_vg_entry Nx Ny Nz kappa _ _ ix iy iz hx hy hz, vg_entry_eq_spec,
      setParams_kvec env pdata Nx Ny Nz order kappa rcut self h1 h2]
    exact ⟨rfl, set_up_kvec_sq_zero_iff Nx Ny Nz _ _ _ _ hLx hLy hLz ix iy iz hx hy hz⟩
  · rw [(reset_kvec_green_hat_cpu_tables env pdata eng).1, e1, e2, e3, e4,
      set_up_vg_entry Nx Ny Nz kappa _ _ ix iy iz hx hy hz, vg_entry_eq_spec,
      reset_kvec_green_hat_cpu_kvec env pdata eng, e1, e2, e3]
    exact ⟨rfl, set_up_kvec_sq_zero_iff Nx Ny Nz _ _ _ _ hLx hLy hLz ix iy iz hx hy hz⟩

/-- The virial statement applied to the rebuild on the 8 x 8 x 8 engine in the box of
side 10, at the grid point `(1, 0, 0)`. -/
theorem virial_weights_as_specified_witness :
    (reset_kvec_green_hat_cpu ex_env (ex_pdata 10 10 10) (ex_engine true)).statics.m_vg.data
        (0 + 8 * (0 + 8 * 1))
      = spec_virial_weight (3 / 10)
          ((reset_kvec_green_hat_cpu ex_env (ex_pdata 10 10 10) (ex_engine true)).m_kvec.data
            (0 + 8 * (0 + 8 * 1))) :=
  (virial_weights_as_specified ex_env (ex_pdata 10 10 10) 8 8 8 4 (3 / 10) 3 (ex_self false)
    (ex_engine true) (by decide) (by decide) (by norm_num)
    (by norm_num [ex_pdata, ex_box]) (by norm_num [ex_pdata, ex_box])
    (by norm_num [ex_pdata, ex_box]) ⟨rfl, rfl, rfl, rfl⟩ 1 0 0 (by decide) (by decide)
    (by decide)).2.1

end VirialWeights

/-! ## The zero wave number of the Green's function -/

section GreenZero

variable {K : Type} [LinearOrderedField K] [FloorRing K]

/-- C23: in a box with positive extents, the variable `sqk` of the Green's-function
block is zero at the grid point `k = l = m = 0`, whose flattened index is 0, and at no
other grid point; the table that `setParams` and `reset_kvec_green_hat_cpu` build
holds 0 there and `numerator*sum1/denominator` at every other grid point. -/
theorem green_hat_zero_wavenumber (env : Env K) (pdata : ParticleData K)
    (Nx Ny Nz order : Int) (kappa rcut : K) (self eng : PPPMForceCompute K)
    (h1 : ¬ cint (order * cint (2 * order + 1)) > env.consts.CONSTANT_SIZE)
    (h2 : ¬ order > env.consts.MaxOrder)
    (hLx : 0 < pdata.box.xhi - pdata.box.xlo) (hLy : 0 < pdata.box.yhi - pdata.box.ylo)
    (hLz : 0 < pdata.box.zhi - pdata.box.zlo)
    (heng : eng.m_Nx = Nx ∧ eng.m_Ny = Ny ∧ eng.m_Nz = Nz ∧ eng.m_order = order
      ∧ eng.m_kappa = kappa)
    (k l m : Int) (hk : 0 ≤ k ∧ k < Nx) (hl : 0 ≤ l ∧ l < Ny) (hm : 0 ≤ m ∧ m < Nz) :
    ((green_hat_sqk (pdata.box.xhi - pdata.box.xlo) (pdata.box.yhi - pdata.box.ylo)
          (pdata.box.zhi - pdata.box.zlo) (folded_index Nx k) (folded_index Ny l)
          (folded_index Nz m) = 0 ↔ k = 0 ∧ l = 0 ∧ m = 0)
      ∧ (m + Nz * (l + Ny * k) = 0 ↔ k = 0 ∧ l = 0 ∧ m = 0))
      ∧ (setParams env pdata Nx Ny Nz order kappa rcut self).2.statics.m_green_hat.data
          (m + Nz * (l + Ny * k))
        = (if k = 0 ∧ l = 0 ∧ m = 0 then 0
          else
            green_hat_numerator (pdata.box.xhi - pdata.box.xlo) (pdata.box.yhi - pdata.box.ylo)
                (pdata.box.zhi - pdata.box.zlo) (folded_index Nx k) (folded_index Ny l)
                (folded_index Nz m)
              * green_hat_sum1 env.libm env.consts.EPS_HOC Nx Ny Nz order kappa
                (pdata.box.xhi - pdata.box.xlo) (pdata.box.yhi - pdata.box.ylo)
                (pdata.box.zhi - pdata.box.zlo) (folded_index Nx k) (folded_index Ny l)
                (folded_index Nz m)
              / green_hat_denominator env.libm Nx Ny Nz order (pdata.box.xhi - pdata.box.xlo)
                (pdata.box.yhi - pdata.box.ylo) (pdata.box.zhi - pdata.box.zlo)
                (setParams env pdata Nx Ny Nz order kappa rcut self).2.m_gf_b
                (folded_index Nx k) (folded_index Ny l) (folded_index Nz m))
      ∧ (reset_kvec_green_hat_cpu env pdata eng).statics.m_green_hat.data
          (m + Nz * (l + Ny * k))
        = (if k = 0 ∧ l = 0 ∧ m = 0 then 0
          else
            green_hat_numerator (pdata.box.xhi - pdata.box.xlo) (pdata.box.yhi - pdata.box.ylo)
                (pdata.box.zhi - pdata.box.zlo) (folded_index Nx k) (folded_index Ny l)
                (folded_index Nz m)
              * green_hat_sum1 env.libm env.consts.EPS_HOC Nx Ny Nz order kappa
                (pdata.box.xhi - pdata.box.xlo) (pdata.box.yhi - pdata.box.ylo)
                (pdata.box.zhi - pdata.box.zlo) (folded_index Nx k) (folded_index Ny l)
                (folded_index Nz m)
              / green_hat_denominator env.libm Nx Ny Nz order (pdata.box.xhi - pdata.box.xlo)
                (pdata.box.yhi - pdata.box.ylo) (pdata.box.zhi - pdata.box.zlo)
                (reset_kvec_green_hat_cpu env pdata eng).m_gf_b
                (folded_index Nx k) (folded_index Ny l) (folded_index Nz m)) := by
  obtain ⟨e1, e2, e3, e4, e5⟩ := heng
  refine ⟨⟨green_hat_sqk_eq_zero_iff Nx Ny Nz _ _ _ hLx hLy hLz k l m hk hl hm,
    flat_index_eq_zero_iff Ny Nz k l m hl hm⟩, ?_, ?_⟩
  · rw [(setParams_built_tables env pdata Nx Ny Nz order kappa rcut self h1 h2).2.2,
      set_up_green_hat_entry _ _ Nx Ny Nz order kappa _ _ _ _ _ k l m hk hl hm,
      green_hat_entry_cases _ _ Nx Ny Nz order kappa _ _ _ _ hLx hLy hLz k l m hk hl hm]
  · rw [(reset_kvec_green_hat_cpu_tables env pdata eng).2.2, e1, e2, e3, e4, e5,
      set_up_green_hat_entry _ _ Nx Ny Nz order kappa _ _ _ _ _ k l m hk hl hm,
      green_hat_entry_cases _ _ Nx Ny Nz order kappa _ _ _ _ hLx hLy hLz k l m hk hl hm]

/-- The statement applied to `setParams(8, 8, 8, 4, 0.3, 3.0)` in the box of side 10:
the entry at index 0 is 0. -/
theorem green_hat_zero_wavenumber_witness :
    (setParams ex_env (ex_pdata 10 10 10) 8 8 8 4 (3 / 10) 3
        (ex_self false)).2.statics.m_green_hat.data (0 + 8 * (0 + 8 * 0)) = 0 :=
  ((green_hat_zero_wavenumber ex_env (ex_pdata 10 10 10) 8 8 8 4 (3 / 10) 3 (ex_self false)
    (ex_engine true) (by decide) (by decide)
    (by norm_num [ex_pdata, ex_box]) (by norm_num [ex_pdata, ex_box])
    (by norm_num [ex_pdata, ex_box]) ⟨rfl, rfl, rfl, rfl, rfl⟩ 0 0 0 (by decide) (by decide)
    (by decide)).2.1).trans (if_pos ⟨rfl, rfl, rfl⟩)

end GreenZero

/-! ## What the rebuild leaves alone -/

section RebuildFrame

variable {K : Type} [LinearOrderedField K] [FloorRing K]

/-- C24: for every engine state, `reset_kvec_green_hat_cpu` leaves the grid sizes, the
order, `kappa`, `rcut` and the coefficient table `m_rho_coeff` as they were, and the
state it returns differs from the one it was given in the k-vectors, `gf_b`, the virial
constants and the Green's function at most; the rebuild of `computeForces` (lines
398-407) differs from the state it was given in these and in the two copies of the
energy factor at most. -/
theorem rebuild_touches_box_tables_only (env : Env K) (pdata : ParticleData K)
    (self : PPPMForceCompute K) :
    ((reset_kvec_green_hat_cpu env pdata self).m_Nx = self.m_Nx
        ∧ (reset_kvec_green_hat_cpu env pdata self).m_Ny = self.m_Ny
        ∧ (reset_kvec_green_hat_cpu env pdata self).m_Nz = self.m_Nz
        ∧ (reset_kvec_green_hat_cpu env pdata self).m_order = self.m_order
        ∧ (reset_kvec_green_hat_cpu env pdata self).m_kappa = self.m_kappa
        ∧ (reset_kvec_green_hat_cpu env pdata self).m_rcut = self.m_rcut
        ∧ (reset_kvec_green_hat_cpu env pdata self).m_rho_coeff = self.m_rho_coeff
        ∧ { reset_kvec_green_hat_cpu env pdata self with
            m_kvec := self.m_kvec
            m_gf_b := self.m_gf_b
            statics := { (reset_kvec_green_hat_cpu env pdata self).statics with
              m_vg := self.statics.m_vg
              m_green_hat := self.statics.m_green_hat } } = self)
      ∧ ((computeForces_rebuild env pdata self).m_Nx = self.m_Nx
        ∧ (computeForces_rebuild env pdata self).m_Ny = self.m_Ny
        ∧ (computeForces_rebuild env pdata self).m_Nz = self.m_Nz
        ∧ (computeForces_rebuild env pdata self).m_order = self.m_order
        ∧ (computeForces_rebuild env pdata self).m_kappa = self.m_kappa
        ∧ (computeForces_rebuild env pdata self).m_rcut = self.m_rcut
        ∧ (computeForces_rebuild env pdata self).m_rho_coeff = self.m_rho_coeff
        ∧ { computeForces_rebuild env pdata self with
            m_kvec := self.m_kvec
            m_gf_b := self.m_gf_b
            m_energy_virial_factor := self.m_energy_virial_factor
            statics := { (computeForces_rebuild env pdata self).statics with
              m_vg := self.statics.m_vg
              m_green_hat := self.statics.m_green_hat
              energy_virial_factor := self.statics.energy_virial_factor } } = self) := by
  constructor
  · exact ⟨rfl, rfl, rfl, rfl, rfl, rfl, rfl, rfl⟩
  · unfold computeForces_rebuild
    split_ifs
    · exact ⟨rfl, rfl, rfl, rfl, rfl, rfl, rfl, rfl⟩
    · exact ⟨rfl, rfl, rfl, rfl, rfl, rfl, rfl, rfl⟩

end RebuildFrame

/-! ## The flag after construction -/

section Constructor

variable {K : Type} [LinearOrderedField K] [FloorRing K]

/-- C25 fails: the constructor clears the flag.  Whatever the flag held before the
body ran (here `true`), after construction `m_box_changed` is `false`, and the rebuild
of `computeForces` on the constructed object does nothing. -/
theorem constructed_engine_is_clean_example :
    (PPPMForceCompute.PPPMForceCompute (ex_self true)).m_box_changed = false
      ∧ ¬ ((PPPMForceCompute.PPPMForceCompute (ex_self true)).m_box_changed = true)
      ∧ computeForces_rebuild ex_env (ex_pdata 10 10 10)
          (PPPMForceCompute.PPPMForceCompute (ex_self true))
        = PPPMForceCompute.PPPMForceCompute (ex_self true) := by
  refine ⟨rfl, by decide, rfl⟩

/-- C25 as amended: immediately after construction the box-change flag that
`computeForces` tests is clear, so that the rebuild of `computeForces` does nothing on
the constructed object; and `setParams`, which builds all the tables itself, leaves
the flag clear. -/
theorem constructed_engine_is_clean (fresh : PPPMForceCompute K) :
    (PPPMForceCompute.PPPMForceCompute fresh).m_box_changed = false
      ∧ (∀ (env : Env K) (pdata : ParticleData K),
        computeForces_rebuild env pdata (PPPMForceCompute.PPPMForceCompute fresh)
          = PPPMForceCompute.PPPMForceCompute fresh)
      ∧ ∀ (env : Env K) (pdata : ParticleData K) (Nx Ny Nz order : Int) (kappa rcut : K),
        (setParams env pdata Nx Ny Nz order kappa rcut
          (PPPMForceCompute.PPPMForceCompute fresh)).2.m_box_changed = false := by
  refine ⟨rfl, fun env pdata => rfl, fun env pdata Nx Ny Nz order kappa rcut => ?_⟩
  rw [setParams_box_changed]
  rfl

end Constructor

/-! ## Symmetry of the Green's function -/

section GreenSymmetry

variable {K : Type} [LinearOrderedField K] [FloorRing K]

/-- C26: for an odd `sin`, the Green's-function table that `setParams` and
`reset_kvec_green_hat_cpu` build has, at every grid point `(k, l, m)`, the entry it has
at `((Nx-k) mod Nx, l, m)`, at `(k, (Ny-l) mod Ny, m)` and at `(k, l, (Nz-m) mod Nz)`. -/
theorem green_hat_symmetric (env : Env K) (pdata : ParticleData K)
    (Nx Ny Nz order : Int) (kappa rcut : K) (self eng : PPPMForceCompute K)
    (hodd : ∀ x, env.libm.sin (-x) = -env.libm.sin x)
    (h1 : ¬ cint (order * cint (2 * order + 1)) > env.consts.CONSTANT_SIZE)
    (h2 : ¬ order > env.consts.MaxOrder)
    (heng : eng.m_Nx = Nx ∧ eng.m_Ny = Ny ∧ eng.m_Nz = Nz ∧ eng.m_order = order
      ∧ eng.m_kappa = kappa)
    (k l m : Int) (hk : 0 ≤ k ∧ k < Nx) (hl : 0 ≤ l ∧ l < Ny) (hm : 0 ≤ m ∧ m < Nz) :
    ((setParams env pdata Nx Ny Nz order kappa rcut self).2.statics.m_green_hat.data
          (m + Nz * (l + Ny * ((Nx - k) % Nx)))
        = (setParams env pdata Nx Ny Nz order kappa rcut self).2.statics.m_green_hat.data
          (m + Nz * (l + Ny * k))
      ∧ (setParams env pdata Nx Ny Nz order kappa rcut self).2.statics.m_green_hat.data
          (m + Nz * ((Ny - l) % Ny + Ny * k))
        = (setParams env pdata Nx Ny Nz order kappa rcut self).2.statics.m_green_hat.data
          (m + Nz * (l + Ny * k))
      ∧ (setParams env pdata Nx Ny Nz order kappa rcut self).2.statics.m_green_hat.data
          ((Nz - m) % Nz + Nz * (l + Ny * k))
        = (setParams env pdata Nx Ny Nz order kappa rcut self).2.statics.m_green_hat.data
          (m + Nz * (l + Ny * k)))
      ∧ ((reset_kvec_green_hat_cpu env pdata eng).statics.m_green_hat.data
          (m + Nz * (l + Ny * ((Nx - k) % Nx)))
        = (reset_kvec_green_hat_cpu env pdata eng).statics.m_green_hat.data
          (m + Nz * (l + Ny * k))
      ∧ (reset_kvec_green_hat_cpu env pdata eng).statics.m_green_hat.data
          (m + Nz * ((Ny - l) % Ny + Ny * k))
        = (reset_kvec_green_hat_cpu env pdata eng).statics.m_green_hat.data
          (m + Nz * (l + Ny * k))
      ∧ (reset_kvec_green_hat_cpu env pdata eng).statics.m_green_hat.data
          ((Nz - m) % Nz + Nz * (l + Ny * k))
        = (reset_kvec_green_hat_cpu env pdata eng).statics.m_green_hat.data
          (m + Nz * (l + Ny * k))) := by
  obtain ⟨e1, e2, e3, e4, e5⟩ := heng
  constructor
  · rw [(setParams_built_tables env pdata Nx Ny Nz order kappa rcut self h1 h2).2.2]
    exact set_up_green_hat_reflect env.libm hodd _ Nx Ny Nz order kappa _ _ _ _ _ k l m hk hl hm
  · rw [(reset_kvec_green_hat_cpu_tables env pdata eng).2.2, e1, e2, e3, e4, e5]
    exact set_up_green_hat_reflect env.libm hodd _ Nx Ny Nz order kappa _ _ _ _ _ k l m hk hl hm

/-- The symmetry applied to `setParams(8, 8, 8, 4, 0.3, 3.0)` in the box of side 10,
at the grid point `(3, 1, 2)` reflected along x. -/
theorem green_hat_symmetric_witness :
    (setParams ex_env (ex_pdata 10 10 10) 8 8 8 4 (3 / 10) 3
        (ex_self false)).2.statics.m_green_hat.data (2 + 8 * (1 + 8 * ((8 - 3) % 8)))
      = (setParams ex_env (ex_pdata 10 10 10) 8 8 8 4 (3 / 10) 3
        (ex_self false)).2.statics.m_green_hat.data (2 + 8 * (1 + 8 * 3)) :=
  (green_hat_symmetric ex_env (ex_pdata 10 10 10) 8 8 8 4 (3 / 10) 3 (ex_self false)
    (ex_engine true) (fun x => by simp only [ex_env, ex_libm]; ring) (by decide) (by decide)
    ⟨rfl, rfl, rfl, rfl, rfl⟩ 3 1 2 (by decide) (by decide) (by decide)).1.1

end GreenSymmetry

/-! ## The rebuild agrees with the first build -/

section RebuildAgrees

variable {K : Type} [LinearOrderedField K] [FloorRing K]

/-- With the flag set, the rebuild leaves the energy factor of the current box. -/
theorem computeForces_rebuild_factor (env : Env K) (pdata : ParticleData K)
    (self : PPPMForceCompute K) (hflag : self.m_box_changed = true) :
    (computeForces_rebuild env pdata self).m_energy_virial_factor
        = (1 / 2) * (pdata.box.xhi - pdata.box.xlo) * (pdata.box.yhi - pdata.box.ylo)
          * (pdata.box.zhi - pdata.box.zlo) * (1 / ((self.m_Nx * self.m_Ny * self.m_Nz : Int) : K))
          * (1 / ((self.m_Nx * self.m_Ny * self.m_Nz : Int) : K))
      ∧ (computeForces_rebuild env pdata self).statics.energy_virial_factor
        = (computeForces_rebuild env pdata self).m_energy_virial_factor := by
  unfold computeForces_rebuild
  rw [if_pos hflag]
  exact ⟨rfl, rfl⟩

/-- C27: let an engine be configured by `setParams` with parameters that pass the
order tests, under any box.  Then `reset_kvec_green_hat_cpu` under the current box
leaves the k-vector table, the virial constants, the Green's function and `gf_b` that
`setParams` with the same parameters leaves under the current box, and the rebuild of
`computeForces`, when a box change is pending, leaves the energy factor that
`setParams` leaves, in the member and in `PPPMData`. -/
theorem rebuild_agrees_with_build (env : Env K) (pdata0 pdata : ParticleData K)
    (Nx Ny Nz order : Int) (kappa rcut : K) (self0 self : PPPMForceCompute K)
    (h1 : ¬ cint (order * cint (2 * order + 1)) > env.consts.CONSTANT_SIZE)
    (h2 : ¬ order > env.consts.MaxOrder) :
    (reset_kvec_green_hat_cpu env pdata
          (setParams env pdata0 Nx Ny Nz order kappa rcut self0).2).m_kvec
        = (setParams env pdata Nx Ny Nz order kappa rcut self).2.m_kvec
      ∧ (reset_kvec_green_hat_cpu env pdata
          (setParams env pdata0 Nx Ny Nz order kappa rcut self0).2).statics.m_vg
        = (setParams env pdata Nx Ny Nz order kappa rcut self).2.statics.m_vg
      ∧ (reset_kvec_green_hat_cpu env pdata
          (setParams env pdata0 Nx Ny Nz order kappa rcut self0).2).statics.m_green_hat
        = (setParams env pdata Nx Ny Nz order kappa rcut self).2.statics.m_green_hat
      ∧ (reset_kvec_green_hat_cpu env pdata
          (setParams env pdata0 Nx Ny Nz order kappa rcut self0).2).m_gf_b
        = (setParams env pdata Nx Ny Nz order kappa rcut self).2.m_gf_b
      ∧ (computeForces_rebuild env pdata
          { (setParams env pdata0 Nx Ny Nz order kappa rcut self0).2 with
            m_box_changed := true }).m_energy_virial_factor
        = (setParams env pdata Nx Ny Nz order kappa rcut self).2.m_energy_virial_factor
      ∧ (computeForces_rebuild env pdata
          { (setParams env pdata0 Nx Ny Nz order kappa rcut self0).2 with
            m_box_changed := true }).statics.energy_virial_factor
        = (setParams env pdata Nx Ny Nz order kappa rcut self).2.statics.energy_virial_factor := by
  obtain ⟨n1, n2, n3, n4, _, _⟩ :=
    setParams_params env pdata0 Nx Ny Nz order kappa rcut self0 h1 h2
  obtain ⟨n5, _⟩ := setParams_scalars env pdata0 Nx Ny Nz order kappa rcut self0 h1 h2
  obtain ⟨_, f, _, _, _, _, _, _, g⟩ :=
    setParams_scalars env pdata Nx Ny Nz order kappa rcut self h1 h2
  have k0 := setParams_kvec env pdata0 Nx Ny Nz order kappa rcut self0 h1 h2
  have k1 := setParams_kvec env pdata Nx Ny Nz order kappa rcut self h1 h2
  obtain ⟨v0, b0, g0⟩ := setParams_built_tables env pdata0 Nx Ny Nz order kappa rcut self0 h1 h2
  obtain ⟨v1, b1, g1⟩ := setParams_built_tables env pdata Nx Ny Nz order kappa rcut self h1 h2
  obtain ⟨rv, rb, rg⟩ := reset_kvec_green_hat_cpu_tables env pdata
    (setParams env pdata0 Nx Ny Nz order kappa rcut self0).2
  have rk := reset_kvec_green_hat_cpu_kvec env pdata
    (setParams env pdata0 Nx Ny Nz order kappa rcut self0).2
  have ek : (reset_kvec_green_hat_cpu env pdata
      (setParams env pdata0 Nx Ny Nz order kappa rcut self0).2).m_kvec
      = (setParams env pdata Nx Ny Nz order kappa rcut self).2.m_kvec := by
    rw [rk, n1, n2, n3, k0, set_up_kvec_overwrite, k1]
  have eb : (reset_kvec_green_hat_cpu env pdata
      (setParams env pdata0 Nx Ny Nz order kappa rcut self0).2).m_gf_b
      = (setParams env pdata Nx Ny Nz order kappa rcut self).2.m_gf_b := by
    rw [rb, n4, b0, compute_gf_denom_idem, b1]
  refine ⟨ek, ?_, ?_, eb, ?_, ?_⟩
  · rw [rv, ek, n1, n2, n3, n5, v0, set_up_vg_overwrite, v1]
  · rw [rg, eb, n1, n2, n3, n4, n5, g0, set_up_green_hat_overwrite, g1]
  · rw [(computeForces_rebuild_factor env pdata _ rfl).1, f]
    show _ * (1 / (((setParams env pdata0 Nx Ny Nz order kappa rcut self0).2.m_Nx
      * (setParams env pdata0 Nx Ny Nz order kappa rcut self0).2.m_Ny
      * (setParams env pdata0 Nx Ny Nz order kappa rcut self0).2.m_Nz : Int) : K))
      * (1 / (((setParams env pdata0 Nx Ny Nz order kappa rcut self0).2.m_Nx
      * (setParams env pdata0 Nx Ny Nz order kappa rcut self0).2.m_Ny
      * (setParams env pdata0 Nx Ny Nz order kappa rcut self0).2.m_Nz : Int) : K)) = _
    rw [n1, n2, n3]
  · rw [(computeForces_rebuild_factor env pdata _ rfl).2,
      (computeForces_rebuild_factor env pdata _ rfl).1, g, f]
    show _ * (1 / (((setParams env pdata0 Nx Ny Nz order kappa rcut self0).2.m_Nx
      * (setParams env pdata0 Nx Ny Nz order kappa rcut self0).2.m_Ny
      * (setParams env pdata0 Nx Ny Nz order kappa rcut self0).2.m_Nz : Int) : K))
      * (1 / (((setParams env pdata0 Nx Ny Nz order kappa rcut self0).2.m_Nx
      * (setParams env pdata0 Nx Ny Nz order kappa rcut self0).2.m_Ny
      * (setParams env pdata0 Nx Ny Nz order kappa rcut self0).2.m_Nz : Int) : K)) = _
    rw [n1, n2, n3]

/-- The agreement applied to an engine configured in the box of side 10 and rebuilt
in the box 10 x 20 x 10. -/
theorem rebuild_agrees_with_build_witness :
    (reset_kvec_green_hat_cpu ex_env (ex_pdata 10 20 10)
        (setParams ex_env (ex_pdata 10 10 10) 8 8 8 4 (3 / 10) 3 (ex_self false)).2).m_kvec
      = (setParams ex_env (ex_pdata 10 20 10) 8 8 8 4 (3 / 10) 3 (ex_self false)).2.m_kvec :=
  (rebuild_agrees_with_build ex_env (ex_pdata 10 10 10) (ex_pdata 10 20 10) 8 8 8 4 (3 / 10) 3
    (ex_self false) (ex_self false) (by decide) (by decide)).1

end RebuildAgrees

/-! ## The forces without a transform -/

section NoTransformForces

variable {K : Type} [LinearOrderedField K] [FloorRing K]

end NoTransformForces

/-! ## The two foldings of an index -/

section FoldingClaim

variable {K : Type} [LinearOrderedField K] [FloorRing K]

/-- C29: for an index `i` in `[0, N)`, the k-vector folding `j = (i > N/2 ? i - N : i)`
and the Green's-function folding `kper = i - N*(2*i/N)` both differ from `i` by a
multiple of `N`.  For even `N`: `-N/2 < j <= N/2` and `-N/2 <= kper < N/2`, the two are
equal when `i` is not `N/2`, and at `i = N/2` they are `j = N/2` and `kper = -N/2`.
For odd `N` they are equal. -/
theorem foldings_agree (N i : Int) (hi : 0 ≤ i ∧ i < N) :
    ∃ j : Int, (wave_number N i : K) = (j : K)
      ∧ j = (if i > Int.tdiv N 2 then i - N else i)
      ∧ N ∣ j - i
      ∧ N ∣ folded_index N i - i
      ∧ (Even N →
        (-(N / 2) < j ∧ j ≤ N / 2)
          ∧ (-(N / 2) ≤ folded_index N i ∧ folded_index N i < N / 2)
          ∧ (i ≠ N / 2 → j = folded_index N i)
          ∧ (i = N / 2 → j = N / 2 ∧ folded_index N i = -(N / 2)))
      ∧ (Odd N → j = folded_index N i) := by
  refine ⟨if i > Int.tdiv N 2 then i - N else i, wave_number_eq N i, rfl, ?_, ?_, ?_, ?_⟩
  · split_ifs
    · exact ⟨-1, by ring⟩
    · exact ⟨0, by ring⟩
  · rw [folded_index_eq N i hi]
    split_ifs
    · exact ⟨0, by ring⟩
    · exact ⟨-1, by ring⟩
  · rintro ⟨h, rfl⟩
    rw [folded_index_eq _ i hi, Int.tdiv_eq_ediv (by omega) (by omega)]
    have e : (h + h) / 2 = h := by omega
    rw [e]
    refine ⟨?_, ?_, ?_, ?_⟩
    · split_ifs <;> omega
    · split_ifs <;> omega
    · intro hne
      split_ifs <;> omega
    · intro he
      split_ifs <;> omega
  · rintro ⟨h, rfl⟩
    rw [folded_index_eq _ i hi, Int.tdiv_eq_ediv (by omega) (by omega)]
    have e : (2 * h + 1) / 2 = h := by omega
    rw [e]
    split_ifs <;> omega

/-- The two foldings at the Nyquist index 4 of an axis of 8 points. -/
theorem foldings_agree_witness :
    ∃ j : Int, (wave_number 8 4 : ℚ) = (j : ℚ) ∧ j = 8 / 2 ∧ folded_index 8 4 = -(8 / 2) := by
  obtain ⟨j, h1, _, _, _, he, _⟩ := foldings_agree (K := ℚ) 8 4 (by decide)
  exact ⟨j, h1, ((he (by decide)).2.2.2 (by decide)).1, ((he (by decide)).2.2.2 (by decide)).2⟩

end FoldingClaim

/-! ## The copies in PPPMData -/

section Statics

/-- C30 fails when `Nz` differs from `Nx`.  After `setParams(8, 8, 16, 4, 0.3, 3.0)`
has returned, the member `m_Nz` is 16 but `PPPMData::Nz` is 8, the value of `m_Nx`;
the other copies are as C30 has them: `PPPMData::Nx = 8`, `PPPMData::Ny = 8`,
`PPPMData::q2 = 2`, `PPPMData::kappa = 0.3` and
`PPPMData::energy_virial_factor = 0.5*10*10*10/(8*8*16)^2`. -/
theorem setParams_static_Nz_is_Nx :
    (setParams ex_env (ex_pdata 10 10 10) 8 8 16 4 (3 / 10) 3 (ex_self false)).1 = Except.ok ()
      ∧ (setParams ex_env (ex_pdata 10 10 10) 8 8 16 4 (3 / 10) 3 (ex_self false)).2.m_Nz = 16
      ∧ (setParams ex_env (ex_pdata 10 10 10) 8 8 16 4 (3 / 10) 3 (ex_self false)).2.statics.Nz
        = 8
      ∧ (setParams ex_env (ex_pdata 10 10 10) 8 8 16 4 (3 / 10) 3 (ex_self false)).2.statics.Nz
        ≠ 16
      ∧ (setParams ex_env (ex_pdata 10 10 10) 8 8 16 4 (3 / 10) 3 (ex_self false)).2.statics.Nx
        = 8
      ∧ (setParams ex_env (ex_pdata 10 10 10) 8 8 16 4 (3 / 10) 3 (ex_self false)).2.statics.Ny
        = 8
      ∧ (setParams ex_env (ex_pdata 10 10 10) 8 8 16 4 (3 / 10) 3 (ex_self false)).2.statics.q2
        = 2
      ∧ (setParams ex_env (ex_pdata 10 10 10) 8 8 16 4 (3 / 10) 3
          (ex_self false)).2.statics.kappa = 3 / 10
      ∧ (setParams ex_env (ex_pdata 10 10 10) 8 8 16 4 (3 / 10) 3
          (ex_self false)).2.statics.energy_virial_factor
        = (1 / 2) * 10 * 10 * 10 / ((8 * 8 * 16) ^ 2) := by
  have h1 : ¬ cint (4 * cint (2 * 4 + 1)) > ex_env.consts.CONSTANT_SIZE := by decide
  have h2 : ¬ (4 : Int) > ex_env.consts.MaxOrder := by decide
  obtain ⟨_, _, c, _⟩ := setParams_params ex_env (ex_pdata 10 10 10) 8 8 16 4 (3 / 10) 3
    (ex_self false) h1 h2
  obtain ⟨_, f, _, sx, sy, sz, sq, sk, se⟩ := setParams_scalars ex_env (ex_pdata 10 10 10)
    8 8 16 4 (3 / 10) 3 (ex_self false) h1 h2
  have q2 : (system_charge (ex_pdata 10 10 10).arrays).2 = 2 := by decide!
  refine ⟨?_, c, ?_, ?_, ?_, ?_, ?_, sk, ?_⟩
  · rw [setParams_of_order_ok ex_env (ex_pdata 10 10 10) 8 8 16 4 (3 / 10) 3 (ex_self false)
      h1 h2]
  · rw [sz]
    norm_num
  · rw [sz]
    norm_num
  · rw [sx]
    norm_num
  · rw [sy]
    norm_num
  · rw [sq, q2]
  · rw [se, f]
    norm_num [ex_pdata, ex_box]

end Statics

/-! ## Assignment before validation -/

section AssignBeforeValidate

variable {K : Type} [LinearOrderedField K] [FloorRing K]

/-- Lines 121-140 of `setParams` change the six stored parameters, the flag of
`PPPMData` and the output, and nothing else. -/
theorem setParams_store_state (Nx Ny Nz order : Int) (kappa rcut : K)
    (self : PPPMForceCompute K) :
    ∃ out, setParams_store Nx Ny Nz order kappa rcut self
      = { self with
          m_Nx := Nx, m_Ny := Ny, m_Nz := Nz, m_order := order, m_kappa := kappa
          m_rcut := rcut
          statics := { self.statics with compute_pppm_flag := 1 }
          output := out } := by
  unfold setParams_store
  simp only []
  split_ifs <;> exact ⟨_, rfl⟩

/-- C31: `setParams` assigns before it validates.  When the order check fails, that
is when `m_order*(2*m_order+1) > CONSTANT_SIZE` or `m_order > MaxOrder`, the call throws
and leaves an object whose members `m_Nx, m_Ny, m_Nz, m_order, m_kappa, m_rcut` hold the
arguments of the rejected call and whose `PPPMData::compute_pppm_flag` is 1, while the
grid buffers and tables (`m_rho_real_space`, `m_green_hat`, `m_vg`, `m_kvec`, `m_Ex`,
`m_Ey`, `m_Ez`, `m_field`, `m_gf_b`, `m_rho_coeff`) are the arrays they were before the
call, in size and contents.  Apart from the text written to the output nothing else of
the object has changed either. -/
theorem setParams_assigns_before_validating (env : Env K) (pdata : ParticleData K)
    (Nx Ny Nz order : Int) (kappa rcut : K) (self : PPPMForceCompute K)
    (h : cint (order * cint (2 * order + 1)) > env.consts.CONSTANT_SIZE
      ∨ order > env.consts.MaxOrder) :
    (setParams env pdata Nx Ny Nz order kappa rcut self).1
        = Except.error "Error initializing PPPMComputeGPU"
      ∧ ((setParams env pdata Nx Ny Nz order kappa rcut self).2.m_Nx = Nx
        ∧ (setParams env pdata Nx Ny Nz order kappa rcut self).2.m_Ny = Ny
        ∧ (setParams env pdata Nx Ny Nz order kappa rcut self).2.m_Nz = Nz
        ∧ (setParams env pdata Nx Ny Nz order kappa rcut self).2.m_order = order
        ∧ (setParams env pdata Nx Ny Nz order kappa rcut self).2.m_kappa = kappa
        ∧ (setParams env pdata Nx Ny Nz order kappa rcut self).2.m_rcut = rcut
        ∧ (setParams env pdata Nx Ny Nz order kappa rcut self).2.statics.compute_pppm_flag = 1)
      ∧ ((setParams env pdata Nx Ny Nz order kappa rcut self).2.statics.m_rho_real_space
          = self.statics.m_rho_real_space
        ∧ (setParams env pdata Nx Ny Nz order kappa rcut self).2.statics.m_green_hat
          = self.statics.m_green_hat
        ∧ (setParams env pdata Nx Ny Nz order kappa rcut self).2.statics.m_vg
          = self.statics.m_vg
        ∧ (setParams env pdata Nx Ny Nz order kappa rcut self).2.m_kvec = self.m_kvec
        ∧ (setParams env pdata Nx Ny Nz order kappa rcut self).2.m_Ex = self.m_Ex
        ∧ (setParams env pdata Nx Ny Nz order kappa rcut self).2.m_Ey = self.m_Ey
        ∧ (setParams env pdata Nx Ny Nz order kappa rcut self).2.m_Ez = self.m_Ez
        ∧ (setParams env pdata Nx Ny Nz order kappa rcut self).2.m_field = self.m_field
        ∧ (setParams env pdata Nx Ny Nz order kappa rcut self).2.m_gf_b = self.m_gf_b
        ∧ (setParams env pdata Nx Ny Nz order kappa rcut self).2.m_rho_coeff
          = self.m_rho_coeff)
      ∧ ∃ out, (setParams env pdata Nx Ny Nz order kappa rcut self).2
        = { self with
            m_Nx := Nx, m_Ny := Ny, m_Nz := Nz, m_order := order, m_kappa := kappa
            m_rcut := rcut
            statics := { self.statics with compute_pppm_flag := 1 }
            output := out } := by
  obtain ⟨msg, hmsg⟩ := setParams_of_order_bad env pdata Nx Ny Nz order kappa rcut self h
  obtain ⟨out, hout⟩ := setParams_store_state Nx Ny Nz order kappa rcut self
  rw [hmsg, hout]
  exact ⟨rfl, ⟨rfl, rfl, rfl, rfl, rfl, rfl, rfl⟩,
    ⟨rfl, rfl, rfl, rfl, rfl, rfl, rfl, rfl, rfl, rfl⟩, ⟨_, rfl⟩⟩

/-- The rejected call `setParams(16, 8, 8, 40, 0.3, 3.0)` on an engine: the order 40
needs 3240 coefficients. -/
theorem setParams_assigns_before_validating_witness :
    cint (40 * cint (2 * 40 + 1)) > ex_env.consts.CONSTANT_SIZE
      ∧ (setParams ex_env (ex_pdata 10 10 10) 16 8 8 40 (3 / 10) 3 (ex_engine false)).1
        = Except.error "Error initializing PPPMComputeGPU"
      ∧ (setParams ex_env (ex_pdata 10 10 10) 16 8 8 40 (3 / 10) 3 (ex_engine false)).2.m_Nx
        = 16
      ∧ (setParams ex_env (ex_pdata 10 10 10) 16 8 8 40 (3 / 10) 3 (ex_engine false)).2.m_order
        = 40
      ∧ (setParams ex_env (ex_pdata 10 10 10) 16 8 8 40 (3 / 10) 3
          (ex_engine false)).2.statics.compute_pppm_flag = 1 :=
  ⟨by decide,
    (setParams_assigns_before_validating ex_env (ex_pdata 10 10 10) 16 8 8 40 (3 / 10) 3
      (ex_engine false) (Or.inl (by decide))).1,
    (setParams_assigns_before_validating ex_env (ex_pdata 10 10 10) 16 8 8 40 (3 / 10) 3
      (ex_engine false) (Or.inl (by decide))).2.1.1,
    (setParams_assigns_before_validating ex_env (ex_pdata 10 10 10) 16 8 8 40 (3 / 10) 3
      (ex_engine false) (Or.inl (by decide))).2.1.2.2.2.1,
    (setParams_assigns_before_validating ex_env (ex_pdata 10 10 10) 16 8 8 40 (3 / 10) 3
      (ex_engine false) (Or.inl (by decide))).2.1.2.2.2.2.2.2⟩

end AssignBeforeValidate

/-! ## The scratch block of the assignment coefficients -/

section ScratchBounds

/-- A property kept by every iteration of `for (k = lo; k <= hi; k += 2)` is kept by
the loop. -/
theorem forUpToBy2_invariant {σ : Type} (P : σ → Prop) (body : Int → σ → σ) (lo hi : Int)
    (hbody : ∀ i, lo ≤ i → i ≤ hi → ∀ s, P s → P (body i s)) (s : σ) (hs : P s) :
    P (forUpToBy2 lo hi body s) := by
  unfold forUpToBy2
  apply loop_invariant_step P body 2 _ lo _ s hs
  intro k hk t ht
  exact hbody _ (by omega) (by omega) t ht

/-- A property kept by every iteration of `for (k = lo; k < hi; k += 2)` is kept by
the loop. -/
theorem forUpBy2_invariant {σ : Type} (P : σ → Prop) (body : Int → σ → σ) (lo hi : Int)
    (hbody : ∀ i, lo ≤ i → i < hi → ∀ s, P s → P (body i s)) (s : σ) (hs : P s) :
    P (forUpBy2 lo hi body s) := by
  unfold forUpBy2
  apply loop_invariant_step P body 2 _ lo _ s hs
  intro k hk t ht
  exact hbody _ (by omega) (by omega) t ht

/-- Appending accesses that are in bounds to a list of accesses that are in bounds. -/
theorem all_append {α : Type} (P : α → Prop) (t u : List α) (ht : ∀ p ∈ t, P p)
    (hu : ∀ p ∈ u, P p) : ∀ p ∈ t ++ u, P p := by
  intro p hp
  rcases List.mem_append.1 hp with h | h
  · exact ht p h
  · exact hu p h

/-- Every access to the scratch block has its column in `[0, 2*m_order]` and its row in
`[0, m_order-1]`. -/
theorem rho_scratch_accesses_bounds (order : Int) (h1 : 1 ≤ order) :
    ∀ p ∈ rho_scratch_accesses order,
      (0 ≤ p.1 ∧ p.1 ≤ 2 * order) ∧ (0 ≤ p.2 ∧ p.2 ≤ order - 1) := by
  unfold rho_scratch_accesses
  simp only []
  apply forUpBy2_invariant
    (fun t : List (Int × Int) => ∀ p ∈ t, (0 ≤ p.1 ∧ p.1 ≤ 2 * order) ∧ (0 ≤ p.2 ∧ p.2 ≤ order - 1))
  · intro k hk1 hk2 t ht
    apply forUp_invariant
      (fun t : List (Int × Int) =>
        ∀ p ∈ t, (0 ≤ p.1 ∧ p.1 ≤ 2 * order) ∧ (0 ≤ p.2 ∧ p.2 ≤ order - 1)) _ _ _ _ _ ht
    intro l hl1 hl2 t ht
    apply all_append _ _ _ ht
    intro p hp
    simp only [List.mem_singleton] at hp
    subst hp
    exact ⟨⟨by show 0 ≤ k + order; omega, by show k + order ≤ 2 * order; omega⟩,
      ⟨hl1, by show l ≤ order - 1; omega⟩⟩
  · apply forUp_invariant
      (fun t : List (Int × Int) =>
        ∀ p ∈ t, (0 ≤ p.1 ∧ p.1 ≤ 2 * order) ∧ (0 ≤ p.2 ∧ p.2 ≤ order - 1))
    · intro j hj1 hj2 t ht
      apply forUpToBy2_invariant
        (fun t : List (Int × Int) =>
          ∀ p ∈ t, (0 ≤ p.1 ∧ p.1 ≤ 2 * order) ∧ (0 ≤ p.2 ∧ p.2 ≤ order - 1)) _ _ _ _ _ ht
      intro k hk1 hk2 t ht
      apply all_append
      · apply forUp_invariant
          (fun t : List (Int × Int) =>
            ∀ p ∈ t, (0 ≤ p.1 ∧ p.1 ≤ 2 * order) ∧ (0 ≤ p.2 ∧ p.2 ≤ order - 1)) _ _ _ _ _ ht
        intro l hl1 hl2 t ht
        apply all_append _ _ _ ht
        intro p hp
        simp only [List.mem_cons, List.mem_singleton, List.not_mem_nil, or_false] at hp
        rcases hp with rfl | rfl | rfl | rfl | rfl <;>
          exact ⟨⟨by simp only []; omega, by simp only []; omega⟩,
            ⟨by simp only []; omega, by simp only []; omega⟩⟩
      · intro p hp
        simp only [List.mem_singleton] at hp
        subst hp
        exact ⟨⟨by show 0 ≤ k + order; omega, by show k + order ≤ 2 * order; omega⟩,
          ⟨le_refl _, by show (0 : Int) ≤ order - 1; omega⟩⟩
    · apply all_append
      · apply forUpTo_invariant
          (fun t : List (Int × Int) =>
            ∀ p ∈ t, (0 ≤ p.1 ∧ p.1 ≤ 2 * order) ∧ (0 ≤ p.2 ∧ p.2 ≤ order - 1))
        · intro k hk1 hk2 t ht
          apply forUp_invariant
            (fun t : List (Int × Int) =>
              ∀ p ∈ t, (0 ≤ p.1 ∧ p.1 ≤ 2 * order) ∧ (0 ≤ p.2 ∧ p.2 ≤ order - 1)) _ _ _ _ _ ht
          intro l hl1 hl2 t ht
          apply all_append _ _ _ ht
          intro p hp
          simp only [List.mem_singleton] at hp
          subst hp
          exact ⟨⟨by show 0 ≤ k + order; omega, by show k + order ≤ 2 * order; omega⟩,
            ⟨hl1, by show l ≤ order - 1; omega⟩⟩
        · intro p hp
          exact absurd hp (List.not_mem_nil p)
      · intro p hp
        simp only [List.mem_singleton] at hp
        subst hp
        exact ⟨⟨by show 0 ≤ order; omega, by show order ≤ 2 * order; omega⟩,
          ⟨le_refl _, by show (0 : Int) ≤ order - 1; omega⟩⟩

end ScratchBounds

section ScratchBlock

variable {K : Type} [LinearOrderedField K] [FloorRing K]

/-- A column in `[0, 2*order]` and a row in `[0, order-1]` address a cell of the block
of `order*(2*order+1)` cells. -/
theorem flat_in_block (order c r : Int) (hc : 0 ≤ c ∧ c ≤ 2 * order)
    (hr : 0 ≤ r ∧ r ≤ order - 1) :
    0 ≤ c + r * (2 * order + 1) ∧ c + r * (2 * order + 1) < order * (2 * order + 1) := by
  have h0 : 0 ≤ r * (2 * order + 1) := mul_nonneg hr.1 (by omega)
  have h1 : r * (2 * order + 1) ≤ (order - 1) * (2 * order + 1) :=
    mul_le_mul_of_nonneg_right hr.2 (by omega)
  have e : (order - 1) * (2 * order + 1) = order * (2 * order + 1) - (2 * order + 1) := by
    ring
  constructor <;> omega

/-- A store into the block keeps the element count and the cells outside the block. -/
theorem set_keeps_outside (N : Int) (a : GPUArray K) (i : Int) (v : K)
    (hi : 0 ≤ i ∧ i < N)
    (ha : a.num_elements = N ∧ ∀ p, ¬ (0 ≤ p ∧ p < N) → a.data p = 0) :
    (a.set i v).num_elements = N ∧ ∀ p, ¬ (0 ≤ p ∧ p < N) → (a.set i v).data p = 0 := by
  refine ⟨ha.1, fun p hp => ?_⟩
  rw [GPUArray.set_data, if_neg (fun e : p = i => hp (by rw [e]; exact hi))]
  exact ha.2 p hp

/-- The scratch block of `compute_rho_coeff` has `order*(2*order+1)` elements, and no
store of the recurrence falls outside it. -/
theorem rho_scratch_block (order : Int) (h1 : 1 ≤ order) :
    (rho_scratch (K := K) order).num_elements = order * (2 * order + 1)
      ∧ ∀ p, ¬ (0 ≤ p ∧ p < order * (2 * order + 1)) →
        (rho_scratch (K := K) order).data p = 0 := by
  unfold rho_scratch
  simp only []
  apply forUp_invariant (fun a : GPUArray K =>
    a.num_elements = order * (2 * order + 1)
      ∧ ∀ p, ¬ (0 ≤ p ∧ p < order * (2 * order + 1)) → a.data p = 0)
  · intro j hj1 hj2 a ha
    apply forUpToBy2_invariant (fun a : GPUArray K =>
      a.num_elements = order * (2 * order + 1)
        ∧ ∀ p, ¬ (0 ≤ p ∧ p < order * (2 * order + 1)) → a.data p = 0) _ _ _ _ _ ha
    intro k hk1 hk2 a ha
    apply set_keeps_outside
    · exact flat_in_block order (k + order) 0 ⟨by omega, by omega⟩ ⟨le_refl _, by omega⟩
    · apply forUp_invariant (fun q : GPUArray K × K =>
        q.1.num_elements = order * (2 * order + 1)
          ∧ ∀ p, ¬ (0 ≤ p ∧ p < order * (2 * order + 1)) → q.1.data p = 0) _ _ _ _ _ ha
      intro l hl1 hl2 q hq
      apply set_keeps_outside _ _ _ _ _ hq
      exact flat_in_block order (k + order) (l + 1) ⟨by omega, by omega⟩ ⟨by omega, by omega⟩
  · apply set_keeps_outside
    · exact flat_in_block order order 0 ⟨by omega, by omega⟩ ⟨le_refl _, by omega⟩
    · apply forUpTo_invariant (fun a : GPUArray K =>
        a.num_elements = order * (2 * order + 1)
          ∧ ∀ p, ¬ (0 ≤ p ∧ p < order * (2 * order + 1)) → a.data p = 0)
      · intro k hk1 hk2 a ha
        apply forUp_invariant (fun a : GPUArray K =>
          a.num_elements = order * (2 * order + 1)
            ∧ ∀ p, ¬ (0 ≤ p ∧ p < order * (2 * order + 1)) → a.data p = 0) _ _ _ _ _ ha
        intro l hl1 hl2 a ha
        apply set_keeps_outside _ _ _ _ _ ha
        exact flat_in_block order (k + order) l ⟨by omega, by omega⟩ ⟨hl1, by omega⟩
      · exact ⟨rfl, fun p _ => rfl⟩

end ScratchBlock

section ScratchSafety

variable {K : Type} [LinearOrderedField K] [FloorRing K]

/-- C32: for an order of at least 1, every read and write that `compute_rho_coeff`
makes to its scratch block `a` (allocated with `m_order*(2*m_order+1)` entries and
addressed as `column + row*(2*m_order+1)`) has its column in `[0, 2*m_order]` and its
row in `[0, m_order-1]`, so that the cell addressed is inside the block and in the row
named.  Accordingly the block that the recurrence builds has `m_order*(2*m_order+1)`
elements and nothing is stored outside them. -/
theorem rho_scratch_accesses_in_bounds (order : Int) (h1 : 1 ≤ order) :
    (∀ p ∈ rho_scratch_accesses order,
      (0 ≤ p.1 ∧ p.1 ≤ 2 * order) ∧ (0 ≤ p.2 ∧ p.2 ≤ order - 1)
        ∧ (0 ≤ p.1 + p.2 * (2 * order + 1)
          ∧ p.1 + p.2 * (2 * order + 1) < order * (2 * order + 1)))
      ∧ (rho_scratch (K := K) order).num_elements = order * (2 * order + 1)
      ∧ ∀ p, ¬ (0 ≤ p ∧ p < order * (2 * order + 1)) →
        (rho_scratch (K := K) order).data p = 0 := by
  refine ⟨fun p hp => ?_, rho_scratch_block order h1⟩
  obtain ⟨hc, hr⟩ := rho_scratch_accesses_bounds order h1 p hp
  exact ⟨hc, hr, flat_in_block order p.1 p.2 hc hr⟩

/-- The access `a[8 + 3*9]` of order 4, in the last column of the last row, is the last
of the 36 cells. -/
theorem rho_scratch_accesses_in_bounds_witness :
    ((8 : Int), (3 : Int)) ∈ rho_scratch_accesses 4
      ∧ (8 : Int) + 3 * (2 * 4 + 1) < 4 * (2 * 4 + 1) :=
  ⟨by decide, ((rho_scratch_accesses_in_bounds (K := ℚ) 4 (by decide)).1 (8, 3)
    (by decide)).2.2.2⟩

end ScratchSafety

/-! ## The table of `rms` -/

section AconsReads

variable {K : Type} [LinearOrderedField K] [FloorRing K]

/-- Two unit-step loops whose bodies agree on the range of the loop agree. -/
theorem loop_congr_range {σ : Type} (f g : Int → σ → σ) (n : Nat) (lo : Int)
    (h : ∀ i, lo ≤ i → i < lo + n → ∀ s, f i s = g i s) (s : σ) :
    loop f 1 n lo s = loop g 1 n lo s := by
  induction n generalizing lo s with
  | zero => rfl
  | succ n ih =>
    rw [loop_succ, loop_succ, h lo (le_refl _) (by push_cast; omega) s]
    exact ih (lo + 1) (fun i h1 h2 t => h i (by omega) (by push_cast; omega) t) _

/-- For an order from 1 to 7 every entry `acons[order][m]` with `0 <= m < order` has
been assigned. -/
theorem acons_assigned (order m : Int) (h1 : 1 ≤ order) (h7 : order ≤ 7)
    (hm : 0 ≤ m ∧ m < order) : ∃ v : K, acons order m = some v := by
  obtain ⟨hm0, hm1⟩ := hm
  interval_cases order <;> interval_cases m <;> exact ⟨_, rfl⟩

/-- No entry of a row beyond row 7 has been assigned. -/
theorem acons_beyond (order m : Int) (h : 7 < order) : (acons order m : Option K) = none := by
  obtain ⟨n, hn⟩ : ∃ n : Nat, order = Int.ofNat (n + 8) := ⟨(order - 8).toNat, by
    show order = (((order - 8).toNat + 8 : Nat) : Int)
    omega⟩
  subst hn
  rfl

/-- C33: the reads `acons[m_order][m]` of `rms`, which its loop makes for
`0 <= m < m_order`.  For an order from 1 to 7 each of them has its row in `[0, 8)` and
its column in `[0, 7)` and reads an entry that has been assigned, so that the result of
`rms` does not depend on what an unassigned entry holds.  For order 0 the loop makes no
read and the sum in the result is 0.  For an order above 7 the row is not below 8 and no
such entry has been assigned; the loop does read (`m = 0` is in its range) and every
term of its sum carries the value of such a read. -/
theorem rms_reads_of_acons :
    (∀ order m : Int, 1 ≤ order → order ≤ 7 → 0 ≤ m ∧ m < order →
        ((0 ≤ order ∧ order < 8) ∧ (0 ≤ m ∧ m < 7)) ∧ ∃ v : K, acons order m = some v)
      ∧ (∀ (lm : Libm K) (uninit uninit' : K) (order : Int) (kappa q2 h prd natoms : K),
        1 ≤ order → order ≤ 7 →
        rms lm uninit order kappa q2 h prd natoms = rms lm uninit' order kappa q2 h prd natoms)
      ∧ (∀ (lm : Libm K) (uninit kappa q2 h prd natoms : K),
        rms lm uninit 0 kappa q2 h prd natoms
          = q2 * (h * kappa) ^ (0 : Int) * lm.sqrt (kappa * prd * lm.sqrt (2 * M_PI) * 0 / natoms)
            / (prd * prd))
      ∧ (∀ order m : Int, 7 < order → ¬ (order < 8) ∧ (acons order m : Option K) = none)
      ∧ ∀ (lm : Libm K) (uninit : K) (order : Int) (kappa q2 h prd natoms : K), 7 < order →
        (0 ≤ (0 : Int) ∧ (0 : Int) < order)
          ∧ rms lm uninit order kappa q2 h prd natoms
            = q2 * (h * kappa) ^ order
              * lm.sqrt (kappa * prd * lm.sqrt (2 * M_PI)
                * forUp 0 order (fun m sum => sum + uninit * (h * kappa) ^ (2 * m)) 0 / natoms)
              / (prd * prd) := by
  refine ⟨?_, ?_, ?_, ?_, ?_⟩
  · intro order m h1 h7 hm
    exact ⟨⟨⟨by omega, by omega⟩, ⟨hm.1, by omega⟩⟩, acons_assigned order m h1 h7 hm⟩
  · intro lm uninit uninit' order kappa q2 h prd natoms h1 h7
    have e : forUp 0 order (fun m sum =>
          sum + ((acons order m).getD uninit) * (h * kappa) ^ (2 * m)) (0 : K)
        = forUp 0 order (fun m sum =>
          sum + ((acons order m).getD uninit') * (h * kappa) ^ (2 * m)) (0 : K) := by
      apply loop_congr_range
      intro m hm1 hm2 sum
      obtain ⟨v, hv⟩ := acons_assigned (K := K) order m h1 h7 ⟨hm1, by omega⟩
      simp only [hv, Option.getD_some]
    unfold rms
    simp only [e]
  · intro lm uninit kappa q2 h prd natoms
    rfl
  · intro order m h
    exact ⟨by omega, acons_beyond order m h⟩
  · intro lm uninit order kappa q2 h prd natoms h7
    have e : forUp 0 order (fun m sum =>
          sum + ((acons order m).getD uninit) * (h * kappa) ^ (2 * m)) (0 : K)
        = forUp 0 order (fun m sum => sum + uninit * (h * kappa) ^ (2 * m)) (0 : K) := by
      apply loop_congr_range
      intro m hm1 hm2 sum
      simp only [acons_beyond (K := K) order m h7, Option.getD_none]
    refine ⟨⟨le_refl _, by omega⟩, ?_⟩
    unfold rms
    simp only [e]

end AconsReads

/-! ## The allocation registry -/

section TracebackFacts

theorem AllocMap.keys_assign {V : Type} (m : AllocMap V) (idx : AllocIdx) (v : V) :
    (m.assign idx v).keys = insert idx m.keys := by
  ext k
  simp only [AllocMap.keys, AllocMap.assign, Set.mem_setOf_eq, Set.mem_insert_iff]
  by_cases h : k = idx
  · simp [h]
  · simp [h]

theorem AllocMap.keys_erase {V : Type} (m : AllocMap V) (idx : AllocIdx) :
    (m.erase idx).keys = m.keys \ {idx} := by
  ext k
  simp only [AllocMap.keys, AllocMap.erase, Set.mem_setOf_eq, Set.mem_diff,
    Set.mem_singleton_iff]
  by_cases h : k = idx
  · simp [h]
  · simp [h]

/-- The keys of the three maps after `registerAllocation`: the index is added to
each. -/
theorem registerAllocation_keys (backtrace : List Nat → Int → List Nat × Int)
    (ptr nbytes : Nat) (type_hint tag : String) (self : MemoryTraceback) :
    (self.registerAllocation backtrace ptr nbytes type_hint tag).m_traces.keys
        = insert (ptr, nbytes) self.m_traces.keys
      ∧ (self.registerAllocation backtrace ptr nbytes type_hint tag).m_type_hints.keys
        = insert (ptr, nbytes) self.m_type_hints.keys
      ∧ (self.registerAllocation backtrace ptr nbytes type_hint tag).m_tags.keys
        = insert (ptr, nbytes) self.m_tags.keys := by
  unfold MemoryTraceback.registerAllocation
  simp only [AllocMap.keys_assign, Set.insert_eq_of_mem, Set.mem_insert_iff, true_or]
  exact ⟨trivial, trivial, trivial⟩

/-- The keys of the three maps after `unregisterAllocation`: the index is removed from
each. -/
theorem unregisterAllocation_keys (ptr nbytes : Nat) (self : MemoryTraceback) :
    (self.unregisterAllocation ptr nbytes).m_traces.keys = self.m_traces.keys \ {(ptr, nbytes)}
      ∧ (self.unregisterAllocation ptr nbytes).m_type_hints.keys
        = self.m_type_hints.keys \ {(ptr, nbytes)}
      ∧ (self.unregisterAllocation ptr nbytes).m_tags.keys
        = self.m_tags.keys \ {(ptr, nbytes)} :=
  ⟨AllocMap.keys_erase _ _, AllocMap.keys_erase _ _, AllocMap.keys_erase _ _⟩

/-- The method `updateTag` changes no key set, and nothing at all when the index is not
a key of the tags. -/
theorem updateTag_keys (ptr nbytes : Nat) (tag : String) (self : MemoryTraceback) :
    (self.updateTag ptr nbytes tag).m_traces = self.m_traces
      ∧ (self.updateTag ptr nbytes tag).m_type_hints = self.m_type_hints
      ∧ (self.updateTag ptr nbytes tag).m_tags.keys = self.m_tags.keys
      ∧ ((ptr, nbytes) ∉ self.m_tags.keys → self.updateTag ptr nbytes tag = self) := by
  unfold MemoryTraceback.updateTag
  simp only []
  split_ifs with h
  · refine ⟨rfl, rfl, ?_, fun hn => absurd h hn⟩
    rw [AllocMap.keys_assign]
    exact Set.insert_eq_of_mem h
  · exact ⟨rfl, rfl, rfl, fun _ => rfl⟩

/-- Each of the three methods keeps the key sets equal. -/
theorem run_sameKeys (backtrace : List Nat → Int → List Nat × Int) (c : TracebackCall)
    (self : MemoryTraceback) (h : self.SameKeys) : (c.run backtrace self).SameKeys := by
  obtain ⟨h1, h2⟩ := h
  cases c with
  | registerAllocation ptr nbytes type_hint tag =>
    obtain ⟨a, b, c⟩ := registerAllocation_keys backtrace ptr nbytes type_hint tag self
    exact ⟨by rw [TracebackCall.run, a, b, h1], by rw [TracebackCall.run, b, c, h2]⟩
  | unregisterAllocation ptr nbytes =>
    obtain ⟨a, b, c⟩ := unregisterAllocation_keys ptr nbytes self
    exact ⟨by rw [TracebackCall.run, a, b, h1], by rw [TracebackCall.run, b, c, h2]⟩
  | updateTag ptr nbytes tag =>
    obtain ⟨a, b, c, _⟩ := updateTag_keys ptr nbytes tag self
    exact ⟨by rw [TracebackCall.run, a, b, h1], by rw [TracebackCall.run, b, c, h2]⟩

/-- A sequence of calls keeps the key sets equal. -/
theorem runCalls_sameKeys (backtrace : List Nat → Int → List Nat × Int)
    (calls : List TracebackCall) (self : MemoryTraceback) (h : self.SameKeys) :
    (runCalls backtrace calls self).SameKeys := by
  unfold runCalls
  induction calls generalizing self with
  | nil => exact h
  | cons c cs ih => exact ih _ (run_sameKeys backtrace c self h)

end TracebackFacts

section TracebackKeys

/-- C34: the three maps of `MemoryTraceback` have the same keys.  Starting from empty
maps, every sequence of `registerAllocation`, `unregisterAllocation` and `updateTag`
calls leaves the traces, the type hints and the tags with one key set, and so does
every sequence started from maps that agree on their keys.  `registerAllocation(ptr,
nbytes, ...)` adds the key `(ptr, nbytes)` to each of the three, `unregisterAllocation`
removes it from each, and `updateTag` on a key that is not registered changes nothing.
This holds whatever `backtrace` returns. -/
theorem traceback_maps_share_keys (backtrace : List Nat → Int → List Nat × Int) :
    (∀ calls : List TracebackCall,
        (runCalls backtrace calls MemoryTraceback.empty).SameKeys)
      ∧ (∀ (calls : List TracebackCall) (self : MemoryTraceback),
        self.SameKeys → (runCalls backtrace calls self).SameKeys)
      ∧ (∀ (ptr nbytes : Nat) (type_hint tag : String) (self : MemoryTraceback),
        (self.registerAllocation backtrace ptr nbytes type_hint tag).m_traces.keys
            = insert (ptr, nbytes) self.m_traces.keys
          ∧ (self.registerAllocation backtrace ptr nbytes type_hint tag).m_type_hints.keys
            = insert (ptr, nbytes) self.m_type_hints.keys
          ∧ (self.registerAllocation backtrace ptr nbytes type_hint tag).m_tags.keys
            = insert (ptr, nbytes) self.m_tags.keys)
      ∧ (∀ (ptr nbytes : Nat) (self : MemoryTraceback),
        (self.unregisterAllocation ptr nbytes).m_traces.keys
            = self.m_traces.keys \ {(ptr, nbytes)}
          ∧ (self.unregisterAllocation ptr nbytes).m_type_hints.keys
            = self.m_type_hints.keys \ {(ptr, nbytes)}
          ∧ (self.unregisterAllocation ptr nbytes).m_tags.keys
            = self.m_tags.keys \ {(ptr, nbytes)})
      ∧ ∀ (ptr nbytes : Nat) (tag : String) (self : MemoryTraceback),
        (ptr, nbytes) ∉ self.m_tags.keys → self.updateTag ptr nbytes tag = self := by
  refine ⟨fun calls => runCalls_sameKeys backtrace calls _ ⟨rfl, rfl⟩,
    fun calls self h => runCalls_sameKeys backtrace calls self h,
    fun ptr nbytes type_hint tag self =>
      registerAllocation_keys backtrace ptr nbytes type_hint tag self,
    fun ptr nbytes self => unregisterAllocation_keys ptr nbytes self,
    fun ptr nbytes tag self => (updateTag_keys ptr nbytes tag self).2.2.2⟩

/-- Four calls on the empty registry: a registration, an update of a key that is not
registered, the removal of the first key and a second registration. -/
theorem traceback_maps_share_keys_witness :
    (runCalls ex_backtrace
      [TracebackCall.registerAllocation 1000 64 "f" "grid",
        TracebackCall.updateTag 2000 8 "none",
        TracebackCall.unregisterAllocation 1000 64,
        TracebackCall.registerAllocation 3000 16 "i" ""] MemoryTraceback.empty).SameKeys :=
  (traceback_maps_share_keys ex_backtrace).1 _

end TracebackKeys

/-! ## Rounding -/

section RoundingFacts

/-- The function `pow2` is the power of 2. -/
theorem pow2_eq (k : Int) : pow2 k = (2 : ℚ) ^ k := by
  unfold pow2
  split_ifs with h
  · obtain ⟨n, rfl⟩ := Int.eq_ofNat_of_zero_le h
    simp
  · obtain ⟨n, hn⟩ : ∃ n : Nat, k = -(n : Int) := ⟨(-k).toNat, by omega⟩
    subst hn
    simp [zpow_neg]

theorem pow2_pos (k : Int) : 0 < pow2 k := by
  rw [pow2_eq]
  positivity

/-- With enough fuel the halvings count the binary logarithm. -/
theorem halvings_spec (fuel n : Nat) (h1 : 1 ≤ n) (hf : n ≤ fuel) :
    2 ^ halvings fuel n ≤ n ∧ n < 2 ^ (halvings fuel n + 1) := by
  induction fuel generalizing n with
  | zero => omega
  | succ fuel ih =>
    unfold halvings
    split_ifs with h2
    · obtain ⟨a, b⟩ := ih (n / 2) (by omega) (by omega)
      rw [pow_succ] at b ⊢
      rw [pow_succ]
      constructor <;> omega
    · have : n = 1 := by omega
      subst this
      simp

theorem ilog2_spec (n : Nat) (h1 : 1 ≤ n) : 2 ^ ilog2 n ≤ n ∧ n < 2 ^ (ilog2 n + 1) :=
  halvings_spec n n h1 (le_refl n)

/-- The binade of a positive rational brackets it between two powers of 2. -/
theorem binade_spec (a : ℚ) (ha : 0 < a) :
    (2 : ℚ) ^ binade a ≤ a ∧ a < (2 : ℚ) ^ (binade a + 1) := by
  have hnum : 0 < a.num := Rat.num_pos.2 ha
  have hn1 : 1 ≤ a.num.natAbs := by omega
  have hd1 : 1 ≤ a.den := a.den_pos
  obtain ⟨n1, n2⟩ := ilog2_spec a.num.natAbs hn1
  obtain ⟨d1, d2⟩ := ilog2_spec a.den hd1
  have ea : a = (a.num.natAbs : ℚ) / (a.den : ℚ) := by
    have h := (Rat.num_div_den a).symm
    have hc : (a.num : ℚ) = ((a.num.natAbs : Nat) : ℚ) := by
      have e : ((a.num.natAbs : Nat) : Int) = a.num := Int.natAbs_of_nonneg (le_of_lt hnum)
      rw [← Int.cast_natCast, e]
    rw [hc] at h
    exact h
  have n1q : (2 : ℚ) ^ (ilog2 a.num.natAbs) ≤ (a.num.natAbs : ℚ) := by exact_mod_cast n1
  have n2q : (a.num.natAbs : ℚ) < (2 : ℚ) ^ (ilog2 a.num.natAbs + 1) := by exact_mod_cast n2
  have d1q : (2 : ℚ) ^ (ilog2 a.den) ≤ (a.den : ℚ) := by exact_mod_cast d1
  have d2q : (a.den : ℚ) < (2 : ℚ) ^ (ilog2 a.den + 1) := by exact_mod_cast d2
  have hdq : (0 : ℚ) < (a.den : ℚ) := by exact_mod_cast hd1
  have hlow : (2 : ℚ) ^ ((ilog2 a.num.natAbs : Int) - (ilog2 a.den : Int) - 1) ≤ a := by
    have e : (2 : ℚ) ^ ((ilog2 a.num.natAbs : Int) - (ilog2 a.den : Int) - 1)
        = (2 : ℚ) ^ (ilog2 a.num.natAbs) / (2 : ℚ) ^ (ilog2 a.den + 1) := by
      rw [show ((ilog2 a.num.natAbs : Int) - (ilog2 a.den : Int) - 1)
        = (ilog2 a.num.natAbs : Int) - ((ilog2 a.den + 1 : Nat) : Int) by push_cast; ring]
      rw [zpow_sub₀ (by norm_num), zpow_natCast, zpow_natCast]
    rw [e]
    conv_rhs => rw [ea]
    exact div_le_div₀ (by positivity) n1q hdq (le_of_lt d2q)
  have hhigh : a < (2 : ℚ) ^ ((ilog2 a.num.natAbs : Int) - (ilog2 a.den : Int) + 1) := by
    have e : (2 : ℚ) ^ ((ilog2 a.num.natAbs : Int) - (ilog2 a.den : Int) + 1)
        = (2 : ℚ) ^ (ilog2 a.num.natAbs + 1) / (2 : ℚ) ^ (ilog2 a.den) := by
      rw [show ((ilog2 a.num.natAbs : Int) - (ilog2 a.den : Int) + 1)
        = ((ilog2 a.num.natAbs + 1 : Nat) : Int) - ((ilog2 a.den : Nat) : Int) by push_cast; ring]
      rw [zpow_sub₀ (by norm_num), zpow_natCast, zpow_natCast]
    rw [e]
    conv_lhs => rw [ea]
    exact div_lt_div₀ n2q d1q (by positivity) (by positivity)
  unfold binade
  simp only [pow2_eq]
  split_ifs with h
  · exact ⟨h, hhigh⟩
  · refine ⟨hlow, ?_⟩
    rw [show ((ilog2 a.num.natAbs : Int) - (ilog2 a.den : Int) - 1 + 1)
      = (ilog2 a.num.natAbs : Int) - (ilog2 a.den : Int) by ring]
    exact lt_of_not_le h

/-- The binade is the only exponent whose powers bracket the value. -/
theorem binade_unique (a : ℚ) (e : Int) (h1 : (2 : ℚ) ^ e ≤ a) (h2 : a < (2 : ℚ) ^ (e + 1)) :
    binade a = e := by
  have ha : 0 < a := lt_of_lt_of_le (by positivity) h1
  obtain ⟨b1, b2⟩ := binade_spec a ha
  have l1 : (2 : ℚ) ^ e < (2 : ℚ) ^ (binade a + 1) := lt_of_le_of_lt h1 b2
  have l2 : (2 : ℚ) ^ binade a < (2 : ℚ) ^ (e + 1) := lt_of_le_of_lt b1 h2
  have k1 := (zpow_lt_zpow_iff_right₀ (by norm_num : (1 : ℚ) < 2)).1 l1
  have k2 := (zpow_lt_zpow_iff_right₀ (by norm_num : (1 : ℚ) < 2)).1 l2
  omega

/-- An integer rounds to itself. -/
theorem round_half_even_int (n : Int) : round_half_even (n : ℚ) = n := by
  unfold round_half_even
  simp

/-- Rounding to an integer does not go below an integer lower bound. -/
theorem round_half_even_ge (m : ℚ) (k : Int) (h : (k : ℚ) ≤ m) : k ≤ round_half_even m := by
  have hf : k ≤ ⌊m⌋ := Int.le_floor.2 h
  unfold round_half_even
  simp only []
  split_ifs <;> omega

/-- Rounding to an integer does not go above an integer upper bound. -/
theorem round_half_even_le (m : ℚ) (k : Int) (h : m ≤ (k : ℚ)) : round_half_even m ≤ k := by
  have hf : ⌊m⌋ ≤ k := by
    have := Int.floor_le m
    exact_mod_cast le_trans this h
  have hlt : (1 : ℚ) / 2 ≤ m - ⌊m⌋ → ⌊m⌋ + 1 ≤ k := by
    intro hh
    have h1 : ((⌊m⌋ : Int) : ℚ) < (k : ℚ) := by linarith
    have h2 : ⌊m⌋ < k := by exact_mod_cast h1
    omega
  unfold round_half_even
  simp only []
  split_ifs with a b c
  · exact hf
  · exact hlt (le_of_lt b)
  · exact hf
  · exact hlt (le_of_not_lt a)

/-- Rounding keeps the sign of a value that is not negative. -/
theorem round_to_nonneg (p : Nat) (q : ℚ) (h : 0 ≤ q) : 0 ≤ round_to p q := by
  unfold round_to
  split_ifs with h0
  · exact le_refl _
  · simp only []
    have hu := pow2_pos (binade |q| - ((p : Int) - 1))
    have hm : (0 : Int) ≤ round_half_even (q / pow2 (binade |q| - ((p : Int) - 1))) :=
      round_half_even_ge _ 0 (by
        rw [Int.cast_zero]
        exact div_nonneg h (le_of_lt hu))
    have hmq : (0 : ℚ) ≤ (round_half_even (q / pow2 (binade |q| - ((p : Int) - 1))) : ℚ) := by
      exact_mod_cast hm
    exact mul_nonneg hmq (le_of_lt hu)

/-- A value `r * 2^k` whose integer `r` has fewer than `p + 1` bits is a floating-point
number of precision `p`: rounding leaves it as it is. -/
theorem round_to_fixed (p : Nat) (r k : Int) (hr : |r| < 2 ^ p) :
    round_to p ((r : ℚ) * (2 : ℚ) ^ k) = (r : ℚ) * (2 : ℚ) ^ k := by
  by_cases hr0 : r = 0
  · subst hr0
    simp [round_to]
  have h2k : (0 : ℚ) < (2 : ℚ) ^ k := by positivity
  have hq : (r : ℚ) * (2 : ℚ) ^ k ≠ 0 := by
    apply mul_ne_zero
    · exact_mod_cast hr0
    · exact ne_of_gt h2k
  have habs : |(r : ℚ) * (2 : ℚ) ^ k| = ((|r| : Int) : ℚ) * (2 : ℚ) ^ k := by
    rw [abs_mul, abs_of_pos h2k, Int.cast_abs]
  have hapos : 0 < |(r : ℚ) * (2 : ℚ) ^ k| := abs_pos.2 hq
  obtain ⟨b1, b2⟩ := binade_spec _ hapos
  have hup : |(r : ℚ) * (2 : ℚ) ^ k| < (2 : ℚ) ^ ((p : Int) + k) := by
    rw [habs, zpow_add₀ (by norm_num), zpow_natCast]
    apply mul_lt_mul_of_pos_right _ h2k
    exact_mod_cast hr
  have hlt := (zpow_lt_zpow_iff_right₀ (by norm_num : (1 : ℚ) < 2)).1 (lt_of_le_of_lt b1 hup)
  obtain ⟨x, hx⟩ : ∃ x : Nat, k = (binade |(r : ℚ) * (2 : ℚ) ^ k| - ((p : Int) - 1)) + (x : Int) :=
    ⟨(k - (binade |(r : ℚ) * (2 : ℚ) ^ k| - ((p : Int) - 1))).toNat, by omega⟩
  unfold round_to
  rw [if_neg hq]
  simp only [pow2_eq]
  generalize binade |(r : ℚ) * (2 : ℚ) ^ k| - ((p : Int) - 1) = c at hx
  have hc : (0 : ℚ) < (2 : ℚ) ^ c := by positivity
  have hdiv : (r : ℚ) * (2 : ℚ) ^ k / (2 : ℚ) ^ c = ((r * 2 ^ x : Int) : ℚ) := by
    rw [hx, zpow_add₀ (by norm_num), zpow_natCast]
    push_cast
    field_simp
    ring
  rw [hdiv, round_half_even_int]
  rw [hx, zpow_add₀ (by norm_num), zpow_natCast]
  push_cast
  ring

/-- The result of rounding is a floating-point number of precision `p`. -/
theorem round_to_form (p : Nat) (hp : 1 ≤ p) (q : ℚ) :
    ∃ r k : Int, |r| < 2 ^ p ∧ round_to p q = (r : ℚ) * (2 : ℚ) ^ k := by
  by_cases hq : q = 0
  · refine ⟨0, 0, ?_, ?_⟩
    · simp
    · simp [round_to, hq]
  have hapos : 0 < |q| := abs_pos.2 hq
  obtain ⟨b1, b2⟩ := binade_spec _ hapos
  unfold round_to
  rw [if_neg hq]
  simp only [pow2_eq]
  have hc : (0 : ℚ) < (2 : ℚ) ^ (binade |q| - ((p : Int) - 1)) := by positivity
  have hm : |q / (2 : ℚ) ^ (binade |q| - ((p : Int) - 1))| < (2 : ℚ) ^ p := by
    rw [abs_div, abs_of_pos hc, div_lt_iff₀ hc, ← zpow_natCast, ← zpow_add₀ (by norm_num)]
    rw [show ((p : Int) + (binade |q| - ((p : Int) - 1))) = binade |q| + 1 by ring]
    exact b2
  obtain ⟨m1, m2⟩ := abs_lt.1 hm
  have r1 : (-(2 ^ p) : Int) ≤ round_half_even (q / (2 : ℚ) ^ (binade |q| - ((p : Int) - 1))) :=
    round_half_even_ge _ _ (by push_cast; exact le_of_lt m1)
  have r2 : round_half_even (q / (2 : ℚ) ^ (binade |q| - ((p : Int) - 1))) ≤ (2 ^ p : Int) :=
    round_half_even_le _ _ (by push_cast; exact le_of_lt m2)
  generalize round_half_even (q / (2 : ℚ) ^ (binade |q| - ((p : Int) - 1))) = r at r1 r2
  generalize binade |q| - ((p : Int) - 1) = c
  obtain ⟨n, rfl⟩ : ∃ n : Nat, p = n + 1 := ⟨p - 1, by omega⟩
  have hpow : (2 : Int) ^ (n + 1) = 2 * 2 ^ n := by rw [pow_succ]; ring
  have hpos : (0 : Int) < 2 ^ n := by positivity
  by_cases h1 : r = 2 ^ (n + 1)
  · refine ⟨2 ^ n, c + 1, ?_, ?_⟩
    · rw [abs_of_pos hpos, hpow]; omega
    · rw [h1, zpow_add₀ (by norm_num)]
      push_cast
      ring
  by_cases h2 : r = -(2 ^ (n + 1))
  · refine ⟨-(2 ^ n), c + 1, ?_, ?_⟩
    · rw [abs_neg, abs_of_pos hpos, hpow]; omega
    · rw [h2, zpow_add₀ (by norm_num)]
      push_cast
      ring
  · refine ⟨r, c, ?_, rfl⟩
    rw [abs_lt]
    constructor <;> omega

/-- Rounding a second time changes nothing. -/
theorem round_to_idem (p : Nat) (hp : 1 ≤ p) (q : ℚ) :
    round_to p (round_to p q) = round_to p q := by
  obtain ⟨r, k, hr, e⟩ := round_to_form p hp q
  rw [e]
  exact round_to_fixed p r k hr

/-- Half of a floating-point number is a floating-point number. -/
theorem round_to_half (p : Nat) (hp : 1 ≤ p) (L : ℚ) (hL : round_to p L = L) :
    round_to p (L / 2) = L / 2 := by
  obtain ⟨r, k, hr, e⟩ := round_to_form p hp L
  rw [hL] at e
  have e2 : L / 2 = (r : ℚ) * (2 : ℚ) ^ (k - 1) := by
    rw [e, zpow_sub₀ (by norm_num), zpow_one]
    ring
  rw [e2]
  exact round_to_fixed p r (k - 1) hr

end RoundingFacts

/-! ## The k-vector table in rounded arithmetic -/

section RoundedTableFacts

end RoundedTableFacts

section RoundedController

end RoundedController

section RoundedKvec

end RoundedKvec

/-! ## The stencil anchor in rounded arithmetic -/

section RoundedAnchorFacts

/-- The rounded grid coordinate of a particle that is not below the lower bound of the
box is not negative. -/
theorem rounded_grid_position_nonneg (p : Nat) (hp : 1 ≤ p) (N : Int) (x L : ℚ) (hL : 0 < L)
    (hN : 0 < N) (hLs : round_to p L = L) (hx : -L / 2 ≤ x) :
    0 ≤ Rounded.grid_position p x L N := by
  unfold Rounded.grid_position
  simp only []
  apply round_to_nonneg
  apply div_nonneg
  · apply round_to_nonneg
    rw [round_to_half p hp L hLs]
    linarith
  · apply round_to_nonneg
    apply div_nonneg (le_of_lt hL)
    apply round_to_nonneg
    exact_mod_cast le_of_lt hN

/-- The shift of an odd and of an even order. -/
theorem stencil_shift_parity (order : Int) :
    (Odd order → (stencil_shift order : ℚ) = 1 / 2 ∧ (stencil_shiftone order : ℚ) = 0)
      ∧ (Even order → (stencil_shift order : ℚ) = 0 ∧ (stencil_shiftone order : ℚ) = 1 / 2) := by
  constructor
  · intro ho
    have hm : Int.tmod order 2 ≠ 0 := by
      intro h0
      have hd := Int.dvd_iff_tmod_eq_zero.2 h0
      obtain ⟨k, hk⟩ := ho
      omega
    unfold stencil_shift stencil_shiftone
    rw [if_pos hm, if_pos hm]
    exact ⟨rfl, rfl⟩
  · intro he
    have hm : ¬ Int.tmod order 2 ≠ 0 := by
      intro h0
      apply h0
      apply Int.dvd_iff_tmod_eq_zero.1
      obtain ⟨k, hk⟩ := he
      omega
    unfold stencil_shift stencil_shiftone
    rw [if_neg hm, if_neg hm]
    exact ⟨rfl, rfl⟩

end RoundedAnchorFacts

section RoundedAnchor

/-- C20 as stated fails in floating-point arithmetic.  In `double`, the coordinate
`x = 1 - 2^-53` is a `double` inside the box of side `L = 2`; on `N = 2` grid points
and with order 4 the code computes `x + L/2 = 2` (the sum `2 - 2^-53` is half-way
between two `double` values and rounds to 2), hence the anchor 2, while
`floor((x + L/2)/(L/N)) = 1`.  For the odd order 5, `x = 3/2 - 2^-52` in the box of side
4 on 4 grid points gets the anchor 4, while `floor(coord + 0.5) = 3`.  The same holds
in `float` with `x = 1 - 2^-24` and `x = 3/2 - 2^-23`. -/
theorem stencil_anchor_next_cell :
    (((-(2 : ℚ) / 2 ≤ 1 - 1 / 2 ^ 53 ∧ (1 : ℚ) - 1 / 2 ^ 53 < 2 / 2)
        ∧ round_to 53 (1 - 1 / 2 ^ 53) = 1 - 1 / 2 ^ 53
        ∧ Rounded.stencil_anchor 53 4 (Rounded.grid_position 53 (1 - 1 / 2 ^ 53) 2 2) = 2
        ∧ ⌊grid_position (1 - 1 / 2 ^ 53 : ℚ) 2 2⌋ = 1)
      ∧ ((-(4 : ℚ) / 2 ≤ 3 / 2 - 1 / 2 ^ 52 ∧ (3 : ℚ) / 2 - 1 / 2 ^ 52 < 4 / 2)
        ∧ round_to 53 (3 / 2 - 1 / 2 ^ 52) = 3 / 2 - 1 / 2 ^ 52
        ∧ Rounded.stencil_anchor 53 5 (Rounded.grid_position 53 (3 / 2 - 1 / 2 ^ 52) 4 4) = 4
        ∧ ⌊grid_position (3 / 2 - 1 / 2 ^ 52 : ℚ) 4 4 + 1 / 2⌋ = 3))
    ∧ (((-(2 : ℚ) / 2 ≤ 1 - 1 / 2 ^ 24 ∧ (1 : ℚ) - 1 / 2 ^ 24 < 2 / 2)
        ∧ round_to 24 (1 - 1 / 2 ^ 24) = 1 - 1 / 2 ^ 24
        ∧ Rounded.stencil_anchor 24 4 (Rounded.grid_position 24 (1 - 1 / 2 ^ 24) 2 2) = 2
        ∧ ⌊grid_position (1 - 1 / 2 ^ 24 : ℚ) 2 2⌋ = 1)
      ∧ ((-(4 : ℚ) / 2 ≤ 3 / 2 - 1 / 2 ^ 23 ∧ (3 : ℚ) / 2 - 1 / 2 ^ 23 < 4 / 2)
        ∧ round_to 24 (3 / 2 - 1 / 2 ^ 23) = 3 / 2 - 1 / 2 ^ 23
        ∧ Rounded.stencil_anchor 24 5 (Rounded.grid_position 24 (3 / 2 - 1 / 2 ^ 23) 4 4) = 4
        ∧ ⌊grid_position (3 / 2 - 1 / 2 ^ 23 : ℚ) 4 4 + 1 / 2⌋ = 3)) :=
  ⟨⟨⟨⟨by norm_num, by norm_num⟩, by decide!, by decide!, by decide!⟩,
      ⟨⟨by norm_num, by norm_num⟩, by decide!, by decide!, by decide!⟩⟩,
    ⟨⟨⟨by norm_num, by norm_num⟩, by decide!, by decide!, by decide!⟩,
      ⟨⟨by norm_num, by norm_num⟩, by decide!, by decide!, by decide!⟩⟩⟩

/-- C20 as amended: let `L > 0` be a `Scalar`, `N > 0`, and `-L/2 <= x < L/2`, and let
`c` be the value the code computes for `(x + L/2)/(L/N)`, each operation rounded to
`Scalar` (overflow and underflow apart).  Then `c` is not negative; for odd order the
anchor is the floor of the `Scalar` sum `c + 0.5` and for even order it is `floor(c)`;
the polynomial argument is `shiftone + anchor - c` in `Scalar` arithmetic with
`shiftone = 0` for odd and `0.5` for even order.  When none of the operations rounds,
`c` is the exact quotient `coord` and the anchor is `floor(coord + 0.5)` for odd and
`floor(coord)` for even order. -/
theorem rounded_stencil_anchor_floor (p : Nat) (order N : Int) (x L : ℚ) (hp : 1 ≤ p)
    (hL : 0 < L) (hN : 0 < N) (hLs : round_to p L = L) (hx : -L / 2 ≤ x ∧ x < L / 2) :
    Rounded.grid_position p x L N
        = round_to p (round_to p (x + L / 2) / round_to p (L / round_to p (N : ℚ)))
      ∧ 0 ≤ Rounded.grid_position p x L N
      ∧ (Odd order →
        Rounded.stencil_anchor p order (Rounded.grid_position p x L N)
            = ⌊round_to p (Rounded.grid_position p x L N + 1 / 2)⌋
          ∧ Rounded.stencil_arg p order (Rounded.grid_position p x L N)
            = round_to p (round_to p (0 + round_to p
                ((⌊round_to p (Rounded.grid_position p x L N + 1 / 2)⌋ : Int) : ℚ))
              - Rounded.grid_position p x L N))
      ∧ (Even order →
        Rounded.stencil_anchor p order (Rounded.grid_position p x L N)
            = ⌊Rounded.grid_position p x L N⌋
          ∧ Rounded.stencil_arg p order (Rounded.grid_position p x L N)
            = round_to p (round_to p (1 / 2 + round_to p
                ((⌊Rounded.grid_position p x L N⌋ : Int) : ℚ))
              - Rounded.grid_position p x L N))
      ∧ (round_to p (N : ℚ) = (N : ℚ) → round_to p (L / (N : ℚ)) = L / (N : ℚ) →
        round_to p (x + L / 2) = x + L / 2 →
        round_to p ((x + L / 2) / (L / (N : ℚ))) = (x + L / 2) / (L / (N : ℚ)) →
        round_to p (grid_position x L N + stencil_shift order)
          = grid_position x L N + stencil_shift order →
        Rounded.grid_position p x L N = grid_position x L N
          ∧ Rounded.stencil_anchor p order (Rounded.grid_position p x L N)
            = ⌊grid_position x L N + stencil_shift order⌋) := by
  have hc := rounded_grid_position_nonneg p hp N x L hL hN hLs hx.1
  have hfix : round_to p (Rounded.grid_position p x L N) = Rounded.grid_position p x L N := by
    unfold Rounded.grid_position
    exact round_to_idem p hp _
  refine ⟨?_, hc, ?_, ?_, ?_⟩
  · unfold Rounded.grid_position
    rw [round_to_half p hp L hLs]
  · intro ho
    obtain ⟨s1, s2⟩ := (stencil_shift_parity order).1 ho
    have ha : Rounded.stencil_anchor p order (Rounded.grid_position p x L N)
        = ⌊round_to p (Rounded.grid_position p x L N + 1 / 2)⌋ := by
      unfold Rounded.stencil_anchor ctrunc
      rw [s1, if_pos (round_to_nonneg p _ (by linarith))]
    refine ⟨ha, ?_⟩
    unfold Rounded.stencil_arg
    rw [s2, ha]
  · intro he
    obtain ⟨s1, s2⟩ := (stencil_shift_parity order).2 he
    have ha : Rounded.stencil_anchor p order (Rounded.grid_position p x L N)
        = ⌊Rounded.grid_position p x L N⌋ := by
      unfold Rounded.stencil_anchor ctrunc
      rw [s1, add_zero, hfix, if_pos hc]
    refine ⟨ha, ?_⟩
    unfold Rounded.stencil_arg
    rw [s2, ha]
  · intro e1 e2 e3 e4 e5
    have hg : Rounded.grid_position p x L N = grid_position x L N := by
      unfold Rounded.grid_position grid_position
      simp only []
      rw [e1, e2, round_to_half p hp L hLs, e3, e4]
    refine ⟨hg, ?_⟩
    have hpos : 0 ≤ grid_position x L N + stencil_shift order := by
      have h1 : 0 ≤ grid_position x L N := by rw [← hg]; exact hc
      have h2 : (0 : ℚ) ≤ stencil_shift order := by
        unfold stencil_shift
        split_ifs <;> norm_num
      linarith
    unfold Rounded.stencil_anchor ctrunc
    rw [hg, e5, if_pos hpos]

/-- The amended statement applied in `double` to order 4 and the coordinate `x = -1`
in the box of side 10 on 8 grid points, where the computed coordinate is the `double`
nearest to 3.2. -/
theorem rounded_stencil_anchor_floor_witness :
    Even (4 : Int) ∧ Rounded.grid_position 53 (-1) 10 8
        = 3602879701896397 / 1125899906842624
      ∧ Rounded.stencil_anchor 53 4 (Rounded.grid_position 53 (-1) 10 8)
        = ⌊Rounded.grid_position 53 (-1) 10 8⌋ :=
  ⟨by decide, by decide!,
    ((rounded_stencil_anchor_floor 53 4 8 (-1) 10 (by decide) (by norm_num) (by decide)
      (by decide!) (by norm_num)).2.2.2.1 (by decide)).1⟩

end RoundedAnchor

end PPPM
